import Mathlib

/-!
# MultiAppNearestNodeTransfer: a shallow embedding

Embedding of `framework/src/transfers/MultiAppNearestNodeTransfer.C`.

Conventions of the embedding.

* `P` is libMesh's `Point` with its `+` and `-`; `size : P → WithTop R` is
  `TypeVector::size()`, the norm as the machine computes it in `Real`
  arithmetic.  Both belong to libMesh and are taken as parameters: every
  theorem holds for every choice of them, rounding and overflow included.
* A distance is a `Real`, modelled by `WithTop R`: `R` is a linear order that
  holds the values below `std::numeric_limits<Real>::max()`, and `⊤` stands for
  every value that is not below it, that is the maximum itself, `+inf` and NaN.
  The source compares a distance only by `x < d` with `d` at most the maximum,
  a test that fails for each of these three alike.  So the sentinel is `⊤`, and
  a computed distance is `⊤` when the norm overflows.  A solution value is only
  copied, never compared: it has type `R`.
* `std::vector` is a `List`; an index past the end is the failure
  `Err.index_out_of_range`.  `std::map` is a function into `Option`.
* Every statement of the source that acts on a collaborator (communicator
  swap, degree-of-freedom lookup, value read, value write, ...) appends an
  `Event` to the log of the `TransferState`.
* A run that cannot continue (fatal error, failed assertion, dereference of a
  NULL pointer) is an `Except.error` that carries the state at that point.
-/

set_option autoImplicit false

namespace MultiAppNearestNodeTransfer

/-! ## Data model -/

/-- Handle of an MPI communicator (`MPI_Comm`). -/
structure MPI_Comm where
  handle : Nat
deriving DecidableEq, Repr

/-- Finite-element families of libMesh (`FEFamily`). -/
inductive FEFamily where
  | LAGRANGE
  | HIERARCHIC
  | MONOMIAL
  | L2_LAGRANGE
  | SCALAR
deriving DecidableEq, Repr

/-- The libMesh `FEType`: approximation order and family. -/
structure FEType where
  order : Nat
  family : FEFamily
deriving DecidableEq, Repr

/-- The value of libMesh's default constructor `FEType()`: first-order Lagrange. -/
def FEType_default : FEType := ⟨1, FEFamily.LAGRANGE⟩

/-- A mesh node.  `n_dofs` and `dof_number` are `n_dofs(sys, var)` and
`dof_number(sys, var, 0)` for the system and variable the transfer uses on the
mesh the node belongs to.  `dof_number` is whatever libMesh returns, also for a
node without degrees of freedom: the call itself does not stop the run. -/
structure Node (P : Type) where
  id : Nat
  point : P
  processor_id : Nat
  n_dofs : Nat
  dof_number : Nat
deriving DecidableEq, Repr

/-- A mesh element, with its `centroid()`. -/
structure Elem (P : Type) where
  id : Nat
  centroid : P
  processor_id : Nat
  n_dofs : Nat
  dof_number : Nat
deriving DecidableEq, Repr

/-- A libMesh mesh (`MeshBase`): `nodes` is the range `nodes_begin() .. nodes_end()`,
`elems` the range `elements_begin() .. elements_end()`. -/
structure MeshBase (P : Type) where
  nodes : List (Node P)
  elems : List (Elem P)
  processor_id : Nat
  is_serial : Bool

/-- The range `local_nodes_begin() .. local_nodes_end()`: the nodes owned by this processor. -/
def MeshBase.local_nodes {P : Type} (m : MeshBase P) : List (Node P) :=
  m.nodes.filter (fun n => n.processor_id == m.processor_id)

/-- The range `local_elements_begin() .. local_elements_end()`. -/
def MeshBase.local_elements {P : Type} (m : MeshBase P) : List (Elem P) :=
  m.elems.filter (fun e => e.processor_id == m.processor_id)

/-- The count `n_nodes()`. -/
def MeshBase.n_nodes {P : Type} (m : MeshBase P) : Nat := m.nodes.length

/-- The count `n_elem()`. -/
def MeshBase.n_elem {P : Type} (m : MeshBase P) : Nat := m.elems.length

/-- The lookup `node(i)`: the node whose id is `i`. -/
def MeshBase.node {P : Type} (m : MeshBase P) (i : Nat) : Option (Node P) :=
  m.nodes.find? (fun n => n.id == i)

/-- The lookup `elem(i)`: the element whose id is `i`. -/
def MeshBase.elem {P : Type} (m : MeshBase P) (i : Nat) : Option (Elem P) :=
  m.elems.find? (fun e => e.id == i)

/-- What the transfer uses of an `FEProblem`: its mesh, the mesh of its
displaced problem when `getDisplacedProblem()` is not NULL, the type of the
destination variable in its system, and the solution vector of the source
variable's system, by degree-of-freedom index. -/
structure FEProblem (P R : Type) where
  mesh : MeshBase P
  displaced : Option (MeshBase P)
  variable_type : FEType
  solution : Nat → R

/-- What the transfer uses of its `MultiApp`, as seen from one process:
`appProblem i` is `none` exactly when `hasLocalApp(i)` is false. -/
structure MultiApp (P R : Type) where
  problem : FEProblem P R
  numGlobalApps : Nat
  comm : MPI_Comm
  appProblem : Nat → Option (FEProblem P R)
  position : Nat → P

/-- The test `hasLocalApp(i)`. -/
def MultiApp.hasLocalApp {P R : Type} (ma : MultiApp P R) (i : Nat) : Bool :=
  (ma.appProblem i).isSome

/-- Direction of a transfer. -/
inductive Direction where
  | TO_MULTIAPP
  | FROM_MULTIAPP
deriving DecidableEq, Repr

/-- The parameters of a `MultiAppNearestNodeTransfer`. -/
structure Params where
  direction : Direction
  displaced_source_mesh : Bool
  displaced_target_mesh : Bool
  fixed_meshes : Bool
deriving DecidableEq, Repr

/-- Effects of `execute` on its collaborators, in program order.  `app` is the
index of the sub-app concerned and `target` the id of the target entity being
processed; for `dofNumber`, `close` and `update` the app is `none` when the
master's mesh or system is meant. -/
inductive Event (R : Type) where
  | swap (installed : MPI_Comm)
  | localize
  | dofNumber (app : Option Nat) (target : Nat)
  | cacheFind (target : Nat)
  | cacheStore (target : Nat)
  | cacheLoad (target : Nat)
  | search (app : Nat) (target : Nat)
  | read (app : Nat) (target : Nat) (dof : Nat)
  | set (app : Nat) (target : Nat) (dof : Nat) (value : R)
  | minloc
  | close (app : Option Nat)
  | update (app : Option Nat)
deriving DecidableEq, Repr

/-- Ways a run stops before its end. -/
inductive Err where
  | mooseError_displaced_source
  | assert_is_serial
  | assert_hasLocalApp
  | null_nearest_node
  | no_such_entity
  | index_out_of_range
deriving DecidableEq, Repr

/-- The mutable state `execute` works on: the current libMesh communicator
(the global that `Moose::swapLibMeshComm` exchanges), the two caches of the
transfer object, and the log of effects. -/
structure TransferState (P R : Type) where
  comm : MPI_Comm
  node_map : Nat → Option (Option (Node P))
  distance_map : Nat → Option (WithTop R)
  log : List (Event R)

/-- Outcome of a piece of `execute`: a value, or the failure and the state it happened in. -/
abbrev Result (P R α : Type) := Except (Err × TransferState P R) α

variable {P R : Type}

/-- Append one effect to the log. -/
def TransferState.emit (st : TransferState P R) (e : Event R) : TransferState P R :=
  { st with log := st.log ++ [e] }

/-- The call `Moose::swapLibMeshComm(new_comm)`: installs `new_comm` and returns the communicator it replaces. -/
def swapLibMeshComm (new_comm : MPI_Comm) (st : TransferState P R) :
    MPI_Comm × TransferState P R :=
  (st.comm, { st with comm := new_comm, log := st.log ++ [Event.swap new_comm] })

/-- Assignment `m[key] = value` on a `std::map`. -/
def mapInsert {α : Type} (m : Nat → Option α) (key : Nat) (value : α) : Nat → Option α :=
  fun k => if k = key then some value else m k

/-! ## getNearestNode -/

section Search

variable [LinearOrder R] [Sub P]

/-- One iteration of the loop of `getNearestNode` (source lines 551-560): the
pair is `(nearest, distance)`.  The test `current_distance < distance` fails
when the computed distance is not below the maximum. -/
def getNearestNode_step (size : P → WithTop R) (p : P)
    (acc : Option (Node P) × WithTop R) (node : Node P) : Option (Node P) × WithTop R :=
  let current_distance : WithTop R := size (p - node.point)
  if current_distance < acc.2 then (some node, current_distance)
  else acc

/-- The method `getNearestNode(p, distance, nodes_begin, nodes_end)`.  The
in-out parameter `distance` is an argument and the second component of the
result; `nodes` is the range `nodes_begin .. nodes_end`. -/
def getNearestNode (size : P → WithTop R) (p : P) (_distance : WithTop R) (nodes : List (Node P)) :
    Option (Node P) × WithTop R :=
  nodes.foldl (getNearestNode_step size p) (none, ⊤)

end Search

/-! ## Control structure -/

/-- A `for` loop over a range whose body can fail: the first failure ends the run. -/
def forEach {α σ ε : Type} (body : α → σ → Except ε σ) : List α → σ → Except ε σ
  | [], s => Except.ok s
  | x :: xs, s =>
    match body x s with
    | Except.error e => Except.error e
    | Except.ok s' => forEach body xs s'

/-- The mesh a direction works on: the displaced mesh when the flag is set and
the problem has a displaced problem, the plain mesh otherwise. -/
def selectMesh (use_displaced : Bool) (problem : FEProblem P R) : MeshBase P :=
  match use_displaced, problem.displaced with
  | true, some displaced_mesh => displaced_mesh
  | _, _ => problem.mesh

section Execute

variable [LinearOrder R] [Zero R] [Add P] [Sub P]

/-! ## TO_MULTIAPP -/

/-- Resolution of the nearest source node in the TO_MULTIAPP direction
(source lines 141-163 and 196-218).  On a cache hit the distance keeps its
initial value 0: the assignment from `_distance_map` is commented out in the
source. -/
def TO_resolve (size : P → WithTop R) (fixed_meshes : Bool) (app id : Nat) (actual_position : P)
    (from_nodes : List (Node P)) (st : TransferState P R) :
    Option (Node P) × WithTop R × TransferState P R :=
  let distance : WithTop R := ((0 : R) : WithTop R)
  if fixed_meshes then
    let st1 := st.emit (Event.cacheFind id)
    match st1.node_map id with
    | none =>
      let found := getNearestNode size actual_position distance from_nodes
      let st2 := st1.emit (Event.search app id)
      (found.1, found.2,
        { st2 with
          node_map := mapInsert st2.node_map id found.1
          distance_map := mapInsert st2.distance_map id found.2
          log := st2.log ++ [Event.cacheStore id] })
    | some cached => (cached, distance, st1.emit (Event.cacheLoad id))
  else
    let found := getNearestNode size actual_position distance from_nodes
    (found.1, found.2, st.emit (Event.search app id))

/-- Body of the loops over the local nodes and the local elements of app `i`
(source lines 129-173 and 183-228); `position` is `*node` or `elem->centroid()`.
The loop carries the local variable `swapped` next to the state. -/
def TO_entity (size : P → WithTop R) (t : Params) (ma : MultiApp P R) (from_mesh : MeshBase P)
    (serialized_solution : Nat → R) (i id : Nat) (position : P) (n_dofs dof_number : Nat)
    (loop : MPI_Comm × TransferState P R) : Result P R (MPI_Comm × TransferState P R) :=
  let swapped := loop.1
  let st := loop.2
  let actual_position := position + ma.position i
  if n_dofs > 0 then
    let dof := dof_number
    let st1 := st.emit (Event.dofNumber (some i) id)
    let st2 := (swapLibMeshComm swapped st1).2
    let r := TO_resolve size t.fixed_meshes i id actual_position from_mesh.nodes st2
    match r.1 with
    | none => Except.error (Err.null_nearest_node, r.2.2)
    | some nearest_node =>
      let from_dof := nearest_node.dof_number
      let from_value := serialized_solution from_dof
      let st3 := r.2.2.emit (Event.read i id from_dof)
      let sw := swapLibMeshComm ma.comm st3
      Except.ok (sw.1, sw.2.emit (Event.set i id dof from_value))
  else Except.ok (swapped, st)

/-- Body of the loop over the global apps (source lines 101-237). -/
def TO_app (size : P → WithTop R) (t : Params) (ma : MultiApp P R) (from_mesh : MeshBase P)
    (serialized_solution : Nat → R) (i : Nat) (st : TransferState P R) :
    Result P R (TransferState P R) :=
  match ma.appProblem i with
  | none => Except.ok st
  | some app =>
    let sw := swapLibMeshComm ma.comm st
    let mesh := selectMesh t.displaced_target_mesh app
    let is_nodal : Bool := decide (app.variable_type.family = FEFamily.LAGRANGE)
    let looped :=
      if is_nodal then
        forEach (fun (node : Node P) =>
            TO_entity size t ma from_mesh serialized_solution i node.id node.point
              node.n_dofs node.dof_number)
          mesh.local_nodes sw
      else
        forEach (fun (elem : Elem P) =>
            TO_entity size t ma from_mesh serialized_solution i elem.id elem.centroid
              elem.n_dofs elem.dof_number)
          mesh.local_elements sw
    match looped with
    | Except.error e => Except.error e
    | Except.ok (swapped, st1) =>
      let st2 := (st1.emit (Event.close (some i))).emit (Event.update (some i))
      Except.ok (swapLibMeshComm swapped st2).2

/-- The case TO_MULTIAPP of `execute` (source lines 65-243). -/
def execute_TO (size : P → WithTop R) (t : Params) (ma : MultiApp P R) (st : TransferState P R) :
    Result P R (TransferState P R) :=
  let from_problem := ma.problem
  if t.displaced_source_mesh && from_problem.displaced.isSome then
    Except.error (Err.mooseError_displaced_source, st)
  else
    let from_mesh := from_problem.mesh
    if !from_mesh.is_serial then Except.error (Err.assert_is_serial, st)
    else
      let st1 := st.emit Event.localize
      forEach (TO_app size t ma from_mesh from_problem.solution)
        (List.range ma.numGlobalApps) st1

/-! ## FROM_MULTIAPP -/

/-- The four vectors indexed by the id of the target node or element (source lines 275-303). -/
structure Candidates (R : Type) where
  min_distances : List (WithTop R)
  min_nodes : List Nat
  min_procs : List Nat
  min_apps : List Nat

/-- The vectors after `resize`: distances at the maximum, the others value-initialised. -/
def Candidates.init (n : Nat) : Candidates R :=
  { min_distances := List.replicate n ⊤
    min_nodes := List.replicate n 0
    min_procs := List.replicate n 0
    min_apps := List.replicate n 0 }

/-- Resolution of the nearest source node in the FROM_MULTIAPP direction
(source lines 347-371 and 397-421).  On a cache hit the distance is read with
`_distance_map[id]`, which inserts the value 0 when the key is missing. -/
def FROM_resolve (size : P → WithTop R) (fixed_meshes : Bool) (app id : Nat) (actual_position : P)
    (from_nodes : List (Node P)) (st : TransferState P R) :
    Option (Node P) × WithTop R × TransferState P R :=
  let current_distance : WithTop R := ((0 : R) : WithTop R)
  if fixed_meshes then
    let st1 := st.emit (Event.cacheFind id)
    match st1.node_map id with
    | none =>
      let found := getNearestNode size actual_position current_distance from_nodes
      let st2 := st1.emit (Event.search app id)
      (found.1, found.2,
        { st2 with
          node_map := mapInsert st2.node_map id found.1
          distance_map := mapInsert st2.distance_map id found.2
          log := st2.log ++ [Event.cacheStore id] })
    | some cached =>
      match st1.distance_map id with
      | some d => (cached, d, st1.emit (Event.cacheLoad id))
      | none =>
        (cached, current_distance,
          { st1 with
            distance_map := mapInsert st1.distance_map id current_distance
            log := st1.log ++ [Event.cacheLoad id] })
  else
    let found := getNearestNode size actual_position current_distance from_nodes
    (found.1, found.2, st.emit (Event.search app id))

/-- Body of the loops over the target nodes and the target elements for the
source app `i` (source lines 344-382 and 392-432); `actual_position` is
`*to_node - app_position` or `to_elem->centroid() - app_position`. -/
def FROM_entity (size : P → WithTop R) (t : Params) (ma : MultiApp P R) (from_mesh : MeshBase P)
    (i id : Nat) (actual_position : P)
    (loop : Candidates R × TransferState P R) : Result P R (Candidates R × TransferState P R) :=
  let c := loop.1
  let st := loop.2
  let sw := swapLibMeshComm ma.comm st
  let r := FROM_resolve size t.fixed_meshes i id actual_position from_mesh.local_nodes sw.2
  let st1 := (swapLibMeshComm sw.1 r.2.2).2
  match c.min_distances[id]? with
  | none => Except.error (Err.index_out_of_range, st1)
  | some best =>
    if r.2.1 < best then
      match r.1 with
      | none => Except.error (Err.null_nearest_node, st1)
      | some nearest_node =>
        Except.ok
          ({ c with
              min_distances := c.min_distances.set id r.2.1
              min_nodes := c.min_nodes.set id nearest_node.id
              min_apps := c.min_apps.set id i }, st1)
    else Except.ok (c, st1)

/-- Body of the loop over the global apps that fills the candidate vectors (source lines 307-434). -/
def FROM_app (size : P → WithTop R) (t : Params) (ma : MultiApp P R) (to_mesh : MeshBase P)
    (is_nodal : Bool) (i : Nat)
    (loop : Candidates R × TransferState P R) : Result P R (Candidates R × TransferState P R) :=
  match ma.appProblem i with
  | none => Except.ok loop
  | some from_problem =>
    let sw := swapLibMeshComm ma.comm loop.2
    if !from_problem.mesh.is_serial then Except.error (Err.assert_is_serial, sw.2)
    else
      let from_mesh := selectMesh t.displaced_source_mesh from_problem
      let app_position := ma.position i
      let st1 := (swapLibMeshComm sw.1 sw.2).2
      if is_nodal then
        forEach (fun (to_node : Node P) =>
            FROM_entity size t ma from_mesh i to_node.id (to_node.point - app_position))
          to_mesh.nodes (loop.1, st1)
      else
        forEach (fun (to_elem : Elem P) =>
            FROM_entity size t ma from_mesh i to_elem.id (to_elem.centroid - app_position))
          to_mesh.elems (loop.1, st1)

/-- The part of the case FROM_MULTIAPP that precedes the reduction (source
lines 246-435): this process's candidates for every target entity. -/
def FROM_local_search (size : P → WithTop R) (t : Params) (ma : MultiApp P R)
    (st : TransferState P R) : Result P R (Candidates R × TransferState P R) :=
  let to_problem := ma.problem
  if !to_problem.mesh.is_serial then Except.error (Err.assert_is_serial, st)
  else
    let to_mesh := selectMesh t.displaced_target_mesh to_problem
    let is_nodal : Bool := decide (to_problem.variable_type = FEType_default)
    let n := if is_nodal then to_mesh.n_nodes else to_mesh.n_elem
    forEach (FROM_app size t ma to_mesh is_nodal) (List.range ma.numGlobalApps)
      (Candidates.init n, st)

/-- Body of the loop over `min_procs` (source lines 479-534): the process that
holds the minimum for target `j` reads the source value and sets the target value. -/
def FROM_winner (t : Params) (ma : MultiApp P R) (to_mesh : MeshBase P) (is_nodal : Bool)
    (proc_id : Nat) (c : Candidates R) (j : Nat) (st : TransferState P R) :
    Result P R (TransferState P R) :=
  match c.min_procs[j]? with
  | none => Except.error (Err.index_out_of_range, st)
  | some min_proc =>
    if min_proc = proc_id then
      let target_dof : Option Nat :=
        if is_nodal then (to_mesh.node j).map (fun to_node => to_node.dof_number)
        else (to_mesh.elem j).map (fun to_elem => to_elem.dof_number)
      match target_dof with
      | none => Except.error (Err.no_such_entity, st)
      | some to_dof =>
        let st1 := st.emit (Event.dofNumber none j)
        match c.min_apps[j]? with
        | none => Except.error (Err.index_out_of_range, st1)
        | some from_app_num =>
          match ma.appProblem from_app_num with
          | none => Except.error (Err.assert_hasLocalApp, st1)
          | some from_problem =>
            let sw := swapLibMeshComm ma.comm st1
            let from_mesh := selectMesh t.displaced_source_mesh from_problem
            match c.min_nodes[j]? with
            | none => Except.error (Err.index_out_of_range, sw.2)
            | some min_node =>
              match from_mesh.node min_node with
              | none => Except.error (Err.no_such_entity, sw.2)
              | some from_node =>
                let from_dof := from_node.dof_number
                let from_value := from_problem.solution from_dof
                let st2 := sw.2.emit (Event.read from_app_num j from_dof)
                let st3 := (swapLibMeshComm sw.1 st2).2
                Except.ok (st3.emit (Event.set from_app_num j to_dof from_value))
    else Except.ok st

/-- The case FROM_MULTIAPP of `execute` (source lines 246-540) on the process
of rank `proc_id`.  `minloc` is the answer of the collective call
`_communicator.minloc(min_distances, min_procs)` to this process: the reduced
distances and the ranks that hold them. -/
def execute_FROM (size : P → WithTop R) (t : Params) (ma : MultiApp P R) (proc_id : Nat)
    (minloc : List (WithTop R) → List (WithTop R) × List Nat) (st : TransferState P R) :
    Result P R (TransferState P R) :=
  match FROM_local_search size t ma st with
  | Except.error e => Except.error e
  | Except.ok (c, st1) =>
    let to_mesh := selectMesh t.displaced_target_mesh ma.problem
    let is_nodal : Bool := decide (ma.problem.variable_type = FEType_default)
    let st2 := st1.emit Event.minloc
    let reduced := minloc c.min_distances
    let c1 : Candidates R := { c with min_distances := reduced.1, min_procs := reduced.2 }
    match forEach (FROM_winner t ma to_mesh is_nodal proc_id c1)
        (List.range c1.min_procs.length) st2 with
    | Except.error e => Except.error e
    | Except.ok st3 => Except.ok ((st3.emit (Event.close none)).emit (Event.update none))

/-- The method `execute()` on the process of rank `proc_id`. -/
def execute (size : P → WithTop R) (t : Params) (ma : MultiApp P R) (proc_id : Nat)
    (minloc : List (WithTop R) → List (WithTop R) × List Nat) (st : TransferState P R) :
    Result P R (TransferState P R) :=
  match t.direction with
  | Direction.TO_MULTIAPP => execute_TO size t ma st
  | Direction.FROM_MULTIAPP => execute_FROM size t ma proc_id minloc st

/-! ## The reduction and the run on all processes -/

/-- The operation MPI_MINLOC folded over the ranks in increasing order: the
least value and the lowest rank that holds it. -/
def minloc_scan (best : WithTop R) (best_rank rank : Nat) : List (WithTop R) → WithTop R × Nat
  | [] => (best, best_rank)
  | d :: ds =>
    if d < best then minloc_scan d rank (rank + 1) ds
    else minloc_scan best best_rank (rank + 1) ds

/-- The reduction at index `j` of the vectors contributed by the ranks. -/
def minloc_at (contributions : List (List (WithTop R))) (j : Nat) : WithTop R × Nat :=
  minloc_scan ⊤ 0 0 (contributions.map (fun v => v.getD j ⊤))

/-- The collective `Parallel::Communicator::minloc(r, min_id)` of libMesh as
one rank sees it: `r` becomes the per-index minimum over the ranks and `min_id`
the rank that holds it. -/
def Communicator_minloc (contributions : List (List (WithTop R))) (r : List (WithTop R)) :
    List (WithTop R) × List Nat :=
  ((List.range r.length).map (fun j => (minloc_at contributions j).1),
   (List.range r.length).map (fun j => (minloc_at contributions j).2))

/-- The vector of distances a process brings to the reduction. -/
def FROM_contribution (size : P → WithTop R) (t : Params) (ma : MultiApp P R)
    (st : TransferState P R) : List (WithTop R) :=
  match FROM_local_search size t ma st with
  | Except.ok (c, _) => c.min_distances
  | Except.error _ => []

/-- Apply `f` to every element of a list together with its rank, counted from `rank`. -/
def mapRank {α β : Type} (f : Nat → α → β) (rank : Nat) : List α → List β
  | [] => []
  | x :: xs => f rank x :: mapRank f (rank + 1) xs

/-- One execution of the transfer on all processes (SPMD): the process of rank
`r` is the one at position `r` of `procs`, and each sees the reduction of the
contributions of all. -/
def execute_all (size : P → WithTop R) (t : Params) (procs : List (MultiApp P R × TransferState P R)) :
    List (Result P R (TransferState P R)) :=
  let contributions := procs.map (fun p => FROM_contribution size t p.1 p.2)
  mapRank (fun rank p => execute size t p.1 rank (Communicator_minloc contributions) p.2) 0 procs

end Execute

/-! ## Observations on a run -/

/-- The state in which the run ended, or in which it failed. -/
def finalState (r : Result P R (TransferState P R)) : TransferState P R :=
  match r with
  | Except.ok st => st
  | Except.error e => e.2

/-- The log when the run ended, or when it failed. -/
def finalLog (r : Result P R (TransferState P R)) : List (Event R) :=
  (finalState r).log

/-- The failure that ended the run, if any. -/
def failure (r : Result P R (TransferState P R)) : Option Err :=
  match r with
  | Except.ok _ => none
  | Except.error e => some e.1

/-- The calls `set(dof, value)` of a log, in order, as `(app, target, dof, value)`. -/
def setEvents (log : List (Event R)) : List (Nat × Nat × Nat × R) :=
  log.filterMap (fun e =>
    match e with
    | Event.set app target dof value => some (app, target, dof, value)
    | _ => none)

/-- Test: the event sets a value for the target entity `target`. -/
def isSetFor (target : Nat) (e : Event R) : Bool :=
  match e with
  | Event.set _ t _ _ => t == target
  | _ => false

/-- Test: the event reads a source value for the target entity `target`. -/
def isReadFor (target : Nat) (e : Event R) : Bool :=
  match e with
  | Event.read _ t _ => t == target
  | _ => false

/-- Test: the event reads a source value or sets a target value. -/
def isTransfer (e : Event R) : Bool :=
  match e with
  | Event.read _ _ _ => true
  | Event.set _ _ _ _ => true
  | _ => false

/-- Test: the piece of `execute` ran to its end. -/
def completes {ε α : Type} (r : Except ε α) : Bool :=
  match r with
  | Except.ok _ => true
  | Except.error _ => false

section Winner

variable [LinearOrder R] [Zero R] [Add P] [Sub P]

/-- The candidate vectors of a process when its local search is over. -/
def FROM_candidates (size : P → WithTop R) (t : Params) (ma : MultiApp P R)
    (st : TransferState P R) : Candidates R :=
  match FROM_local_search size t ma st with
  | Except.ok (c, _) => c
  | Except.error _ => Candidates.init 0

/-- The rank that the reduction over all processes declares the winner for target `j`. -/
def winner_rank (size : P → WithTop R) (t : Params) (procs : List (MultiApp P R × TransferState P R))
    (j : Nat) : Nat :=
  (minloc_at (procs.map (fun p => FROM_contribution size t p.1 p.2)) j).2

/-- The number of target entities of the FROM_MULTIAPP direction: the length of the candidate vectors. -/
def target_count (t : Params) (master : FEProblem P R) : Nat :=
  if decide (master.variable_type = FEType_default)
  then (selectMesh t.displaced_target_mesh master).n_nodes
  else (selectMesh t.displaced_target_mesh master).n_elem

/-- Test: the candidate a process holds for target `j` can be read: `min_apps[j]`
is an app this process owns (the assertion of source line 500) and
`min_nodes[j]` is the id of a node of that app's source mesh. -/
def candidate_ready (t : Params) (ma : MultiApp P R) (c : Candidates R) (j : Nat) : Bool :=
  match c.min_apps[j]?, c.min_nodes[j]? with
  | some from_app_num, some min_node =>
    match ma.appProblem from_app_num with
    | some from_problem =>
      ((selectMesh t.displaced_source_mesh from_problem).node min_node).isSome
    | none => false
  | _, _ => false

/-- What the winner loop relies on for target `j`: the target entity exists and the candidate can be read. -/
def winner_ready (t : Params) (ma : MultiApp P R) (c : Candidates R) (j : Nat) : Bool :=
  (if decide (ma.problem.variable_type = FEType_default)
    then ((selectMesh t.displaced_target_mesh ma.problem).node j).isSome
    else ((selectMesh t.displaced_target_mesh ma.problem).elem j).isSome) &&
  candidate_ready t ma c j

/-- Test: for every target index the process that the reduction declares the
winner holds what the winner loop relies on. -/
def winners_ready (size : P → WithTop R) (t : Params) (master : FEProblem P R)
    (procs : List (MultiApp P R × TransferState P R)) : Bool :=
  (List.range (target_count t master)).all (fun k =>
    match procs[winner_rank size t procs k]? with
    | some p => winner_ready t p.1 (FROM_candidates size t p.1 p.2) k
    | none => false)

/-- Invariant of the local search: every candidate below the sentinel can be read by the winner loop. -/
def candidates_valid (t : Params) (ma : MultiApp P R) (c : Candidates R) : Prop :=
  ∀ k d, c.min_distances[k]? = some d → d < ⊤ → candidate_ready t ma c k = true

/-- The node id `nid` can be looked up in the source mesh of every app this process owns. -/
def readable_everywhere (t : Params) (ma : MultiApp P R) (nid : Nat) : Prop :=
  ∀ i fp, ma.appProblem i = some fp →
    ((selectMesh t.displaced_source_mesh fp).node nid).isSome = true

/-- Invariant of the local search with `fixed_meshes`: every cached target id
has a cached distance, and either the candidate distance of that target is not
above it, or the cached node is not NULL and can be looked up in every local app. -/
def cache_accounted (t : Params) (ma : MultiApp P R) (c : Candidates R)
    (st : TransferState P R) : Prop :=
  ∀ id, st.node_map id ≠ none →
    ∃ d, st.distance_map id = some d ∧ ∀ b, c.min_distances[id]? = some b →
      b ≤ d ∨ ∃ nd, st.node_map id = some (some nd) ∧ readable_everywhere t ma nd.id

/-- Condition on the caches at the start of an execution with `fixed_meshes`:
every cached target id has a cached distance, and it is the sentinel unless the
cached node is not NULL and can be looked up in every local app.  An empty
cache meets it. -/
def cache_readable (t : Params) (ma : MultiApp P R) (st : TransferState P R) : Prop :=
  ∀ id, st.node_map id ≠ none →
    ∃ d, st.distance_map id = some d ∧
      (d = ⊤ ∨ ∃ nd, st.node_map id = some (some nd) ∧ readable_everywhere t ma nd.id)

/-- The ids of the target entities of the FROM_MULTIAPP direction, in iteration order. -/
def target_ids (t : Params) (master : FEProblem P R) : List Nat :=
  if decide (master.variable_type = FEType_default)
  then (selectMesh t.displaced_target_mesh master).nodes.map (fun n => n.id)
  else (selectMesh t.displaced_target_mesh master).elems.map (fun e => e.id)

/-- The local target entities of one app in the TO_MULTIAPP direction that have
a degree of freedom for the destination variable, as `(id, dof_number)`, in
iteration order. -/
def TO_app_targets (t : Params) (app : FEProblem P R) : List (Nat × Nat) :=
  if decide (app.variable_type.family = FEFamily.LAGRANGE)
  then ((selectMesh t.displaced_target_mesh app).local_nodes.filter
          (fun n => decide (n.n_dofs > 0))).map (fun n => (n.id, n.dof_number))
  else ((selectMesh t.displaced_target_mesh app).local_elements.filter
          (fun e => decide (e.n_dofs > 0))).map (fun e => (e.id, e.dof_number))

/-- The target entities of the apps `apps` that this process owns, as `(app, id, dof_number)`. -/
def TO_targets_of (t : Params) (ma : MultiApp P R) : List Nat → List (Nat × Nat × Nat)
  | [] => []
  | i :: rest =>
    (match ma.appProblem i with
      | none => []
      | some app => (TO_app_targets t app).map (fun e => (i, e.1, e.2))) ++
    TO_targets_of t ma rest

/-- The target entities of the TO_MULTIAPP direction on this process. -/
def TO_targets (t : Params) (ma : MultiApp P R) : List (Nat × Nat × Nat) :=
  TO_targets_of t ma (List.range ma.numGlobalApps)

/-- The sets of a log without their values, as `(app, target, dof)`. -/
def setPlaces (log : List (Event R)) : List (Nat × Nat × Nat) :=
  (setEvents log).map (fun e => (e.1, e.2.1, e.2.2.1))

end Winner

/-! ## Concrete configurations on a line

Points are integers, distances and values natural numbers. -/

/-- The Euclidean norm on a line, computed without rounding or overflow. -/
def line_size (p : ℤ) : WithTop ℕ := ((p.natAbs : ℕ) : WithTop ℕ)

/-- The norm on a line as double precision computes it, up to rounding: the
square of a coordinate of magnitude `2 ^ 512` or more is above every finite
value, so the norm comes out as `+inf`, which is not below the maximum. -/
def double_size (p : ℤ) : WithTop ℕ :=
  if p.natAbs < 2 ^ 512 then ((p.natAbs : ℕ) : WithTop ℕ) else ⊤

/-- A transfer object before its first execution: empty caches, empty log, master communicator current. -/
def fresh : TransferState ℤ ℕ :=
  { comm := ⟨0⟩, node_map := fun _ => none, distance_map := fun _ => none, log := [] }

/-- A serial mesh of nodes owned by this processor. -/
def line_mesh (nodes : List (Node ℤ)) : MeshBase ℤ :=
  { nodes := nodes, elems := [], processor_id := 0, is_serial := true }

/-- A problem on a line mesh, with a first-order Lagrange variable and no displaced problem. -/
def line_problem (nodes : List (Node ℤ)) (solution : Nat → ℕ) : FEProblem ℤ ℕ :=
  { mesh := line_mesh nodes, displaced := none, variable_type := FEType_default,
    solution := solution }

/-- One process that owns two apps at zero offset: the master has one target
node at 0 (dof 7); app 0 has one node at 2 with value 9, app 1 one node at 1
with value 5. -/
def two_apps_one_process : MultiApp ℤ ℕ :=
  { problem := line_problem [⟨0, 0, 0, 1, 7⟩] (fun _ => 0)
    numGlobalApps := 2
    comm := ⟨1⟩
    appProblem := fun i =>
      if i = 0 then some (line_problem [⟨0, 2, 0, 1, 0⟩] (fun _ => 9))
      else if i = 1 then some (line_problem [⟨0, 1, 0, 1, 0⟩] (fun _ => 5))
      else none
    position := fun _ => 0 }

/-- One process that owns two apps at offsets 0 and 10, each with one target
node of id 0 at its origin; the master has source nodes at 0 (value 1) and at
10 (value 2). -/
def two_apps_two_offsets : MultiApp ℤ ℕ :=
  { problem := line_problem [⟨0, 0, 0, 1, 0⟩, ⟨1, 10, 0, 1, 1⟩] (fun dof => dof + 1)
    numGlobalApps := 2
    comm := ⟨1⟩
    appProblem := fun i =>
      if i < 2 then some (line_problem [⟨0, 0, 0, 1, 0⟩] (fun _ => 0)) else none
    position := fun i => if i = 1 then 10 else 0 }

/-- One process that owns the only app, whose mesh has no node; the master has one target node (dof 7). -/
def app_without_nodes : MultiApp ℤ ℕ :=
  { problem := line_problem [⟨0, 0, 0, 1, 7⟩] (fun _ => 0)
    numGlobalApps := 1
    comm := ⟨1⟩
    appProblem := fun i => if i = 0 then some (line_problem [] (fun _ => 0)) else none
    position := fun _ => 0 }

/-- One process of a MultiApp without any app; the master has one target node (dof 7). -/
def no_apps : MultiApp ℤ ℕ :=
  { problem := line_problem [⟨0, 0, 0, 1, 7⟩] (fun _ => 0)
    numGlobalApps := 0
    comm := ⟨1⟩
    appProblem := fun _ => none
    position := fun _ => 0 }

/-- A master whose mesh has no node, and one local app with one target node that has a degree of freedom (dof 3). -/
def master_without_nodes : MultiApp ℤ ℕ :=
  { problem := line_problem [] (fun _ => 0)
    numGlobalApps := 1
    comm := ⟨1⟩
    appProblem := fun i => if i = 0 then some (line_problem [⟨0, 0, 0, 1, 3⟩] (fun _ => 0)) else none
    position := fun _ => 0 }

/-- A master with two target nodes, the first without any degree of freedom
for the destination variable (`n_dofs = 0`, `dof_number` returning 99), and
one local app with one node at 1 carrying the value 5. -/
def target_without_dofs : MultiApp ℤ ℕ :=
  { problem := line_problem [⟨0, 0, 0, 0, 99⟩, ⟨1, 3, 0, 1, 8⟩] (fun _ => 0)
    numGlobalApps := 1
    comm := ⟨1⟩
    appProblem := fun i => if i = 0 then some (line_problem [⟨0, 1, 0, 1, 0⟩] (fun _ => 5)) else none
    position := fun _ => 0 }

/-- Rank 0 of a run on two processes: it owns app 0 only (one node at 2 with
value 9); the master has one target node at 0 (dof 7). -/
def rank0_owns_app0 : MultiApp ℤ ℕ :=
  { problem := line_problem [⟨0, 0, 0, 1, 7⟩] (fun _ => 0)
    numGlobalApps := 2
    comm := ⟨1⟩
    appProblem := fun i => if i = 0 then some (line_problem [⟨0, 2, 0, 1, 0⟩] (fun _ => 9)) else none
    position := fun _ => 0 }

/-- Rank 1 of the same run: it owns app 1 only (one node at 1 with value 5). -/
def rank1_owns_app1 : MultiApp ℤ ℕ :=
  { problem := line_problem [⟨0, 0, 0, 1, 7⟩] (fun _ => 0)
    numGlobalApps := 2
    comm := ⟨2⟩
    appProblem := fun i => if i = 1 then some (line_problem [⟨0, 1, 0, 1, 0⟩] (fun _ => 5)) else none
    position := fun _ => 0 }

end MultiAppNearestNodeTransfer

namespace MultiAppNearestNodeTransfer

variable {P R : Type}

/-! ## Further observations on a run -/

/-- The reads of source values of a log, in order, as `(app, target, dof)`. -/
def readEvents (log : List (Event R)) : List (Nat × Nat × Nat) :=
  log.filterMap (fun e =>
    match e with
    | Event.read app target dof => some (app, target, dof)
    | _ => none)

/-- Test: the event is an access to `_node_map` or `_distance_map`. -/
def isCacheEvent (e : Event R) : Bool :=
  match e with
  | Event.cacheFind _ => true
  | Event.cacheStore _ => true
  | Event.cacheLoad _ => true
  | _ => false

/-- Test: the event is a call of `getNearestNode`. -/
def isSearch (e : Event R) : Bool :=
  match e with
  | Event.search _ _ => true
  | _ => false

/-- The state in which a piece of `execute` ended or failed; `proj` takes the
state out of the result of the piece. -/
def endState {α : Type} (proj : α → TransferState P R) (r : Result P R α) : TransferState P R :=
  match r with
  | Except.ok a => proj a
  | Except.error e => e.2

/-- A property of the state that the elementary updates of `execute` keep: an
event appended to the log (an access to the caches only with `fixed_meshes`),
a change of the current communicator and, with `fixed_meshes`, the insertion of
an entry for an id that `_node_map` does not hold, and the insertion of a
distance for an id that `_node_map` holds and `_distance_map` does not. -/
def frame_stable (t : Params) (I : TransferState P R → Prop) : Prop :=
  (∀ s e, (isCacheEvent e = true → t.fixed_meshes = true) → I s →
    I { s with log := s.log ++ [e] }) ∧
  (∀ s c, I s → I { s with comm := c }) ∧
  (t.fixed_meshes = true → ∀ s id n d, s.node_map id = none → I s →
    I { s with node_map := mapInsert s.node_map id n
               distance_map := mapInsert s.distance_map id d }) ∧
  (t.fixed_meshes = true → ∀ s id d, s.node_map id ≠ none → s.distance_map id = none → I s →
    I { s with distance_map := mapInsert s.distance_map id d })

/-- Every entry that the caches of `s` hold for an id of `_node_map` is an entry of the caches of `s1`. -/
def cache_kept (s s1 : TransferState P R) : Prop :=
  ∀ id x, s.node_map id = some x →
    s1.node_map id = some x ∧ ∀ d, s.distance_map id = some d → s1.distance_map id = some d

/-- Two views of a MultiApp that differ at most in the values of the solution
vectors: same meshes, variable types, apps, positions and communicator. -/
def same_geometry (ma ma1 : MultiApp P R) : Prop :=
  ma1.problem.mesh = ma.problem.mesh ∧ ma1.problem.displaced = ma.problem.displaced ∧
  ma1.problem.variable_type = ma.problem.variable_type ∧
  ma1.numGlobalApps = ma.numGlobalApps ∧ ma1.comm = ma.comm ∧ ma1.position = ma.position ∧
  ∀ i, match ma.appProblem i, ma1.appProblem i with
    | some p, some p1 =>
      p1.mesh = p.mesh ∧ p1.displaced = p.displaced ∧ p1.variable_type = p.variable_type
    | none, none => True
    | _, _ => False

/-- The value of the source field at a degree of freedom: in the TO_MULTIAPP
direction the master's solution, in the FROM_MULTIAPP direction the solution
of the sub-app `app`. -/
def source_value [Zero R] (t : Params) (ma : MultiApp P R) (app dof : Nat) : R :=
  match t.direction with
  | Direction.TO_MULTIAPP => ma.problem.solution dof
  | Direction.FROM_MULTIAPP =>
    match ma.appProblem app with
    | some p => p.solution dof
    | none => 0

/-- The sets at the places `places` with the values that `source` holds at the
degrees of freedom of the reads `reads`, read and place taken in pairs. -/
def refreshed (source : Nat → Nat → R) (reads places : List (Nat × Nat × Nat)) :
    List (Nat × Nat × Nat × R) :=
  List.zipWith (fun rd pl => (pl.1, pl.2.1, pl.2.2, source rd.1 rd.2.2)) reads places

/-- The sets of a log carry the values of `source` at the degrees of freedom of
its reads: one set per read, in order. -/
def sets_follow_reads (source : Nat → Nat → R) (log : List (Event R)) : Prop :=
  (readEvents log).length = (setPlaces log).length ∧
  setEvents log = refreshed source (readEvents log) (setPlaces log)

/-- Relation between the state `s` of an execution and the state `s1` of a later
execution at the same program point, when the later one works on the caches of
`final`: the caches of `s1` are those of `final`, both logs hold the same reads
and the same places of sets, and in each the sets carry the values of its
source at the degrees of freedom read. -/
def replays (source source1 : Nat → Nat → R) (final s s1 : TransferState P R) : Prop :=
  s1.node_map = final.node_map ∧ s1.distance_map = final.distance_map ∧
  readEvents s1.log = readEvents s.log ∧ setPlaces s1.log = setPlaces s.log ∧
  sets_follow_reads source s.log ∧ sets_follow_reads source1 s1.log

/-- The processes at the start of the next execution: each keeps the caches and
the communicator its run ended with, has the view `mas` gives it, and starts a
new log. -/
def next_execution (mas : List (MultiApp P R)) (results : List (Result P R (TransferState P R))) :
    List (MultiApp P R × TransferState P R) :=
  List.zipWith (fun ma r => (ma, { finalState r with log := [] })) mas results

section Row

variable [LinearOrder R] [Zero R] [Add P] [Sub P]

/-- The processes at the start of execution number `n` of a row of executions:
number 0 starts from `procs`; number `n + 1` starts with the caches and the
communicator that number `n` left, with the views `views (n + 1)` and new logs. -/
def processes (size : P → WithTop R) (t : Params) (procs : List (MultiApp P R × TransferState P R))
    (views : Nat → List (MultiApp P R)) : Nat → List (MultiApp P R × TransferState P R)
  | 0 => procs
  | n + 1 => next_execution (views (n + 1)) (execute_all size t (processes size t procs views n))

/-- Execution number `n` of the row, on all processes. -/
def executions (size : P → WithTop R) (t : Params) (procs : List (MultiApp P R × TransferState P R))
    (views : Nat → List (MultiApp P R)) (n : Nat) : List (Result P R (TransferState P R)) :=
  execute_all size t (processes size t procs views n)

end Row

/-! ## Further configurations on a line -/

/-- A master with one source node at 3 (value 4) and one local app with one
target node of id 0 at its origin (dof 0). -/
def source_at_three : MultiApp ℤ ℕ :=
  { problem := line_problem [⟨0, 3, 0, 1, 0⟩] (fun _ => 4)
    numGlobalApps := 1
    comm := ⟨1⟩
    appProblem := fun i => if i = 0 then some (line_problem [⟨0, 0, 0, 1, 0⟩] (fun _ => 0)) else none
    position := fun _ => 0 }

/-- A master with source nodes at 0 (value 1) and at 10 (value 2), and two
local apps at zero offset: in app 0 the destination variable is first-order
Lagrange and the mesh has one node of id 0 at 0; in app 1 the destination
variable is constant monomial and the mesh has one element of id 0 with its
centroid at 10. -/
def node_app_and_elem_app : MultiApp ℤ ℕ :=
  { problem := line_problem [⟨0, 0, 0, 1, 0⟩, ⟨1, 10, 0, 1, 1⟩] (fun dof => dof + 1)
    numGlobalApps := 2
    comm := ⟨1⟩
    appProblem := fun i =>
      if i = 0 then some (line_problem [⟨0, 0, 0, 1, 0⟩] (fun _ => 0))
      else if i = 1 then
        some { mesh := { nodes := [], elems := [⟨0, 10, 0, 1, 0⟩], processor_id := 0,
                         is_serial := true }
               displaced := none
               variable_type := ⟨0, FEFamily.MONOMIAL⟩
               solution := fun _ => 0 }
      else none
    position := fun _ => 0 }

/-- The process `two_apps_one_process` at a later time: same meshes, the source
values are now 11 in app 0 and 6 in app 1. -/
def two_apps_one_process_later : MultiApp ℤ ℕ :=
  { problem := line_problem [⟨0, 0, 0, 1, 7⟩] (fun _ => 0)
    numGlobalApps := 2
    comm := ⟨1⟩
    appProblem := fun i =>
      if i = 0 then some (line_problem [⟨0, 2, 0, 1, 0⟩] (fun _ => 11))
      else if i = 1 then some (line_problem [⟨0, 1, 0, 1, 0⟩] (fun _ => 6))
      else none
    position := fun _ => 0 }

/-- How a process holds a sub-app whose mesh has one node: not at all, with the
node owned by another process of the app, or with the node local. -/
inductive Presence where
  | absent
  | node_elsewhere
  | node_local
deriving DecidableEq, Repr

/-- A sub-app of the scenario as one process sees it: a serial mesh with one
node of id 0 at `point` carrying `value`. -/
def scenario_app (presence : Presence) (point : ℤ) (value : ℕ) : Option (FEProblem ℤ ℕ) :=
  match presence with
  | Presence.absent => none
  | Presence.node_elsewhere => some (line_problem [⟨0, point, 1, 1, 0⟩] (fun _ => value))
  | Presence.node_local => some (line_problem [⟨0, point, 0, 1, 0⟩] (fun _ => value))

/-- One process of the scenario: a nodal target field on a master mesh with one
node at the origin (dof 7), and two apps at zero offset, app 0 with one source
node at 1 carrying 5 and app 1 with one source node at 2 carrying 9 (the points
of the scenario lie on the first axis). -/
def scenario_view (app0 app1 : Presence) : MultiApp ℤ ℕ :=
  { problem := line_problem [⟨0, 0, 0, 1, 7⟩] (fun _ => 0)
    numGlobalApps := 2
    comm := ⟨1⟩
    appProblem := fun i =>
      if i = 0 then scenario_app app0 1 5
      else if i = 1 then scenario_app app1 2 9
      else none
    position := fun _ => 0 }

/-- The processes of the scenario before the first execution; the process of
rank `r` holds the apps as `kinds[r]` says. -/
def scenario (kinds : List (Presence × Presence)) : List (MultiApp ℤ ℕ × TransferState ℤ ℕ) :=
  kinds.map (fun k => (scenario_view k.1 k.2, fresh))

/-- Views of the process `two_apps_one_process` in a row of executions: the
source values change after the first execution. -/
def two_apps_views (n : Nat) : List (MultiApp ℤ ℕ) :=
  if n = 0 then [two_apps_one_process] else [two_apps_one_process_later]

/-- A master that has a displaced problem, with one source node, and one local
app with one target node that has a degree of freedom. -/
def displaced_master : MultiApp ℤ ℕ :=
  { problem :=
      { mesh := line_mesh [⟨0, 0, 0, 1, 0⟩]
        displaced := some (line_mesh [⟨0, 1, 0, 1, 0⟩])
        variable_type := FEType_default
        solution := fun _ => 4 }
    numGlobalApps := 1
    comm := ⟨1⟩
    appProblem := fun i => if i = 0 then some (line_problem [⟨0, 0, 0, 1, 0⟩] (fun _ => 0)) else none
    position := fun _ => 0 }

end MultiAppNearestNodeTransfer

/-!
# MooseRandom: a shallow embedding

Embedding of the advanced interface of `framework/include/utils/MooseRandom.h`:
the independent streams of an instance, `saveState` and `restoreState`.  The
generator state `mt_state` and the functions of the mtwist library that act on
it are parameters.  The hash map from generator index to state is a function
into `Option`.  `mooseAssert` is compiled in or out: with `assertions` a draw
from an index without a state ends with an error, without them `_states[i]`
creates a value-initialised state and the draw is made from it.
-/

/-- The functions of the mtwist library that `MooseRandom` calls on a generator
state of type `S`; `D` is `double`.  Each draw returns its value and the
advanced state.  `fresh_state` is the value-initialised `mt_state` that
`_states[i]` creates for an index without a state. -/
structure MTwist (S D : Type) where
  fresh_state : S
  mts_seed32new : S → Nat → S
  mts_ldrand : S → D × S
  rds_normal : S → D → D → D × S
  mts_lrand : S → Nat × S

/-- The members of a `MooseRandom` instance. -/
structure MooseRandom (S : Type) where
  states : Nat → Option S
  old_states : Nat → Option S

/-- Failure of a call on a `MooseRandom`. -/
inductive RandomErr where
  | no_state_initialized (i : Nat)
deriving DecidableEq, Repr

/-- What a call returns: nothing, a `double` or a `uint32_t`. -/
inductive RandomValue (D : Type) where
  | void
  | double (x : D)
  | uint32 (n : Nat)
deriving DecidableEq, Repr

namespace MooseRandom

variable {S D : Type}

/-- The assignment `_states[i] = s`. -/
def setState (rng : MooseRandom S) (i : Nat) (s : S) : MooseRandom S :=
  { rng with states := fun k => if k = i then some s else rng.states k }

/-- The method `seed(i, seed)`. -/
def seed (lib : MTwist S D) (i seed : Nat) (rng : MooseRandom S) : MooseRandom S :=
  rng.setState i (lib.mts_seed32new ((rng.states i).getD lib.fresh_state) seed)

/-- The statement `mooseAssert(_states.find(i) != _states.end(), ...)` followed
by the access `_states[i]`: the state of the stream, the value-initialised
state when the stream has none and assertions are compiled out. -/
def stateOf (lib : MTwist S D) (assertions : Bool) (i : Nat) (rng : MooseRandom S) :
    Except RandomErr S :=
  match rng.states i with
  | some s => Except.ok s
  | none =>
    if assertions then Except.error (RandomErr.no_state_initialized i)
    else Except.ok lib.fresh_state

/-- The method `rand(i)`. -/
def rand (lib : MTwist S D) (assertions : Bool) (i : Nat) (rng : MooseRandom S) :
    Except RandomErr (D × MooseRandom S) :=
  match stateOf lib assertions i rng with
  | Except.error e => Except.error e
  | Except.ok s => Except.ok ((lib.mts_ldrand s).1, rng.setState i (lib.mts_ldrand s).2)

/-- The method `randNormal(i, mean, sigma)`. -/
def randNormal (lib : MTwist S D) (assertions : Bool) (i : Nat) (mean sigma : D)
    (rng : MooseRandom S) : Except RandomErr (D × MooseRandom S) :=
  match stateOf lib assertions i rng with
  | Except.error e => Except.error e
  | Except.ok s =>
    Except.ok ((lib.rds_normal s mean sigma).1, rng.setState i (lib.rds_normal s mean sigma).2)

/-- The method `randl(i)`. -/
def randl (lib : MTwist S D) (assertions : Bool) (i : Nat) (rng : MooseRandom S) :
    Except RandomErr (Nat × MooseRandom S) :=
  match stateOf lib assertions i rng with
  | Except.error e => Except.error e
  | Except.ok s => Except.ok ((lib.mts_lrand s).1, rng.setState i (lib.mts_lrand s).2)

/-- The method `saveState()`. -/
def saveState (rng : MooseRandom S) : MooseRandom S :=
  { rng with old_states := rng.states }

/-- The method `restoreState()`. -/
def restoreState (rng : MooseRandom S) : MooseRandom S :=
  { rng with states := rng.old_states }

/-- A call of a client on one of the streams. -/
inductive Call (D : Type) where
  | seed (i seed : Nat)
  | rand (i : Nat)
  | randNormal (i : Nat) (mean sigma : D)
  | randl (i : Nat)
deriving DecidableEq, Repr

/-- The stream a call acts on. -/
def Call.index : Call D → Nat
  | Call.seed i _ => i
  | Call.rand i => i
  | Call.randNormal i _ _ => i
  | Call.randl i => i

/-- One call of a client, with the value it returns. -/
def call (lib : MTwist S D) (assertions : Bool) (c : Call D) (rng : MooseRandom S) :
    Except RandomErr (RandomValue D × MooseRandom S) :=
  match c with
  | Call.seed i s => Except.ok (RandomValue.void, seed lib i s rng)
  | Call.rand i =>
    match rand lib assertions i rng with
    | Except.ok r => Except.ok (RandomValue.double r.1, r.2)
    | Except.error e => Except.error e
  | Call.randNormal i mean sigma =>
    match randNormal lib assertions i mean sigma rng with
    | Except.ok r => Except.ok (RandomValue.double r.1, r.2)
    | Except.error e => Except.error e
  | Call.randl i =>
    match randl lib assertions i rng with
    | Except.ok r => Except.ok (RandomValue.uint32 r.1, r.2)
    | Except.error e => Except.error e

/-- A sequence of calls of a client, with the values they return, in order. -/
def calls (lib : MTwist S D) (assertions : Bool) : List (Call D) → MooseRandom S →
    Except RandomErr (List (RandomValue D) × MooseRandom S)
  | [], rng => Except.ok ([], rng)
  | c :: cs, rng =>
    match call lib assertions c rng with
    | Except.error e => Except.error e
    | Except.ok r =>
      match calls lib assertions cs r.2 with
      | Except.error e => Except.error e
      | Except.ok rs => Except.ok (r.1 :: rs.1, rs.2)

/-- The values that the calls on the stream `i` returned, in order: `values`
are the values returned by `cs`. -/
def stream_values (i : Nat) : List (Call D) → List (RandomValue D) → List (RandomValue D)
  | c :: cs, v :: vs =>
    if c.index = i then v :: stream_values i cs vs else stream_values i cs vs
  | _, _ => []

/-- One call on a stream taken alone, `s` being the state of the stream if it
has one: the value returned and the state after.  A draw that does not return
has no value; the entry for it is never used. -/
def stream_call (lib : MTwist S D) (assertions : Bool) (c : Call D) (s : Option S) :
    RandomValue D × Option S :=
  match c with
  | Call.seed _ seed =>
    (RandomValue.void, some (lib.mts_seed32new (s.getD lib.fresh_state) seed))
  | Call.rand _ =>
    if s.isNone && assertions then (RandomValue.void, none)
    else (RandomValue.double (lib.mts_ldrand (s.getD lib.fresh_state)).1,
      some (lib.mts_ldrand (s.getD lib.fresh_state)).2)
  | Call.randNormal _ mean sigma =>
    if s.isNone && assertions then (RandomValue.void, none)
    else (RandomValue.double (lib.rds_normal (s.getD lib.fresh_state) mean sigma).1,
      some (lib.rds_normal (s.getD lib.fresh_state) mean sigma).2)
  | Call.randl _ =>
    if s.isNone && assertions then (RandomValue.void, none)
    else (RandomValue.uint32 (lib.mts_lrand (s.getD lib.fresh_state)).1,
      some (lib.mts_lrand (s.getD lib.fresh_state)).2)

/-- A sequence of calls on a stream taken alone: the values returned. -/
def stream_calls (lib : MTwist S D) (assertions : Bool) :
    List (Call D) → Option S → List (RandomValue D)
  | [], _ => []
  | c :: cs, s =>
    (stream_call lib assertions c s).1 ::
      stream_calls lib assertions cs (stream_call lib assertions c s).2

end MooseRandom

/-- A toy generator for concrete runs: the state is a counter, a draw returns
the counter and advances it by one, seeding sets the counter to the seed. -/
def counter_twist : MTwist Nat Nat :=
  { fresh_state := 0
    mts_seed32new := fun _ seed => seed
    mts_ldrand := fun s => (s, s + 1)
    rds_normal := fun s mean sigma => (mean + sigma * s, s + 1)
    mts_lrand := fun s => (s, s + 1) }

/-- An instance with two streams, seeded with 10 and 20. -/
def two_streams : MooseRandom Nat :=
  MooseRandom.seed counter_twist 1 20
    (MooseRandom.seed counter_twist 0 10 ⟨fun _ => none, fun _ => none⟩)

/-- The instance `two_streams` after `saveState()`, two draws from stream 0 and one from stream 1. -/
def two_streams_drawn : MooseRandom Nat :=
  (((MooseRandom.saveState two_streams).setState 0 11).setState 1 21).setState 0 12

/-!
# Steady: a shallow embedding

Embedding of `Steady::execute` of `framework/src/executioners/Steady.C`.  Every
call on a collaborator is appended to a log together with the value `_time_step`
has at the call.  `unsigned int` is a natural number below `2 ^ 32` and `++`
on it wraps; `int` is an integer kept in its range by `int_wrap`.  The loop of
the source has no bound of its own: the embedding counts its iterations down
from `fuel` and has no result when `fuel` runs out.
-/

namespace Steady

/-- The values of `ExecFlagType` that `execute` passes on. -/
inductive ExecFlagType where
  | EXEC_INITIAL
  | EXEC_TIMESTEP_BEGIN
  | EXEC_TIMESTEP_END
deriving DecidableEq, Repr

/-- The values of `UserObjectWarehouse::GROUP` that `execute` passes on. -/
inductive GROUP where
  | PRE_AUX
  | POST_AUX
deriving DecidableEq, Repr

/-- The calls of `execute` on the problem, the output warehouse and the hooks of the executioner. -/
inductive Call where
  | preExecute
  | computeUserObjects (flag : ExecFlagType) (group : GROUP)
  | preSolve
  | timestepSetup
  | solve
  | postSolve
  | onTimestepEnd
  | computeAuxiliaryKernels (flag : ExecFlagType)
  | computeIndicatorsAndMarkers
  | outputStep (flag : ExecFlagType)
  | adaptMesh
  | postExecute
deriving DecidableEq, Repr

/-- What `execute` works on: `_time_step` and `_time` (references into the
problem) and the log of calls, each with the value of `_time_step` at the call. -/
structure State where
  time_step : Int
  time : Int
  log : List (Int × Call)
deriving DecidableEq, Repr

/-- The increment `++` on an `unsigned int`. -/
def uint_succ (n : Nat) : Nat := (n + 1) % 2 ^ 32

/-- The value of an `int` after an operation whose exact result is `i`. -/
def int_wrap (i : Int) : Int := (i + 2 ^ 31) % 2 ^ 32 - 2 ^ 31

/-- One call on a collaborator. -/
def State.call (s : State) (c : Call) : State :=
  { s with log := s.log ++ [(s.time_step, c)] }

/-- The statements of source lines 92-106: one solve with what surrounds it. -/
def solve_step (s : State) : State :=
  let s1 := s.call (Call.computeUserObjects ExecFlagType.EXEC_TIMESTEP_BEGIN GROUP.PRE_AUX)
  let s2 := s1.call Call.preSolve
  let s3 := s2.call Call.timestepSetup
  let s4 := s3.call (Call.computeUserObjects ExecFlagType.EXEC_TIMESTEP_BEGIN GROUP.POST_AUX)
  let s5 := s4.call Call.solve
  let s6 := s5.call Call.postSolve
  let s7 := s6.call (Call.computeUserObjects ExecFlagType.EXEC_TIMESTEP_END GROUP.PRE_AUX)
  let s8 := s7.call Call.onTimestepEnd
  let s9 := s8.call (Call.computeAuxiliaryKernels ExecFlagType.EXEC_TIMESTEP_END)
  let s10 := s9.call (Call.computeUserObjects ExecFlagType.EXEC_TIMESTEP_END GROUP.POST_AUX)
  let s11 := s10.call Call.computeIndicatorsAndMarkers
  s11.call (Call.outputStep ExecFlagType.EXEC_TIMESTEP_END)

/-- One iteration of the refinement loop (source lines 92-115). -/
def refinement_step (steps r_step : Nat) (s : State) : State :=
  let s1 := solve_step s
  let s2 := if r_step ≠ steps then s1.call Call.adaptMesh else s1
  { s2 with time_step := int_wrap (s2.time_step + 1), time := int_wrap (s2.time_step + 1) }

/-- The loop `for (unsigned int r_step=0; r_step<=steps; r_step++)` from the
test of its condition on, with `fuel` iterations at most. -/
def refinement_loop (steps : Nat) : Nat → Nat → State → Option State
  | 0, _, _ => none
  | fuel + 1, r_step, s =>
    if r_step ≤ steps then
      refinement_loop steps fuel (uint_succ r_step) (refinement_step steps r_step s)
    else some s

/-- The method `execute()`.  `isRecovering` is `_app.isRecovering()`, `amr`
tells whether `LIBMESH_ENABLE_AMR` is defined and `getSteps` is the value of
`_problem.adaptivity().getSteps()`. -/
def execute (isRecovering amr : Bool) (getSteps : Nat) (fuel : Nat) (s : State) : Option State :=
  if isRecovering then some s
  else
    let s1 := s.call Call.preExecute
    let s2 := { s1 with time_step := 1, time := 1 }
    if amr then
      let steps := getSteps % 2 ^ 32
      match refinement_loop steps fuel 0 s2 with
      | none => none
      | some s3 => some (s3.call Call.postExecute)
    else some ((solve_step s2).call Call.postExecute)

/-- The number of calls of `c` in a log. -/
def calls (c : Call) (log : List (Int × Call)) : Nat :=
  (log.filter (fun e => decide (e.2 = c))).length

/-- The calls of `solve` and of `adaptMesh` of a log, in order. -/
def solves_and_adapts (log : List (Int × Call)) : List Call :=
  (log.map Prod.snd).filter (fun c => decide (c = Call.solve) || decide (c = Call.adaptMesh))

/-- The values of `_time_step` at the calls of `solve` of a log, in order. -/
def solve_time_steps (log : List (Int × Call)) : List Int :=
  (log.filter (fun e => decide (e.2 = Call.solve))).map Prod.fst

/-- The sequence solve, adaptMesh, solve, ..., adaptMesh, solve with `s` calls of `adaptMesh`. -/
def alternating : Nat → List Call
  | 0 => [Call.solve]
  | s + 1 => Call.solve :: Call.adaptMesh :: alternating s

end Steady

/-!
# HeatConductionMaterial: a shallow embedding

Embedding of the constructor of `modules/heat_conduction/src/HeatConductionMaterial.C`.
`Real` is any type `R` with a zero.  The variable values (`VariableValue`) and
the functions (`Function`) belong to the framework: their types `T` and `F`
and the calls that hand them out are parameters.  `mooseError` ends the
construction with the error.
-/

namespace HeatConductionMaterial

/-- The input parameters of the material (source lines 8-14).  The coupled
variable `temp` and the two values have no default: they are valid only when
given.  The two function names have the default `""`. -/
structure InputParameters (R : Type) where
  temp : Option String
  thermal_conductivity : Option R
  thermal_conductivity_temperature_function : String
  specific_heat : Option R
  specific_heat_temperature_function : String
deriving DecidableEq, Repr

/-- What the constructor asks of the framework: `coupledValue(name)`, the
member `_zero`, and `getFunction(name)`, which hands out the function that the
parameter `name` names. -/
structure Framework (R T F : Type) where
  coupledValue : InputParameters R → String → T
  zero : T
  getFunction : InputParameters R → String → F

/-- The errors the constructor raises, in the order of its tests. -/
inductive Err where
  | must_couple_thermal_conductivity
  | both_thermal_conductivity
  | must_couple_specific_heat
  | both_specific_heat
deriving DecidableEq, Repr

/-- The text of each error. -/
def Err.message : Err → String
  | Err.must_couple_thermal_conductivity =>
    "Must couple with temperature if using thermal conductivity function"
  | Err.both_thermal_conductivity =>
    "Cannot define both thermal conductivity and thermal conductivity temperature function"
  | Err.must_couple_specific_heat =>
    "Must couple with temperature if using specific heat function"
  | Err.both_specific_heat =>
    "Cannot define both specific heat and specific heat temperature function"

/-- The members that the constructor initialises (source lines 22-32); a
function pointer that is NULL is `none`, and a material property is the name
it is declared under with `declareProperty<Real>`. -/
structure Members (R T F : Type) where
  has_temp : Bool
  temperature : T
  my_thermal_conductivity : R
  my_specific_heat : R
  thermal_conductivity : String
  thermal_conductivity_dT : String
  thermal_conductivity_temperature_function : Option F
  specific_heat : String
  specific_heat_temperature_function : Option F

variable {R T F : Type}

/-- The test `isCoupled("temp")`. -/
def isCoupled_temp (parameters : InputParameters R) : Bool := parameters.temp.isSome

/-- The member initialisers of the constructor (source lines 20-32). -/
def initialise [Zero R] (fw : Framework R T F) (parameters : InputParameters R) :
    Members R T F :=
  let has_temp := isCoupled_temp parameters
  { has_temp := has_temp
    temperature := if has_temp then fw.coupledValue parameters "temp" else fw.zero
    my_thermal_conductivity :=
      match parameters.thermal_conductivity with
      | some value => value
      | none => 0
    my_specific_heat :=
      match parameters.specific_heat with
      | some value => value
      | none => 0
    thermal_conductivity := "thermal_conductivity"
    thermal_conductivity_dT := "thermal_conductivity_dT"
    thermal_conductivity_temperature_function :=
      if parameters.thermal_conductivity_temperature_function ≠ ""
      then some (fw.getFunction parameters "thermal_conductivity_temperature_function")
      else none
    specific_heat := "specific_heat"
    specific_heat_temperature_function :=
      if parameters.specific_heat_temperature_function ≠ ""
      then some (fw.getFunction parameters "specific_heat_temperature_function")
      else none }

/-- The constructor `HeatConductionMaterial::HeatConductionMaterial` (source lines 19-50). -/
def construct [Zero R] (fw : Framework R T F) (parameters : InputParameters R) :
    Except Err (Members R T F) :=
  let m := initialise fw parameters
  if m.thermal_conductivity_temperature_function.isSome && !m.has_temp then
    Except.error Err.must_couple_thermal_conductivity
  else if parameters.thermal_conductivity.isSome &&
      m.thermal_conductivity_temperature_function.isSome then
    Except.error Err.both_thermal_conductivity
  else if m.specific_heat_temperature_function.isSome && !m.has_temp then
    Except.error Err.must_couple_specific_heat
  else if parameters.specific_heat.isSome && m.specific_heat_temperature_function.isSome then
    Except.error Err.both_specific_heat
  else Except.ok m

/-- The construction raised an error. -/
def rejected {α : Type} (r : Except Err α) : Bool :=
  match r with
  | Except.error _ => true
  | Except.ok _ => false

/-- Inconsistent inputs: a temperature function is named for the thermal
conductivity and `temp` is not coupled or a value of the thermal conductivity
is given too, or the same for the specific heat. -/
def inconsistent (parameters : InputParameters R) : Prop :=
  (parameters.thermal_conductivity_temperature_function ≠ "" ∧
    (parameters.temp = none ∨ parameters.thermal_conductivity ≠ none)) ∨
  (parameters.specific_heat_temperature_function ≠ "" ∧
    (parameters.temp = none ∨ parameters.specific_heat ≠ none))

/-- A framework whose variable values and functions are their names. -/
def names_framework : Framework ℚ String String :=
  { coupledValue := fun _ name => name
    zero := ""
    getFunction := fun parameters name =>
      if name = "thermal_conductivity_temperature_function"
      then parameters.thermal_conductivity_temperature_function
      else parameters.specific_heat_temperature_function }

end HeatConductionMaterial

/-!
# ThermalContactMaterialsAction: a shallow embedding

Embedding of `ThermalContactMaterialsAction::act` of
`modules/heat_conduction/src/actions/ThermalContactMaterialsAction.C`.  The
file-level counter `static unsigned int n` is part of the state, next to the
materials that the problem has been handed by `addMaterial`.  An
`InputParameters` object is a map from parameter names to values, modelled by
a function into `Option`.
-/

namespace ThermalContactMaterialsAction

/-- A value held by an `InputParameters` object: a string (also for names and
enumerations), a `bool`, a `Real` or a vector of names. -/
inductive Value where
  | text (s : String)
  | flag (b : Bool)
  | real (x : ℚ)
  | names (l : List String)
deriving DecidableEq, Repr

/-- An `InputParameters` object. -/
abbrev InputParameters := String → Option Value

/-- The assignment `params.set<T>(name) = value`. -/
def InputParameters.set (params : InputParameters) (name : String) (value : Value) :
    InputParameters :=
  fun k => if k = name then some value else params k

/-- The parameters of the action that `act` reads with `getParam`, and its
`_name`; `variable_name` is the parameter `variable`.  The two parameters
without default are valid only when given. -/
structure Action where
  name : String
  type : String
  variable_name : String
  master : String
  slave : String
  gap_conductivity : ℚ
  gap_conductivity_function : Option String
  gap_conductivity_function_variable : Option String
  order : String
  warnings : Bool
  quadrature : Bool
  appended_property_name : String
  conductivity_name : String
  conductivity_master_name : String
deriving DecidableEq, Repr

/-- What `act` asks of the framework: `_factory.getValidParams(type)`,
`_app.parser().extractParams(_name, params)` and
`ThermalContactAuxVarsAction::getGapValueName(_pars)`. -/
structure Framework where
  getValidParams : String → InputParameters
  extractParams : String → InputParameters → InputParameters
  getGapValueName : Action → String

/-- A call `_problem->addMaterial(type, name, params)`. -/
structure Material where
  type : String
  name : String
  params : InputParameters

/-- The counter `n` of the file and the materials added so far, in order. -/
structure State where
  n : Nat
  materials : List Material

/-- Modelled from the spec: `Moose::stringify` of `Conversion.h`, which is not
among the source files, applied to an `unsigned int`: the number in decimal
digits, as `operator<<` writes it into the name `gap_value_<n>`. -/
def stringify (n : Nat) : String := toString n

/-- The call `_problem->addMaterial(type, name, params)`. -/
def addMaterial (s : State) (type name : String) (params : InputParameters) : State :=
  { s with materials := s.materials ++ [⟨type, name, params⟩] }

/-- The method `act()` (source lines 40-104). -/
def act (fw : Framework) (a : Action) (s : State) : State :=
  if a.type ≠ "GapHeatTransfer" then s
  else
    let quadrature := a.quadrature
    let type := "GapConductance"
    let params := fw.getValidParams type
    let params := fw.extractParams a.name params
    let params := params.set "variable" (Value.names [a.variable_name])
    let params :=
      if !quadrature then
        (params.set "gap_temp" (Value.names [fw.getGapValueName a])).set "gap_distance"
          (Value.names ["penetration"])
      else
        ((params.set "quadrature" (Value.flag true)).set "paired_boundary"
          (Value.text a.master)).set "order" (Value.text a.order)
    let params := params.set "warnings" (Value.flag a.warnings)
    let params := params.set "gap_conductivity" (Value.real a.gap_conductivity)
    let params :=
      match a.gap_conductivity_function with
      | some f => params.set "gap_conductivity_function" (Value.text f)
      | none => params
    let params :=
      match a.gap_conductivity_function_variable with
      | some v => params.set "gap_conductivity_function_variable" (Value.names [v])
      | none => params
    let params := params.set "boundary" (Value.names [a.slave])
    let params := params.set "appended_property_name" (Value.text a.appended_property_name)
    let params := params.set "conductivity_name" (Value.text a.conductivity_name)
    let s1 := addMaterial s type ("gap_value_" ++ stringify s.n) params
    let s2 :=
      if quadrature then
        let params := params.set "paired_boundary" (Value.text a.slave)
        let params := params.set "boundary" (Value.names [a.master])
        let params := params.set "conductivity_name" (Value.text a.conductivity_master_name)
        addMaterial s1 type ("gap_value_master_" ++ stringify s.n) params
      else s1
    { s2 with n := (s2.n + 1) % 2 ^ 32 }

/-- A sequence of invocations of `act()`, on any actions, in order. -/
def run (fw : Framework) (actions : List Action) (s : State) : State :=
  actions.foldl (fun st a => act fw a st) s

/-- The names of the materials added so far, in order. -/
def State.names (s : State) : List String := s.materials.map (fun m => m.name)

/-- The number of invocations of a sequence whose type is `"GapHeatTransfer"`. -/
def gap_invocations (actions : List Action) : Nat :=
  (actions.filter (fun a => decide (a.type = "GapHeatTransfer"))).length

/-- The state of a program before the first invocation. -/
def initial : State := ⟨0, []⟩

/-- The names that invocations of type `"GapHeatTransfer"` add when the counter
is `n` at the first of them; `quadratures` holds the parameter `quadrature`
of each. -/
def names_from (n : Nat) : List Bool → List String
  | [] => []
  | quadrature :: rest =>
    ("gap_value_" ++ stringify n) ::
      ((if quadrature then ["gap_value_master_" ++ stringify n] else []) ++
        names_from ((n + 1) % 2 ^ 32) rest)

/-- The parameter `quadrature` of the invocations of a sequence whose type is `"GapHeatTransfer"`. -/
def gap_quadratures (actions : List Action) : List Bool :=
  (actions.filter (fun a => decide (a.type = "GapHeatTransfer"))).map (fun a => a.quadrature)

/-- The number whose decimal digits are the characters of a list. -/
def digits_value (l : List Char) : Nat :=
  l.foldl (fun acc c => 10 * acc + (c.toNat - 48)) 0

/-- A framework that hands out empty parameter objects. -/
def plain_framework : Framework :=
  { getValidParams := fun _ => fun _ => none
    extractParams := fun _ params => params
    getGapValueName := fun a => "gap_value_of_" ++ a.variable_name }

/-- A thermal contact action of type `"GapHeatTransfer"`. -/
def gap_action (quadrature : Bool) : Action :=
  { name := "ThermalContact/contact", type := "GapHeatTransfer", variable_name := "temp",
    master := "2", slave := "3", gap_conductivity := 1, gap_conductivity_function := none,
    gap_conductivity_function_variable := none, order := "FIRST", warnings := false,
    quadrature := quadrature, appended_property_name := "",
    conductivity_name := "thermal_conductivity",
    conductivity_master_name := "thermal_conductivity" }

end ThermalContactMaterialsAction

namespace MultiAppNearestNodeTransfer

variable {P R : Type}

/-! ## The communicator current at each event -/

/-- Test: the event is the collective `minloc`. -/
def isMinloc (e : Event R) : Bool :=
  match e with
  | Event.minloc => true
  | _ => false

/-- The communicator current after an event, when `c` was current before it. -/
def comm_after (c : MPI_Comm) (e : Event R) : MPI_Comm :=
  match e with
  | Event.swap installed => installed
  | _ => c

/-- The communicator current after the events of a log, when `entry` was current before them. -/
def current_comm (entry : MPI_Comm) (log : List (Event R)) : MPI_Comm :=
  log.foldl comm_after entry

/-- Each event of a log with the communicator that is current when it happens,
`entry` being current before the first. -/
def comm_trace (entry : MPI_Comm) : List (Event R) → List (MPI_Comm × Event R)
  | [] => []
  | e :: rest => (entry, e) :: comm_trace (comm_after entry e) rest

/-- Test: the event is an exchange of the current communicator. -/
def isSwap (e : Event R) : Bool :=
  match e with
  | Event.swap _ => true
  | _ => false

/-- What the local search may do while `c` is the current communicator and
`app_comm` the communicator of the MultiApp: no reduction, and a search only
when `c` is `app_comm`. -/
def local_search_event (app_comm c : MPI_Comm) (e : Event R) : Bool :=
  !isMinloc e && (!isSearch e || decide (c = app_comm))

/-- What the winner loop may do: no reduction, no search and no access to the caches. -/
def winner_event (_c : MPI_Comm) (e : Event R) : Bool :=
  !isMinloc e && !isSearch e && !isCacheEvent e

/-- The state `s1` comes from `s` by events that `allowed` admits under the
communicator current at each, and the current communicator of `s1` is the one
that the exchanges among them leave. -/
def within (allowed : MPI_Comm → Event R → Bool) (s s1 : TransferState P R) : Prop :=
  ∃ es, s1.log = s.log ++ es ∧ s1.comm = current_comm s.comm es ∧
    ∀ p ∈ comm_trace s.comm es, allowed p.1 p.2 = true

/-! ## The cache and the candidates of the local search -/

/-- The node id `nid` can be looked up in the source mesh of the problem `fp`. -/
def readable_in (t : Params) (fp : FEProblem P R) (nid : Nat) : Prop :=
  ((selectMesh t.displaced_source_mesh fp).node nid).isSome = true

/-- Every entry of the caches is a result of `getNearestNode` over nodes of the
source mesh of `fp`: it has a distance, and the distance is the sentinel
unless the node is not NULL and can be looked up in that mesh. -/
def cache_from (t : Params) (fp : FEProblem P R) (st : TransferState P R) : Prop :=
  ∀ id x, st.node_map id = some x →
    ∃ d, st.distance_map id = some d ∧ (d = ⊤ ∨ ∃ nd, x = some nd ∧ readable_in t fp nd.id)

/-- The caches as FROM_MULTIAPP executions leave them on a process: every entry
comes from the first app that the process owns. -/
def cache_sound (t : Params) (ma : MultiApp P R) (st : TransferState P R) : Prop :=
  ∀ i fp, i < ma.numGlobalApps → ma.appProblem i = some fp →
    (∀ k, k < i → ma.appProblem k = none) → cache_from t fp st

/-- The target id `id` is cached and the candidate distance for it is not above the cached one. -/
def settled_at [LinearOrder R] (loop : Candidates R × TransferState P R) (id : Nat) : Prop :=
  ∃ x d, loop.2.node_map id = some x ∧ loop.2.distance_map id = some d ∧
    ∀ b, loop.1.min_distances[id]? = some b → b ≤ d

/-- The comparison of source lines 377-382 (and 427-432): the candidate for the
target `id` becomes the node `x` of app `i` at distance `d` when `d` is below
the best distance so far, and stays as it is otherwise. -/
def candidate_step [LinearOrder R] (c c1 : Candidates R) (i id : Nat) (best : WithTop R)
    (x : Option (Node P)) (d : WithTop R) : Prop :=
  (d < best ∧ ∃ nd, x = some nd ∧
    c1 = { c with
      min_distances := c.min_distances.set id d
      min_nodes := c.min_nodes.set id nd.id
      min_apps := c.min_apps.set id i }) ∨
  (¬ d < best ∧ c1 = c)

/-- The view of a process that owns the app `i` alone. -/
def only_app (ma : MultiApp P R) (i : Nat) : MultiApp P R :=
  { ma with appProblem := fun k => if k = i then ma.appProblem k else none }

/-! ## Further configurations on a line -/

/-- A problem whose variable is second-order Lagrange, on a mesh with two nodes
(ids 0 and 1 at 0 and 4, dofs 7 and 8) and one element (id 0, centroid 2) that
has no degree of freedom of the variable (`dof_number` returning 99). -/
def second_order_problem : FEProblem ℤ ℕ :=
  { mesh := { nodes := [⟨0, 0, 0, 1, 7⟩, ⟨1, 4, 0, 1, 8⟩], elems := [⟨0, 2, 0, 0, 99⟩],
              processor_id := 0, is_serial := true }
    displaced := none
    variable_type := ⟨2, FEFamily.LAGRANGE⟩
    solution := fun _ => 0 }

/-- FROM_MULTIAPP onto a second-order Lagrange variable: the master is
`second_order_problem`, the only app has one node at 0 carrying 5. -/
def second_order_master : MultiApp ℤ ℕ :=
  { problem := second_order_problem
    numGlobalApps := 1
    comm := ⟨1⟩
    appProblem := fun i => if i = 0 then some (line_problem [⟨0, 0, 0, 1, 0⟩] (fun _ => 5)) else none
    position := fun _ => 0 }

/-- TO_MULTIAPP onto the same variable: the only app is `second_order_problem`,
the master has one node at 0 carrying 5. -/
def second_order_app : MultiApp ℤ ℕ :=
  { problem := line_problem [⟨0, 0, 0, 1, 0⟩] (fun _ => 5)
    numGlobalApps := 1
    comm := ⟨1⟩
    appProblem := fun i => if i = 0 then some second_order_problem else none
    position := fun _ => 0 }

/-- A problem with a constant monomial variable on a mesh with one element of
id 0 (centroid at the origin, dof `dof`) and the nodes `nodes`. -/
def elem_problem (nodes : List (Node ℤ)) (dof : Nat) (solution : Nat → ℕ) : FEProblem ℤ ℕ :=
  { mesh := { nodes := nodes, elems := [⟨0, 0, 0, 1, dof⟩], processor_id := 0, is_serial := true }
    displaced := none
    variable_type := ⟨0, FEFamily.MONOMIAL⟩
    solution := solution }

/-- FROM_MULTIAPP onto an elemental variable, one process with two apps at the
offsets 0 and 10: the master has one target element with centroid 0 (dof 7);
app 0 has one node at 4 carrying 9, app 1 one node at -9, which is at 1 in the
frame of the master, carrying 5. -/
def two_apps_elemental_target : MultiApp ℤ ℕ :=
  { problem := elem_problem [] 7 (fun _ => 0)
    numGlobalApps := 2
    comm := ⟨1⟩
    appProblem := fun i =>
      if i = 0 then some (line_problem [⟨0, 4, 0, 1, 0⟩] (fun _ => 9))
      else if i = 1 then some (line_problem [⟨0, -9, 0, 1, 0⟩] (fun _ => 5))
      else none
    position := fun i => if i = 1 then 10 else 0 }

/-- TO_MULTIAPP onto an elemental variable, one process with two apps at the
offsets 0 and 10, each with one target element of id 0 with its centroid at
the origin of the app; the master has source nodes at 0 (value 1) and at 10
(value 2). -/
def two_elemental_apps : MultiApp ℤ ℕ :=
  { problem := line_problem [⟨0, 0, 0, 1, 0⟩, ⟨1, 10, 0, 1, 1⟩] (fun dof => dof + 1)
    numGlobalApps := 2
    comm := ⟨1⟩
    appProblem := fun i => if i < 2 then some (elem_problem [] 0 (fun _ => 0)) else none
    position := fun i => if i = 1 then 10 else 0 }

/-- The process `two_apps_one_process` at the start of its second execution
with `fixed_meshes`: the caches and the communicator that the first execution
left, and a new log. -/
def second_start : TransferState ℤ ℕ :=
  { finalState (execute line_size ⟨Direction.FROM_MULTIAPP, false, false, true⟩
      two_apps_one_process 0
      (Communicator_minloc [FROM_contribution line_size
        ⟨Direction.FROM_MULTIAPP, false, false, true⟩ two_apps_one_process fresh])
      fresh) with log := [] }

/-- The candidates of that process after the local search of its second execution. -/
def second_candidates : Candidates ℕ :=
  FROM_candidates line_size ⟨Direction.FROM_MULTIAPP, false, false, true⟩
    two_apps_one_process_later second_start

/-- The state of that process after the local search of its second execution. -/
def second_searched : TransferState ℤ ℕ :=
  endState Prod.snd (FROM_local_search line_size ⟨Direction.FROM_MULTIAPP, false, false, true⟩
    two_apps_one_process_later second_start)

end MultiAppNearestNodeTransfer

namespace MultiAppNearestNodeTransfer

variable {P R : Type}

/-! ## The target entities and the degrees of freedom a run sets -/

/-- The target entities of the FROM_MULTIAPP direction in iteration order, each
as `(id, n_dofs, dof_number)`: the nodes of the target mesh for a nodal
variable, its elements otherwise. -/
def FROM_targets (t : Params) (master : FEProblem P R) : List (Nat × Nat × Nat) :=
  if decide (master.variable_type = FEType_default)
  then (selectMesh t.displaced_target_mesh master).nodes.map
    (fun n => (n.id, n.n_dofs, n.dof_number))
  else (selectMesh t.displaced_target_mesh master).elems.map
    (fun e => (e.id, e.n_dofs, e.dof_number))

/-- The number that `dof_number` returns in the winner loop for the target
index `j` (source lines 489 and 493): that of the entity that the lookup
`node(j)` or `elem(j)` gives, and 0 when there is none. -/
def target_dof (t : Params) (master : FEProblem P R) (j : Nat) : Nat :=
  (((FROM_targets t master).find? (fun e => e.1 == j)).map (fun e => e.2.2)).getD 0

/-- Views of the two processes `rank0_owns_app0` and `rank1_owns_app1` in a row
of executions: the same at every execution. -/
def two_ranks_views (_n : Nat) : List (MultiApp ℤ ℕ) :=
  [rank0_owns_app0, rank1_owns_app1]

/-- The two processes before their first execution. -/
def two_ranks : List (MultiApp ℤ ℕ × TransferState ℤ ℕ) :=
  [(rank0_owns_app0, fresh), (rank1_owns_app1, fresh)]

/-- The state of the process of rank `q` of `two_ranks` at the start of the
second execution with `fixed_meshes`: the caches and the communicator that its
first execution left, and a new log. -/
def two_ranks_second (q : Nat) (ma : MultiApp ℤ ℕ) : TransferState ℤ ℕ :=
  { finalState (execute line_size ⟨Direction.FROM_MULTIAPP, false, false, true⟩ ma q
      (Communicator_minloc (two_ranks.map (fun p =>
        FROM_contribution line_size ⟨Direction.FROM_MULTIAPP, false, false, true⟩ p.1 p.2)))
      fresh) with log := [] }

end MultiAppNearestNodeTransfer

namespace MultiAppNearestNodeTransfer

variable {P R : Type}

/-! ## getNearestNode: the linear scan -/

section SearchLemmas

variable [LinearOrder R] [Sub P]

theorem getNearestNode_nil (size : P → WithTop R) (p : P) (d : WithTop R) :
    getNearestNode size p d [] = (none, ⊤) := rfl

theorem getNearestNode_snoc (size : P → WithTop R) (p : P) (d : WithTop R) (l : List (Node P))
    (x : Node P) :
    getNearestNode size p d (l ++ [x]) =
      getNearestNode_step size p (getNearestNode size p d l) x := by
  simp [getNearestNode, List.foldl_append]

/-- The result of the scan.  Either no node of the sequence has a computed
distance below the sentinel, and the scan returns NULL and the sentinel; or it
returns a node whose computed distance is below the sentinel, and then the
place of that node in the sequence describes it: nodes before it are strictly
farther, nodes after it are not closer. -/
theorem getNearestNode_spec (size : P → WithTop R) (p : P) (d : WithTop R)
    (nodes : List (Node P)) :
    ((∀ m ∈ nodes, ¬ size (p - m.point) < ⊤) ∧ getNearestNode size p d nodes = (none, ⊤)) ∨
    ∃ n pre post, nodes = pre ++ n :: post ∧
      getNearestNode size p d nodes = (some n, size (p - n.point)) ∧
      size (p - n.point) < ⊤ ∧
      (∀ m ∈ pre, size (p - n.point) < size (p - m.point)) ∧
      (∀ m ∈ post, size (p - n.point) ≤ size (p - m.point)) := by
  induction nodes using List.reverseRecOn with
  | nil => exact Or.inl ⟨by simp, rfl⟩
  | append_singleton l x ih =>
    rw [getNearestNode_snoc]
    rcases ih with ⟨hl, hres⟩ | ⟨n, pre, post, hl, hres, htop, hpre, hpost⟩
    · rw [hres]
      by_cases hlt : size (p - x.point) < ⊤
      · right
        refine ⟨x, l, [], by simp, ?_, hlt, ?_, by simp⟩
        · simp [getNearestNode_step, hlt]
        · intro m hm
          have hm' := not_lt.mp (hl m hm)
          exact lt_of_lt_of_le hlt hm'
      · left
        refine ⟨?_, ?_⟩
        · intro m hm
          rcases List.mem_append.mp hm with h | h
          · exact hl m h
          · simp at h; subst h; exact hlt
        · simp [getNearestNode_step, hlt]
    · right
      rw [hres]
      by_cases hlt : size (p - x.point) < size (p - n.point)
      · refine ⟨x, l, [], by simp, ?_, lt_trans hlt htop, ?_, by simp⟩
        · simp [getNearestNode_step, hlt]
        · intro m hm
          rw [hl] at hm
          rcases List.mem_append.mp hm with h | h
          · exact lt_trans hlt (hpre m h)
          · rcases List.mem_cons.mp h with h | h
            · subst h; exact hlt
            · exact lt_of_lt_of_le hlt (hpost m h)
      · refine ⟨n, pre, post ++ [x], by simp [hl], ?_, htop, hpre, ?_⟩
        · simp [getNearestNode_step, hlt]
        · intro m hm
          rcases List.mem_append.mp hm with h | h
          · exact hpost m h
          · simp at h; subst h; exact not_lt.mp hlt

/-- When some node of the range has a computed distance below the sentinel, the
scan returns a node of the range, with its computed distance, which is below
the sentinel. -/
theorem getNearestNode_isSome (size : P → WithTop R) (p : P) (d : WithTop R)
    (nodes : List (Node P)) (h : ∃ m ∈ nodes, size (p - m.point) < ⊤) :
    ∃ n, n ∈ nodes ∧ size (p - n.point) < ⊤ ∧
      getNearestNode size p d nodes = (some n, size (p - n.point)) := by
  rcases getNearestNode_spec size p d nodes with ⟨hl, _⟩ | ⟨n, pre, post, hl, hres, htop, _, _⟩
  · obtain ⟨m, hm, hlt⟩ := h
    exact absurd hlt (hl m hm)
  · exact ⟨n, by simp [hl], htop, hres⟩

/-- The two outcomes of the scan: NULL with the sentinel, or a node of the
range with its computed distance, which is below the sentinel. -/
theorem getNearestNode_cases (size : P → WithTop R) (p : P) (d : WithTop R)
    (nodes : List (Node P)) :
    getNearestNode size p d nodes = (none, ⊤) ∨
    ∃ n, n ∈ nodes ∧ size (p - n.point) < ⊤ ∧
      getNearestNode size p d nodes = (some n, size (p - n.point)) := by
  rcases getNearestNode_spec size p d nodes with ⟨_, hres⟩ | ⟨n, pre, post, hl, hres, htop, _, _⟩
  · exact Or.inl hres
  · exact Or.inr ⟨n, by simp [hl], htop, hres⟩

/-- The scan returns NULL exactly when no node of the range has a computed
distance below the sentinel. -/
theorem getNearestNode_none_iff (size : P → WithTop R) (p : P) (d : WithTop R)
    (nodes : List (Node P)) :
    (getNearestNode size p d nodes).1 = none ↔ ∀ m ∈ nodes, ¬ size (p - m.point) < ⊤ := by
  rcases getNearestNode_spec size p d nodes with ⟨hl, hres⟩ | ⟨n, pre, post, hl, hres, htop, _, _⟩
  · simp only [hres, true_iff]
    exact hl
  · simp only [hres]
    constructor
    · intro h; cases h
    · intro h
      exact absurd htop (h n (by simp [hl]))

/-- C3, amended.  When some candidate of the sequence has a computed distance
from `p` below the sentinel, `getNearestNode` returns a node of the sequence,
writes to `distance` the distance from `p` to that node as `size` computes it,
and no candidate of the sequence has a strictly smaller computed distance. -/
theorem getNearestNode_returns_nearest (size : P → WithTop R) (p : P) (distance : WithTop R)
    (nodes : List (Node P)) (h : ∃ m ∈ nodes, size (p - m.point) < ⊤) :
    ∃ n, (getNearestNode size p distance nodes).1 = some n ∧ n ∈ nodes ∧
      (getNearestNode size p distance nodes).2 = size (p - n.point) ∧
      (getNearestNode size p distance nodes).2 < ⊤ ∧
      ∀ m ∈ nodes, ¬ size (p - m.point) < size (p - n.point) := by
  rcases getNearestNode_spec size p distance nodes with
    ⟨hl, _⟩ | ⟨n, pre, post, hl, hres, htop, hpre, hpost⟩
  · obtain ⟨m, hm, hlt⟩ := h
    exact absurd hlt (hl m hm)
  · refine ⟨n, by rw [hres], by simp [hl], by rw [hres], by rw [hres]; exact htop, ?_⟩
    intro m hm
    rw [hl] at hm
    rcases List.mem_append.mp hm with hm | hm
    · exact not_lt.mpr (le_of_lt (hpre m hm))
    · rcases List.mem_cons.mp hm with hm | hm
      · subst hm; exact lt_irrefl _
      · exact not_lt.mpr (hpost m hm)

/-- C4, amended.  Tie-breaking of `getNearestNode` when some candidate has a
computed distance below the sentinel: the returned node stands in the sequence
after nodes that are all strictly farther from `p` and before nodes that are at
least as far, so among the nodes at the minimum computed distance it is the
first in iteration order. -/
theorem getNearestNode_first_wins_ties (size : P → WithTop R) (p : P) (distance : WithTop R)
    (nodes : List (Node P)) (h : ∃ m ∈ nodes, size (p - m.point) < ⊤) :
    ∃ n pre post, (getNearestNode size p distance nodes).1 = some n ∧
      nodes = pre ++ n :: post ∧
      (∀ m ∈ pre, size (p - n.point) < size (p - m.point)) ∧
      (∀ m ∈ post, size (p - n.point) ≤ size (p - m.point)) := by
  rcases getNearestNode_spec size p distance nodes with
    ⟨hl, _⟩ | ⟨n, pre, post, hl, hres, _, hpre, hpost⟩
  · obtain ⟨m, hm, hlt⟩ := h
    exact absurd hlt (hl m hm)
  · exact ⟨n, pre, post, by rw [hres], hl, hpre, hpost⟩

/-- C5. `getNearestNode` on an empty candidate sequence returns no node and
sets `distance` to the sentinel, whatever `distance` held before the call. -/
theorem getNearestNode_empty (size : P → WithTop R) (p : P) (distance : WithTop R) :
    getNearestNode size p distance [] = (none, ⊤) := rfl

end SearchLemmas

set_option exponentiation.threshold 1024

/-- The norm of double precision overflows at a coordinate of magnitude `2 ^ 700`. -/
theorem double_size_overflow (x : ℤ) (h : x.natAbs = 2 ^ 700) : double_size x = ⊤ := by
  unfold double_size
  rw [if_neg]
  rw [h]
  exact not_lt.mpr (Nat.pow_le_pow_right (by decide) (by decide))

/-- Counterexample to C3 as stated: the sequence holds one node, at `2 ^ 700`
on a line, and the query point is the origin.  The norm of the difference
overflows, the test `current_distance < distance` fails against the maximum,
and `getNearestNode` returns NULL and the sentinel.  The same holds for every
norm that is not below the sentinel at the one difference. -/
theorem getNearestNode_overflow_returns_null :
    ([(⟨0, 2 ^ 700, 0, 1, 0⟩ : Node ℤ)] ≠ []) ∧
    getNearestNode double_size 0 0 [(⟨0, 2 ^ 700, 0, 1, 0⟩ : Node ℤ)] = (none, ⊤) ∧
    (∀ (size : ℤ → WithTop ℕ) (p : ℤ) (node : Node ℤ), ¬ size (p - node.point) < ⊤ →
      getNearestNode size p 0 [node] = (none, ⊤)) := by
  have hgen : ∀ (size : ℤ → WithTop ℕ) (p : ℤ) (node : Node ℤ), ¬ size (p - node.point) < ⊤ →
      getNearestNode size p 0 [node] = (none, ⊤) := by
    intro size p node h
    simp [getNearestNode, getNearestNode_step, h]
  refine ⟨by simp, ?_, hgen⟩
  apply hgen
  rw [double_size_overflow _ (by simp [Int.natAbs_pow])]
  exact lt_irrefl _

/-- Counterexample to C4 as stated: two nodes on a line, at `2 ^ 700` and at
`-(2 ^ 700)`, are at exactly the same distance from the origin, the minimum
over the sequence.  Both computed distances overflow, and `getNearestNode`
returns NULL, not the first of the two. -/
theorem getNearestNode_overflow_tie_returns_null :
    (0 - 2 ^ 700 : ℤ).natAbs = (0 - -(2 ^ 700) : ℤ).natAbs ∧
    (getNearestNode double_size 0 0
      [(⟨0, 2 ^ 700, 0, 1, 0⟩ : Node ℤ), ⟨1, -(2 ^ 700), 0, 1, 1⟩]).1 = none := by
  refine ⟨by simp, ?_⟩
  rw [getNearestNode_none_iff]
  intro m hm
  have hm' : m.point = 2 ^ 700 ∨ m.point = -(2 ^ 700) := by
    simp only [List.mem_cons, List.mem_singleton, List.not_mem_nil, or_false] at hm
    rcases hm with h | h
    · left; rw [h]
    · right; rw [h]
  have h1 : (0 - m.point).natAbs = 2 ^ 700 := by
    rcases hm' with h | h <;> rw [h] <;> simp [Int.natAbs_pow]
  rw [double_size_overflow _ h1]
  exact lt_irrefl _

/-- Witness of C3: three nodes on a line, two of them at the minimum distance. -/
theorem getNearestNode_returns_nearest_witness :
    (∃ m ∈ [(⟨0, 4, 0, 1, 0⟩ : Node ℤ), ⟨1, 2, 0, 1, 1⟩, ⟨2, -2, 0, 1, 2⟩],
      line_size (0 - m.point) < ⊤) ∧
    ∃ n, (getNearestNode line_size 0 0
          [(⟨0, 4, 0, 1, 0⟩ : Node ℤ), ⟨1, 2, 0, 1, 1⟩, ⟨2, -2, 0, 1, 2⟩]).1 = some n ∧
      n ∈ [(⟨0, 4, 0, 1, 0⟩ : Node ℤ), ⟨1, 2, 0, 1, 1⟩, ⟨2, -2, 0, 1, 2⟩] ∧
      (getNearestNode line_size 0 0
          [(⟨0, 4, 0, 1, 0⟩ : Node ℤ), ⟨1, 2, 0, 1, 1⟩, ⟨2, -2, 0, 1, 2⟩]).2 =
        line_size (0 - n.point) ∧
      (getNearestNode line_size 0 0
          [(⟨0, 4, 0, 1, 0⟩ : Node ℤ), ⟨1, 2, 0, 1, 1⟩, ⟨2, -2, 0, 1, 2⟩]).2 < ⊤ ∧
      ∀ m ∈ [(⟨0, 4, 0, 1, 0⟩ : Node ℤ), ⟨1, 2, 0, 1, 1⟩, ⟨2, -2, 0, 1, 2⟩],
        ¬ line_size (0 - m.point) < line_size (0 - n.point) :=
  ⟨⟨⟨0, 4, 0, 1, 0⟩, by simp, by decide⟩,
   getNearestNode_returns_nearest line_size 0 0 _ ⟨⟨0, 4, 0, 1, 0⟩, by simp, by decide⟩⟩

/-- Witness of C4 on the same three nodes. -/
theorem getNearestNode_first_wins_ties_witness :
    (∃ m ∈ [(⟨0, 4, 0, 1, 0⟩ : Node ℤ), ⟨1, 2, 0, 1, 1⟩, ⟨2, -2, 0, 1, 2⟩],
      line_size (0 - m.point) < ⊤) ∧
    ∃ n pre post, (getNearestNode line_size 0 0
          [(⟨0, 4, 0, 1, 0⟩ : Node ℤ), ⟨1, 2, 0, 1, 1⟩, ⟨2, -2, 0, 1, 2⟩]).1 = some n ∧
      [(⟨0, 4, 0, 1, 0⟩ : Node ℤ), ⟨1, 2, 0, 1, 1⟩, ⟨2, -2, 0, 1, 2⟩] = pre ++ n :: post ∧
      (∀ m ∈ pre, line_size (0 - n.point) < line_size (0 - m.point)) ∧
      (∀ m ∈ post, line_size (0 - n.point) ≤ line_size (0 - m.point)) :=
  ⟨⟨⟨0, 4, 0, 1, 0⟩, by simp, by decide⟩,
   getNearestNode_first_wins_ties line_size 0 0 _ ⟨⟨0, 4, 0, 1, 0⟩, by simp, by decide⟩⟩

end MultiAppNearestNodeTransfer

namespace MultiAppNearestNodeTransfer

/-! ## Runs on concrete configurations -/

/-- C1. With `fixed_meshes` set and two apps on one process, the FROM_MULTIAPP
run writes to the target node the value 9 of app 0, whose node is at distance
2, although the node of app 1 is at distance 1 and carries 5: the cache entry
stored for app 0 under the target id answers the search for app 1.  Without
`fixed_meshes` the same run writes 5. -/
theorem FROM_fixed_meshes_keeps_first_app :
    (execute_all line_size ⟨Direction.FROM_MULTIAPP, false, false, true⟩
        [(two_apps_one_process, fresh)]).map (fun r => (failure r, setEvents (finalLog r)))
      = ([(none, [(0, 0, 7, 9)])] : List (Option Err × List (ℕ × ℕ × ℕ × ℕ))) ∧
    (execute_all line_size ⟨Direction.FROM_MULTIAPP, false, false, false⟩
        [(two_apps_one_process, fresh)]).map (fun r => (failure r, setEvents (finalLog r)))
      = ([(none, [(1, 0, 7, 5)])] : List (Option Err × List (ℕ × ℕ × ℕ × ℕ))) ∧
    line_size (0 - 0 - 1) < line_size (0 - 0 - 2) := by
  refine ⟨?_, ?_, ?_⟩ <;> decide

/-- C2. With `fixed_meshes` set and two apps on one process, the TO_MULTIAPP
run sets for the target node of app 1, whose position is 10, the value 1 of the
source node at 0 instead of the value 2 of the source node at 10: the cache
entry stored for app 0 under the same target id is reused.  Without
`fixed_meshes` the same run sets 2. -/
theorem TO_fixed_meshes_reuses_other_app :
    (fun r => (failure r, setEvents (finalLog r)))
        (execute line_size ⟨Direction.TO_MULTIAPP, false, false, true⟩
          two_apps_two_offsets 0 (Communicator_minloc []) fresh)
      = (none, [(0, 0, 0, 1), (1, 0, 0, 1)]) ∧
    (fun r => (failure r, setEvents (finalLog r)))
        (execute line_size ⟨Direction.TO_MULTIAPP, false, false, false⟩
          two_apps_two_offsets 0 (Communicator_minloc []) fresh)
      = (none, [(0, 0, 0, 1), (1, 0, 0, 2)]) := by
  decide

/-- C7. When no process holds a candidate for a target node, the process of
rank 0 still takes itself for the winner: it asks for the degree of freedom
of the node and goes after a source value.  With a local app whose mesh is
empty the run stops at the lookup of source node 0; with no app at all it stops
at the assertion `hasLocalApp`. -/
theorem FROM_no_candidate_enters_winner_branch :
    (execute_all line_size ⟨Direction.FROM_MULTIAPP, false, false, false⟩
        [(app_without_nodes, fresh)]).map (fun r => (failure r, (finalLog r).reverse.take 3))
      = [(some Err.no_such_entity,
          [Event.swap ⟨1⟩, Event.dofNumber none 0, Event.minloc])] ∧
    (execute_all line_size ⟨Direction.FROM_MULTIAPP, false, false, false⟩
        [(no_apps, fresh)]).map (fun r => (failure r, finalLog r))
      = [(some Err.assert_hasLocalApp, [Event.minloc, Event.dofNumber none 0])] := by
  decide

/-- C8. With a source mesh that has no node, the TO_MULTIAPP run stops at the
dereference of the NULL pointer returned by `getNearestNode`, right after the
search for the first target node that has a degree of freedom. -/
theorem TO_empty_source_dereferences_null :
    (fun r => (failure r, finalLog r))
        (execute line_size ⟨Direction.TO_MULTIAPP, false, false, false⟩
          master_without_nodes 0 (Communicator_minloc []) fresh)
      = (some Err.null_nearest_node,
          [Event.localize, Event.swap ⟨1⟩, Event.dofNumber (some 0) 0, Event.swap ⟨0⟩,
           Event.search 0 0]) := by
  decide

/-- C9. In the FROM_MULTIAPP direction the winner loop asks for the degree of
freedom of target node 0, which has none (`n_dofs = 0`), and sets the source
value 5 at the number 99 it gets. -/
theorem FROM_winner_ignores_n_dofs :
    (target_without_dofs.problem.mesh.node 0).map (fun n => n.n_dofs) = some 0 ∧
    (execute_all line_size ⟨Direction.FROM_MULTIAPP, false, false, false⟩
        [(target_without_dofs, fresh)]).map failure = [none] ∧
    (execute_all line_size ⟨Direction.FROM_MULTIAPP, false, false, false⟩
        [(target_without_dofs, fresh)]).map
          (fun r => decide (Event.dofNumber none 0 ∈ finalLog r)) = [true] ∧
    (execute_all line_size ⟨Direction.FROM_MULTIAPP, false, false, false⟩
        [(target_without_dofs, fresh)]).map (fun r => setEvents (finalLog r))
      = [[(0, 0, 99, 5), (0, 1, 8, 5)]] := by
  refine ⟨?_, ?_, ?_, ?_⟩ <;> decide

end MultiAppNearestNodeTransfer

namespace MultiAppNearestNodeTransfer

variable {P R : Type}

/-! ## Loops -/

section Loops

variable {α σ ε : Type}

theorem forEach_cons_ok {body : α → σ → Except ε σ} {x : α} {xs : List α} {s s' : σ}
    (h : body x s = Except.ok s') : forEach body (x :: xs) s = forEach body xs s' := by
  simp [forEach, h]

theorem forEach_cons_error {body : α → σ → Except ε σ} {x : α} {xs : List α} {s : σ} {e : ε}
    (h : body x s = Except.error e) : forEach body (x :: xs) s = Except.error e := by
  simp [forEach, h]

/-- A property that every successful iteration keeps holds when the loop ends. -/
theorem forEach_preserves (body : α → σ → Except ε σ) (I : σ → Prop)
    (h : ∀ x s s', I s → body x s = Except.ok s' → I s') :
    ∀ (xs : List α) (s s' : σ), I s → forEach body xs s = Except.ok s' → I s'
  | [], s, s', hs, hrun => by
    simp only [forEach, Except.ok.injEq] at hrun
    subst hrun
    exact hs
  | x :: xs, s, s', hs, hrun => by
    cases hb : body x s with
    | error e => simp [forEach, hb] at hrun
    | ok s1 =>
      rw [forEach_cons_ok hb] at hrun
      exact forEach_preserves body I h xs s1 s' (h x s s1 hs hb) hrun

/-- Total correctness of a loop with an invariant over the elements already processed. -/
theorem forEach_ok_indexed (body : α → σ → Except ε σ) (I : List α → σ → Prop) :
    ∀ (xs : List α),
      (∀ done x s, x ∈ xs → I done s → ∃ s', body x s = Except.ok s' ∧ I (done ++ [x]) s') →
      ∀ (pre : List α) (s : σ), I pre s →
        ∃ s', forEach body xs s = Except.ok s' ∧ I (pre ++ xs) s'
  | [], _, pre, s, hs => ⟨s, rfl, by simpa using hs⟩
  | x :: xs, h, pre, s, hs => by
    obtain ⟨s1, hb, hs1⟩ := h pre x s (List.mem_cons_self x xs) hs
    obtain ⟨s', hrun, hs'⟩ :=
      forEach_ok_indexed body I xs
        (fun done y s hy hI => h done y s (List.mem_cons_of_mem x hy) hI) (pre ++ [x]) s1 hs1
    exact ⟨s', by rw [forEach_cons_ok hb]; exact hrun, by simpa using hs'⟩

/-- Total correctness of a loop with an invariant of the state alone. -/
theorem forEach_ok (body : α → σ → Except ε σ) (I : σ → Prop) (xs : List α)
    (h : ∀ x s, x ∈ xs → I s → ∃ s', body x s = Except.ok s' ∧ I s') (s : σ) (hs : I s) :
    ∃ s', forEach body xs s = Except.ok s' ∧ I s' :=
  forEach_ok_indexed body (fun _ s => I s) xs (fun _ x s hx hI => h x s hx hI) [] s hs

/-- A loop over the image of a list is the loop over the list with the composed body. -/
theorem forEach_map {β : Type} (f : β → α) (body : α → σ → Except ε σ) :
    ∀ (xs : List β) (s : σ), forEach body (xs.map f) s = forEach (fun x => body (f x)) xs s
  | [], _ => rfl
  | x :: xs, s => by
    cases hb : body (f x) s with
    | error e => simp [forEach, hb]
    | ok s1 => simp [forEach, hb, forEach_map f body xs s1]

theorem mapRank_length {β : Type} (f : Nat → α → β) :
    ∀ (xs : List α) (rank : Nat), (mapRank f rank xs).length = xs.length
  | [], _ => rfl
  | _ :: xs, rank => by simp [mapRank, mapRank_length f xs (rank + 1)]

theorem mapRank_getElem? {β : Type} (f : Nat → α → β) :
    ∀ (xs : List α) (rank k : Nat), (mapRank f rank xs)[k]? = (xs[k]?).map (f (rank + k))
  | [], _, _ => by simp [mapRank]
  | x :: xs, rank, 0 => by simp [mapRank]
  | x :: xs, rank, k + 1 => by
    simp only [mapRank, List.getElem?_cons_succ]
    rw [mapRank_getElem? f xs (rank + 1) k]
    have : rank + 1 + k = rank + (k + 1) := by omega
    rw [this]

end Loops

/-! ## The reduction -/

section Reduction

variable [LinearOrder R]

/-- The scan returns either the start value, which then no entry is below, or an
entry that is below the start value, at most every entry, and strictly below
every earlier entry. -/
theorem minloc_scan_spec :
    ∀ (ds : List (WithTop R)) (best : WithTop R) (best_rank rank : Nat),
      (minloc_scan best best_rank rank ds = (best, best_rank) ∧ ∀ d ∈ ds, ¬ d < best) ∨
      (∃ k, ds[k]? = some (minloc_scan best best_rank rank ds).1 ∧
        (minloc_scan best best_rank rank ds).2 = rank + k ∧
        (minloc_scan best best_rank rank ds).1 < best ∧
        (∀ k' d, k' < k → ds[k']? = some d → (minloc_scan best best_rank rank ds).1 < d) ∧
        ∀ d ∈ ds, (minloc_scan best best_rank rank ds).1 ≤ d)
  | [], best, best_rank, rank => Or.inl ⟨rfl, by simp⟩
  | d :: ds, best, best_rank, rank => by
    by_cases hlt : d < best
    · have hstep : minloc_scan best best_rank rank (d :: ds) = minloc_scan d rank (rank + 1) ds := by
        simp [minloc_scan, hlt]
      rw [hstep]
      right
      rcases minloc_scan_spec ds d rank (rank + 1) with ⟨hres, hall⟩ | ⟨k, hk, hr, hbelow, hearlier, hall⟩
      · refine ⟨0, by simp [hres], by simp [hres], by simpa [hres] using hlt, ?_, ?_⟩
        · intro k' d' hk'; omega
        · intro d' hd'
          rw [hres]
          rcases List.mem_cons.mp hd' with h | h
          · exact le_of_eq h.symm
          · exact not_lt.mp (hall d' h)
      · refine ⟨k + 1, by simpa using hk, by rw [hr]; omega, lt_trans hbelow hlt, ?_, ?_⟩
        · intro k' d' hk' hd'
          cases k' with
          | zero => simp at hd'; subst hd'; exact hbelow
          | succ k'' => exact hearlier k'' d' (by omega) (by simpa using hd')
        · intro d' hd'
          rcases List.mem_cons.mp hd' with h | h
          · subst h; exact le_of_lt hbelow
          · exact hall d' h
    · have hstep : minloc_scan best best_rank rank (d :: ds) =
          minloc_scan best best_rank (rank + 1) ds := by
        simp [minloc_scan, hlt]
      rw [hstep]
      rcases minloc_scan_spec ds best best_rank (rank + 1) with
        ⟨hres, hall⟩ | ⟨k, hk, hr, hbelow, hearlier, hall⟩
      · left
        refine ⟨hres, ?_⟩
        intro d' hd'
        rcases List.mem_cons.mp hd' with h | h
        · subst h; exact hlt
        · exact hall d' h
      · right
        refine ⟨k + 1, by simpa using hk, by rw [hr]; omega, hbelow, ?_, ?_⟩
        · intro k' d' hk' hd'
          cases k' with
          | zero =>
            simp at hd'; subst hd'
            exact lt_of_lt_of_le hbelow (not_lt.mp hlt)
          | succ k'' => exact hearlier k'' d' (by omega) (by simpa using hd')
        · intro d' hd'
          rcases List.mem_cons.mp hd' with h | h
          · subst h; exact le_of_lt (lt_of_lt_of_le hbelow (not_lt.mp hlt))
          · exact hall d' h

/-- The reduction at an index: the declared rank is a rank of the run, it holds
the reduced value, no rank holds a smaller one and every lower rank holds a
strictly greater one. -/
theorem minloc_at_spec (cs : List (List (WithTop R))) (j : Nat) (hne : cs ≠ []) :
    ∃ c, cs[(minloc_at cs j).2]? = some c ∧ c.getD j ⊤ = (minloc_at cs j).1 ∧
      (∀ c' ∈ cs, (minloc_at cs j).1 ≤ c'.getD j ⊤) ∧
      ∀ q c', q < (minloc_at cs j).2 → cs[q]? = some c' → (minloc_at cs j).1 < c'.getD j ⊤ := by
  unfold minloc_at
  rcases minloc_scan_spec (cs.map (fun v => v.getD j ⊤)) ⊤ 0 0 with
    ⟨hres, hall⟩ | ⟨k, hk, hr, _, hearlier, hall⟩
  · rw [hres]
    obtain ⟨c, rest, hcs⟩ := List.exists_cons_of_ne_nil hne
    have htop : ∀ c' ∈ cs, c'.getD j ⊤ = ⊤ := by
      intro c' hc'
      have := hall (c'.getD j ⊤) (List.mem_map.mpr ⟨c', hc', rfl⟩)
      exact not_lt_top_iff.mp this
    refine ⟨c, by simp [hcs], htop c (by simp [hcs]), ?_, ?_⟩
    · intro c' hc'; rw [htop c' hc']
    · intro q c' hq; simp at hq
  · rw [hr, Nat.zero_add]
    rw [List.getElem?_map] at hk
    cases hck : cs[k]? with
    | none => simp [hck] at hk
    | some c =>
      simp only [hck, Option.map_some', Option.some.injEq] at hk
      refine ⟨c, rfl, hk, ?_, ?_⟩
      · intro c' hc'
        exact hall _ (List.mem_map.mpr ⟨c', hc', rfl⟩)
      · intro q c' hq hc'
        exact hearlier q _ hq (by simp [List.getElem?_map, hc'])

theorem Communicator_minloc_procs (cs : List (List (WithTop R))) (r : List (WithTop R))
    (j : Nat) (hj : j < r.length) :
    (Communicator_minloc cs r).2[j]? = some (minloc_at cs j).2 := by
  simp [Communicator_minloc, List.getElem?_map, List.getElem?_range hj]

theorem Communicator_minloc_length (cs : List (List (WithTop R))) (r : List (WithTop R)) :
    (Communicator_minloc cs r).2.length = r.length := by
  simp [Communicator_minloc]

end Reduction

end MultiAppNearestNodeTransfer

namespace MultiAppNearestNodeTransfer

variable {P R : Type}

/-! ## Logs -/

section Logs

theorem filter_isSetFor_of_isTransfer (j : Nat) (l l' : List (Event R))
    (h : l.filter isTransfer = l'.filter isTransfer) :
    l.filter (isSetFor j) = l'.filter (isSetFor j) := by
  have key : ∀ m : List (Event R), (m.filter isTransfer).filter (isSetFor j) = m.filter (isSetFor j) := by
    intro m
    rw [List.filter_filter]
    congr 1
    funext e
    cases e <;> simp [isSetFor, isTransfer]
  rw [← key l, ← key l', h]

theorem filter_isReadFor_of_isTransfer (j : Nat) (l l' : List (Event R))
    (h : l.filter isTransfer = l'.filter isTransfer) :
    l.filter (isReadFor j) = l'.filter (isReadFor j) := by
  have key : ∀ m : List (Event R), (m.filter isTransfer).filter (isReadFor j) = m.filter (isReadFor j) := by
    intro m
    rw [List.filter_filter]
    congr 1
    funext e
    cases e <;> simp [isReadFor, isTransfer]
  rw [← key l, ← key l', h]

end Logs

/-! ## The winner loop -/

section WinnerLoop

/-- A process that is not the declared winner does nothing for the target. -/
theorem FROM_winner_skip (t : Params) (ma : MultiApp P R) (to_mesh : MeshBase P)
    (is_nodal : Bool) (q w : Nat) (c : Candidates R) (j : Nat) (st : TransferState P R)
    (hw : c.min_procs[j]? = some w) (hne : w ≠ q) :
    FROM_winner t ma to_mesh is_nodal q c j st = Except.ok st := by
  simp [FROM_winner, hw, hne]

/-- The declared winner, when it holds a valid candidate, asks for the target's
degree of freedom, reads one source value and sets it. -/
theorem FROM_winner_acts (t : Params) (ma : MultiApp P R) (q : Nat) (c : Candidates R)
    (j : Nat) (st : TransferState P R)
    (hw : c.min_procs[j]? = some q) (hready : winner_ready t ma c j = true) :
    ∃ a dof to_dof v,
      FROM_winner t ma (selectMesh t.displaced_target_mesh ma.problem)
          (decide (ma.problem.variable_type = FEType_default)) q c j st =
        Except.ok { st with log := st.log ++ [Event.dofNumber none j, Event.swap ma.comm,
          Event.read a j dof, Event.swap st.comm, Event.set a j to_dof v] } := by
  unfold winner_ready at hready
  rw [Bool.and_eq_true] at hready
  obtain ⟨htarget, hsource⟩ := hready
  unfold candidate_ready at hsource
  cases ha : c.min_apps[j]? with
  | none => simp [ha] at hsource
  | some a =>
    cases hn : c.min_nodes[j]? with
    | none => simp [ha, hn] at hsource
    | some nid =>
      cases hp : ma.appProblem a with
      | none => simp [ha, hn, hp] at hsource
      | some fp =>
        cases hnode : (selectMesh t.displaced_source_mesh fp).node nid with
        | none => simp [ha, hn, hp, hnode] at hsource
        | some nd =>
          by_cases hnodal : ma.problem.variable_type = FEType_default
          · simp only [hnodal, decide_True, if_true] at htarget
            obtain ⟨tn, htn⟩ := Option.isSome_iff_exists.mp htarget
            refine ⟨a, nd.dof_number, tn.dof_number, fp.solution nd.dof_number, ?_⟩
            simp [FROM_winner, hw, hnodal, htn, ha, hn, hp, hnode, swapLibMeshComm,
              TransferState.emit]
          · simp only [hnodal, decide_False] at htarget
            obtain ⟨te, hte⟩ := Option.isSome_iff_exists.mp htarget
            refine ⟨a, nd.dof_number, te.dof_number, fp.solution nd.dof_number, ?_⟩
            simp [FROM_winner, hw, hnodal, hte, ha, hn, hp, hnode, swapLibMeshComm,
              TransferState.emit]

/-- The winner loop of the process of rank `q` over a range of target indices:
it runs to its end, leaves the communicator and the caches as they were, and
adds one read and one set for exactly the indices the process wins. -/
theorem FROM_winner_loop (t : Params) (ma : MultiApp P R) (q : Nat) (c : Candidates R) :
    ∀ (js : List Nat), js.Nodup →
      (∀ k ∈ js, ∃ w, c.min_procs[k]? = some w ∧ (w = q → winner_ready t ma c k = true)) →
      ∀ (st : TransferState P R),
        ∃ st', forEach (FROM_winner t ma (selectMesh t.displaced_target_mesh ma.problem)
              (decide (ma.problem.variable_type = FEType_default)) q c) js st = Except.ok st' ∧
          st'.comm = st.comm ∧ st'.node_map = st.node_map ∧
          st'.distance_map = st.distance_map ∧
          ∀ j, (st'.log.filter (isSetFor j)).length =
                (st.log.filter (isSetFor j)).length +
                  (if j ∈ js ∧ c.min_procs[j]? = some q then 1 else 0) ∧
              (st'.log.filter (isReadFor j)).length =
                (st.log.filter (isReadFor j)).length +
                  (if j ∈ js ∧ c.min_procs[j]? = some q then 1 else 0)
  | [], _, _, st => ⟨st, rfl, rfl, rfl, rfl, by simp⟩
  | k :: js, hnodup, hprocs, st => by
    obtain ⟨w, hw, hready⟩ := hprocs k (List.mem_cons_self k js)
    have hk : k ∉ js := (List.nodup_cons.mp hnodup).1
    have hrest : ∀ k' ∈ js, ∃ w, c.min_procs[k']? = some w ∧
        (w = q → winner_ready t ma c k' = true) :=
      fun k' hk' => hprocs k' (List.mem_cons_of_mem k hk')
    by_cases hwq : w = q
    · subst hwq
      obtain ⟨a, dof, to_dof, v, hstep⟩ := FROM_winner_acts t ma w c k st hw (hready rfl)
      obtain ⟨st', hrun, hcomm, hnm, hdm, hcount⟩ :=
        FROM_winner_loop t ma w c js (List.nodup_cons.mp hnodup).2 hrest
          { st with log := st.log ++ [Event.dofNumber none k, Event.swap ma.comm,
              Event.read a k dof, Event.swap st.comm, Event.set a k to_dof v] }
      refine ⟨st', by rw [forEach_cons_ok hstep]; exact hrun, hcomm, hnm, hdm, ?_⟩
      intro j
      obtain ⟨hset, hread⟩ := hcount j
      rw [hset, hread]
      by_cases hjk : j = k
      · subst hjk
        simp [List.filter_append, List.filter_cons, isSetFor, isReadFor, hk, hw]
      · have hkj : ¬ k = j := fun h => hjk h.symm
        simp [List.filter_append, List.filter_cons, isSetFor, isReadFor, hjk, hkj]
    · have hstep := FROM_winner_skip t ma (selectMesh t.displaced_target_mesh ma.problem)
        (decide (ma.problem.variable_type = FEType_default)) q w c k st hw hwq
      obtain ⟨st', hrun, hcomm, hnm, hdm, hcount⟩ :=
        FROM_winner_loop t ma q c js (List.nodup_cons.mp hnodup).2 hrest st
      refine ⟨st', by rw [forEach_cons_ok hstep]; exact hrun, hcomm, hnm, hdm, ?_⟩
      intro j
      obtain ⟨hset, hread⟩ := hcount j
      rw [hset, hread]
      by_cases hjk : j = k
      · subst hjk
        simp [hk, hw, hwq]
      · simp [hjk]

/-- A step of the winner loop for an index other than `j`, or for `j` on a
process that is not its winner, adds neither a read nor a set for `j`,
whether the step succeeds or fails. -/
theorem FROM_winner_other (t : Params) (ma : MultiApp P R) (to_mesh : MeshBase P)
    (is_nodal : Bool) (q : Nat) (c : Candidates R) (j k : Nat) (st : TransferState P R)
    (hskip : k = j → ∃ w, c.min_procs[k]? = some w ∧ w ≠ q) :
    (finalState (FROM_winner t ma to_mesh is_nodal q c k st)).log.filter (isSetFor j) =
        st.log.filter (isSetFor j) ∧
      (finalState (FROM_winner t ma to_mesh is_nodal q c k st)).log.filter (isReadFor j) =
        st.log.filter (isReadFor j) := by
  by_cases hk : k = j
  · obtain ⟨w, hw, hne⟩ := hskip hk
    rw [FROM_winner_skip t ma to_mesh is_nodal q w c k st hw hne]
    exact ⟨rfl, rfl⟩
  · unfold FROM_winner
    repeat' split
    all_goals
      cases to_mesh.node k <;> cases to_mesh.elem k <;> (try simp only [Option.map]) <;>
        (try split) <;>
        simp [finalState, TransferState.emit, swapLibMeshComm, List.filter_append,
          List.filter_cons, isSetFor, isReadFor, hk]

/-- A property of the state that every iteration keeps, by success or by
failure, holds in the state the loop ends or fails in. -/
theorem forEach_finalState (body : Nat → TransferState P R → Result P R (TransferState P R))
    (I : TransferState P R → Prop) :
    ∀ (xs : List Nat), (∀ x ∈ xs, ∀ s, I s → I (finalState (body x s))) →
      ∀ s, I s → I (finalState (forEach body xs s))
  | [], _, s, hs => hs
  | x :: xs, h, s, hs => by
    have hx := h x (List.mem_cons_self x xs) s hs
    cases hb : body x s with
    | error e =>
      rw [forEach_cons_error hb]
      rw [hb] at hx
      exact hx
    | ok s1 =>
      rw [forEach_cons_ok hb]
      rw [hb] at hx
      exact forEach_finalState body I xs
        (fun y hy s' hs' => h y (List.mem_cons_of_mem x hy) s' hs') s1 hx

/-- The winner loop of a process that is not the winner of `j` adds neither a
read nor a set for `j`, whether it runs to its end or fails on another index. -/
theorem FROM_winner_loop_other (t : Params) (ma : MultiApp P R) (to_mesh : MeshBase P)
    (is_nodal : Bool) (q w : Nat) (c : Candidates R) (j : Nat)
    (hw : c.min_procs[j]? = some w) (hne : w ≠ q) (js : List Nat) (st : TransferState P R) :
    (finalState (forEach (FROM_winner t ma to_mesh is_nodal q c) js st)).log.filter
        (isSetFor j) = st.log.filter (isSetFor j) ∧
      (finalState (forEach (FROM_winner t ma to_mesh is_nodal q c) js st)).log.filter
        (isReadFor j) = st.log.filter (isReadFor j) :=
  forEach_finalState (FROM_winner t ma to_mesh is_nodal q c)
    (fun s => s.log.filter (isSetFor j) = st.log.filter (isSetFor j) ∧
      s.log.filter (isReadFor j) = st.log.filter (isReadFor j))
    js
    (fun k _ s hs => by
      obtain ⟨h1, h2⟩ := FROM_winner_other t ma to_mesh is_nodal q c j k s
        (fun hk => ⟨w, by rw [hk]; exact hw, hne⟩)
      exact ⟨h1.trans hs.1, h2.trans hs.2⟩)
    st ⟨rfl, rfl⟩

end WinnerLoop

end MultiAppNearestNodeTransfer

namespace MultiAppNearestNodeTransfer

variable {P R : Type}

/-! ## The local search: what it leaves untouched -/

section LocalSearchBasics

variable [LinearOrder R] [Zero R] [Sub P]

theorem FROM_resolve_log (size : P → WithTop R) (fixed_meshes : Bool) (app id : Nat) (pos : P)
    (nodes : List (Node P)) (st : TransferState P R) :
    (FROM_resolve size fixed_meshes app id pos nodes st).2.2.log.filter isTransfer =
      st.log.filter isTransfer := by
  unfold FROM_resolve
  cases fixed_meshes
  · simp [TransferState.emit, List.filter_append, isTransfer]
  · simp only [if_true, TransferState.emit]
    cases st.node_map id with
    | none => simp [TransferState.emit, List.filter_append, isTransfer]
    | some cached =>
      cases st.distance_map id <;>
        simp [TransferState.emit, List.filter_append, isTransfer]

/-- The state in which `FROM_entity` ends, whatever its outcome. -/
theorem FROM_entity_basic (size : P → WithTop R) (t : Params) (ma : MultiApp P R)
    (from_mesh : MeshBase P) (i id : Nat) (pos : P)
    (loop loop' : Candidates R × TransferState P R)
    (h : FROM_entity size t ma from_mesh i id pos loop = Except.ok loop') :
    loop'.1.min_distances.length = loop.1.min_distances.length ∧
    loop'.1.min_nodes.length = loop.1.min_nodes.length ∧
    loop'.1.min_apps.length = loop.1.min_apps.length ∧
    loop'.2.log.filter isTransfer = loop.2.log.filter isTransfer := by
  have hlog := FROM_resolve_log size t.fixed_meshes i id pos from_mesh.local_nodes
    (swapLibMeshComm ma.comm loop.2).2
  unfold FROM_entity at h
  simp only at h
  split at h
  · exact absurd h (by simp)
  · split at h
    · split at h
      · exact absurd h (by simp)
      · simp only [Except.ok.injEq] at h
        subst h
        simp [swapLibMeshComm, List.filter_append, isTransfer] at hlog ⊢
        exact hlog
    · simp only [Except.ok.injEq] at h
      subst h
      simp [swapLibMeshComm, List.filter_append, isTransfer] at hlog ⊢
      exact hlog

theorem FROM_app_basic (size : P → WithTop R) (t : Params) (ma : MultiApp P R) (to_mesh : MeshBase P)
    (is_nodal : Bool) (i n : Nat) (L : List (Event R))
    (loop loop' : Candidates R × TransferState P R)
    (hloop : loop.1.min_distances.length = n ∧ loop.1.min_nodes.length = n ∧
      loop.1.min_apps.length = n ∧ loop.2.log.filter isTransfer = L)
    (h : FROM_app size t ma to_mesh is_nodal i loop = Except.ok loop') :
    loop'.1.min_distances.length = n ∧ loop'.1.min_nodes.length = n ∧
      loop'.1.min_apps.length = n ∧ loop'.2.log.filter isTransfer = L := by
  unfold FROM_app at h
  split at h
  · simp only [Except.ok.injEq] at h
    subst h
    exact hloop
  · rename_i from_problem _
    simp only at h
    split at h
    · exact absurd h (by simp)
    · have hstart : (loop.1, (swapLibMeshComm (swapLibMeshComm ma.comm loop.2).1
            (swapLibMeshComm ma.comm loop.2).2).2).1.min_distances.length = n ∧
          (loop.1, (swapLibMeshComm (swapLibMeshComm ma.comm loop.2).1
            (swapLibMeshComm ma.comm loop.2).2).2).1.min_nodes.length = n ∧
          (loop.1, (swapLibMeshComm (swapLibMeshComm ma.comm loop.2).1
            (swapLibMeshComm ma.comm loop.2).2).2).1.min_apps.length = n ∧
          (loop.1, (swapLibMeshComm (swapLibMeshComm ma.comm loop.2).1
            (swapLibMeshComm ma.comm loop.2).2).2).2.log.filter isTransfer = L := by
        refine ⟨hloop.1, hloop.2.1, hloop.2.2.1, ?_⟩
        simp [swapLibMeshComm, List.filter_append, isTransfer, hloop.2.2.2]
      split at h
      · exact forEach_preserves _
          (fun s : Candidates R × TransferState P R =>
            s.1.min_distances.length = n ∧ s.1.min_nodes.length = n ∧
              s.1.min_apps.length = n ∧ s.2.log.filter isTransfer = L)
          (fun x s s' hs hb => by
            obtain ⟨h1, h2, h3, h4⟩ := FROM_entity_basic size t ma _ i _ _ s s' hb
            exact ⟨h1.trans hs.1, h2.trans hs.2.1, h3.trans hs.2.2.1, h4.trans hs.2.2.2⟩)
          _ _ _ hstart h
      · exact forEach_preserves _
          (fun s : Candidates R × TransferState P R =>
            s.1.min_distances.length = n ∧ s.1.min_nodes.length = n ∧
              s.1.min_apps.length = n ∧ s.2.log.filter isTransfer = L)
          (fun x s s' hs hb => by
            obtain ⟨h1, h2, h3, h4⟩ := FROM_entity_basic size t ma _ i _ _ s s' hb
            exact ⟨h1.trans hs.1, h2.trans hs.2.1, h3.trans hs.2.2.1, h4.trans hs.2.2.2⟩)
          _ _ _ hstart h

/-- The local search, when it completes, leaves candidate vectors of the length
of the target index space and adds neither a read nor a set to the log. -/
theorem FROM_local_search_basic (size : P → WithTop R) (t : Params) (ma : MultiApp P R)
    (st : TransferState P R) (loop' : Candidates R × TransferState P R)
    (h : FROM_local_search size t ma st = Except.ok loop') :
    loop'.1.min_distances.length = target_count t ma.problem ∧
      loop'.1.min_nodes.length = target_count t ma.problem ∧
      loop'.1.min_apps.length = target_count t ma.problem ∧
      loop'.2.log.filter isTransfer = st.log.filter isTransfer := by
  unfold FROM_local_search at h
  simp only at h
  split at h
  · exact absurd h (by simp)
  · exact forEach_preserves _
      (fun s : Candidates R × TransferState P R =>
        s.1.min_distances.length = target_count t ma.problem ∧
          s.1.min_nodes.length = target_count t ma.problem ∧
          s.1.min_apps.length = target_count t ma.problem ∧
          s.2.log.filter isTransfer = st.log.filter isTransfer)
      (fun i s s' hs hb => FROM_app_basic size t ma _ _ i _ _ s s' hs hb)
      _ _ _ (by simp [Candidates.init, target_count]) h

end LocalSearchBasics

end MultiAppNearestNodeTransfer

namespace MultiAppNearestNodeTransfer

variable {P R : Type}

section ReductionClaim

variable [LinearOrder R] [Zero R] [Sub P]

/-- The run of one process in the FROM_MULTIAPP direction, given that its local
search completes and that it holds a valid candidate for every index it wins:
the run completes and the log gets one read and one set for exactly those
indices. -/
theorem execute_FROM_counts (size : P → WithTop R) (t : Params) (ma : MultiApp P R) (q : Nat)
    (cs : List (List (WithTop R))) (st : TransferState P R)
    (hsearch : completes (FROM_local_search size t ma st) = true)
    (hready : ∀ k, k < target_count t ma.problem → (minloc_at cs k).2 = q →
      winner_ready t ma (FROM_candidates size t ma st) k = true) :
    ∃ st', execute_FROM size t ma q (Communicator_minloc cs) st = Except.ok st' ∧
      ∀ j, (st'.log.filter (isSetFor j)).length =
            (st.log.filter (isSetFor j)).length +
              (if j < target_count t ma.problem ∧ (minloc_at cs j).2 = q then 1 else 0) ∧
          (st'.log.filter (isReadFor j)).length =
            (st.log.filter (isReadFor j)).length +
              (if j < target_count t ma.problem ∧ (minloc_at cs j).2 = q then 1 else 0) := by
  cases hls : FROM_local_search size t ma st with
  | error e => simp [hls, completes] at hsearch
  | ok loop =>
    obtain ⟨c, st1⟩ := loop
    obtain ⟨hlen, _, _, hquiet⟩ := FROM_local_search_basic size t ma st (c, st1) hls
    simp only at hlen hquiet
    have hcand : FROM_candidates size t ma st = c := by simp [FROM_candidates, hls]
    rw [hcand] at hready
    have hprocs : ∀ k ∈ List.range (Communicator_minloc cs c.min_distances).2.length,
        ∃ w, ({ c with min_distances := (Communicator_minloc cs c.min_distances).1,
                       min_procs := (Communicator_minloc cs c.min_distances).2 } :
                Candidates R).min_procs[k]? = some w ∧
          (w = q → winner_ready t ma
            ({ c with min_distances := (Communicator_minloc cs c.min_distances).1,
                      min_procs := (Communicator_minloc cs c.min_distances).2 } :
                Candidates R) k = true) := by
      intro k hk
      rw [List.mem_range, Communicator_minloc_length, hlen] at hk
      refine ⟨(minloc_at cs k).2, Communicator_minloc_procs cs c.min_distances k (by omega), ?_⟩
      intro hw
      exact hready k hk hw
    obtain ⟨st3, hrun, _, _, _, hcount⟩ :=
      FROM_winner_loop t ma q _ _ (List.nodup_range _) hprocs (st1.emit Event.minloc)
    refine ⟨(st3.emit (Event.close none)).emit (Event.update none), ?_, ?_⟩
    · simp only [execute_FROM, hls]
      rw [hrun]
    · intro j
      obtain ⟨hset, hread⟩ := hcount j
      have hs1 := filter_isSetFor_of_isTransfer j _ _ hquiet
      have hr1 := filter_isReadFor_of_isTransfer j _ _ hquiet
      have hcond : (j ∈ List.range (Communicator_minloc cs c.min_distances).2.length ∧
            ({ c with min_distances := (Communicator_minloc cs c.min_distances).1,
                      min_procs := (Communicator_minloc cs c.min_distances).2 } :
                Candidates R).min_procs[j]? = some q) ↔
          (j < target_count t ma.problem ∧ (minloc_at cs j).2 = q) := by
        rw [List.mem_range, Communicator_minloc_length, hlen]
        constructor
        · rintro ⟨hj, hq⟩
          rw [Communicator_minloc_procs cs c.min_distances j (by omega)] at hq
          exact ⟨hj, by simpa using hq⟩
        · rintro ⟨hj, hq⟩
          exact ⟨hj, by rw [Communicator_minloc_procs cs c.min_distances j (by omega), hq]⟩
      simp only [hcond] at hset hread
      simp only [TransferState.emit, List.filter_append] at hset hread ⊢
      simp only [isSetFor, isReadFor, List.filter_cons, List.filter_nil, List.append_nil,
        Bool.false_eq_true, if_false] at hset hread ⊢
      rw [hset, hread, hs1, hr1]
      exact ⟨rfl, rfl⟩

/-- The run of a process that is not the declared winner of the target `j`
adds neither a read nor a set for `j` to its log, whether it runs to its end or
fails in the winner loop. -/
theorem execute_FROM_other (size : P → WithTop R) (t : Params) (ma : MultiApp P R) (q : Nat)
    (cs : List (List (WithTop R))) (st : TransferState P R) (j : Nat)
    (hsearch : completes (FROM_local_search size t ma st) = true)
    (hj : j < target_count t ma.problem)
    (hne : (minloc_at cs j).2 ≠ q) :
    (finalLog (execute_FROM size t ma q (Communicator_minloc cs) st)).filter (isSetFor j) =
        st.log.filter (isSetFor j) ∧
      (finalLog (execute_FROM size t ma q (Communicator_minloc cs) st)).filter (isReadFor j) =
        st.log.filter (isReadFor j) := by
  cases hls : FROM_local_search size t ma st with
  | error e => simp [hls, completes] at hsearch
  | ok loop =>
    obtain ⟨c, st1⟩ := loop
    obtain ⟨hlen, _, _, hquiet⟩ := FROM_local_search_basic size t ma st (c, st1) hls
    simp only at hlen hquiet
    have hs1 := filter_isSetFor_of_isTransfer j _ _ hquiet
    have hr1 := filter_isReadFor_of_isTransfer j _ _ hquiet
    obtain ⟨hset, hread⟩ :=
      FROM_winner_loop_other t ma (selectMesh t.displaced_target_mesh ma.problem)
        (decide (ma.problem.variable_type = FEType_default)) q (minloc_at cs j).2
        ({ c with min_distances := (Communicator_minloc cs c.min_distances).1,
                  min_procs := (Communicator_minloc cs c.min_distances).2 } : Candidates R)
        j (Communicator_minloc_procs cs c.min_distances j (by omega)) hne
        (List.range (Communicator_minloc cs c.min_distances).2.length)
        (st1.emit Event.minloc)
    simp only [TransferState.emit, List.filter_append, isSetFor, isReadFor, List.filter_cons,
      List.filter_nil, List.append_nil, Bool.false_eq_true, if_false] at hset hread
    simp only [execute_FROM, hls, finalLog]
    cases hloop : forEach (FROM_winner t ma (selectMesh t.displaced_target_mesh ma.problem)
        (decide (ma.problem.variable_type = FEType_default)) q
        ({ c with min_distances := (Communicator_minloc cs c.min_distances).1,
                  min_procs := (Communicator_minloc cs c.min_distances).2 } : Candidates R))
        (List.range (Communicator_minloc cs c.min_distances).2.length)
        (st1.emit Event.minloc) with
    | error e =>
      simp only [TransferState.emit] at hloop
      rw [hloop] at hset hread
      simp only [TransferState.emit, hloop, finalState] at hset hread ⊢
      exact ⟨hset.trans hs1, hread.trans hr1⟩
    | ok st3 =>
      simp only [TransferState.emit] at hloop
      rw [hloop] at hset hread
      simp only [TransferState.emit, hloop, finalState, List.filter_append, isSetFor, isReadFor,
        List.filter_cons, List.filter_nil, List.append_nil, Bool.false_eq_true, if_false]
        at hset hread ⊢
      exact ⟨hset.trans hs1, hread.trans hr1⟩

variable [Add P]

/-- The run on all processes in the FROM_MULTIAPP direction, given that the
local search completes on every process and every declared winner holds a
valid candidate: every process runs to its end, and its log has one read and
one set for the target `j` if its rank is the declared winner and none
otherwise. -/
theorem execute_all_FROM_counts (size : P → WithTop R) (t : Params)
    (procs : List (MultiApp P R × TransferState P R)) (master : FEProblem P R) (j : Nat)
    (hdir : t.direction = Direction.FROM_MULTIAPP)
    (hmaster : ∀ p ∈ procs, p.1.problem = master)
    (hfresh : ∀ p ∈ procs, p.2.log = [])
    (hsearch : ∀ p ∈ procs, completes (FROM_local_search size t p.1 p.2) = true)
    (hready : winners_ready size t master procs = true)
    (hj : j < target_count t master) :
    ∀ q p', procs[q]? = some p' →
      ∃ st', (execute_all size t procs)[q]? = some (Except.ok st') ∧
        (st'.log.filter (isReadFor j)).length =
          (if q = winner_rank size t procs j then 1 else 0) ∧
        (st'.log.filter (isSetFor j)).length =
          (if q = winner_rank size t procs j then 1 else 0) := by
  intro q p' hq
  have hp'mem : p' ∈ procs := List.getElem?_mem hq
  have hready' : ∀ k, k < target_count t p'.1.problem →
      (minloc_at (procs.map (fun p => FROM_contribution size t p.1 p.2)) k).2 = q →
      winner_ready t p'.1 (FROM_candidates size t p'.1 p'.2) k = true := by
    intro k hk hw
    rw [hmaster p' hp'mem] at hk
    have hall := hready
    unfold winners_ready at hall
    rw [List.all_eq_true] at hall
    have hk' := hall k (List.mem_range.mpr hk)
    unfold winner_rank at hk'
    rw [hw, hq] at hk'
    exact hk'
  obtain ⟨st', hrun, hcount⟩ :=
    execute_FROM_counts size t p'.1 q
      (procs.map (fun p => FROM_contribution size t p.1 p.2)) p'.2
      (hsearch p' hp'mem) hready'
  have hite : (if j < target_count t master ∧
        (minloc_at (procs.map (fun p => FROM_contribution size t p.1 p.2)) j).2 = q
        then 1 else 0) = (if q = winner_rank size t procs j then 1 else 0) := by
    unfold winner_rank
    by_cases h : (minloc_at (procs.map (fun p => FROM_contribution size t p.1 p.2)) j).2 = q
    · simp [h, hj]
    · have h' : ¬ q = (minloc_at (procs.map (fun p => FROM_contribution size t p.1 p.2)) j).2 :=
        fun e => h e.symm
      simp [h, h']
  refine ⟨st', ?_, ?_, ?_⟩
  · unfold execute_all
    simp only [mapRank_getElem?, hq, Option.map_some', Nat.zero_add, execute, hdir]
    rw [hrun]
  · rw [(hcount j).2, hfresh p' hp'mem, hmaster p' hp'mem, hite]
    simp
  · rw [(hcount j).1, hfresh p' hp'mem, hmaster p' hp'mem, hite]
    simp

/-- The cross-app reduction of the FROM_MULTIAPP direction on a list of
processes.  When the local search has completed on every process, the
reduction declares for a target index `j` one rank `r`: every process finds
`r` in `min_procs[j]`; `r` is a rank of the run and the only one equal to
`min_procs[j]`; the local candidate distance of process `r` for `j` is the
minimum of the candidate distances over all processes.  A process of another
rank adds neither a read nor a set for `j` to its log, however its run ends.
The process of rank `r`, when it holds a valid candidate for every index it
wins, runs to its end with exactly one read and one set for `j`. -/
theorem reduction_on_processes (size : P → WithTop R) (t : Params)
    (procs : List (MultiApp P R × TransferState P R)) (master : FEProblem P R) (j : Nat)
    (hdir : t.direction = Direction.FROM_MULTIAPP)
    (hne : procs ≠ [])
    (hmaster : ∀ p ∈ procs, p.1.problem = master)
    (hfresh : ∀ p ∈ procs, p.2.log = [])
    (hsearch : ∀ p ∈ procs, completes (FROM_local_search size t p.1 p.2) = true)
    (hj : j < target_count t master) :
    ∃ r p dmin, winner_rank size t procs j = r ∧ procs[r]? = some p ∧
      (∀ p' ∈ procs, (Communicator_minloc (procs.map (fun p => FROM_contribution size t p.1 p.2))
          (FROM_candidates size t p'.1 p'.2).min_distances).2[j]? = some r) ∧
      (∀ q, q < procs.length → (winner_rank size t procs j = q ↔ q = r)) ∧
      (FROM_candidates size t p.1 p.2).min_distances[j]? = some dmin ∧
      (∀ p' ∈ procs, ∀ d, (FROM_candidates size t p'.1 p'.2).min_distances[j]? = some d →
        dmin ≤ d) ∧
      (∀ q p', procs[q]? = some p' → q ≠ r →
        ∃ res, (execute_all size t procs)[q]? = some res ∧
          (finalLog res).filter (isReadFor j) = [] ∧
          (finalLog res).filter (isSetFor j) = []) ∧
      ((∀ k, k < target_count t master → winner_rank size t procs k = r →
          winner_ready t p.1 (FROM_candidates size t p.1 p.2) k = true) →
        ∃ st', (execute_all size t procs)[r]? = some (Except.ok st') ∧
          (st'.log.filter (isReadFor j)).length = 1 ∧
          (st'.log.filter (isSetFor j)).length = 1) := by
  have hcontrib : ∀ p ∈ procs, FROM_contribution size t p.1 p.2 =
        (FROM_candidates size t p.1 p.2).min_distances ∧
      (FROM_candidates size t p.1 p.2).min_distances.length = target_count t master := by
    intro p hp
    have hc := hsearch p hp
    cases hls : FROM_local_search size t p.1 p.2 with
    | error e => simp [hls, completes] at hc
    | ok loop =>
      obtain ⟨hlen, _⟩ := FROM_local_search_basic size t p.1 p.2 loop hls
      rw [hmaster p hp] at hlen
      simp [FROM_contribution, FROM_candidates, hls, hlen]
  have hne' : procs.map (fun p => FROM_contribution size t p.1 p.2) ≠ [] := by
    simpa using hne
  obtain ⟨c0, hc0, hval, hmin, _⟩ :=
    minloc_at_spec (procs.map (fun p => FROM_contribution size t p.1 p.2)) j hne'
  rw [List.getElem?_map] at hc0
  cases hp : procs[(minloc_at (procs.map (fun p => FROM_contribution size t p.1 p.2)) j).2]? with
  | none => simp [hp] at hc0
  | some p =>
    simp only [hp, Option.map_some', Option.some.injEq] at hc0
    have hpmem : p ∈ procs := List.getElem?_mem hp
    obtain ⟨hpc, hplen⟩ := hcontrib p hpmem
    refine ⟨winner_rank size t procs j, p,
      (minloc_at (procs.map (fun p => FROM_contribution size t p.1 p.2)) j).1, rfl, hp,
      ?_, ?_, ?_, ?_, ?_, ?_⟩
    · intro p' hp'
      exact Communicator_minloc_procs _ _ j (by rw [(hcontrib p' hp').2]; exact hj)
    · intro q _
      exact ⟨fun h => h.symm, fun h => h.symm⟩
    · rw [← hval, ← hc0, hpc, List.getD_eq_getElem?_getD,
        List.getElem?_eq_getElem (by omega)]
      simp
    · intro p' hp' d hd
      have h1 := hmin _ (List.mem_map.mpr ⟨p', hp', rfl⟩)
      rw [(hcontrib p' hp').1, List.getD_eq_getElem?_getD, hd] at h1
      simpa using h1
    · intro q p' hq hqr
      have hp'mem : p' ∈ procs := List.getElem?_mem hq
      obtain ⟨hset, hread⟩ :=
        execute_FROM_other size t p'.1 q
          (procs.map (fun p => FROM_contribution size t p.1 p.2)) p'.2 j
          (hsearch p' hp'mem) (by rw [hmaster p' hp'mem]; exact hj)
          (fun h => hqr (by rw [← h]; rfl))
      refine ⟨execute_FROM size t p'.1 q
          (Communicator_minloc (procs.map (fun p => FROM_contribution size t p.1 p.2))) p'.2,
        ?_, ?_, ?_⟩
      · unfold execute_all
        simp only [mapRank_getElem?, hq, Option.map_some', Nat.zero_add, execute, hdir]
      · rw [hread, hfresh p' hp'mem]
        rfl
      · rw [hset, hfresh p' hp'mem]
        rfl
    · intro hready
      obtain ⟨st', hrun, hcount⟩ :=
        execute_FROM_counts size t p.1 (winner_rank size t procs j)
          (procs.map (fun p => FROM_contribution size t p.1 p.2)) p.2 (hsearch p hpmem)
          (fun k hk hw => hready k (by rw [hmaster p hpmem] at hk; exact hk)
            (by unfold winner_rank at hw ⊢; exact hw))
      refine ⟨st', ?_, ?_, ?_⟩
      · unfold execute_all
        simp only [mapRank_getElem?, Option.map_some', Nat.zero_add, execute, hdir]
        unfold winner_rank
        rw [hp]
        simp only [Option.map_some', Option.some.injEq]
        exact hrun
      · rw [(hcount j).2, hfresh p hpmem, hmaster p hpmem]
        simp [hj, winner_rank]
      · rw [(hcount j).1, hfresh p hpmem, hmaster p hpmem]
        simp [hj, winner_rank]

end ReductionClaim

end MultiAppNearestNodeTransfer

namespace MultiAppNearestNodeTransfer

variable {P R : Type}

/-! ## TO_MULTIAPP: one set per target entity -/

section ToDirection

theorem setPlaces_append (l l' : List (Event R)) :
    setPlaces (l ++ l') = setPlaces l ++ setPlaces l' := by
  simp [setPlaces, setEvents, List.filterMap_append]

theorem TO_targets_of_cons (t : Params) (ma : MultiApp P R) (i : Nat) (rest : List Nat) :
    TO_targets_of t ma (i :: rest) = TO_targets_of t ma [i] ++ TO_targets_of t ma rest := by
  simp [TO_targets_of]

variable [LinearOrder R] [Zero R] [Sub P]

/-- When some node of the source range has a computed distance below the
sentinel and the cache holds no NULL entry, the resolution yields a node,
stores no NULL and sets nothing. -/
theorem TO_resolve_some (size : P → WithTop R) (fixed_meshes : Bool) (app id : Nat) (pos : P)
    (nodes : List (Node P)) (st : TransferState P R)
    (hnodes : ∃ m ∈ nodes, size (pos - m.point) < ⊤)
    (hcache : ∀ k, st.node_map k ≠ some none) :
    ∃ n, (TO_resolve size fixed_meshes app id pos nodes st).1 = some n ∧
      (∀ k, (TO_resolve size fixed_meshes app id pos nodes st).2.2.node_map k ≠ some none) ∧
      setPlaces (TO_resolve size fixed_meshes app id pos nodes st).2.2.log = setPlaces st.log := by
  obtain ⟨n, _, _, hfound⟩ := getNearestNode_isSome size pos (0 : WithTop R) nodes hnodes
  unfold TO_resolve
  cases fixed_meshes
  · refine ⟨n, by simp [hfound], by simpa [TransferState.emit] using hcache, ?_⟩
    simp [TransferState.emit, setPlaces_append, setPlaces, setEvents]
  · simp only [if_true, TransferState.emit]
    cases hc : st.node_map id with
    | none =>
      refine ⟨n, by simp [hfound], ?_, ?_⟩
      · intro k
        simp only [mapInsert, TransferState.emit, hfound]
        by_cases hk : k = id
        · simp [hk, hfound]
        · simpa [hk] using hcache k
      · simp [TransferState.emit, setPlaces_append, setPlaces, setEvents]
    | some cached =>
      cases cached with
      | none => exact absurd hc (hcache id)
      | some m =>
        refine ⟨m, by simp, by simpa using hcache, ?_⟩
        simp [TransferState.emit, setPlaces_append, setPlaces, setEvents]

variable [Add P]

/-- The body of the entity loops: it completes, and sets one value exactly when the entity has a degree of freedom. -/
theorem TO_entity_ok (size : P → WithTop R) (t : Params) (ma : MultiApp P R) (from_mesh : MeshBase P)
    (serialized_solution : Nat → R) (i id : Nat) (position : P) (n_dofs dof_number : Nat)
    (loop : MPI_Comm × TransferState P R)
    (hnodes : ∀ pos, ∃ m ∈ from_mesh.nodes, size (pos - m.point) < ⊤) (hcache : ∀ k, loop.2.node_map k ≠ some none) :
    ∃ loop', TO_entity size t ma from_mesh serialized_solution i id position n_dofs dof_number
        loop = Except.ok loop' ∧
      (∀ k, loop'.2.node_map k ≠ some none) ∧
      setPlaces loop'.2.log =
        setPlaces loop.2.log ++ (if n_dofs > 0 then [(i, id, dof_number)] else []) := by
  unfold TO_entity
  by_cases hd : n_dofs > 0
  · simp only [hd, if_true]
    obtain ⟨n, hn, hcache', hlog⟩ :=
      TO_resolve_some size t.fixed_meshes i id (position + ma.position i) from_mesh.nodes
        (swapLibMeshComm loop.1 (loop.2.emit (Event.dofNumber (some i) id))).2 (hnodes _)
        (by simpa [swapLibMeshComm, TransferState.emit] using hcache)
    simp only [hn]
    refine ⟨_, rfl, ?_, ?_⟩
    · simpa [swapLibMeshComm, TransferState.emit] using hcache'
    · simp only [swapLibMeshComm, TransferState.emit, setPlaces_append] at hlog ⊢
      rw [hlog]
      simp [setPlaces, setEvents]
  · simp only [hd, if_false]
    exact ⟨loop, rfl, hcache, by simp⟩

/-- The body of the app loop: it completes and sets one value per local target
entity of the app that has a degree of freedom, in iteration order. -/
theorem TO_app_ok (size : P → WithTop R) (t : Params) (ma : MultiApp P R) (from_mesh : MeshBase P)
    (serialized_solution : Nat → R) (i : Nat) (st : TransferState P R)
    (hnodes : ∀ pos, ∃ m ∈ from_mesh.nodes, size (pos - m.point) < ⊤) (hcache : ∀ k, st.node_map k ≠ some none) :
    ∃ st', TO_app size t ma from_mesh serialized_solution i st = Except.ok st' ∧
      (∀ k, st'.node_map k ≠ some none) ∧
      setPlaces st'.log = setPlaces st.log ++ TO_targets_of t ma [i] := by
  unfold TO_app
  cases happ : ma.appProblem i with
  | none => exact ⟨st, rfl, hcache, by simp [TO_targets_of, happ]⟩
  | some app =>
    simp only
    by_cases hfam : app.variable_type.family = FEFamily.LAGRANGE
    · obtain ⟨loop', hrun, hinv⟩ :=
        forEach_ok_indexed
          (fun (node : Node P) =>
            TO_entity size t ma from_mesh serialized_solution i node.id node.point
              node.n_dofs node.dof_number)
          (fun (done : List (Node P)) (s : MPI_Comm × TransferState P R) =>
            (∀ k, s.2.node_map k ≠ some none) ∧
            setPlaces s.2.log = setPlaces st.log ++
              ((done.filter (fun n => decide (n.n_dofs > 0))).map
                (fun n => (i, n.id, n.dof_number))))
          (selectMesh t.displaced_target_mesh app).local_nodes
          (fun done x s _ hI => by
            obtain ⟨s', hs', hc', hl'⟩ :=
              TO_entity_ok size t ma from_mesh serialized_solution i x.id x.point x.n_dofs
                x.dof_number s hnodes hI.1
            refine ⟨s', hs', hc', ?_⟩
            rw [hl', hI.2, List.filter_append, List.map_append, List.append_assoc]
            by_cases hd : x.n_dofs > 0 <;> simp [hd])
          [] (swapLibMeshComm ma.comm st)
          ⟨by simpa [swapLibMeshComm] using hcache,
           by simp [swapLibMeshComm, setPlaces_append, setPlaces, setEvents]⟩
      simp only [hfam, decide_True, if_true, hrun]
      refine ⟨_, rfl, by simpa [swapLibMeshComm, TransferState.emit] using hinv.1, ?_⟩
      simp only [swapLibMeshComm, TransferState.emit, setPlaces_append, List.nil_append] at hinv ⊢
      rw [hinv.2]
      simp [TO_targets_of, happ, TO_app_targets, hfam, setPlaces, setEvents, List.map_map,
        Function.comp_def]
    · obtain ⟨loop', hrun, hinv⟩ :=
        forEach_ok_indexed
          (fun (elem : Elem P) =>
            TO_entity size t ma from_mesh serialized_solution i elem.id elem.centroid
              elem.n_dofs elem.dof_number)
          (fun (done : List (Elem P)) (s : MPI_Comm × TransferState P R) =>
            (∀ k, s.2.node_map k ≠ some none) ∧
            setPlaces s.2.log = setPlaces st.log ++
              ((done.filter (fun e => decide (e.n_dofs > 0))).map
                (fun e => (i, e.id, e.dof_number))))
          (selectMesh t.displaced_target_mesh app).local_elements
          (fun done x s _ hI => by
            obtain ⟨s', hs', hc', hl'⟩ :=
              TO_entity_ok size t ma from_mesh serialized_solution i x.id x.centroid x.n_dofs
                x.dof_number s hnodes hI.1
            refine ⟨s', hs', hc', ?_⟩
            rw [hl', hI.2, List.filter_append, List.map_append, List.append_assoc]
            by_cases hd : x.n_dofs > 0 <;> simp [hd])
          [] (swapLibMeshComm ma.comm st)
          ⟨by simpa [swapLibMeshComm] using hcache,
           by simp [swapLibMeshComm, setPlaces_append, setPlaces, setEvents]⟩
      simp only [hfam, decide_False, hrun]
      refine ⟨_, rfl, by simpa [swapLibMeshComm, TransferState.emit] using hinv.1, ?_⟩
      simp only [swapLibMeshComm, TransferState.emit, setPlaces_append, List.nil_append] at hinv ⊢
      rw [hinv.2]
      simp [TO_targets_of, happ, TO_app_targets, hfam, setPlaces, setEvents, List.map_map,
        Function.comp_def]

/-- The app loop over a list of app indices. -/
theorem TO_apps_ok (size : P → WithTop R) (t : Params) (ma : MultiApp P R) (from_mesh : MeshBase P)
    (serialized_solution : Nat → R) (hnodes : ∀ pos, ∃ m ∈ from_mesh.nodes, size (pos - m.point) < ⊤) :
    ∀ (apps : List Nat) (st : TransferState P R), (∀ k, st.node_map k ≠ some none) →
      ∃ st', forEach (TO_app size t ma from_mesh serialized_solution) apps st = Except.ok st' ∧
        (∀ k, st'.node_map k ≠ some none) ∧
        setPlaces st'.log = setPlaces st.log ++ TO_targets_of t ma apps
  | [], st, hcache => ⟨st, rfl, hcache, by simp [TO_targets_of]⟩
  | i :: rest, st, hcache => by
    obtain ⟨st1, h1, hc1, hl1⟩ :=
      TO_app_ok size t ma from_mesh serialized_solution i st hnodes hcache
    obtain ⟨st', h', hc', hl'⟩ :=
      TO_apps_ok size t ma from_mesh serialized_solution hnodes rest st1 hc1
    refine ⟨st', by rw [forEach_cons_ok h1]; exact h', hc', ?_⟩
    rw [hl', hl1, TO_targets_of_cons t ma i rest, List.append_assoc]

/-- The TO_MULTIAPP direction on a source mesh that has, for every position, a
node at a computed distance below the sentinel: the run completes and its sets
are, in order, one per local target entity with a degree of freedom of each
local app. -/
theorem execute_TO_sets (size : P → WithTop R) (t : Params) (ma : MultiApp P R)
    (st : TransferState P R)
    (hdisp : (t.displaced_source_mesh && ma.problem.displaced.isSome) = false)
    (hserial : ma.problem.mesh.is_serial = true)
    (hnodes : ∀ pos, ∃ m ∈ ma.problem.mesh.nodes, size (pos - m.point) < ⊤)
    (hcache : ∀ k, st.node_map k ≠ some none) :
    ∃ st', execute_TO size t ma st = Except.ok st' ∧
      setPlaces st'.log = setPlaces st.log ++ TO_targets t ma := by
  obtain ⟨st', hrun, _, hlog⟩ :=
    TO_apps_ok size t ma ma.problem.mesh ma.problem.solution hnodes
      (List.range ma.numGlobalApps) (st.emit Event.localize)
      (by simpa [TransferState.emit] using hcache)
  refine ⟨st', ?_, ?_⟩
  · unfold execute_TO
    simp only [hdisp, hserial]
    simpa using hrun
  · rw [hlog]
    simp [TransferState.emit, setPlaces_append, setPlaces, setEvents, TO_targets]

end ToDirection

end MultiAppNearestNodeTransfer

namespace MultiAppNearestNodeTransfer

variable {P R : Type}

/-! ## FROM_MULTIAPP: the local search completes and keeps its candidates valid -/

section LocalSearch

theorem node_isSome_of_mem (m : MeshBase P) (n : Node P) (h : n ∈ m.local_nodes) :
    (m.node n.id).isSome = true := by
  unfold MeshBase.node
  rw [List.find?_isSome]
  refine ⟨n, ?_, by simp⟩
  unfold MeshBase.local_nodes at h
  exact (List.mem_filter.mp h).1

theorem node_isSome_of_id_mem (m : MeshBase P) (j : Nat) (h : j ∈ m.nodes.map (fun n => n.id)) :
    (m.node j).isSome = true := by
  unfold MeshBase.node
  rw [List.find?_isSome]
  obtain ⟨n, hn, hid⟩ := List.mem_map.mp h
  exact ⟨n, hn, by simp [hid]⟩

theorem elem_isSome_of_id_mem (m : MeshBase P) (j : Nat) (h : j ∈ m.elems.map (fun e => e.id)) :
    (m.elem j).isSome = true := by
  unfold MeshBase.elem
  rw [List.find?_isSome]
  obtain ⟨e, he, hid⟩ := List.mem_map.mp h
  exact ⟨e, he, by simp [hid]⟩

theorem candidate_ready_congr (t : Params) (ma : MultiApp P R) (c c' : Candidates R) (k : Nat)
    (ha : c'.min_apps[k]? = c.min_apps[k]?) (hn : c'.min_nodes[k]? = c.min_nodes[k]?) :
    candidate_ready t ma c' k = candidate_ready t ma c k := by
  unfold candidate_ready
  rw [ha, hn]

variable [LinearOrder R] [Zero R] [Sub P]

/-- What the resolution hands to the comparison with the best distance so far:
a distance below it comes with a node, of the searched range or cached and
readable in every local app, and the cache stays accounted for both outcomes
of the comparison. -/
theorem FROM_resolve_facts (size : P → WithTop R) (t : Params) (ma : MultiApp P R) (app id : Nat)
    (pos : P) (nodes : List (Node P)) (st : TransferState P R) (c : Candidates R)
    (best : WithTop R) (hbest : c.min_distances[id]? = some best)
    (hK : t.fixed_meshes = true → cache_accounted t ma c st) :
    ((FROM_resolve size t.fixed_meshes app id pos nodes st).2.1 < best →
      ∃ n, (FROM_resolve size t.fixed_meshes app id pos nodes st).1 = some n ∧
        (n ∈ nodes ∨ readable_everywhere t ma n.id)) ∧
    (t.fixed_meshes = true →
      cache_accounted t ma
        { c with min_distances :=
            c.min_distances.set id (FROM_resolve size t.fixed_meshes app id pos nodes st).2.1 }
        (FROM_resolve size t.fixed_meshes app id pos nodes st).2.2 ∧
      (¬ (FROM_resolve size t.fixed_meshes app id pos nodes st).2.1 < best →
        cache_accounted t ma c (FROM_resolve size t.fixed_meshes app id pos nodes st).2.2)) := by
  have hid : id < c.min_distances.length := (List.getElem?_eq_some.mp hbest).1
  have hsearch : ∀ d : WithTop R, (getNearestNode size pos d nodes).2 < best →
      ∃ n, (getNearestNode size pos d nodes).1 = some n ∧
        (n ∈ nodes ∨ readable_everywhere t ma n.id) := by
    intro d hlt
    rcases getNearestNode_cases size pos d nodes with hnone | ⟨n, hmem, _, hres⟩
    · rw [hnone] at hlt
      exact absurd hlt (not_lt.mpr le_top)
    · exact ⟨n, by rw [hres], Or.inl hmem⟩
  have hsearch0 := hsearch ((0 : R) : WithTop R)
  unfold FROM_resolve
  simp only []
  generalize getNearestNode size pos ((0 : R) : WithTop R) nodes = found at hsearch0 ⊢
  cases hfm : t.fixed_meshes
  · exact ⟨by simpa using hsearch0, by simp⟩
  · have hacc := hK hfm
    simp only [if_true, TransferState.emit]
    cases hc : st.node_map id with
    | none =>
      simp only []
      refine ⟨hsearch0, fun _ => ⟨?_, ?_⟩⟩
      · intro id' hid'
        simp only [mapInsert] at hid' ⊢
        by_cases h : id' = id
        · subst h
          refine ⟨found.2, by simp, ?_⟩
          intro b hb
          simp only [List.getElem?_set_self hid, Option.some.injEq] at hb
          exact Or.inl (le_of_eq hb.symm)
        · simp only [h, if_false] at hid' ⊢
          obtain ⟨d, hd, hle⟩ := hacc id' hid'
          refine ⟨d, hd, ?_⟩
          intro b hb
          rw [List.getElem?_set_ne (fun e => h e.symm)] at hb
          exact hle b hb
      · intro hnlt id' hid'
        simp only [mapInsert] at hid' ⊢
        by_cases h : id' = id
        · subst h
          refine ⟨found.2, by simp, ?_⟩
          intro b hb
          rw [hbest] at hb
          simp only [Option.some.injEq] at hb
          subst hb
          exact Or.inl (not_lt.mp hnlt)
        · simp only [h, if_false] at hid' ⊢
          exact hacc id' hid'
    | some cached =>
      obtain ⟨d, hd, hle⟩ := hacc id (by simp [hc])
      simp only [hd]
      refine ⟨?_, fun _ => ⟨?_, ?_⟩⟩
      · intro hlt
        rcases hle best hbest with h | ⟨nd, hnd, hread⟩
        · exact absurd hlt (not_lt.mpr h)
        · rw [hc] at hnd
          simp only [Option.some.injEq] at hnd
          exact ⟨nd, hnd, Or.inr hread⟩
      · intro id' hid'
        obtain ⟨d', hd', hle'⟩ := hacc id' hid'
        refine ⟨d', hd', ?_⟩
        intro b hb
        by_cases h : id' = id
        · subst h
          simp only [List.getElem?_set_self hid, Option.some.injEq] at hb
          rw [hd] at hd'
          simp only [Option.some.injEq] at hd'
          exact Or.inl (by rw [← hb, hd'])
        · rw [List.getElem?_set_ne (fun e => h e.symm)] at hb
          exact hle' b hb
      · intro _ id' hid'
        exact hacc id' hid'

/-- The body of the target loops of the local search for a local app: it
completes and keeps the lengths, the validity of the candidates and the
accounting of the cache. -/
theorem FROM_entity_ok (size : P → WithTop R) (t : Params) (ma : MultiApp P R) (fp : FEProblem P R)
    (i id n : Nat) (pos : P) (loop : Candidates R × TransferState P R)
    (happ : ma.appProblem i = some fp) (hid : id < n)
    (hlen : loop.1.min_distances.length = n ∧ loop.1.min_nodes.length = n ∧
      loop.1.min_apps.length = n)
    (hvalid : candidates_valid t ma loop.1)
    (hK : t.fixed_meshes = true → cache_accounted t ma loop.1 loop.2) :
    ∃ loop', FROM_entity size t ma (selectMesh t.displaced_source_mesh fp) i id pos loop =
        Except.ok loop' ∧
      (loop'.1.min_distances.length = n ∧ loop'.1.min_nodes.length = n ∧
        loop'.1.min_apps.length = n) ∧
      candidates_valid t ma loop'.1 ∧
      (t.fixed_meshes = true → cache_accounted t ma loop'.1 loop'.2) := by
  obtain ⟨c, st⟩ := loop
  simp only at hlen hvalid hK
  obtain ⟨hl1, hl2, hl3⟩ := hlen
  have hidlt : id < c.min_distances.length := by omega
  have hbest : c.min_distances[id]? = some c.min_distances[id] :=
    List.getElem?_eq_getElem hidlt
  obtain ⟨hnode, hcache⟩ :=
    FROM_resolve_facts size t ma i id pos
      (selectMesh t.displaced_source_mesh fp).local_nodes (swapLibMeshComm ma.comm st).2 c
      c.min_distances[id] hbest hK
  unfold FROM_entity
  simp only [hbest]
  by_cases hlt : (FROM_resolve size t.fixed_meshes i id pos
      (selectMesh t.displaced_source_mesh fp).local_nodes (swapLibMeshComm ma.comm st).2).2.1 <
        c.min_distances[id]
  · obtain ⟨nd, hnd, hmem⟩ := hnode hlt
    simp only [hlt, if_true, hnd]
    refine ⟨_, rfl, ⟨by simp [hl1], by simp [hl2], by simp [hl3]⟩, ?_, ?_⟩
    · intro k d hd hdlt
      by_cases hk : k = id
      · subst hk
        unfold candidate_ready
        simp only [List.getElem?_set_self (show k < c.min_apps.length by omega),
          List.getElem?_set_self (show k < c.min_nodes.length by omega), happ]
        rcases hmem with hmem | hread
        · exact node_isSome_of_mem _ nd hmem
        · exact hread i fp happ
      · have hne : ¬ id = k := fun e => hk e.symm
        simp only [List.getElem?_set_ne hne] at hd
        rw [candidate_ready_congr t ma c _ k (by simp [List.getElem?_set_ne hne])
          (by simp [List.getElem?_set_ne hne])]
        exact hvalid k d hd hdlt
    · intro hfixed
      exact (hcache hfixed).1
  · simp only [hlt, if_false]
    refine ⟨_, rfl, ⟨hl1, hl2, hl3⟩, hvalid, ?_⟩
    intro hfixed
    exact (hcache hfixed).2 hlt

/-- The body of the app loop of the local search: it completes and keeps the invariants. -/
theorem FROM_app_ok (size : P → WithTop R) (t : Params) (ma : MultiApp P R) (to_mesh : MeshBase P)
    (is_nodal : Bool) (i n : Nat) (loop : Candidates R × TransferState P R)
    (hserial : ∀ fp, ma.appProblem i = some fp → fp.mesh.is_serial = true)
    (hnodes : is_nodal = true → ∀ x ∈ to_mesh.nodes, x.id < n)
    (helems : is_nodal = false → ∀ e ∈ to_mesh.elems, e.id < n)
    (hlen : loop.1.min_distances.length = n ∧ loop.1.min_nodes.length = n ∧
      loop.1.min_apps.length = n)
    (hvalid : candidates_valid t ma loop.1)
    (hK : t.fixed_meshes = true → cache_accounted t ma loop.1 loop.2) :
    ∃ loop', FROM_app size t ma to_mesh is_nodal i loop = Except.ok loop' ∧
      (loop'.1.min_distances.length = n ∧ loop'.1.min_nodes.length = n ∧
        loop'.1.min_apps.length = n) ∧
      candidates_valid t ma loop'.1 ∧
      (t.fixed_meshes = true → cache_accounted t ma loop'.1 loop'.2) := by
  unfold FROM_app
  cases happ : ma.appProblem i with
  | none => exact ⟨loop, rfl, hlen, hvalid, hK⟩
  | some fp =>
    simp only [hserial fp happ, Bool.not_true, Bool.false_eq_true, if_false]
    cases is_nodal
    · simp only [Bool.false_eq_true, if_false]
      exact forEach_ok _
        (fun s : Candidates R × TransferState P R =>
          (s.1.min_distances.length = n ∧ s.1.min_nodes.length = n ∧
            s.1.min_apps.length = n) ∧
          candidates_valid t ma s.1 ∧
          (t.fixed_meshes = true → cache_accounted t ma s.1 s.2))
        to_mesh.elems
        (fun x s hx hI =>
          FROM_entity_ok size t ma fp i x.id n _ s happ (helems rfl x hx) hI.1 hI.2.1 hI.2.2)
        _ ⟨hlen, hvalid, hK⟩
    · simp only [if_true]
      exact forEach_ok _
        (fun s : Candidates R × TransferState P R =>
          (s.1.min_distances.length = n ∧ s.1.min_nodes.length = n ∧
            s.1.min_apps.length = n) ∧
          candidates_valid t ma s.1 ∧
          (t.fixed_meshes = true → cache_accounted t ma s.1 s.2))
        to_mesh.nodes
        (fun x s hx hI =>
          FROM_entity_ok size t ma fp i x.id n _ s happ (hnodes rfl x hx) hI.1 hI.2.1 hI.2.2)
        _ ⟨hlen, hvalid, hK⟩

/-- The local search of a process completes and leaves valid candidates, when
the meshes are serial, the target ids are below the number of target entities
and, with `fixed_meshes`, the cache is readable. -/
theorem FROM_local_search_ok (size : P → WithTop R) (t : Params) (ma : MultiApp P R)
    (st : TransferState P R)
    (hserial : ma.problem.mesh.is_serial = true)
    (happs : ∀ i fp, ma.appProblem i = some fp → fp.mesh.is_serial = true)
    (hids : ∀ id ∈ target_ids t ma.problem, id < target_count t ma.problem)
    (hcache : t.fixed_meshes = true → cache_readable t ma st) :
    ∃ loop', FROM_local_search size t ma st = Except.ok loop' ∧
      candidates_valid t ma loop'.1 := by
  unfold FROM_local_search
  simp only [hserial, Bool.not_true, Bool.false_eq_true, if_false]
  have hstart : ((Candidates.init (target_count t ma.problem) : Candidates R).min_distances.length
        = target_count t ma.problem ∧
      (Candidates.init (target_count t ma.problem) : Candidates R).min_nodes.length
        = target_count t ma.problem ∧
      (Candidates.init (target_count t ma.problem) : Candidates R).min_apps.length
        = target_count t ma.problem) ∧
      candidates_valid t ma (Candidates.init (target_count t ma.problem)) ∧
      (t.fixed_meshes = true →
        cache_accounted t ma (Candidates.init (target_count t ma.problem) : Candidates R) st) := by
    have htop : ∀ (k : Nat) (d : WithTop R),
        (Candidates.init (target_count t ma.problem) : Candidates R).min_distances[k]? = some d →
          d = ⊤ := by
      intro k d hd
      simp only [Candidates.init] at hd
      rw [List.getElem?_replicate] at hd
      split at hd
      · simpa using hd.symm
      · simp at hd
    refine ⟨by simp [Candidates.init], ?_, ?_⟩
    · intro k d hd hlt
      rw [htop k d hd] at hlt
      exact absurd hlt (lt_irrefl _)
    · intro hfixed id hid
      obtain ⟨d, hd, hcases⟩ := hcache hfixed id hid
      refine ⟨d, hd, ?_⟩
      intro b hb
      rw [htop id b hb]
      rcases hcases with h | h
      · exact Or.inl (le_of_eq h.symm)
      · exact Or.inr h
  obtain ⟨loop', hrun, _, hvalid, _⟩ :=
    forEach_ok (FROM_app size t ma (selectMesh t.displaced_target_mesh ma.problem)
        (decide (ma.problem.variable_type = FEType_default)) )
      (fun s : Candidates R × TransferState P R =>
        (s.1.min_distances.length = target_count t ma.problem ∧
          s.1.min_nodes.length = target_count t ma.problem ∧
          s.1.min_apps.length = target_count t ma.problem) ∧
        candidates_valid t ma s.1 ∧
        (t.fixed_meshes = true → cache_accounted t ma s.1 s.2))
      (List.range ma.numGlobalApps)
      (fun i s _ hI =>
        FROM_app_ok size t ma _ _ i _ s (happs i)
          (fun hn x hx => hids x.id (by
            simp only [decide_eq_true_eq] at hn
            simp only [target_ids, hn, decide_True, if_true]
            exact List.mem_map.mpr ⟨x, hx, rfl⟩))
          (fun hn e he => hids e.id (by
            simp only [decide_eq_false_iff_not] at hn
            simp only [target_ids, hn, decide_False]
            exact List.mem_map.mpr ⟨e, he, rfl⟩))
          hI.1 hI.2.1 hI.2.2)
      (Candidates.init (target_count t ma.problem), st) hstart
  refine ⟨loop', ?_, hvalid⟩
  simp only [target_count] at hrun
  exact hrun

end LocalSearch

end MultiAppNearestNodeTransfer

namespace MultiAppNearestNodeTransfer

variable {P R : Type}

section WrittenOnce

/-- The target entity of index `j` exists when the target ids are `0 .. n-1`. -/
theorem target_exists (t : Params) (master : FEProblem P R) (j : Nat)
    (hids : target_ids t master = List.range (target_count t master))
    (hj : j < target_count t master) :
    (if decide (master.variable_type = FEType_default)
      then ((selectMesh t.displaced_target_mesh master).node j).isSome
      else ((selectMesh t.displaced_target_mesh master).elem j).isSome) = true := by
  have hmem : j ∈ target_ids t master := by rw [hids]; exact List.mem_range.mpr hj
  unfold target_ids at hmem
  by_cases hn : master.variable_type = FEType_default
  · simp only [hn, decide_True, if_true] at hmem ⊢
    exact node_isSome_of_id_mem _ j hmem
  · simp only [hn, decide_False] at hmem ⊢
    exact elem_isSome_of_id_mem _ j hmem

variable [LinearOrder R] [Zero R] [Sub P]

/-- The hypotheses of the winner loop follow from conditions on the input:
with serial meshes, target ids `0 .. n-1`, the cache off or readable, and a
candidate on some process for every target id, the local search completes on
every process and every declared winner holds a valid candidate. -/
theorem local_search_ready (size : P → WithTop R) (t : Params)
    (procs : List (MultiApp P R × TransferState P R)) (master : FEProblem P R)
    (hne : procs ≠ [])
    (hmaster : ∀ p ∈ procs, p.1.problem = master)
    (hserial : master.mesh.is_serial = true)
    (hids : target_ids t master = List.range (target_count t master))
    (happs : ∀ p ∈ procs, ∀ i fp, p.1.appProblem i = some fp → fp.mesh.is_serial = true)
    (hcache : t.fixed_meshes = true → ∀ p ∈ procs, cache_readable t p.1 p.2)
    (hcand : ∀ j, j < target_count t master → ∃ p ∈ procs, ∃ d,
      (FROM_candidates size t p.1 p.2).min_distances[j]? = some d ∧ d < ⊤) :
    (∀ p ∈ procs, completes (FROM_local_search size t p.1 p.2) = true) ∧
      winners_ready size t master procs = true := by
  have hok : ∀ p ∈ procs, completes (FROM_local_search size t p.1 p.2) = true ∧
      candidates_valid t p.1 (FROM_candidates size t p.1 p.2) ∧
      (FROM_candidates size t p.1 p.2).min_distances.length = target_count t master ∧
      FROM_contribution size t p.1 p.2 = (FROM_candidates size t p.1 p.2).min_distances := by
    intro p hp
    obtain ⟨loop', hrun, hvalid⟩ :=
      FROM_local_search_ok size t p.1 p.2 (by rw [hmaster p hp]; exact hserial) (happs p hp)
        (by
          rw [hmaster p hp, hids]
          intro id hid
          exact List.mem_range.mp hid)
        (fun h => hcache h p hp)
    obtain ⟨hlen, _⟩ := FROM_local_search_basic size t p.1 p.2 loop' hrun
    rw [hmaster p hp] at hlen
    simp [completes, FROM_candidates, FROM_contribution, hrun, hvalid, hlen]
  have hne' : procs.map (fun p => FROM_contribution size t p.1 p.2) ≠ [] := by
    simpa using hne
  refine ⟨fun p hp => (hok p hp).1, ?_⟩
  unfold winners_ready
  rw [List.all_eq_true]
  intro k hk
  rw [List.mem_range] at hk
  obtain ⟨c0, hc0, hval, hmin, _⟩ :=
    minloc_at_spec (procs.map (fun p => FROM_contribution size t p.1 p.2)) k hne'
  rw [List.getElem?_map] at hc0
  unfold winner_rank
  cases hq : procs[(minloc_at (procs.map (fun p => FROM_contribution size t p.1 p.2)) k).2]? with
  | none => simp [hq] at hc0
  | some p' =>
    simp only [hq, Option.map_some', Option.some.injEq] at hc0
    have hp' : p' ∈ procs := List.getElem?_mem hq
    obtain ⟨_, hvalid, hlen, hcontrib⟩ := hok p' hp'
    obtain ⟨ps, hps, d, hd, hdlt⟩ := hcand k hk
    have hle := hmin _ (List.mem_map.mpr ⟨ps, hps, rfl⟩)
    rw [(hok ps hps).2.2.2, List.getD_eq_getElem?_getD, hd] at hle
    simp only [Option.getD_some] at hle
    have hmine : (FROM_candidates size t p'.1 p'.2).min_distances[k]? =
        some (minloc_at (procs.map (fun p => FROM_contribution size t p.1 p.2)) k).1 := by
      rw [← hval, ← hc0, hcontrib, List.getD_eq_getElem?_getD,
        List.getElem?_eq_getElem (by omega)]
      simp
    simp only []
    unfold winner_ready
    rw [Bool.and_eq_true]
    refine ⟨?_, hvalid k _ hmine (lt_of_le_of_lt hle hdlt)⟩
    rw [hmaster p' hp']
    exact target_exists t master k hids hk

end WrittenOnce

end MultiAppNearestNodeTransfer

namespace MultiAppNearestNodeTransfer

variable {P R : Type}

/-! ## FROM_MULTIAPP: when the local search finds a candidate -/

section Coverage

/-- A property of the elements already processed that every successful
iteration extends holds for the whole range when the loop ends. -/
theorem forEach_preserves_indexed {α σ ε : Type} (body : α → σ → Except ε σ)
    (I : List α → σ → Prop)
    (h : ∀ done x s s', I done s → body x s = Except.ok s' → I (done ++ [x]) s') :
    ∀ (xs pre : List α) (s s' : σ), forEach body xs s = Except.ok s' → I pre s →
      I (pre ++ xs) s'
  | [], pre, s, s', hrun, hs => by
    simp only [forEach, Except.ok.injEq] at hrun
    subst hrun
    simpa using hs
  | x :: xs, pre, s, s', hrun, hs => by
    cases hb : body x s with
    | error e => simp [forEach, hb] at hrun
    | ok s1 =>
      rw [forEach_cons_ok hb] at hrun
      have := forEach_preserves_indexed body I h xs (pre ++ [x]) s1 s' hrun (h pre x s s1 hs hb)
      simpa using this

variable [LinearOrder R] [Zero R] [Sub P]

/-- A step of the target loops never loses a candidate, and without the cache
it leaves a candidate for its target when the searched range holds a node at
a computed distance below the sentinel. -/
theorem FROM_entity_cover (size : P → WithTop R) (t : Params) (ma : MultiApp P R)
    (from_mesh : MeshBase P) (i id : Nat) (pos : P)
    (loop loop' : Candidates R × TransferState P R)
    (h : FROM_entity size t ma from_mesh i id pos loop = Except.ok loop') :
    (∀ k : Nat, (∃ d : WithTop R, loop.1.min_distances[k]? = some d ∧ d < ⊤) →
      ∃ d : WithTop R, loop'.1.min_distances[k]? = some d ∧ d < ⊤) ∧
    (t.fixed_meshes = false → (∃ m ∈ from_mesh.local_nodes, size (pos - m.point) < ⊤) →
      ∃ d : WithTop R, loop'.1.min_distances[id]? = some d ∧ d < ⊤) := by
  unfold FROM_entity at h
  simp only at h
  cases hbest : loop.1.min_distances[id]? with
  | none => simp [hbest] at h
  | some best =>
    have hid : id < loop.1.min_distances.length := (List.getElem?_eq_some.mp hbest).1
    simp only [hbest] at h
    have hfound : t.fixed_meshes = false →
        (∃ m ∈ from_mesh.local_nodes, size (pos - m.point) < ⊤) →
        (FROM_resolve size t.fixed_meshes i id pos from_mesh.local_nodes
          (swapLibMeshComm ma.comm loop.2).2).2.1 < ⊤ := by
      intro hfm hne
      obtain ⟨n, _, htop, hres⟩ :=
        getNearestNode_isSome size pos (0 : WithTop R) from_mesh.local_nodes hne
      simp only [FROM_resolve, hfm, Bool.false_eq_true, if_false, WithTop.coe_zero, hres]
      exact htop
    split at h
    · rename_i hlt
      split at h
      · exact absurd h (by simp)
      · simp only [Except.ok.injEq] at h
        subst h
        have hnew : (FROM_resolve size t.fixed_meshes i id pos from_mesh.local_nodes
            (swapLibMeshComm ma.comm loop.2).2).2.1 < ⊤ := lt_of_lt_of_le hlt le_top
        refine ⟨?_, fun _ _ => ⟨_, List.getElem?_set_self hid, hnew⟩⟩
        intro k hk
        by_cases hki : k = id
        · subst hki
          exact ⟨_, List.getElem?_set_self hid, hnew⟩
        · simpa [List.getElem?_set_ne (fun e => hki e.symm)] using hk
    · rename_i hnlt
      simp only [Except.ok.injEq] at h
      subst h
      refine ⟨fun k hk => hk, fun hfm hne => ⟨best, hbest, ?_⟩⟩
      exact lt_of_le_of_lt (not_lt.mp hnlt) (hfound hfm hne)

/-- A pass of the app loop never loses a candidate, and without the cache the
pass of a local app with a local source node leaves a candidate for every
target entity. -/
theorem FROM_app_cover (size : P → WithTop R) (t : Params) (ma : MultiApp P R) (to_mesh : MeshBase P)
    (is_nodal : Bool) (i : Nat) (loop loop' : Candidates R × TransferState P R)
    (h : FROM_app size t ma to_mesh is_nodal i loop = Except.ok loop') :
    (∀ k : Nat, (∃ d : WithTop R, loop.1.min_distances[k]? = some d ∧ d < ⊤) →
      ∃ d : WithTop R, loop'.1.min_distances[k]? = some d ∧ d < ⊤) ∧
    (t.fixed_meshes = false → ∀ fp, ma.appProblem i = some fp →
      (∀ pos, ∃ m ∈ (selectMesh t.displaced_source_mesh fp).local_nodes,
        size (pos - m.point) < ⊤) →
      ∀ id, id ∈ (if is_nodal then to_mesh.nodes.map (fun n => n.id)
                  else to_mesh.elems.map (fun e => e.id)) →
        ∃ d : WithTop R, loop'.1.min_distances[id]? = some d ∧ d < ⊤) := by
  unfold FROM_app at h
  cases happ : ma.appProblem i with
  | none =>
    simp only [happ, Except.ok.injEq] at h
    subst h
    exact ⟨fun k hk => hk, fun _ fp hfp => by simp at hfp⟩
  | some fp0 =>
    simp only [happ] at h
    split at h
    · exact absurd h (by simp)
    · cases is_nodal
      · simp only [Bool.false_eq_true, if_false] at h ⊢
        have hinv := forEach_preserves_indexed _
          (fun (done : List (Elem P)) (s : Candidates R × TransferState P R) =>
            (∀ k : Nat, (∃ d : WithTop R, loop.1.min_distances[k]? = some d ∧ d < ⊤) →
              ∃ d : WithTop R, s.1.min_distances[k]? = some d ∧ d < ⊤) ∧
            (t.fixed_meshes = false →
              (∀ pos, ∃ m ∈ (selectMesh t.displaced_source_mesh fp0).local_nodes,
                size (pos - m.point) < ⊤) →
              ∀ x ∈ done, ∃ d : WithTop R, s.1.min_distances[x.id]? = some d ∧ d < ⊤))
          (fun done x s s' hI hb => by
            obtain ⟨hmono, hcov⟩ := FROM_entity_cover size t ma _ i x.id _ s s' hb
            refine ⟨fun k hk => hmono k (hI.1 k hk), ?_⟩
            intro hfm hne y hy
            rcases List.mem_append.mp hy with hy | hy
            · exact hmono _ (hI.2 hfm hne y hy)
            · simp only [List.mem_singleton] at hy
              subst hy
              exact hcov hfm (hne _))
          to_mesh.elems [] _ loop' h ⟨fun k hk => hk, fun _ _ x hx => by simp at hx⟩
        refine ⟨hinv.1, ?_⟩
        intro hfm fp hfp hne id hid
        simp only [Option.some.injEq] at hfp
        subst hfp
        obtain ⟨e, he, heid⟩ := List.mem_map.mp hid
        subst heid
        exact hinv.2 hfm hne e (by simpa using he)
      · simp only [if_true] at h ⊢
        have hinv := forEach_preserves_indexed _
          (fun (done : List (Node P)) (s : Candidates R × TransferState P R) =>
            (∀ k : Nat, (∃ d : WithTop R, loop.1.min_distances[k]? = some d ∧ d < ⊤) →
              ∃ d : WithTop R, s.1.min_distances[k]? = some d ∧ d < ⊤) ∧
            (t.fixed_meshes = false →
              (∀ pos, ∃ m ∈ (selectMesh t.displaced_source_mesh fp0).local_nodes,
                size (pos - m.point) < ⊤) →
              ∀ x ∈ done, ∃ d : WithTop R, s.1.min_distances[x.id]? = some d ∧ d < ⊤))
          (fun done x s s' hI hb => by
            obtain ⟨hmono, hcov⟩ := FROM_entity_cover size t ma _ i x.id _ s s' hb
            refine ⟨fun k hk => hmono k (hI.1 k hk), ?_⟩
            intro hfm hne y hy
            rcases List.mem_append.mp hy with hy | hy
            · exact hmono _ (hI.2 hfm hne y hy)
            · simp only [List.mem_singleton] at hy
              subst hy
              exact hcov hfm (hne _))
          to_mesh.nodes [] _ loop' h ⟨fun k hk => hk, fun _ _ x hx => by simp at hx⟩
        refine ⟨hinv.1, ?_⟩
        intro hfm fp hfp hne id hid
        simp only [Option.some.injEq] at hfp
        subst hfp
        obtain ⟨n, hn, hnid⟩ := List.mem_map.mp hid
        subst hnid
        exact hinv.2 hfm hne n (by simpa using hn)

/-- Without the cache, a process that owns an app with a local source node at
a computed distance below the sentinel from every position ends its local
search with a candidate for every target entity. -/
theorem FROM_local_search_cover (size : P → WithTop R) (t : Params) (ma : MultiApp P R)
    (st : TransferState P R) (loop' : Candidates R × TransferState P R)
    (h : FROM_local_search size t ma st = Except.ok loop')
    (hfm : t.fixed_meshes = false)
    (i : Nat) (fp : FEProblem P R) (hi : i < ma.numGlobalApps)
    (happ : ma.appProblem i = some fp)
    (hne : ∀ pos, ∃ m ∈ (selectMesh t.displaced_source_mesh fp).local_nodes,
      size (pos - m.point) < ⊤) :
    ∀ id ∈ target_ids t ma.problem, ∃ d : WithTop R, loop'.1.min_distances[id]? = some d ∧ d < ⊤ := by
  unfold FROM_local_search at h
  simp only at h
  split at h
  · exact absurd h (by simp)
  · have hinv := forEach_preserves_indexed _
      (fun (done : List Nat) (s : Candidates R × TransferState P R) =>
        i ∈ done → ∀ id ∈ target_ids t ma.problem,
          ∃ d : WithTop R, s.1.min_distances[id]? = some d ∧ d < ⊤)
      (fun done x s s' hI hb => by
        obtain ⟨hmono, hcov⟩ := FROM_app_cover size t ma _ _ x s s' hb
        intro hmem id hid
        rcases List.mem_append.mp hmem with hm | hm
        · exact hmono id (hI hm id hid)
        · simp only [List.mem_singleton] at hm
          subst hm
          refine hcov hfm fp happ hne id ?_
          unfold target_ids at hid
          by_cases hn : ma.problem.variable_type = FEType_default
          · simpa [hn] using hid
          · simpa [hn] using hid)
      (List.range ma.numGlobalApps) [] _ loop' h (fun hmem => by simp at hmem)
    exact hinv (by simpa using hi)

/-- Without the cache, when some process owns an app with a local source node
at a computed distance below the sentinel from every position, every target id
has a candidate on some process after the local search. -/
theorem candidates_found (size : P → WithTop R) (t : Params)
    (procs : List (MultiApp P R × TransferState P R)) (master : FEProblem P R)
    (hmaster : ∀ p ∈ procs, p.1.problem = master)
    (hserial : master.mesh.is_serial = true)
    (hids : target_ids t master = List.range (target_count t master))
    (happs : ∀ p ∈ procs, ∀ i fp, p.1.appProblem i = some fp → fp.mesh.is_serial = true)
    (hfm : t.fixed_meshes = false)
    (hsource : ∃ p ∈ procs, ∃ i fp, i < p.1.numGlobalApps ∧ p.1.appProblem i = some fp ∧
      ∀ pos, ∃ m ∈ (selectMesh t.displaced_source_mesh fp).local_nodes,
        size (pos - m.point) < ⊤) :
    ∀ j, j < target_count t master → ∃ p ∈ procs, ∃ d,
      (FROM_candidates size t p.1 p.2).min_distances[j]? = some d ∧ d < ⊤ := by
  intro j hj
  obtain ⟨p, hp, i, fp, hi, happ, hne⟩ := hsource
  obtain ⟨loop', hrun, _⟩ :=
    FROM_local_search_ok size t p.1 p.2 (by rw [hmaster p hp]; exact hserial) (happs p hp)
      (by
        rw [hmaster p hp, hids]
        intro id hid
        exact List.mem_range.mp hid)
      (fun h => by rw [hfm] at h; simp at h)
  obtain ⟨d, hd, hlt⟩ :=
    FROM_local_search_cover size t p.1 p.2 loop' hrun hfm i fp hi happ hne j
      (by rw [hmaster p hp, hids]; exact List.mem_range.mpr hj)
  exact ⟨p, hp, d, by simpa [FROM_candidates, hrun] using hd, hlt⟩

end Coverage

end MultiAppNearestNodeTransfer

namespace MultiAppNearestNodeTransfer

variable {P R : Type}

/-! ## The cache branch of a resolution -/

section CacheHit

variable [LinearOrder R] [Zero R] [Sub P]

/-- C11 (amended). With `fixed_meshes` set and an entry cached for the target
id, a resolution yields the cached node without a call of `getNearestNode` and
leaves both maps as they are, in both directions (the same code resolves nodal
and elemental targets).  In the FROM_MULTIAPP direction the distance after the
resolution is the cached distance; in the TO_MULTIAPP direction the distance
is not loaded and keeps its initial value 0. -/
theorem cache_hit_returns_cached_node (size : P → WithTop R) (app id : Nat) (pos : P)
    (nodes : List (Node P)) (st : TransferState P R) (cached : Option (Node P))
    (d : WithTop R)
    (hnode : st.node_map id = some cached) (hdist : st.distance_map id = some d) :
    FROM_resolve size true app id pos nodes st =
        (cached, d, { st with log := st.log ++ [Event.cacheFind id, Event.cacheLoad id] }) ∧
    TO_resolve size true app id pos nodes st =
        (cached, ((0 : R) : WithTop R),
          { st with log := st.log ++ [Event.cacheFind id, Event.cacheLoad id] }) := by
  constructor
  · simp [FROM_resolve, TransferState.emit, hnode, hdist]
  · simp [TO_resolve, TransferState.emit, hnode]

end CacheHit

/-- Instance of `cache_hit_returns_cached_node`: a cache that holds for target 0 the node at 3 and the distance 3. -/
theorem cache_hit_returns_cached_node_witness :
    ({ fresh with node_map := mapInsert fresh.node_map 0 (some ⟨0, 3, 0, 1, 0⟩)
                  distance_map := mapInsert fresh.distance_map 0 3 } :
        TransferState ℤ ℕ).node_map 0 = some (some ⟨0, 3, 0, 1, 0⟩) ∧
    ({ fresh with node_map := mapInsert fresh.node_map 0 (some ⟨0, 3, 0, 1, 0⟩)
                  distance_map := mapInsert fresh.distance_map 0 3 } :
        TransferState ℤ ℕ).distance_map 0 = some 3 ∧
    (FROM_resolve line_size true 0 0 0 [⟨0, 3, 0, 1, 0⟩]
        { fresh with node_map := mapInsert fresh.node_map 0 (some ⟨0, 3, 0, 1, 0⟩)
                     distance_map := mapInsert fresh.distance_map 0 3 } =
      (some ⟨0, 3, 0, 1, 0⟩, 3,
        { fresh with node_map := mapInsert fresh.node_map 0 (some ⟨0, 3, 0, 1, 0⟩)
                     distance_map := mapInsert fresh.distance_map 0 3
                     log := fresh.log ++ [Event.cacheFind 0, Event.cacheLoad 0] }) ∧
     TO_resolve line_size true 0 0 0 [⟨0, 3, 0, 1, 0⟩]
        { fresh with node_map := mapInsert fresh.node_map 0 (some ⟨0, 3, 0, 1, 0⟩)
                     distance_map := mapInsert fresh.distance_map 0 3 } =
      (some ⟨0, 3, 0, 1, 0⟩, ((0 : ℕ) : WithTop ℕ),
        { fresh with node_map := mapInsert fresh.node_map 0 (some ⟨0, 3, 0, 1, 0⟩)
                     distance_map := mapInsert fresh.distance_map 0 3
                     log := fresh.log ++ [Event.cacheFind 0, Event.cacheLoad 0] })) :=
  ⟨rfl, rfl, cache_hit_returns_cached_node line_size 0 0 0 [⟨0, 3, 0, 1, 0⟩] _ _ _ rfl rfl⟩

/-- Counterexample to C11 as stated.  After a first TO_MULTIAPP execution with
`fixed_meshes` the cache holds for target 0 the source node at 3 and the
distance 3; the next resolution of target 0 in that direction yields the
cached node and leaves the distance at 0. -/
theorem TO_cache_hit_leaves_distance_unloaded :
    failure (execute line_size ⟨Direction.TO_MULTIAPP, false, false, true⟩
        source_at_three 0 (Communicator_minloc []) fresh) = none ∧
    (finalState (execute line_size ⟨Direction.TO_MULTIAPP, false, false, true⟩
        source_at_three 0 (Communicator_minloc []) fresh)).node_map 0
      = some (some ⟨0, 3, 0, 1, 0⟩) ∧
    (finalState (execute line_size ⟨Direction.TO_MULTIAPP, false, false, true⟩
        source_at_three 0 (Communicator_minloc []) fresh)).distance_map 0 = some 3 ∧
    (TO_resolve line_size true 0 0 (0 + 0) source_at_three.problem.mesh.nodes
        (finalState (execute line_size ⟨Direction.TO_MULTIAPP, false, false, true⟩
          source_at_three 0 (Communicator_minloc []) fresh))).1 = some ⟨0, 3, 0, 1, 0⟩ ∧
    (TO_resolve line_size true 0 0 (0 + 0) source_at_three.problem.mesh.nodes
        (finalState (execute line_size ⟨Direction.TO_MULTIAPP, false, false, true⟩
          source_at_three 0 (Communicator_minloc []) fresh))).2.1 = 0 := by
  refine ⟨?_, ?_, ?_, ?_, ?_⟩ <;> decide

/-- C12. With `fixed_meshes` set and two apps on one process, the distance
that is compared with `min_distances[0]` while app 1 is processed is 2, the
distance that was computed for app 0 and cached under the target id, although
the nearest node of app 1 is at distance 1 from the target.  The candidate
stays the node of app 0 at distance 2; without `fixed_meshes` the comparison
for app 1 uses the distance 1 and the candidate becomes the node of app 1. -/
theorem FROM_cache_hit_compares_distance_of_other_app :
    (match FROM_app line_size ⟨Direction.FROM_MULTIAPP, false, false, true⟩ two_apps_one_process
        two_apps_one_process.problem.mesh true 0 (Candidates.init 1, fresh) with
      | Except.ok (_, st) =>
        some (FROM_resolve line_size true 1 0 (0 - 0) [⟨0, 1, 0, 1, 0⟩]
          (swapLibMeshComm two_apps_one_process.comm st).2).2.1
      | Except.error _ => none) = some 2 ∧
    (getNearestNode line_size (0 - 0) 0 [⟨0, 1, 0, 1, 0⟩]).2 = 1 ∧
    (fun c => (c.min_distances, c.min_nodes, c.min_apps))
        (FROM_candidates line_size ⟨Direction.FROM_MULTIAPP, false, false, true⟩
          two_apps_one_process fresh) = ([2], [0], [0]) ∧
    (fun c => (c.min_distances, c.min_nodes, c.min_apps))
        (FROM_candidates line_size ⟨Direction.FROM_MULTIAPP, false, false, false⟩
          two_apps_one_process fresh) = ([1], [0], [1]) := by
  refine ⟨?_, ?_, ?_, ?_⟩ <;> decide

/-- C15. With `fixed_meshes` set, the cache entry stored while the node of id 0
of app 0 is resolved is returned when the element of id 0 of app 1 is
resolved: the element, whose centroid is at 10, gets the value 1 of the source
node at 0 instead of the value 2 of the source node at 10, and no search is
made for it.  Without `fixed_meshes` it gets 2. -/
theorem TO_node_entry_answers_element :
    (fun r => (failure r, setEvents (finalLog r)))
        (execute line_size ⟨Direction.TO_MULTIAPP, false, false, true⟩
          node_app_and_elem_app 0 (Communicator_minloc []) fresh)
      = (none, [(0, 0, 0, 1), (1, 0, 0, 1)]) ∧
    (finalLog (execute line_size ⟨Direction.TO_MULTIAPP, false, false, true⟩
          node_app_and_elem_app 0 (Communicator_minloc []) fresh)).filter
        (fun e => isCacheEvent e || isSearch e)
      = [Event.cacheFind 0, Event.search 0 0, Event.cacheStore 0,
         Event.cacheFind 0, Event.cacheLoad 0] ∧
    (fun r => (failure r, setEvents (finalLog r)))
        (execute line_size ⟨Direction.TO_MULTIAPP, false, false, false⟩
          node_app_and_elem_app 0 (Communicator_minloc []) fresh)
      = (none, [(0, 0, 0, 1), (1, 0, 0, 2)]) := by
  refine ⟨?_, ?_, ?_⟩ <;> decide

/-! ## The fatal configuration error -/

section FatalError

variable [LinearOrder R] [Zero R] [Add P] [Sub P]

/-- C18. In the TO_MULTIAPP direction with `displaced_source_mesh` set and a
displaced problem on the source, `execute` fails with the error of source line
74 in the state it was entered in: nothing has been set, closed or updated. -/
theorem displaced_source_error_precedes_writes (size : P → WithTop R) (t : Params) (ma : MultiApp P R)
    (proc_id : Nat) (minloc : List (WithTop R) → List (WithTop R) × List Nat)
    (st : TransferState P R)
    (hdir : t.direction = Direction.TO_MULTIAPP) (hflag : t.displaced_source_mesh = true)
    (hdisplaced : ma.problem.displaced.isSome = true) :
    execute size t ma proc_id minloc st = Except.error (Err.mooseError_displaced_source, st) := by
  simp [execute, execute_TO, hdir, hflag, hdisplaced]

end FatalError

/-- Instance of `displaced_source_error_precedes_writes`: a master with a displaced problem. -/
theorem displaced_source_error_precedes_writes_witness :
    (⟨Direction.TO_MULTIAPP, true, false, false⟩ : Params).direction = Direction.TO_MULTIAPP ∧
    (⟨Direction.TO_MULTIAPP, true, false, false⟩ : Params).displaced_source_mesh = true ∧
    displaced_master.problem.displaced.isSome = true ∧
    execute line_size ⟨Direction.TO_MULTIAPP, true, false, false⟩ displaced_master 0
        (Communicator_minloc []) fresh =
      Except.error (Err.mooseError_displaced_source, fresh) :=
  ⟨rfl, rfl, rfl,
    displaced_source_error_precedes_writes line_size _ displaced_master 0 _ fresh rfl rfl rfl⟩

end MultiAppNearestNodeTransfer

/-! ## MooseRandom: saving and restoring the streams -/

namespace MooseRandom

variable {S D : Type}

theorem stateOf_ok (lib : MTwist S D) (assertions : Bool) (i : Nat) (rng : MooseRandom S)
    (s : S) (h : stateOf lib assertions i rng = Except.ok s) :
    ((rng.states i).isNone && assertions) = false ∧ s = (rng.states i).getD lib.fresh_state := by
  unfold stateOf at h
  cases hs : rng.states i with
  | some s0 =>
    simp only [hs, Except.ok.injEq] at h
    simp [h]
  | none =>
    cases assertions with
    | true => simp [hs] at h
    | false =>
      simp only [hs, Bool.false_eq_true, if_false, Except.ok.injEq] at h
      simp [h]

/-- A call of a client leaves the saved states as they are. -/
theorem call_old_states (lib : MTwist S D) (assertions : Bool) (c : Call D)
    (rng : MooseRandom S) (r : RandomValue D × MooseRandom S)
    (h : call lib assertions c rng = Except.ok r) :
    r.2.old_states = rng.old_states := by
  cases c with
  | seed i s =>
    simp only [call, Except.ok.injEq] at h
    subst h
    rfl
  | rand i =>
    simp only [call, rand] at h
    cases hs : stateOf lib assertions i rng with
    | error e => simp [hs] at h
    | ok s =>
      simp only [hs, Except.ok.injEq] at h
      subst h
      rfl
  | randNormal i mean sigma =>
    simp only [call, randNormal] at h
    cases hs : stateOf lib assertions i rng with
    | error e => simp [hs] at h
    | ok s =>
      simp only [hs, Except.ok.injEq] at h
      subst h
      rfl
  | randl i =>
    simp only [call, randl] at h
    cases hs : stateOf lib assertions i rng with
    | error e => simp [hs] at h
    | ok s =>
      simp only [hs, Except.ok.injEq] at h
      subst h
      rfl

/-- A sequence of calls of a client leaves the saved states as they are. -/
theorem calls_old_states (lib : MTwist S D) (assertions : Bool) :
    ∀ (cs : List (Call D)) (rng : MooseRandom S) (r : List (RandomValue D) × MooseRandom S),
      calls lib assertions cs rng = Except.ok r → r.2.old_states = rng.old_states
  | [], rng, r, h => by
    simp only [calls, Except.ok.injEq] at h
    subst h
    rfl
  | c :: cs, rng, r, h => by
    simp only [calls] at h
    cases hc : call lib assertions c rng with
    | error e => simp [hc] at h
    | ok r1 =>
      simp only [hc] at h
      cases hcs : calls lib assertions cs r1.2 with
      | error e => simp [hcs] at h
      | ok rs =>
        simp only [hcs, Except.ok.injEq] at h
        subst h
        exact (calls_old_states lib assertions cs r1.2 rs hcs).trans
          (call_old_states lib assertions c rng r1 hc)

/-- A call acts on its own stream as `stream_call` says and leaves the other streams as they are. -/
theorem call_stream (lib : MTwist S D) (assertions : Bool) (c : Call D) (rng : MooseRandom S)
    (r : RandomValue D × MooseRandom S) (h : call lib assertions c rng = Except.ok r) (i : Nat) :
    (c.index = i → r.1 = (stream_call lib assertions c (rng.states i)).1 ∧
      r.2.states i = (stream_call lib assertions c (rng.states i)).2) ∧
    (c.index ≠ i → r.2.states i = rng.states i) := by
  cases c with
  | seed k s =>
    simp only [call, Except.ok.injEq] at h
    subst h
    constructor
    · intro hk
      simp only [Call.index] at hk
      subst hk
      simp [seed, setState, stream_call]
    · intro hk
      simp only [Call.index] at hk
      have hik : ¬ i = k := fun e => hk e.symm
      simp [seed, setState, hik]
  | rand k =>
    simp only [call, rand] at h
    cases hs : stateOf lib assertions k rng with
    | error e => simp [hs] at h
    | ok s =>
      obtain ⟨hcond, hval⟩ := stateOf_ok lib assertions k rng s hs
      simp only [hs, Except.ok.injEq] at h
      subst h
      constructor
      · intro hk
        simp only [Call.index] at hk
        subst hk
        simp [setState, stream_call, hcond, hval]
      · intro hk
        simp only [Call.index] at hk
        have hik : ¬ i = k := fun e => hk e.symm
        simp [setState, hik]
  | randNormal k mean sigma =>
    simp only [call, randNormal] at h
    cases hs : stateOf lib assertions k rng with
    | error e => simp [hs] at h
    | ok s =>
      obtain ⟨hcond, hval⟩ := stateOf_ok lib assertions k rng s hs
      simp only [hs, Except.ok.injEq] at h
      subst h
      constructor
      · intro hk
        simp only [Call.index] at hk
        subst hk
        simp [setState, stream_call, hcond, hval]
      · intro hk
        simp only [Call.index] at hk
        have hik : ¬ i = k := fun e => hk e.symm
        simp [setState, hik]
  | randl k =>
    simp only [call, randl] at h
    cases hs : stateOf lib assertions k rng with
    | error e => simp [hs] at h
    | ok s =>
      obtain ⟨hcond, hval⟩ := stateOf_ok lib assertions k rng s hs
      simp only [hs, Except.ok.injEq] at h
      subst h
      constructor
      · intro hk
        simp only [Call.index] at hk
        subst hk
        simp [setState, stream_call, hcond, hval]
      · intro hk
        simp only [Call.index] at hk
        have hik : ¬ i = k := fun e => hk e.symm
        simp [setState, hik]

/-- The values a sequence of calls returns on a stream depend on the state of
that stream and on the calls made on it alone. -/
theorem calls_stream (lib : MTwist S D) (assertions : Bool) (i : Nat) :
    ∀ (cs : List (Call D)) (rng : MooseRandom S) (r : List (RandomValue D) × MooseRandom S),
      calls lib assertions cs rng = Except.ok r →
      stream_values i cs r.1 =
        stream_calls lib assertions (cs.filter (fun c => decide (c.index = i))) (rng.states i)
  | [], rng, r, h => by
    simp only [calls, Except.ok.injEq] at h
    subst h
    rfl
  | c :: cs, rng, r, h => by
    simp only [calls] at h
    cases hc : call lib assertions c rng with
    | error e => simp [hc] at h
    | ok r1 =>
      simp only [hc] at h
      cases hcs : calls lib assertions cs r1.2 with
      | error e => simp [hcs] at h
      | ok rs =>
        simp only [hcs, Except.ok.injEq] at h
        subst h
        have ih := calls_stream lib assertions i cs r1.2 rs hcs
        obtain ⟨hon, hoff⟩ := call_stream lib assertions c rng r1 hc i
        by_cases hi : c.index = i
        · obtain ⟨hv, hst⟩ := hon hi
          simp only [stream_values, hi, if_true, List.filter_cons, decide_True, stream_calls]
          rw [ih, hst, hv]
        · simp only [stream_values, hi, if_false, List.filter_cons, decide_False]
          rw [ih, hoff hi]
          simp

/-- C20. After `saveState()`, any sequence of draws and seedings on any of
the streams that runs to its end, followed by `restoreState()`, leaves the
object as it was right after `saveState()`: every stream is back in the state
it had then, and every sequence of calls made after `restoreState()` returns
what the same sequence returns right after `saveState()`; in particular the
calls made in between return the same values again.  Stream by stream: calls
after `restoreState()` that make on a stream the calls made on it right after
`saveState()` get from it the same values, whatever is done with the other
streams.  This holds with assertions compiled in and compiled out. -/
theorem saveState_restoreState_replays (lib : MTwist S D) (assertions : Bool)
    (rng : MooseRandom S) (between : List (Call D)) (values : List (RandomValue D))
    (rng1 : MooseRandom S)
    (h : calls lib assertions between (saveState rng) = Except.ok (values, rng1)) :
    restoreState rng1 = saveState rng ∧
    (∀ i, (restoreState rng1).states i = rng.states i) ∧
    (∀ cs, calls lib assertions cs (restoreState rng1) =
      calls lib assertions cs (saveState rng)) ∧
    calls lib assertions between (restoreState rng1) = Except.ok (values, rng1) ∧
    (∀ (i : Nat) (after : List (Call D)) (values1 : List (RandomValue D))
        (rng2 : MooseRandom S),
      calls lib assertions after (restoreState rng1) = Except.ok (values1, rng2) →
      after.filter (fun c => decide (c.index = i)) =
        between.filter (fun c => decide (c.index = i)) →
      stream_values i after values1 = stream_values i between values) := by
  have hold : rng1.old_states = rng.states := calls_old_states lib assertions between _ _ h
  have heq : restoreState rng1 = saveState rng := by
    simp [restoreState, saveState, hold]
  refine ⟨heq, ?_, ?_, ?_, ?_⟩
  · intro i
    rw [heq]
    rfl
  · intro cs
    rw [heq]
  · rw [heq]
    exact h
  · intro i after values1 rng2 hafter hsame
    rw [heq] at hafter
    have h1 := calls_stream lib assertions i after _ _ hafter
    have h2 := calls_stream lib assertions i between _ _ h
    simp only at h1 h2
    rw [h1, h2, hsame]

end MooseRandom

/-- Instance of `saveState_restoreState_replays`: two streams seeded with 10
and 20, saved, drawn from in turn, then restored. -/
theorem saveState_restoreState_replays_witness :
    MooseRandom.calls counter_twist true
        [MooseRandom.Call.rand 0, MooseRandom.Call.randl 1, MooseRandom.Call.rand 0]
        (MooseRandom.saveState two_streams) =
      Except.ok ([RandomValue.double 10, RandomValue.uint32 20, RandomValue.double 11],
        two_streams_drawn) ∧
    MooseRandom.calls counter_twist true
        [MooseRandom.Call.rand 0, MooseRandom.Call.randl 1, MooseRandom.Call.rand 0]
        (MooseRandom.restoreState two_streams_drawn) =
      Except.ok ([RandomValue.double 10, RandomValue.uint32 20, RandomValue.double 11],
        two_streams_drawn) :=
  ⟨rfl,
    (MooseRandom.saveState_restoreState_replays counter_twist true two_streams
      [MooseRandom.Call.rand 0, MooseRandom.Call.randl 1, MooseRandom.Call.rand 0]
      [RandomValue.double 10, RandomValue.uint32 20, RandomValue.double 11]
      two_streams_drawn rfl).2.2.2.1⟩

namespace MultiAppNearestNodeTransfer

variable {P R : Type}

/-! ## What every run keeps -/

section Frame

/-- A property that every iteration keeps, by success or by failure, holds in
the state the loop ends or fails in. -/
theorem forEach_endState {α σ : Type} (body : α → σ → Result P R σ)
    (proj : σ → TransferState P R) (I : TransferState P R → Prop) :
    ∀ (xs : List α), (∀ x ∈ xs, ∀ s, I (proj s) → I (endState proj (body x s))) →
      ∀ s, I (proj s) → I (endState proj (forEach body xs s))
  | [], _, s, hs => hs
  | x :: xs, h, s, hs => by
    have hx := h x (List.mem_cons_self x xs) s hs
    cases hb : body x s with
    | error e =>
      rw [forEach_cons_error hb]
      rw [hb] at hx
      exact hx
    | ok s1 =>
      rw [forEach_cons_ok hb]
      rw [hb] at hx
      exact forEach_endState body proj I xs
        (fun y hy s' hs' => h y (List.mem_cons_of_mem x hy) s' hs') s1 hx

/-- A property that every successful iteration keeps holds when the loop ends. -/
theorem forEach_keeps {α σ ε : Type} (body : α → σ → Except ε σ) (I : σ → Prop)
    (xs : List α) (s s' : σ) (hrun : forEach body xs s = Except.ok s')
    (h : ∀ x s s', I s → body x s = Except.ok s' → I s') (hs : I s) : I s' :=
  forEach_preserves body I h xs s s' hs hrun

/-- A run that completes returns the state `finalState` gives. -/
theorem ok_of_completes (r : Result P R (TransferState P R)) (h : completes r = true) :
    r = Except.ok (finalState r) := by
  cases r with
  | error e => simp [completes] at h
  | ok st => rfl

theorem endState_id (r : Result P R (TransferState P R)) : endState id r = finalState r := by
  cases r <;> rfl

theorem frame_emit {t : Params} {I : TransferState P R → Prop} (h : frame_stable t I)
    (s : TransferState P R) (e : Event R)
    (he : isCacheEvent e = true → t.fixed_meshes = true) (hs : I s) : I (s.emit e) :=
  h.1 s e he hs

theorem frame_swap {t : Params} {I : TransferState P R → Prop} (h : frame_stable t I)
    (s : TransferState P R) (c : MPI_Comm) (hs : I s) : I (swapLibMeshComm c s).2 :=
  h.1 { s with comm := c } (Event.swap c) (by simp [isCacheEvent]) (h.2.1 s c hs)

theorem FROM_winner_frame {t : Params} {I : TransferState P R → Prop}
    (h : frame_stable t I) (ma : MultiApp P R) (to_mesh : MeshBase P) (is_nodal : Bool)
    (proc_id : Nat) (c : Candidates R) (j : Nat) (st : TransferState P R) (hs : I st) :
    I (finalState (FROM_winner t ma to_mesh is_nodal proc_id c j st)) := by
  have h1 := frame_emit h st (Event.dofNumber none j) (by simp [isCacheEvent]) hs
  have h2 := frame_swap h _ ma.comm h1
  unfold FROM_winner
  split
  · exact hs
  · split
    · try simp only []
      split
      · exact hs
      · split
        · exact h1
        · split
          · exact h1
          · try simp only []
            split
            · exact h2
            · split
              · exact h2
              · exact frame_emit h _ _ (by simp [isCacheEvent])
                  (frame_swap h _ _
                    (frame_emit h _ (Event.read _ j _) (by simp [isCacheEvent]) h2))
    · exact hs

theorem forEach_finalState_frame {α : Type}
    (body : α → TransferState P R → Result P R (TransferState P R))
    (I : TransferState P R → Prop) (xs : List α)
    (h : ∀ x ∈ xs, ∀ s, I s → I (finalState (body x s))) (s : TransferState P R) (hs : I s) :
    I (finalState (forEach body xs s)) := by
  have key := forEach_endState body id I xs
    (fun x hx s' hI => by rw [endState_id]; exact h x hx s' hI) s hs
  rwa [endState_id] at key

variable [LinearOrder R] [Zero R] [Sub P]

theorem TO_resolve_frame (size : P → WithTop R) {t : Params} {I : TransferState P R → Prop}
    (h : frame_stable t I) (app id : Nat) (pos : P) (nodes : List (Node P))
    (st : TransferState P R) (hs : I st) :
    I (TO_resolve size t.fixed_meshes app id pos nodes st).2.2 := by
  unfold TO_resolve
  cases hf : t.fixed_meshes with
  | false => exact frame_emit h st _ (by simp [isCacheEvent]) hs
  | true =>
    simp only [if_true]
    have h1 := frame_emit h st (Event.cacheFind id) (fun _ => hf) hs
    cases hc : (st.emit (Event.cacheFind id)).node_map id with
    | none =>
      simp only []
      have h2 := frame_emit h _ (Event.search app id) (by simp [isCacheEvent]) h1
      have h3 := h.2.2.1 hf ((st.emit (Event.cacheFind id)).emit (Event.search app id)) id
        (getNearestNode size pos ((0 : R) : WithTop R) nodes).1
        (getNearestNode size pos ((0 : R) : WithTop R) nodes).2 hc h2
      exact frame_emit h _ (Event.cacheStore id) (fun _ => hf) h3
    | some cached =>
      simp only []
      exact frame_emit h _ (Event.cacheLoad id) (fun _ => hf) h1

theorem FROM_resolve_frame (size : P → WithTop R) {t : Params} {I : TransferState P R → Prop}
    (h : frame_stable t I) (app id : Nat) (pos : P) (nodes : List (Node P))
    (st : TransferState P R) (hs : I st) :
    I (FROM_resolve size t.fixed_meshes app id pos nodes st).2.2 := by
  unfold FROM_resolve
  cases hf : t.fixed_meshes with
  | false => exact frame_emit h st _ (by simp [isCacheEvent]) hs
  | true =>
    simp only [if_true]
    have h1 := frame_emit h st (Event.cacheFind id) (fun _ => hf) hs
    cases hc : (st.emit (Event.cacheFind id)).node_map id with
    | none =>
      simp only []
      have h2 := frame_emit h _ (Event.search app id) (by simp [isCacheEvent]) h1
      have h3 := h.2.2.1 hf ((st.emit (Event.cacheFind id)).emit (Event.search app id)) id
        (getNearestNode size pos ((0 : R) : WithTop R) nodes).1
        (getNearestNode size pos ((0 : R) : WithTop R) nodes).2 hc h2
      exact frame_emit h _ (Event.cacheStore id) (fun _ => hf) h3
    | some cached =>
      simp only []
      cases hd : (st.emit (Event.cacheFind id)).distance_map id with
      | none =>
        simp only []
        have h2 := h.2.2.2 hf _ id ((0 : R) : WithTop R) (by rw [hc]; simp) hd h1
        exact frame_emit h _ (Event.cacheLoad id) (fun _ => hf) h2
      | some d =>
        simp only []
        exact frame_emit h _ (Event.cacheLoad id) (fun _ => hf) h1

theorem FROM_entity_frame (size : P → WithTop R) {t : Params} {I : TransferState P R → Prop}
    (h : frame_stable t I) (ma : MultiApp P R) (from_mesh : MeshBase P) (i id : Nat) (pos : P)
    (loop : Candidates R × TransferState P R) (hs : I loop.2) :
    I (endState Prod.snd (FROM_entity size t ma from_mesh i id pos loop)) := by
  have h1 := frame_swap h loop.2 ma.comm hs
  have h2 := FROM_resolve_frame size h i id pos from_mesh.local_nodes _ h1
  have h3 := frame_swap h _ (swapLibMeshComm ma.comm loop.2).1 h2
  unfold FROM_entity
  simp only []
  split
  · exact h3
  · split
    · split
      · exact h3
      · exact h3
    · exact h3

theorem FROM_app_frame (size : P → WithTop R) {t : Params} {I : TransferState P R → Prop}
    (h : frame_stable t I) (ma : MultiApp P R) (to_mesh : MeshBase P) (is_nodal : Bool) (i : Nat)
    (loop : Candidates R × TransferState P R) (hs : I loop.2) :
    I (endState Prod.snd (FROM_app size t ma to_mesh is_nodal i loop)) := by
  unfold FROM_app
  split
  · exact hs
  · have h1 := frame_swap h loop.2 ma.comm hs
    have h2 := frame_swap h _ (swapLibMeshComm ma.comm loop.2).1 h1
    simp only []
    split
    · exact h1
    · split
      · exact forEach_endState _ Prod.snd I _
          (fun x _ s hI => FROM_entity_frame size h ma _ i _ _ s hI) _ h2
      · exact forEach_endState _ Prod.snd I _
          (fun x _ s hI => FROM_entity_frame size h ma _ i _ _ s hI) _ h2

theorem FROM_local_search_frame (size : P → WithTop R) {t : Params} {I : TransferState P R → Prop}
    (h : frame_stable t I) (ma : MultiApp P R) (st : TransferState P R) (hs : I st) :
    I (endState Prod.snd (FROM_local_search size t ma st)) := by
  unfold FROM_local_search
  simp only []
  split
  · exact hs
  · exact forEach_endState _ Prod.snd I _
      (fun i _ s hI => FROM_app_frame size h ma _ _ i s hI) _ hs

theorem execute_FROM_frame (size : P → WithTop R) {t : Params} {I : TransferState P R → Prop}
    (h : frame_stable t I) (ma : MultiApp P R) (proc_id : Nat)
    (minloc : List (WithTop R) → List (WithTop R) × List Nat) (st : TransferState P R)
    (hs : I st) :
    I (finalState (execute_FROM size t ma proc_id minloc st)) := by
  have h1 := FROM_local_search_frame size h ma st hs
  unfold execute_FROM
  cases hls : FROM_local_search size t ma st with
  | error e =>
    rw [hls] at h1
    exact h1
  | ok r =>
    rw [hls] at h1
    simp only []
    have h2 : I (r.2.emit Event.minloc) :=
      frame_emit h _ Event.minloc (by simp [isCacheEvent]) h1
    have hloop : ∀ looped : Result P R (TransferState P R),
        I (finalState looped) →
        I (finalState (match looped with
          | Except.error e => Except.error e
          | Except.ok st3 =>
            Except.ok ((st3.emit (Event.close none)).emit (Event.update none)))) := by
      intro looped hl
      cases looped with
      | error e => exact hl
      | ok st3 =>
        exact frame_emit h _ _ (by simp [isCacheEvent])
          (frame_emit h _ (Event.close none) (by simp [isCacheEvent]) hl)
    apply hloop
    exact forEach_finalState_frame _ I _
      (fun j _ s hI => FROM_winner_frame h ma _ _ proc_id _ j s hI) _ h2

variable [Add P]

theorem TO_entity_frame (size : P → WithTop R) {t : Params} {I : TransferState P R → Prop}
    (h : frame_stable t I) (ma : MultiApp P R) (from_mesh : MeshBase P)
    (serialized_solution : Nat → R) (i id : Nat) (position : P) (n_dofs dof_number : Nat)
    (loop : MPI_Comm × TransferState P R) (hs : I loop.2) :
    I (endState Prod.snd (TO_entity size t ma from_mesh serialized_solution i id position
      n_dofs dof_number loop)) := by
  unfold TO_entity
  simp only []
  split
  · have h1 := frame_emit h loop.2 (Event.dofNumber (some i) id) (by simp [isCacheEvent]) hs
    have h2 := frame_swap h _ loop.1 h1
    have h3 := TO_resolve_frame size h i id (position + ma.position i) from_mesh.nodes _ h2
    split
    · exact h3
    · rename_i nearest_node _
      exact frame_emit h _ _ (by simp [isCacheEvent])
        (frame_swap h _ _
          (frame_emit h _ (Event.read i id nearest_node.dof_number) (by simp [isCacheEvent]) h3))
  · exact hs

theorem TO_app_frame (size : P → WithTop R) {t : Params} {I : TransferState P R → Prop}
    (h : frame_stable t I) (ma : MultiApp P R) (from_mesh : MeshBase P)
    (serialized_solution : Nat → R) (i : Nat) (st : TransferState P R) (hs : I st) :
    I (finalState (TO_app size t ma from_mesh serialized_solution i st)) := by
  unfold TO_app
  split
  · exact hs
  · rename_i app _
    have h1 := frame_swap h st ma.comm hs
    simp only []
    have hloop : ∀ looped : Result P R (MPI_Comm × TransferState P R),
        I (endState Prod.snd looped) →
        I (finalState (match looped with
          | Except.error e => Except.error e
          | Except.ok (swapped, st1) =>
            Except.ok (swapLibMeshComm swapped
              ((st1.emit (Event.close (some i))).emit (Event.update (some i)))).2)) := by
      intro looped hl
      cases looped with
      | error e => exact hl
      | ok r =>
        exact frame_swap h _ _ (frame_emit h _ _ (by simp [isCacheEvent])
          (frame_emit h _ (Event.close (some i)) (by simp [isCacheEvent]) hl))
    apply hloop
    split
    · exact forEach_endState _ Prod.snd I _
        (fun x _ s hI => TO_entity_frame size h ma from_mesh serialized_solution i _ _ _ _ s hI)
        _ h1
    · exact forEach_endState _ Prod.snd I _
        (fun x _ s hI => TO_entity_frame size h ma from_mesh serialized_solution i _ _ _ _ s hI)
        _ h1

theorem execute_TO_frame (size : P → WithTop R) {t : Params} {I : TransferState P R → Prop}
    (h : frame_stable t I) (ma : MultiApp P R) (st : TransferState P R) (hs : I st) :
    I (finalState (execute_TO size t ma st)) := by
  unfold execute_TO
  simp only []
  split
  · exact hs
  · split
    · exact hs
    · exact forEach_finalState_frame _ I _
        (fun i _ s hI => TO_app_frame size h ma _ _ i s hI) _
        (frame_emit h st Event.localize (by simp [isCacheEvent]) hs)

/-- Every property that the elementary updates keep holds in the state in
which `execute` returns or fails. -/
theorem execute_frame (size : P → WithTop R) {t : Params} {I : TransferState P R → Prop}
    (h : frame_stable t I) (ma : MultiApp P R) (proc_id : Nat)
    (minloc : List (WithTop R) → List (WithTop R) × List Nat) (st : TransferState P R)
    (hs : I st) :
    I (finalState (execute size t ma proc_id minloc st)) := by
  unfold execute
  split
  · exact execute_TO_frame size h ma st hs
  · exact execute_FROM_frame size h ma proc_id minloc st hs

end Frame

end MultiAppNearestNodeTransfer

namespace MultiAppNearestNodeTransfer

variable {P R : Type}

/-! ## The caches without `fixed_meshes`, and their entries with it -/

section Caches

/-- Without `fixed_meshes`, "the maps and the cache events of the log are those of `st`" is kept by every elementary update. -/
theorem frame_stable_off (t : Params) (hoff : t.fixed_meshes = false) (st : TransferState P R) :
    frame_stable t (fun s => s.node_map = st.node_map ∧ s.distance_map = st.distance_map ∧
      s.log.filter isCacheEvent = st.log.filter isCacheEvent) := by
  refine ⟨?_, ?_, ?_, ?_⟩
  · intro s e he hs
    have hnot : isCacheEvent e = false := by
      cases hc : isCacheEvent e with
      | false => rfl
      | true => rw [he hc] at hoff; exact absurd hoff (by simp)
    refine ⟨hs.1, hs.2.1, ?_⟩
    simp [List.filter_append, hnot, hs.2.2]
  · intro s c hs
    exact hs
  · intro hon
    rw [hon] at hoff
    exact absurd hoff (by simp)
  · intro hon
    rw [hon] at hoff
    exact absurd hoff (by simp)

theorem cache_kept_refl (s : TransferState P R) : cache_kept s s :=
  fun _ _ hx => ⟨hx, fun _ hd => hd⟩

theorem cache_kept_trans {s1 s2 s3 : TransferState P R} (h12 : cache_kept s1 s2)
    (h23 : cache_kept s2 s3) : cache_kept s1 s3 := by
  intro id x hx
  obtain ⟨hx2, hd2⟩ := h12 id x hx
  obtain ⟨hx3, hd3⟩ := h23 id x hx2
  exact ⟨hx3, fun d hd => hd3 d (hd2 d hd)⟩

/-- The elementary updates keep every entry of the caches. -/
theorem frame_stable_cache_kept (t : Params) (st : TransferState P R) :
    frame_stable t (cache_kept st) := by
  refine ⟨?_, ?_, ?_, ?_⟩
  · intro s e _ hs
    exact hs
  · intro s c hs
    exact hs
  · intro _ s id n d hnone hs k x hx
    obtain ⟨hx1, hd1⟩ := hs k x hx
    have hk : k ≠ id := by
      intro hk
      rw [hk, hnone] at hx1
      exact absurd hx1 (by simp)
    refine ⟨by simpa [mapInsert, hk] using hx1, ?_⟩
    intro d' hd'
    simpa [mapInsert, hk] using hd1 d' hd'
  · intro _ s id d _ hnone hs k x hx
    obtain ⟨hx1, hd1⟩ := hs k x hx
    refine ⟨hx1, ?_⟩
    intro d' hd'
    have hk : k ≠ id := by
      intro hk
      have := hd1 d' hd'
      rw [hk, hnone] at this
      exact absurd this (by simp)
    simpa [mapInsert, hk] using hd1 d' hd'

variable [LinearOrder R] [Zero R] [Add P] [Sub P]

/-- C14. Without `fixed_meshes`, `execute` in either direction leaves
`_node_map` and `_distance_map` as they are and makes no access to them (no
`find`, no load, no store appears in the log), whether it returns or fails;
and every resolution is a call of `getNearestNode`. -/
theorem fixed_meshes_off_leaves_caches (size : P → WithTop R) (t : Params) (ma : MultiApp P R)
    (proc_id : Nat) (minloc : List (WithTop R) → List (WithTop R) × List Nat)
    (st : TransferState P R) (hoff : t.fixed_meshes = false) :
    (finalState (execute size t ma proc_id minloc st)).node_map = st.node_map ∧
    (finalState (execute size t ma proc_id minloc st)).distance_map = st.distance_map ∧
    (finalLog (execute size t ma proc_id minloc st)).filter isCacheEvent =
      st.log.filter isCacheEvent ∧
    (∀ app id pos nodes (s : TransferState P R),
      TO_resolve size t.fixed_meshes app id pos nodes s =
        ((getNearestNode size pos ((0 : R) : WithTop R) nodes).1,
         (getNearestNode size pos ((0 : R) : WithTop R) nodes).2,
         s.emit (Event.search app id))) ∧
    (∀ app id pos nodes (s : TransferState P R),
      FROM_resolve size t.fixed_meshes app id pos nodes s =
        ((getNearestNode size pos ((0 : R) : WithTop R) nodes).1,
         (getNearestNode size pos ((0 : R) : WithTop R) nodes).2,
         s.emit (Event.search app id))) := by
  have key := execute_frame size (frame_stable_off t hoff st) ma proc_id minloc st
    ⟨rfl, rfl, rfl⟩
  refine ⟨key.1, key.2.1, key.2.2, ?_, ?_⟩
  · intro app id pos nodes s
    simp [TO_resolve, hoff]
  · intro app id pos nodes s
    simp [FROM_resolve, hoff]

end Caches

/-- Instance of `fixed_meshes_off_leaves_caches`: two apps on one process, FROM_MULTIAPP. -/
theorem fixed_meshes_off_leaves_caches_witness :
    (⟨Direction.FROM_MULTIAPP, false, false, false⟩ : Params).fixed_meshes = false ∧
    (finalLog (execute line_size ⟨Direction.FROM_MULTIAPP, false, false, false⟩
      two_apps_one_process 0 (Communicator_minloc [[1]]) fresh)).filter isCacheEvent =
        fresh.log.filter isCacheEvent :=
  ⟨rfl, (fixed_meshes_off_leaves_caches line_size ⟨Direction.FROM_MULTIAPP, false, false, false⟩
      two_apps_one_process 0 (Communicator_minloc [[1]]) fresh rfl).2.2.1⟩

end MultiAppNearestNodeTransfer

namespace MultiAppNearestNodeTransfer

variable {P R : Type}

/-! ## The current communicator -/

section Communicator

theorem FROM_winner_comm (t : Params) (ma : MultiApp P R) (to_mesh : MeshBase P)
    (is_nodal : Bool) (proc_id : Nat) (c : Candidates R) (j : Nat) (st st' : TransferState P R)
    (h : FROM_winner t ma to_mesh is_nodal proc_id c j st = Except.ok st') :
    st'.comm = st.comm := by
  unfold FROM_winner at h
  split at h
  · exact absurd h (by simp)
  · split at h
    · try simp only [] at h
      split at h
      · exact absurd h (by simp)
      · split at h
        · exact absurd h (by simp)
        · split at h
          · exact absurd h (by simp)
          · try simp only [] at h
            split at h
            · exact absurd h (by simp)
            · split at h
              · exact absurd h (by simp)
              · simp only [Except.ok.injEq] at h
                subst h
                rfl
    · simp only [Except.ok.injEq] at h
      subst h
      rfl

variable [LinearOrder R] [Zero R] [Sub P]

theorem TO_resolve_comm (size : P → WithTop R) (fixed_meshes : Bool) (app id : Nat) (pos : P)
    (nodes : List (Node P)) (st : TransferState P R) :
    (TO_resolve size fixed_meshes app id pos nodes st).2.2.comm = st.comm := by
  unfold TO_resolve
  cases fixed_meshes
  · rfl
  · simp only [if_true, TransferState.emit]
    cases st.node_map id <;> rfl

theorem FROM_entity_comm (size : P → WithTop R) (t : Params) (ma : MultiApp P R)
    (from_mesh : MeshBase P) (i id : Nat) (pos : P)
    (loop loop' : Candidates R × TransferState P R)
    (h : FROM_entity size t ma from_mesh i id pos loop = Except.ok loop') :
    loop'.2.comm = loop.2.comm := by
  unfold FROM_entity at h
  simp only at h
  split at h
  · exact absurd h (by simp)
  · split at h
    · split at h
      · exact absurd h (by simp)
      · simp only [Except.ok.injEq] at h
        subst h
        rfl
    · simp only [Except.ok.injEq] at h
      subst h
      rfl

theorem FROM_app_comm (size : P → WithTop R) (t : Params) (ma : MultiApp P R) (to_mesh : MeshBase P)
    (is_nodal : Bool) (i : Nat) (loop loop' : Candidates R × TransferState P R)
    (h : FROM_app size t ma to_mesh is_nodal i loop = Except.ok loop') :
    loop'.2.comm = loop.2.comm := by
  unfold FROM_app at h
  split at h
  · simp only [Except.ok.injEq] at h
    subst h
    rfl
  · simp only at h
    split at h
    · exact absurd h (by simp)
    · split at h
      · exact forEach_keeps _
          (fun s : Candidates R × TransferState P R => s.2.comm = loop.2.comm) _ _ _ h
          (fun x s s' hs hb => (FROM_entity_comm size t ma _ i _ _ s s' hb).trans hs) rfl
      · exact forEach_keeps _
          (fun s : Candidates R × TransferState P R => s.2.comm = loop.2.comm) _ _ _ h
          (fun x s s' hs hb => (FROM_entity_comm size t ma _ i _ _ s s' hb).trans hs) rfl

theorem FROM_local_search_comm (size : P → WithTop R) (t : Params) (ma : MultiApp P R)
    (st : TransferState P R) (loop' : Candidates R × TransferState P R)
    (h : FROM_local_search size t ma st = Except.ok loop') :
    loop'.2.comm = st.comm := by
  unfold FROM_local_search at h
  simp only at h
  split at h
  · exact absurd h (by simp)
  · exact forEach_keeps _
      (fun s : Candidates R × TransferState P R => s.2.comm = st.comm) _ _ _ h
      (fun i s s' hs hb => (FROM_app_comm size t ma _ _ i s s' hb).trans hs) rfl

theorem execute_FROM_comm (size : P → WithTop R) (t : Params) (ma : MultiApp P R) (proc_id : Nat)
    (minloc : List (WithTop R) → List (WithTop R) × List Nat) (st st' : TransferState P R)
    (h : execute_FROM size t ma proc_id minloc st = Except.ok st') :
    st'.comm = st.comm := by
  unfold execute_FROM at h
  cases hls : FROM_local_search size t ma st with
  | error e => simp [hls] at h
  | ok r =>
    have h1 := FROM_local_search_comm size t ma st r hls
    simp only [hls] at h
    split at h
    · exact absurd h (by simp)
    · rename_i st3 hw
      simp only [Except.ok.injEq] at h
      subst h
      have h2 := forEach_keeps _ (fun s : TransferState P R => s.comm = st.comm) _ _ _ hw
        (fun j s s' hs hb => (FROM_winner_comm t ma _ _ proc_id _ j s s' hb).trans hs)
        (by simpa [TransferState.emit] using h1)
      simpa [TransferState.emit] using h2

variable [Add P]

theorem TO_entity_comm (size : P → WithTop R) (t : Params) (ma : MultiApp P R) (from_mesh : MeshBase P)
    (serialized_solution : Nat → R) (i id : Nat) (position : P) (n_dofs dof_number : Nat)
    (loop loop' : MPI_Comm × TransferState P R)
    (h : TO_entity size t ma from_mesh serialized_solution i id position n_dofs dof_number loop =
      Except.ok loop') :
    loop'.1 = loop.1 := by
  unfold TO_entity at h
  simp only at h
  split at h
  · split at h
    · exact absurd h (by simp)
    · simp only [Except.ok.injEq] at h
      subst h
      simp [swapLibMeshComm, TransferState.emit, TO_resolve_comm]
  · simp only [Except.ok.injEq] at h
    subst h
    rfl

theorem TO_app_comm (size : P → WithTop R) (t : Params) (ma : MultiApp P R) (from_mesh : MeshBase P)
    (serialized_solution : Nat → R) (i : Nat) (st st' : TransferState P R)
    (h : TO_app size t ma from_mesh serialized_solution i st = Except.ok st') :
    st'.comm = st.comm := by
  unfold TO_app at h
  split at h
  · simp only [Except.ok.injEq] at h
    subst h
    rfl
  · simp only at h
    split at h
    · exact absurd h (by simp)
    · rename_i swapped st1 hloop
      simp only [Except.ok.injEq] at h
      subst h
      have hsw : (swapped, st1).1 = st.comm := by
        split at hloop
        · exact forEach_keeps _
            (fun s : MPI_Comm × TransferState P R => s.1 = st.comm) _ _ _ hloop
            (fun x s s' hs hb =>
              (TO_entity_comm size t ma from_mesh serialized_solution i _ _ _ _ s s' hb).trans hs) rfl
        · exact forEach_keeps _
            (fun s : MPI_Comm × TransferState P R => s.1 = st.comm) _ _ _ hloop
            (fun x s s' hs hb =>
              (TO_entity_comm size t ma from_mesh serialized_solution i _ _ _ _ s s' hb).trans hs) rfl
      simpa [swapLibMeshComm] using hsw

theorem execute_TO_comm (size : P → WithTop R) (t : Params) (ma : MultiApp P R)
    (st st' : TransferState P R) (h : execute_TO size t ma st = Except.ok st') :
    st'.comm = st.comm := by
  unfold execute_TO at h
  simp only at h
  split at h
  · exact absurd h (by simp)
  · split at h
    · exact absurd h (by simp)
    · exact forEach_keeps _ (fun s : TransferState P R => s.comm = st.comm) _ _ _ h
        (fun i s s' hs hb => (TO_app_comm size t ma _ _ i s s' hb).trans hs) rfl

/-- C16. When `execute` returns normally, in either direction, the current
communicator is the one that was current when `execute` was entered. -/
theorem communicator_restored (size : P → WithTop R) (t : Params) (ma : MultiApp P R) (proc_id : Nat)
    (minloc : List (WithTop R) → List (WithTop R) × List Nat) (st st' : TransferState P R)
    (h : execute size t ma proc_id minloc st = Except.ok st') :
    st'.comm = st.comm := by
  unfold execute at h
  split at h
  · exact execute_TO_comm size t ma st st' h
  · exact execute_FROM_comm size t ma proc_id minloc st st' h

end Communicator

/-- Instance of `communicator_restored`: the TO_MULTIAPP run of one process with
two apps and the FROM_MULTIAPP run of one process with two apps, both entered
with the master communicator 0 current while the MultiApp has communicator 1. -/
theorem communicator_restored_witness :
    (execute line_size ⟨Direction.TO_MULTIAPP, false, false, true⟩ two_apps_two_offsets 0
        (Communicator_minloc []) fresh =
      Except.ok (finalState (execute line_size ⟨Direction.TO_MULTIAPP, false, false, true⟩
        two_apps_two_offsets 0 (Communicator_minloc []) fresh)) ∧
     (finalState (execute line_size ⟨Direction.TO_MULTIAPP, false, false, true⟩
        two_apps_two_offsets 0 (Communicator_minloc []) fresh)).comm = fresh.comm) ∧
    (execute line_size ⟨Direction.FROM_MULTIAPP, false, false, false⟩ two_apps_one_process 0
        (Communicator_minloc [[1]]) fresh =
      Except.ok (finalState (execute line_size ⟨Direction.FROM_MULTIAPP, false, false, false⟩
        two_apps_one_process 0 (Communicator_minloc [[1]]) fresh)) ∧
     (finalState (execute line_size ⟨Direction.FROM_MULTIAPP, false, false, false⟩
        two_apps_one_process 0 (Communicator_minloc [[1]]) fresh)).comm = fresh.comm) :=
  ⟨⟨ok_of_completes _ (by decide),
    communicator_restored line_size ⟨Direction.TO_MULTIAPP, false, false, true⟩
      two_apps_two_offsets 0 (Communicator_minloc []) fresh _
      (ok_of_completes _ (by decide))⟩,
   ⟨ok_of_completes _ (by decide),
    communicator_restored line_size ⟨Direction.FROM_MULTIAPP, false, false, false⟩
      two_apps_one_process 0 (Communicator_minloc [[1]]) fresh _
      (ok_of_completes _ (by decide))⟩⟩

end MultiAppNearestNodeTransfer

namespace MultiAppNearestNodeTransfer

variable {P R : Type}

/-! ## An execution and the next one -/

section Replay

theorem readEvents_filter (l : List (Event R)) : readEvents (l.filter isTransfer) = readEvents l := by
  induction l with
  | nil => rfl
  | cons e l ih =>
    cases e <;> simp [readEvents, isTransfer, List.filter_cons] at ih ⊢ <;> exact ih

theorem setEvents_filter (l : List (Event R)) : setEvents (l.filter isTransfer) = setEvents l := by
  induction l with
  | nil => rfl
  | cons e l ih =>
    cases e <;> simp [setEvents, isTransfer, List.filter_cons] at ih ⊢ <;> exact ih

theorem setPlaces_filter (l : List (Event R)) : setPlaces (l.filter isTransfer) = setPlaces l := by
  simp [setPlaces, setEvents_filter]

theorem refreshed_snoc (source : Nat → Nat → R) (reads places : List (Nat × Nat × Nat))
    (rd pl : Nat × Nat × Nat) (h : reads.length = places.length) :
    refreshed source (reads ++ [rd]) (places ++ [pl]) =
      refreshed source reads places ++ [(pl.1, pl.2.1, pl.2.2, source rd.1 rd.2.2)] := by
  unfold refreshed
  rw [List.zipWith_append _ _ _ _ _ h]
  rfl

/-- States with the same reads and sets in their logs, and the same caches on
the side of the later execution, stay related. -/
theorem replays_congr (source source1 : Nat → Nat → R) (final s s1 s' s1' : TransferState P R)
    (h : replays source source1 final s s1)
    (hlog : s'.log.filter isTransfer = s.log.filter isTransfer)
    (hlog1 : s1'.log.filter isTransfer = s1.log.filter isTransfer)
    (hnm : s1'.node_map = s1.node_map) (hdm : s1'.distance_map = s1.distance_map) :
    replays source source1 final s' s1' := by
  obtain ⟨h1, h2, h3, h4, h5, h6⟩ := h
  have e1 : readEvents s'.log = readEvents s.log := by
    rw [← readEvents_filter, hlog, readEvents_filter]
  have e2 : setEvents s'.log = setEvents s.log := by
    rw [← setEvents_filter, hlog, setEvents_filter]
  have e3 : readEvents s1'.log = readEvents s1.log := by
    rw [← readEvents_filter, hlog1, readEvents_filter]
  have e4 : setEvents s1'.log = setEvents s1.log := by
    rw [← setEvents_filter, hlog1, setEvents_filter]
  have e5 : setPlaces s'.log = setPlaces s.log := by simp [setPlaces, e2]
  have e6 : setPlaces s1'.log = setPlaces s1.log := by simp [setPlaces, e4]
  refine ⟨hnm.trans h1, hdm.trans h2, by rw [e3, e1, h3], by rw [e6, e5, h4], ?_, ?_⟩
  · unfold sets_follow_reads at h5 ⊢
    rw [e1, e2, e5]
    exact h5
  · unfold sets_follow_reads at h6 ⊢
    rw [e3, e4, e6]
    exact h6

/-- A read and the set of the value read, made at the same place by both
executions, keep their states related. -/
theorem replays_step (source source1 : Nat → Nat → R) (final s s1 s' s1' : TransferState P R)
    (app id from_dof dof : Nat)
    (h : replays source source1 final s s1)
    (hlog : s'.log.filter isTransfer = s.log.filter isTransfer ++
      [Event.read app id from_dof, Event.set app id dof (source app from_dof)])
    (hlog1 : s1'.log.filter isTransfer = s1.log.filter isTransfer ++
      [Event.read app id from_dof, Event.set app id dof (source1 app from_dof)])
    (hnm : s1'.node_map = s1.node_map) (hdm : s1'.distance_map = s1.distance_map) :
    replays source source1 final s' s1' := by
  obtain ⟨h1, h2, h3, h4, h5, h6⟩ := h
  have e1 : readEvents s'.log = readEvents s.log ++ [(app, id, from_dof)] := by
    rw [← readEvents_filter, hlog, ← readEvents_filter s.log]
    simp [readEvents, List.filterMap_append]
  have e2 : setEvents s'.log = setEvents s.log ++ [(app, id, dof, source app from_dof)] := by
    rw [← setEvents_filter, hlog, ← setEvents_filter s.log]
    simp [setEvents, List.filterMap_append]
  have e3 : readEvents s1'.log = readEvents s1.log ++ [(app, id, from_dof)] := by
    rw [← readEvents_filter, hlog1, ← readEvents_filter s1.log]
    simp [readEvents, List.filterMap_append]
  have e4 : setEvents s1'.log = setEvents s1.log ++ [(app, id, dof, source1 app from_dof)] := by
    rw [← setEvents_filter, hlog1, ← setEvents_filter s1.log]
    simp [setEvents, List.filterMap_append]
  have e5 : setPlaces s'.log = setPlaces s.log ++ [(app, id, dof)] := by
    simp [setPlaces, e2]
  have e6 : setPlaces s1'.log = setPlaces s1.log ++ [(app, id, dof)] := by
    simp [setPlaces, e4]
  refine ⟨hnm.trans h1, hdm.trans h2, by rw [e3, e1, h3], by rw [e6, e5, h4], ?_, ?_⟩
  · unfold sets_follow_reads at h5 ⊢
    rw [e1, e2, e5, refreshed_snoc _ _ _ _ _ h5.1, ← h5.2]
    exact ⟨by simp [h5.1], rfl⟩
  · unfold sets_follow_reads at h6 ⊢
    rw [e3, e4, e6, refreshed_snoc _ _ _ _ _ h6.1, ← h6.2]
    exact ⟨by simp [h6.1], rfl⟩

/-- A loop of the later execution follows the loop of the earlier one: `D` is
what is known of the state the earlier loop ends in, `Q` relates the states of
the two loops. -/
theorem forEach_again {α σ τ ε : Type} (body : α → σ → Except ε σ)
    (body1 : α → τ → Except ε τ) (D : σ → Prop) (Q : σ → τ → Prop)
    (hmono : ∀ x s s', body x s = Except.ok s' → D s' → D s)
    (hstep : ∀ x s s' u, body x s = Except.ok s' → D s' → Q s u →
      ∃ u', body1 x u = Except.ok u' ∧ Q s' u') :
    ∀ (xs : List α) (s s' : σ) (u : τ), forEach body xs s = Except.ok s' → D s' → Q s u →
      (D s ∧ ∃ u', forEach body1 xs u = Except.ok u' ∧ Q s' u')
  | [], s, s', u, hrun, hD, hQ => by
    simp only [forEach, Except.ok.injEq] at hrun
    subst hrun
    exact ⟨hD, u, rfl, hQ⟩
  | x :: xs, s, s', u, hrun, hD, hQ => by
    cases hb : body x s with
    | error e => simp [forEach, hb] at hrun
    | ok s1 =>
      rw [forEach_cons_ok hb] at hrun
      have hD1 : D s1 := by
        have aux : ∀ (ys : List α) (a a' : σ), forEach body ys a = Except.ok a' → D a' → D a := by
          intro ys
          induction ys with
          | nil =>
            intro a a' ha hDa
            simp only [forEach, Except.ok.injEq] at ha
            subst ha
            exact hDa
          | cons y ys ih =>
            intro a a' ha hDa
            cases hy : body y a with
            | error e => simp [forEach, hy] at ha
            | ok a1 =>
              rw [forEach_cons_ok hy] at ha
              exact hmono y a a1 hy (ih a1 a' ha hDa)
        exact aux xs s1 s' hrun hD
      obtain ⟨u1, hb1, hQ1⟩ := hstep x s s1 u hb hD1 hQ
      obtain ⟨_, u', hrun1, hQ'⟩ := forEach_again body body1 D Q hmono hstep xs s1 s' u1 hrun hD hQ1
      exact ⟨hmono x s s1 hb hD1, u', by rw [forEach_cons_ok hb1]; exact hrun1, hQ'⟩

end Replay

end MultiAppNearestNodeTransfer

namespace MultiAppNearestNodeTransfer

variable {P R : Type}

/-! ## TO_MULTIAPP: an execution and the next one -/

section ReplayTo

theorem selectMesh_congr (flag : Bool) (p p1 : FEProblem P R) (hmesh : p1.mesh = p.mesh)
    (hdisplaced : p1.displaced = p.displaced) : selectMesh flag p1 = selectMesh flag p := by
  unfold selectMesh
  rw [hmesh, hdisplaced]

/-- What `same_geometry` says of the app `i`. -/
theorem same_geometry_app (ma ma1 : MultiApp P R) (hgeo : same_geometry ma ma1) (i : Nat) :
    (ma.appProblem i = none ∧ ma1.appProblem i = none) ∨
    ∃ p p1, ma.appProblem i = some p ∧ ma1.appProblem i = some p1 ∧ p1.mesh = p.mesh ∧
      p1.displaced = p.displaced ∧ p1.variable_type = p.variable_type := by
  have hi := hgeo.2.2.2.2.2.2 i
  cases hp : ma.appProblem i with
  | none =>
    cases hp1 : ma1.appProblem i with
    | none => exact Or.inl ⟨rfl, rfl⟩
    | some p1 => simp [hp, hp1] at hi
  | some p =>
    cases hp1 : ma1.appProblem i with
    | none => simp [hp, hp1] at hi
    | some p1 =>
      simp only [hp, hp1] at hi
      exact Or.inr ⟨p, p1, rfl, rfl, hi⟩

variable [LinearOrder R] [Zero R] [Sub P]

theorem TO_resolve_log (size : P → WithTop R) (fixed_meshes : Bool) (app id : Nat) (pos : P)
    (nodes : List (Node P)) (st : TransferState P R) :
    (TO_resolve size fixed_meshes app id pos nodes st).2.2.log.filter isTransfer =
      st.log.filter isTransfer := by
  unfold TO_resolve
  cases fixed_meshes
  · simp [TransferState.emit, List.filter_append, isTransfer]
  · simp only [if_true, TransferState.emit]
    cases st.node_map id <;> simp [TransferState.emit, List.filter_append, isTransfer]

/-- A resolution of the later execution yields the node the earlier one yielded
and leaves the caches as they are. -/
theorem TO_resolve_again (size : P → WithTop R) (fixed_meshes : Bool) (final : TransferState P R)
    (app id : Nat) (pos : P) (nodes : List (Node P)) (s s1 : TransferState P R)
    (hD : fixed_meshes = true →
      cache_kept (TO_resolve size fixed_meshes app id pos nodes s).2.2 final)
    (hnm : s1.node_map = final.node_map) (hdm : s1.distance_map = final.distance_map) :
    (TO_resolve size fixed_meshes app id pos nodes s1).1 =
        (TO_resolve size fixed_meshes app id pos nodes s).1 ∧
      (TO_resolve size fixed_meshes app id pos nodes s1).2.2.node_map = final.node_map ∧
      (TO_resolve size fixed_meshes app id pos nodes s1).2.2.distance_map =
        final.distance_map := by
  cases fixed_meshes with
  | false => simp [TO_resolve, TransferState.emit, hnm, hdm]
  | true =>
    have hD := hD rfl
    have hentry : final.node_map id =
        some (TO_resolve size true app id pos nodes s).1 := by
      unfold TO_resolve at hD ⊢
      simp only [if_true, TransferState.emit] at hD ⊢
      cases hc : s.node_map id with
      | none =>
        simp only [hc] at hD ⊢
        exact (hD id _ (by simp [mapInsert])).1
      | some cached =>
        simp only [hc] at hD ⊢
        exact (hD id cached hc).1
    have hhit : s1.node_map id = some (TO_resolve size true app id pos nodes s).1 := by
      rw [hnm]; exact hentry
    generalize (TO_resolve size true app id pos nodes s).1 = found at hhit
    rw [hnm] at hhit
    simp [TO_resolve, TransferState.emit, hhit, hnm, hdm]

variable [Add P]

/-- An iteration of the entity loops of the later execution does what the
iteration of the earlier one did: same node read, same place set. -/
theorem TO_entity_again (size : P → WithTop R) (t : Params) (ma : MultiApp P R)
    (final : TransferState P R) (from_mesh : MeshBase P) (sol sol1 : Nat → R)
    (source source1 : Nat → Nat → R) (i id : Nat) (position : P) (n_dofs dof_number : Nat)
    (hsol : ∀ dof, sol dof = source i dof) (hsol1 : ∀ dof, sol1 dof = source1 i dof)
    (loop loop' loop1 : MPI_Comm × TransferState P R)
    (h : TO_entity size t ma from_mesh sol i id position n_dofs dof_number loop =
      Except.ok loop')
    (hD : t.fixed_meshes = true → cache_kept loop'.2 final)
    (hQ : replays source source1 final loop.2 loop1.2) :
    ∃ loop1', TO_entity size t ma from_mesh sol1 i id position n_dofs dof_number loop1 =
        Except.ok loop1' ∧
      replays source source1 final loop'.2 loop1'.2 := by
  unfold TO_entity at h ⊢
  by_cases hd : n_dofs > 0
  · simp only [hd, if_true] at h ⊢
    cases hr : (TO_resolve size t.fixed_meshes i id (position + ma.position i) from_mesh.nodes
        (swapLibMeshComm loop.1 (loop.2.emit (Event.dofNumber (some i) id))).2).1 with
    | none => simp [hr] at h
    | some n =>
      simp only [hr, Except.ok.injEq] at h
      subst h
      obtain ⟨hsame, hnm, hdm⟩ := TO_resolve_again size t.fixed_meshes final i id
        (position + ma.position i) from_mesh.nodes
        (swapLibMeshComm loop.1 (loop.2.emit (Event.dofNumber (some i) id))).2
        (swapLibMeshComm loop1.1 (loop1.2.emit (Event.dofNumber (some i) id))).2
        (fun hf => hD hf) hQ.1 hQ.2.1
      rw [hr] at hsame
      simp only [hsame]
      refine ⟨_, rfl, ?_⟩
      refine replays_step source source1 final loop.2 loop1.2 _ _ i id n.dof_number dof_number
        hQ ?_ ?_ ?_ ?_
      · simp [swapLibMeshComm, TransferState.emit, List.filter_append, TO_resolve_log,
          isTransfer, hsol]
      · simp [swapLibMeshComm, TransferState.emit, List.filter_append, TO_resolve_log,
          isTransfer, hsol1]
      · simpa [swapLibMeshComm, TransferState.emit] using hnm.trans hQ.1.symm
      · simpa [swapLibMeshComm, TransferState.emit] using hdm.trans hQ.2.1.symm
  · simp only [hd, if_false, Except.ok.injEq] at h ⊢
    subst h
    exact ⟨loop1, rfl, hQ⟩

theorem TO_entity_congr (size : P → WithTop R) (t : Params) (ma ma1 : MultiApp P R)
    (hpos : ma1.position = ma.position) (hcomm : ma1.comm = ma.comm)
    (from_mesh : MeshBase P) (sol : Nat → R) (i id : Nat) (position : P)
    (n_dofs dof_number : Nat) :
    TO_entity size t ma1 from_mesh sol i id position n_dofs dof_number =
      TO_entity size t ma from_mesh sol i id position n_dofs dof_number := by
  funext loop
  unfold TO_entity
  rw [hpos, hcomm]

/-- The body of the app loop of the later execution does what the body of the
earlier one did. -/
theorem TO_app_again (size : P → WithTop R) (t : Params) (ma ma1 : MultiApp P R)
    (final : TransferState P R) (from_mesh : MeshBase P) (sol sol1 : Nat → R)
    (source source1 : Nat → Nat → R) (i : Nat) (hgeo : same_geometry ma ma1)
    (hsol : ∀ dof, sol dof = source i dof) (hsol1 : ∀ dof, sol1 dof = source1 i dof)
    (s s' s1 : TransferState P R)
    (h : TO_app size t ma from_mesh sol i s = Except.ok s')
    (hD : t.fixed_meshes = true → cache_kept s' final)
    (hQ : replays source source1 final s s1) :
    ∃ s1', TO_app size t ma1 from_mesh sol1 i s1 = Except.ok s1' ∧
      replays source source1 final s' s1' := by
  have hcomm : ma1.comm = ma.comm := hgeo.2.2.2.2.1
  have hpos : ma1.position = ma.position := hgeo.2.2.2.2.2.1
  unfold TO_app at h ⊢
  rcases same_geometry_app ma ma1 hgeo i with ⟨hp, hp1⟩ | ⟨p, p1, hp, hp1, hmesh, hdisp, hvt⟩
  · simp only [hp, hp1, Except.ok.injEq] at h ⊢
    subst h
    exact ⟨s1, rfl, hQ⟩
  · simp only [hp, hp1, hcomm, hvt, selectMesh_congr t.displaced_target_mesh p p1 hmesh hdisp,
      TO_entity_congr size t ma ma1 hpos hcomm] at h ⊢
    have hstart : replays source source1 final (swapLibMeshComm ma.comm s).2
        (swapLibMeshComm ma.comm s1).2 :=
      replays_congr source source1 final s s1 _ _ hQ
        (by simp [swapLibMeshComm, List.filter_append, isTransfer])
        (by simp [swapLibMeshComm, List.filter_append, isTransfer]) rfl rfl
    have hloop : ∀ {α : Type} (xs : List α) (idOf : α → Nat) (posOf : α → P)
        (nd dn : α → Nat) (r : MPI_Comm × TransferState P R),
        forEach (fun x => TO_entity size t ma from_mesh sol i (idOf x) (posOf x) (nd x) (dn x))
          xs (swapLibMeshComm ma.comm s) = Except.ok r →
        (t.fixed_meshes = true → cache_kept r.2 final) →
        ∃ r1, forEach (fun x => TO_entity size t ma from_mesh sol1 i (idOf x) (posOf x)
            (nd x) (dn x)) xs (swapLibMeshComm ma.comm s1) = Except.ok r1 ∧
          replays source source1 final r.2 r1.2 := by
      intro α xs idOf posOf nd dn r hrun hDr
      exact (forEach_again _ _
        (fun lp : MPI_Comm × TransferState P R => t.fixed_meshes = true → cache_kept lp.2 final)
        (fun lp lp1 : MPI_Comm × TransferState P R => replays source source1 final lp.2 lp1.2)
        (fun x a a' ha hDa hf => by
          have hk := TO_entity_frame size (frame_stable_cache_kept t a.2) ma from_mesh sol i
            (idOf x) (posOf x) (nd x) (dn x) a (cache_kept_refl a.2)
          rw [ha] at hk
          exact cache_kept_trans hk (hDa hf))
        (fun x a a' u ha hDa hQa =>
          TO_entity_again size t ma final from_mesh sol sol1 source source1 i (idOf x) (posOf x)
            (nd x) (dn x) hsol hsol1 a a' u ha hDa hQa)
        xs _ r _ hrun hDr hstart).2
    split at h
    · exact absurd h (by simp)
    · rename_i swapped st1 hrun
      simp only [Except.ok.injEq] at h
      subst h
      have hDr : t.fixed_meshes = true → cache_kept (swapped, st1).2 final := fun hf => hD hf
      by_cases hnodal : p.variable_type.family = FEFamily.LAGRANGE
      · simp only [hnodal, decide_True, if_true] at hrun ⊢
        obtain ⟨r1, hrun1, hQ1⟩ := hloop _ _ _ _ _ (swapped, st1) hrun hDr
        rw [hrun1]
        refine ⟨_, rfl, ?_⟩
        exact replays_congr source source1 final st1 r1.2 _ _ hQ1
          (by simp [swapLibMeshComm, TransferState.emit, List.filter_append, isTransfer])
          (by simp [swapLibMeshComm, TransferState.emit, List.filter_append, isTransfer])
          rfl rfl
      · simp only [hnodal, decide_False] at hrun ⊢
        obtain ⟨r1, hrun1, hQ1⟩ := hloop _ _ _ _ _ (swapped, st1) hrun hDr
        rw [hrun1]
        refine ⟨_, rfl, ?_⟩
        exact replays_congr source source1 final st1 r1.2 _ _ hQ1
          (by simp [swapLibMeshComm, TransferState.emit, List.filter_append, isTransfer])
          (by simp [swapLibMeshComm, TransferState.emit, List.filter_append, isTransfer])
          rfl rfl

/-- The TO_MULTIAPP case of the later execution follows the earlier one. -/
theorem execute_TO_again (size : P → WithTop R) (t : Params) (ma ma1 : MultiApp P R)
    (hgeo : same_geometry ma ma1) (s s' s1 : TransferState P R)
    (h : execute_TO size t ma s = Except.ok s')
    (hQ : replays (fun _ dof => ma.problem.solution dof) (fun _ dof => ma1.problem.solution dof)
      s' s s1) :
    ∃ s1', execute_TO size t ma1 s1 = Except.ok s1' ∧
      replays (fun _ dof => ma.problem.solution dof) (fun _ dof => ma1.problem.solution dof)
        s' s' s1' := by
  obtain ⟨hmesh, hdisp, _, hn, _, _, _⟩ := hgeo
  unfold execute_TO at h ⊢
  simp only [hmesh, hdisp, hn] at h ⊢
  split at h
  · exact absurd h (by simp)
  · rename_i hcond
    simp only [hcond]
    split at h
    · exact absurd h (by simp)
    · rename_i hserial
      simp only [hserial]
      have hstart : replays (fun _ dof => ma.problem.solution dof)
          (fun _ dof => ma1.problem.solution dof) s' (s.emit Event.localize)
          (s1.emit Event.localize) :=
        replays_congr _ _ s' s s1 _ _ hQ
          (by simp [TransferState.emit, List.filter_append, isTransfer])
          (by simp [TransferState.emit, List.filter_append, isTransfer]) rfl rfl
      exact (forEach_again _ _
        (fun a : TransferState P R => t.fixed_meshes = true → cache_kept a s')
        (fun a a1 : TransferState P R => replays (fun _ dof => ma.problem.solution dof)
          (fun _ dof => ma1.problem.solution dof) s' a a1)
        (fun i a a' ha hDa hf => by
          have hk := TO_app_frame size (frame_stable_cache_kept t a) ma ma.problem.mesh
            ma.problem.solution i a (cache_kept_refl a)
          rw [ha] at hk
          exact cache_kept_trans hk (hDa hf))
        (fun i a a' u ha hDa hQa =>
          TO_app_again size t ma ma1 s' ma.problem.mesh ma.problem.solution
            ma1.problem.solution _ _ i
            ⟨hmesh, hdisp, by assumption, hn, by assumption, by assumption, by assumption⟩
            (fun _ => rfl) (fun _ => rfl) a a' u ha hDa hQa)
        _ _ s' _ h (fun _ => cache_kept_refl s') hstart).2

end ReplayTo

end MultiAppNearestNodeTransfer

namespace MultiAppNearestNodeTransfer

variable {P R : Type}

/-! ## FROM_MULTIAPP: an execution and the next one -/

section ReplayFrom

variable [LinearOrder R] [Zero R] [Sub P]

/-- With `fixed_meshes`, after a resolution the caches hold for the target id
the node and the distance that the resolution yielded. -/
theorem FROM_resolve_entry (size : P → WithTop R) (app id : Nat) (pos : P) (nodes : List (Node P))
    (s : TransferState P R) :
    (FROM_resolve size true app id pos nodes s).2.2.node_map id =
        some (FROM_resolve size true app id pos nodes s).1 ∧
      (FROM_resolve size true app id pos nodes s).2.2.distance_map id =
        some (FROM_resolve size true app id pos nodes s).2.1 := by
  unfold FROM_resolve
  simp only [if_true, TransferState.emit]
  cases hc : s.node_map id with
  | none => simp [mapInsert]
  | some cached =>
    cases hd : s.distance_map id with
    | none => simp [mapInsert, hc]
    | some d => simp [hc, hd]

/-- A resolution of the later execution yields the node and the distance the
earlier one yielded and leaves the caches as they are. -/
theorem FROM_resolve_again (size : P → WithTop R) (fixed_meshes : Bool) (final : TransferState P R)
    (app id : Nat) (pos : P) (nodes : List (Node P)) (s s1 : TransferState P R)
    (hD : fixed_meshes = true →
      cache_kept (FROM_resolve size fixed_meshes app id pos nodes s).2.2 final)
    (hnm : s1.node_map = final.node_map) (hdm : s1.distance_map = final.distance_map) :
    (FROM_resolve size fixed_meshes app id pos nodes s1).1 =
        (FROM_resolve size fixed_meshes app id pos nodes s).1 ∧
      (FROM_resolve size fixed_meshes app id pos nodes s1).2.1 =
        (FROM_resolve size fixed_meshes app id pos nodes s).2.1 ∧
      (FROM_resolve size fixed_meshes app id pos nodes s1).2.2.node_map = final.node_map ∧
      (FROM_resolve size fixed_meshes app id pos nodes s1).2.2.distance_map =
        final.distance_map := by
  cases fixed_meshes with
  | false => simp [FROM_resolve, TransferState.emit, hnm, hdm]
  | true =>
    obtain ⟨he1, he2⟩ := FROM_resolve_entry size app id pos nodes s
    obtain ⟨hf1, hf2⟩ := hD rfl id _ he1
    have hf2 := hf2 _ he2
    generalize (FROM_resolve size true app id pos nodes s).1 = found at hf1
    generalize (FROM_resolve size true app id pos nodes s).2.1 = dist at hf2
    simp [FROM_resolve, TransferState.emit, hnm, hdm, hf1, hf2]

/-- An iteration of a target loop of the later execution leaves the candidates
the iteration of the earlier one left. -/
theorem FROM_entity_again (size : P → WithTop R) (t : Params) (ma : MultiApp P R)
    (final : TransferState P R) (from_mesh : MeshBase P) (i id : Nat) (pos : P)
    (loop loop' loop1 : Candidates R × TransferState P R)
    (h : FROM_entity size t ma from_mesh i id pos loop = Except.ok loop')
    (hD : t.fixed_meshes = true → cache_kept loop'.2 final)
    (hc : loop1.1 = loop.1) (hnm : loop1.2.node_map = final.node_map)
    (hdm : loop1.2.distance_map = final.distance_map) :
    ∃ loop1', FROM_entity size t ma from_mesh i id pos loop1 = Except.ok loop1' ∧
      loop1'.1 = loop'.1 ∧ loop1'.2.node_map = final.node_map ∧
      loop1'.2.distance_map = final.distance_map := by
  have hres : ∀ hDr : (t.fixed_meshes = true → cache_kept
      (FROM_resolve size t.fixed_meshes i id pos from_mesh.local_nodes
        (swapLibMeshComm ma.comm loop.2).2).2.2 final), _ :=
    fun hDr => FROM_resolve_again size t.fixed_meshes final i id pos from_mesh.local_nodes
      (swapLibMeshComm ma.comm loop.2).2 (swapLibMeshComm ma.comm loop1.2).2 hDr hnm hdm
  unfold FROM_entity at h ⊢
  simp only [hc] at h ⊢
  split at h
  · exact absurd h (by simp)
  · rename_i best hbest
    split at h
    · rename_i hlt
      split at h
      · exact absurd h (by simp)
      · rename_i nearest hnear
        simp only [Except.ok.injEq] at h
        subst h
        obtain ⟨h1, h2, h3, h4⟩ := hres (fun hf => hD hf)
        simp only [h1, h2, hlt, if_true, hnear]
        exact ⟨_, rfl, rfl, by simpa [swapLibMeshComm] using h3,
          by simpa [swapLibMeshComm] using h4⟩
    · rename_i hlt
      simp only [Except.ok.injEq] at h
      subst h
      obtain ⟨h1, h2, h3, h4⟩ := hres (fun hf => hD hf)
      simp only [h2, hlt, if_false]
      exact ⟨_, rfl, rfl, by simpa [swapLibMeshComm] using h3,
        by simpa [swapLibMeshComm] using h4⟩

theorem FROM_entity_congr (size : P → WithTop R) (t : Params) (ma ma1 : MultiApp P R)
    (hcomm : ma1.comm = ma.comm) (from_mesh : MeshBase P) (i id : Nat) (pos : P) :
    FROM_entity size t ma1 from_mesh i id pos = FROM_entity size t ma from_mesh i id pos := by
  funext loop
  unfold FROM_entity
  rw [hcomm]

/-- The body of the app loop of the later local search leaves the candidates
the body of the earlier one left. -/
theorem FROM_app_again (size : P → WithTop R) (t : Params) (ma ma1 : MultiApp P R)
    (final : TransferState P R) (to_mesh : MeshBase P) (is_nodal : Bool) (i : Nat)
    (hgeo : same_geometry ma ma1) (loop loop' loop1 : Candidates R × TransferState P R)
    (h : FROM_app size t ma to_mesh is_nodal i loop = Except.ok loop')
    (hD : t.fixed_meshes = true → cache_kept loop'.2 final)
    (hc : loop1.1 = loop.1) (hnm : loop1.2.node_map = final.node_map)
    (hdm : loop1.2.distance_map = final.distance_map) :
    ∃ loop1', FROM_app size t ma1 to_mesh is_nodal i loop1 = Except.ok loop1' ∧
      loop1'.1 = loop'.1 ∧ loop1'.2.node_map = final.node_map ∧
      loop1'.2.distance_map = final.distance_map := by
  have hcomm : ma1.comm = ma.comm := hgeo.2.2.2.2.1
  have hpos : ma1.position = ma.position := hgeo.2.2.2.2.2.1
  unfold FROM_app at h ⊢
  rcases same_geometry_app ma ma1 hgeo i with ⟨hp, hp1⟩ | ⟨p, p1, hp, hp1, hmesh, hdisp, hvt⟩
  · simp only [hp, hp1, Except.ok.injEq] at h ⊢
    subst h
    exact ⟨loop1, rfl, hc, hnm, hdm⟩
  · simp only [hp, hp1, hcomm, hpos, hmesh,
      selectMesh_congr t.displaced_source_mesh p p1 hmesh hdisp,
      FROM_entity_congr size t ma ma1 hcomm] at h ⊢
    split at h
    · exact absurd h (by simp)
    · rename_i hserial
      simp only [hserial, Bool.false_eq_true, if_false]
      have hloop : ∀ {α : Type} (xs : List α) (idOf : α → Nat) (posOf : α → P),
          forEach (fun x => FROM_entity size t ma (selectMesh t.displaced_source_mesh p) i
              (idOf x) (posOf x)) xs
            (loop.1, (swapLibMeshComm (swapLibMeshComm ma.comm loop.2).1
              (swapLibMeshComm ma.comm loop.2).2).2) = Except.ok loop' →
          ∃ loop1', forEach (fun x => FROM_entity size t ma
              (selectMesh t.displaced_source_mesh p) i (idOf x) (posOf x)) xs
            (loop1.1, (swapLibMeshComm (swapLibMeshComm ma.comm loop1.2).1
              (swapLibMeshComm ma.comm loop1.2).2).2) = Except.ok loop1' ∧
            loop1'.1 = loop'.1 ∧ loop1'.2.node_map = final.node_map ∧
            loop1'.2.distance_map = final.distance_map := by
        intro α xs idOf posOf hrun
        exact (forEach_again _ _
          (fun lp : Candidates R × TransferState P R =>
            t.fixed_meshes = true → cache_kept lp.2 final)
          (fun lp lp1 : Candidates R × TransferState P R =>
            lp1.1 = lp.1 ∧ lp1.2.node_map = final.node_map ∧
              lp1.2.distance_map = final.distance_map)
          (fun x a a' ha hDa hf => by
            have hk := FROM_entity_frame size (frame_stable_cache_kept t a.2) ma
              (selectMesh t.displaced_source_mesh p) i (idOf x) (posOf x) a
              (cache_kept_refl a.2)
            rw [ha] at hk
            exact cache_kept_trans hk (hDa hf))
          (fun x a a' u ha hDa hQa =>
            FROM_entity_again size t ma final (selectMesh t.displaced_source_mesh p) i
              (idOf x) (posOf x) a a' u ha hDa hQa.1 hQa.2.1 hQa.2.2)
          xs _ loop' (loop1.1, (swapLibMeshComm (swapLibMeshComm ma.comm loop1.2).1
              (swapLibMeshComm ma.comm loop1.2).2).2) hrun hD
          ⟨hc, by simpa [swapLibMeshComm] using hnm, by simpa [swapLibMeshComm] using hdm⟩).2
      cases is_nodal with
      | true =>
        simp only [if_true] at h ⊢
        exact hloop _ _ _ h
      | false =>
        simp only [Bool.false_eq_true, if_false] at h ⊢
        exact hloop _ _ _ h

/-- The later local search ends with the candidates of the earlier one. -/
theorem FROM_local_search_again (size : P → WithTop R) (t : Params) (ma ma1 : MultiApp P R)
    (final : TransferState P R) (hgeo : same_geometry ma ma1)
    (s s1 : TransferState P R) (loop' : Candidates R × TransferState P R)
    (h : FROM_local_search size t ma s = Except.ok loop')
    (hD : t.fixed_meshes = true → cache_kept loop'.2 final)
    (hnm : s1.node_map = final.node_map) (hdm : s1.distance_map = final.distance_map) :
    ∃ loop1', FROM_local_search size t ma1 s1 = Except.ok loop1' ∧
      loop1'.1 = loop'.1 ∧ loop1'.2.node_map = final.node_map ∧
      loop1'.2.distance_map = final.distance_map := by
  obtain ⟨hmesh, hdisp, hvt, hn, _, _, _⟩ := hgeo
  unfold FROM_local_search at h ⊢
  simp only [hmesh, hvt, hn, selectMesh_congr t.displaced_target_mesh ma.problem ma1.problem
    hmesh hdisp] at h ⊢
  split at h
  · exact absurd h (by simp)
  · rename_i hserial
    simp only [hserial, Bool.false_eq_true, if_false]
    exact (forEach_again _ _
      (fun lp : Candidates R × TransferState P R =>
        t.fixed_meshes = true → cache_kept lp.2 final)
      (fun lp lp1 : Candidates R × TransferState P R =>
        lp1.1 = lp.1 ∧ lp1.2.node_map = final.node_map ∧
          lp1.2.distance_map = final.distance_map)
      (fun i a a' ha hDa hf => by
        have hk := FROM_app_frame size (frame_stable_cache_kept t a.2) ma
          (selectMesh t.displaced_target_mesh ma.problem)
          (decide (ma.problem.variable_type = FEType_default)) i a (cache_kept_refl a.2)
        rw [ha] at hk
        exact cache_kept_trans hk (hDa hf))
      (fun i a a' u ha hDa hQa =>
        FROM_app_again size t ma ma1 final (selectMesh t.displaced_target_mesh ma.problem)
          (decide (ma.problem.variable_type = FEType_default)) i
          ⟨hmesh, hdisp, hvt, hn, by assumption, by assumption, by assumption⟩
          a a' u ha hDa hQa.1 hQa.2.1 hQa.2.2)
      _ _ loop' (Candidates.init _, s1) h hD ⟨rfl, hnm, hdm⟩).2

end ReplayFrom

end MultiAppNearestNodeTransfer

namespace MultiAppNearestNodeTransfer

variable {P R : Type}

/-! ## The winner loop and the whole execution, again -/

section ReplayWinner

/-- An iteration of the winner loop of the later execution does what the
iteration of the earlier one did, with the value the source holds now. -/
theorem FROM_winner_again (t : Params) (ma ma1 : MultiApp P R) (final : TransferState P R)
    (to_mesh : MeshBase P) (is_nodal : Bool) (q : Nat) (c : Candidates R) (j : Nat)
    (hgeo : same_geometry ma ma1) (source source1 : Nat → Nat → R)
    (hsrc : ∀ a p dof, ma.appProblem a = some p → p.solution dof = source a dof)
    (hsrc1 : ∀ a p dof, ma1.appProblem a = some p → p.solution dof = source1 a dof)
    (s s' s1 : TransferState P R)
    (h : FROM_winner t ma to_mesh is_nodal q c j s = Except.ok s')
    (hQ : replays source source1 final s s1) :
    ∃ s1', FROM_winner t ma1 to_mesh is_nodal q c j s1 = Except.ok s1' ∧
      replays source source1 final s' s1' := by
  have hcomm : ma1.comm = ma.comm := hgeo.2.2.2.2.1
  unfold FROM_winner at h ⊢
  cases hmp : c.min_procs[j]? with
  | none => simp [hmp] at h
  | some mp =>
    simp only [hmp] at h ⊢
    by_cases hq : mp = q
    · simp only [hq, if_true] at h ⊢
      cases htd : (if is_nodal = true then Option.map (fun to_node => to_node.dof_number)
          (to_mesh.node j) else Option.map (fun to_elem => to_elem.dof_number)
          (to_mesh.elem j)) with
      | none => simp [htd] at h
      | some to_dof =>
        simp only [htd] at h ⊢
        cases hma : c.min_apps[j]? with
        | none => simp [hma] at h
        | some a =>
          simp only [hma] at h ⊢
          rcases same_geometry_app ma ma1 hgeo a with
            ⟨hp, hp1⟩ | ⟨p, p1, hp, hp1, hmesh, hdisp, hvt⟩
          · simp [hp] at h
          · simp only [hp, hp1, hcomm,
              selectMesh_congr t.displaced_source_mesh p p1 hmesh hdisp] at h ⊢
            cases hmn : c.min_nodes[j]? with
            | none => simp [hmn] at h
            | some mn =>
              simp only [hmn] at h ⊢
              cases hnode : (selectMesh t.displaced_source_mesh p).node mn with
              | none => simp [hnode] at h
              | some from_node =>
                simp only [hnode, Except.ok.injEq] at h ⊢
                subst h
                refine ⟨_, rfl, ?_⟩
                refine replays_step source source1 final s s1 _ _ a j from_node.dof_number
                  to_dof hQ ?_ ?_ rfl rfl
                · simp [swapLibMeshComm, TransferState.emit, List.filter_append, isTransfer,
                    hsrc a p _ hp]
                · simp [swapLibMeshComm, TransferState.emit, List.filter_append, isTransfer,
                    hsrc1 a p1 _ hp1]
    · simp only [hq, if_false, Except.ok.injEq] at h ⊢
      subst h
      exact ⟨s1, rfl, hQ⟩

variable [LinearOrder R] [Zero R] [Sub P]

/-- The FROM_MULTIAPP case of the later execution follows the earlier one, when
the collective gives it the answer it gave the earlier one. -/
theorem execute_FROM_again (size : P → WithTop R) (t : Params) (ma ma1 : MultiApp P R) (q : Nat)
    (minloc minloc1 : List (WithTop R) → List (WithTop R) × List Nat)
    (hgeo : same_geometry ma ma1) (source source1 : Nat → Nat → R)
    (hsrc : ∀ a p dof, ma.appProblem a = some p → p.solution dof = source a dof)
    (hsrc1 : ∀ a p dof, ma1.appProblem a = some p → p.solution dof = source1 a dof)
    (s s' s1 : TransferState P R)
    (h : execute_FROM size t ma q minloc s = Except.ok s')
    (hml : ∀ loop, FROM_local_search size t ma s = Except.ok loop →
      minloc1 loop.1.min_distances = minloc loop.1.min_distances)
    (hQ : replays source source1 s' s s1) :
    ∃ s1', execute_FROM size t ma1 q minloc1 s1 = Except.ok s1' ∧
      replays source source1 s' s' s1' := by
  unfold execute_FROM at h ⊢
  cases hls : FROM_local_search size t ma s with
  | error e => simp [hls] at h
  | ok loop =>
    simp only [hls] at h
    split at h
    · exact absurd h (by simp)
    · rename_i st3 hw
      simp only [Except.ok.injEq] at h
      subst h
      have hkept : cache_kept (loop.2.emit Event.minloc) st3 := by
        have hk := forEach_finalState_frame
          (FROM_winner t ma (selectMesh t.displaced_target_mesh ma.problem)
            (decide (ma.problem.variable_type = FEType_default)) q
            { loop.1 with min_distances := (minloc loop.1.min_distances).1
                          min_procs := (minloc loop.1.min_distances).2 })
          (cache_kept (loop.2.emit Event.minloc))
          (List.range (minloc loop.1.min_distances).2.length)
          (fun j _ a hI => FROM_winner_frame
            (frame_stable_cache_kept t (loop.2.emit Event.minloc)) ma _ _ q _ j a hI)
          (loop.2.emit Event.minloc) (cache_kept_refl _)
        rw [hw] at hk
        exact hk
      obtain ⟨loop1, hls1, hc1, hnm1, hdm1⟩ := FROM_local_search_again size t ma ma1
        ((st3.emit (Event.close none)).emit (Event.update none)) hgeo s s1 loop hls
        (fun _ => hkept) hQ.1 hQ.2.1
      have hlog := (FROM_local_search_basic size t ma s loop hls).2.2.2
      have hlog1 := (FROM_local_search_basic size t ma1 s1 loop1 hls1).2.2.2
      have hstart : replays source source1
          ((st3.emit (Event.close none)).emit (Event.update none))
          (loop.2.emit Event.minloc) (loop1.2.emit Event.minloc) :=
        replays_congr source source1 _ s s1 _ _ hQ
          (by simpa [TransferState.emit, List.filter_append, isTransfer] using hlog)
          (by simpa [TransferState.emit, List.filter_append, isTransfer] using hlog1)
          (hnm1.trans hQ.1.symm) (hdm1.trans hQ.2.1.symm)
      obtain ⟨hmesh, hdisp, hvt, _, _, _, _⟩ := hgeo
      simp only [hls1, hc1, hml loop hls, hvt,
        selectMesh_congr t.displaced_target_mesh ma.problem ma1.problem hmesh hdisp]
      obtain ⟨st3', hw1, hQ3⟩ := (forEach_again _ _
        (fun _ : TransferState P R => True)
        (fun a a1 : TransferState P R => replays source source1
          ((st3.emit (Event.close none)).emit (Event.update none)) a a1)
        (fun _ _ _ _ _ => trivial)
        (fun j a a' u ha _ hQa =>
          FROM_winner_again t ma ma1 _ (selectMesh t.displaced_target_mesh ma.problem)
            (decide (ma.problem.variable_type = FEType_default)) q
            { loop.1 with min_distances := (minloc loop.1.min_distances).1
                          min_procs := (minloc loop.1.min_distances).2 } j
            ⟨hmesh, hdisp, hvt, by assumption, by assumption, by assumption, by assumption⟩
            source source1 hsrc hsrc1 a a' u ha hQa)
        _ _ st3 (loop1.2.emit Event.minloc) hw trivial hstart).2
      rw [hw1]
      refine ⟨_, rfl, ?_⟩
      exact replays_congr source source1 _ st3 st3' _ _ hQ3
        (by simp [TransferState.emit, List.filter_append, isTransfer])
        (by simp [TransferState.emit, List.filter_append, isTransfer]) rfl rfl

end ReplayWinner

end MultiAppNearestNodeTransfer

namespace MultiAppNearestNodeTransfer

variable {P R : Type}

/-! ## Two executions in a row on all processes -/

section Again

/-- Two states with empty logs are related when the later one has the caches of `final`. -/
theorem replays_start (source source1 : Nat → Nat → R) (final s s1 : TransferState P R)
    (hlog : s.log = []) (hlog1 : s1.log = []) (hnm : s1.node_map = final.node_map)
    (hdm : s1.distance_map = final.distance_map) : replays source source1 final s s1 := by
  refine ⟨hnm, hdm, by rw [hlog, hlog1], by rw [hlog, hlog1], ?_, ?_⟩
  · rw [hlog]
    simp [sets_follow_reads, readEvents, setEvents, setPlaces, refreshed]
  · rw [hlog1]
    simp [sets_follow_reads, readEvents, setEvents, setPlaces, refreshed]

theorem next_execution_getElem? (mas : List (MultiApp P R))
    (results : List (Result P R (TransferState P R))) (q : Nat) :
    (next_execution mas results)[q]? =
      match mas[q]?, results[q]? with
      | some ma, some r => some (ma, { finalState r with log := [] })
      | _, _ => none := by
  unfold next_execution
  rw [List.getElem?_zipWith]
  cases mas[q]? <;> cases results[q]? <;> rfl

theorem source_value_TO [Zero R] (t : Params) (ma : MultiApp P R)
    (hdir : t.direction = Direction.TO_MULTIAPP) :
    source_value t ma = fun _ dof => ma.problem.solution dof := by
  funext a dof
  simp [source_value, hdir]

theorem source_value_FROM [Zero R] (t : Params) (ma : MultiApp P R)
    (hdir : t.direction = Direction.FROM_MULTIAPP) (a : Nat) (p : FEProblem P R) (dof : Nat)
    (hp : ma.appProblem a = some p) : p.solution dof = source_value t ma a dof := by
  simp [source_value, hdir, hp]

variable [LinearOrder R] [Zero R] [Sub P]

/-- A FROM_MULTIAPP run that returns has completed its local search, and ends
with caches that keep every entry the local search left. -/
theorem execute_FROM_search (size : P → WithTop R) (t : Params) (ma : MultiApp P R) (q : Nat)
    (minloc : List (WithTop R) → List (WithTop R) × List Nat) (s s' : TransferState P R)
    (h : execute_FROM size t ma q minloc s = Except.ok s') :
    ∃ loop, FROM_local_search size t ma s = Except.ok loop ∧ cache_kept loop.2 s' := by
  unfold execute_FROM at h
  cases hls : FROM_local_search size t ma s with
  | error e => simp [hls] at h
  | ok loop =>
    simp only [hls] at h
    split at h
    · exact absurd h (by simp)
    · rename_i st3 hw
      simp only [Except.ok.injEq] at h
      subst h
      have hk := forEach_finalState_frame
        (FROM_winner t ma (selectMesh t.displaced_target_mesh ma.problem)
          (decide (ma.problem.variable_type = FEType_default)) q
          { loop.1 with min_distances := (minloc loop.1.min_distances).1
                        min_procs := (minloc loop.1.min_distances).2 })
        (cache_kept (loop.2.emit Event.minloc))
        (List.range (minloc loop.1.min_distances).2.length)
        (fun j _ a hI => FROM_winner_frame
          (frame_stable_cache_kept t (loop.2.emit Event.minloc)) ma _ _ q _ j a hI)
        (loop.2.emit Event.minloc) (cache_kept_refl _)
      rw [hw] at hk
      exact ⟨loop, rfl, hk⟩

/-- After a FROM_MULTIAPP run that returned, the local search of the next
execution brings the same distances to the reduction. -/
theorem FROM_contribution_again (size : P → WithTop R) (t : Params) (ma ma1 : MultiApp P R) (q : Nat)
    (minloc : List (WithTop R) → List (WithTop R) × List Nat) (hgeo : same_geometry ma ma1)
    (s s' s1 : TransferState P R)
    (h : execute_FROM size t ma q minloc s = Except.ok s')
    (hnm : s1.node_map = s'.node_map) (hdm : s1.distance_map = s'.distance_map) :
    FROM_contribution size t ma1 s1 = FROM_contribution size t ma s := by
  obtain ⟨loop, hls, hk⟩ := execute_FROM_search size t ma q minloc s s' h
  obtain ⟨loop1, hls1, hc, _, _⟩ := FROM_local_search_again size t ma ma1 s' hgeo s s1 loop hls
    (fun _ => hk) hnm hdm
  obtain ⟨c, st⟩ := loop
  obtain ⟨c1, st1⟩ := loop1
  simp only at hc
  subst hc
  simp only [FROM_contribution, hls, hls1]

variable [Add P]

/-- The later execution of a process follows the earlier one: it returns, leaves
the caches as they are, reads at the same degrees of freedom and sets at the
same places the values its source holds there. -/
theorem execute_again (size : P → WithTop R) (t : Params) (ma ma1 : MultiApp P R) (q : Nat)
    (minloc minloc1 : List (WithTop R) → List (WithTop R) × List Nat)
    (hgeo : same_geometry ma ma1) (s s' s1 : TransferState P R)
    (h : execute size t ma q minloc s = Except.ok s')
    (hml : t.direction = Direction.FROM_MULTIAPP →
      ∀ loop, FROM_local_search size t ma s = Except.ok loop →
        minloc1 loop.1.min_distances = minloc loop.1.min_distances)
    (hQ : replays (source_value t ma) (source_value t ma1) s' s s1) :
    ∃ s1', execute size t ma1 q minloc1 s1 = Except.ok s1' ∧
      replays (source_value t ma) (source_value t ma1) s' s' s1' := by
  unfold execute at h ⊢
  cases hdir : t.direction with
  | TO_MULTIAPP =>
    simp only [hdir] at h ⊢
    rw [source_value_TO t ma hdir, source_value_TO t ma1 hdir] at hQ ⊢
    exact execute_TO_again size t ma ma1 hgeo s s' s1 h hQ
  | FROM_MULTIAPP =>
    simp only [hdir] at h ⊢
    exact execute_FROM_again size t ma ma1 q minloc minloc1 hgeo _ _
      (source_value_FROM t ma hdir) (source_value_FROM t ma1 hdir) s s' s1 h (hml hdir) hQ

theorem execute_all_getElem? (size : P → WithTop R) (t : Params)
    (procs : List (MultiApp P R × TransferState P R)) (q : Nat) :
    (execute_all size t procs)[q]? =
      (procs[q]?).map (fun p => execute size t p.1 q
        (Communicator_minloc (procs.map (fun p => FROM_contribution size t p.1 p.2))) p.2) := by
  unfold execute_all
  simp only [mapRank_getElem?, Nat.zero_add]

/-- Two executions in a row on all processes: when the first returns on every
process, the second, started with the caches the first left and with views of
the same geometry, returns on every process, leaves the caches as they are,
and on each process its log holds the reads and the places of sets of the
first, with the values that its own source holds at the degrees of freedom
read. -/
theorem execute_all_again (size : P → WithTop R) (t : Params)
    (procs : List (MultiApp P R × TransferState P R)) (mas : List (MultiApp P R))
    (hfresh : ∀ p ∈ procs, p.2.log = [])
    (hfirst : ∀ r ∈ execute_all size t procs, completes r = true)
    (hlen : mas.length = procs.length)
    (hgeo : ∀ (q : Nat) (p : MultiApp P R × TransferState P R) (ma1 : MultiApp P R),
      procs[q]? = some p → mas[q]? = some ma1 → same_geometry p.1 ma1)
    (q : Nat) (p : MultiApp P R × TransferState P R) (hp : procs[q]? = some p) :
    ∃ ma1 st1 st2, mas[q]? = some ma1 ∧
      (execute_all size t procs)[q]? = some (Except.ok st1) ∧
      (execute_all size t (next_execution mas (execute_all size t procs)))[q]? =
        some (Except.ok st2) ∧
      replays (source_value t p.1) (source_value t ma1) st1 st1 st2 := by
  have hq : q < procs.length := (List.getElem?_eq_some.mp hp).1
  obtain ⟨ma1, hma1⟩ : ∃ ma1, mas[q]? = some ma1 :=
    ⟨mas[q], List.getElem?_eq_getElem (by omega)⟩
  -- the first execution on every process
  have hrun : ∀ (k : Nat) (pk : MultiApp P R × TransferState P R), procs[k]? = some pk →
      ∃ stk,
      execute size t pk.1 k
        (Communicator_minloc (procs.map (fun p => FROM_contribution size t p.1 p.2))) pk.2 =
          Except.ok stk ∧
      (execute_all size t procs)[k]? = some (Except.ok stk) := by
    intro k pk hpk
    have hk := execute_all_getElem? size t procs k
    rw [hpk] at hk
    simp only [Option.map_some'] at hk
    have hmem := hfirst _ (List.getElem?_mem hk)
    have hok := ok_of_completes _ hmem
    exact ⟨_, hok, by rw [hk, ← hok]⟩
  -- the processes of the second execution
  have hnext : ∀ (k : Nat) (pk : MultiApp P R × TransferState P R) (mk : MultiApp P R)
      (stk : TransferState P R), procs[k]? = some pk → mas[k]? = some mk →
      (execute_all size t procs)[k]? = some (Except.ok stk) →
      (next_execution mas (execute_all size t procs))[k]? =
        some (mk, { stk with log := [] }) := by
    intro k pk mk stk _ hmk hk
    rw [next_execution_getElem?, hmk, hk]
    rfl
  -- in the FROM_MULTIAPP direction both reductions see the same contributions
  have hcontrib : t.direction = Direction.FROM_MULTIAPP →
      (next_execution mas (execute_all size t procs)).map
          (fun p => FROM_contribution size t p.1 p.2) =
        procs.map (fun p => FROM_contribution size t p.1 p.2) := by
    intro hdir
    apply List.ext_getElem?
    intro k
    rw [List.getElem?_map, List.getElem?_map]
    cases hpk : procs[k]? with
    | none =>
      have hk : procs.length ≤ k := by
        by_contra hlt
        have := List.getElem?_eq_getElem (l := procs) (Nat.lt_of_not_le hlt)
        rw [hpk] at this
        exact absurd this (by simp)
      have hmk : mas[k]? = none := List.getElem?_eq_none (by omega)
      rw [next_execution_getElem?, hmk]
    | some pk =>
      have hklt : k < procs.length := (List.getElem?_eq_some.mp hpk).1
      obtain ⟨mk, hmk⟩ : ∃ mk, mas[k]? = some mk :=
        ⟨mas[k], List.getElem?_eq_getElem (by omega)⟩
      obtain ⟨stk, hexec, hres⟩ := hrun k pk hpk
      rw [hnext k pk mk stk hpk hmk hres]
      simp only [Option.map_some', Option.some.injEq]
      unfold execute at hexec
      simp only [hdir] at hexec
      exact FROM_contribution_again size t pk.1 mk k _ (hgeo k pk mk hpk hmk) pk.2 stk
        { stk with log := [] } hexec rfl rfl
  obtain ⟨st1, hexec, hres⟩ := hrun q p hp
  have hstart : replays (source_value t p.1) (source_value t ma1) st1 p.2
      { st1 with log := [] } :=
    replays_start _ _ st1 p.2 { st1 with log := [] } (hfresh p (List.getElem?_mem hp)) rfl
      rfl rfl
  have hml : t.direction = Direction.FROM_MULTIAPP →
      ∀ loop, FROM_local_search size t p.1 p.2 = Except.ok loop →
        Communicator_minloc ((next_execution mas (execute_all size t procs)).map
            (fun p => FROM_contribution size t p.1 p.2)) loop.1.min_distances =
          Communicator_minloc (procs.map (fun p => FROM_contribution size t p.1 p.2))
            loop.1.min_distances := by
    intro hdir loop _
    rw [hcontrib hdir]
  have key := @execute_again P R _ _ _ _ size t p.1 ma1 q
    (Communicator_minloc (procs.map (fun p => FROM_contribution size t p.1 p.2)))
    (Communicator_minloc ((next_execution mas (execute_all size t procs)).map
      (fun p => FROM_contribution size t p.1 p.2)))
    (hgeo q p ma1 hp hma1) p.2 st1 { st1 with log := [] }
  have key1 := key hexec
  have key2 := key1 hml
  have key3 := key2 hstart
  obtain ⟨st2, hexec2, hQ⟩ := key3
  refine ⟨ma1, st1, st2, hma1, hres, ?_, hQ⟩
  have hk := execute_all_getElem? size t (next_execution mas (execute_all size t procs)) q
  rw [hnext q p ma1 st1 hp hma1 hres] at hk
  rw [hk]
  simp only [Option.map_some']
  rw [hexec2]

end Again

end MultiAppNearestNodeTransfer

namespace MultiAppNearestNodeTransfer

variable {P R : Type}

/-! ## Persistence of the cache and idempotence -/

section Persistence

theorem same_geometry_refl (ma : MultiApp P R) : same_geometry ma ma := by
  refine ⟨rfl, rfl, rfl, rfl, rfl, rfl, ?_⟩
  intro i
  cases ma.appProblem i with
  | none => trivial
  | some p => exact ⟨rfl, rfl, rfl⟩

theorem same_geometry_symm {ma ma1 : MultiApp P R} (h : same_geometry ma ma1) :
    same_geometry ma1 ma := by
  have happ := same_geometry_app ma ma1 h
  obtain ⟨h1, h2, h3, h4, h5, h6, _⟩ := h
  refine ⟨h1.symm, h2.symm, h3.symm, h4.symm, h5.symm, h6.symm, ?_⟩
  intro i
  rcases happ i with ⟨hp, hp1⟩ | ⟨p, p1, hp, hp1, e1, e2, e3⟩
  · simp only [hp, hp1]
  · simp only [hp, hp1]
    exact ⟨e1.symm, e2.symm, e3.symm⟩

theorem same_geometry_trans {ma ma1 ma2 : MultiApp P R} (h : same_geometry ma ma1)
    (h' : same_geometry ma1 ma2) : same_geometry ma ma2 := by
  have happ := same_geometry_app ma ma1 h
  have happ' := same_geometry_app ma1 ma2 h'
  obtain ⟨h1, h2, h3, h4, h5, h6, _⟩ := h
  obtain ⟨g1, g2, g3, g4, g5, g6, _⟩ := h'
  refine ⟨g1.trans h1, g2.trans h2, g3.trans h3, g4.trans h4, g5.trans h5, g6.trans h6, ?_⟩
  intro i
  rcases happ i with ⟨hp, hp1⟩ | ⟨p, p1, hp, hp1, e1, e2, e3⟩
  · rcases happ' i with ⟨_, hp2⟩ | ⟨p1', p2, hp1', _, _, _, _⟩
    · simp only [hp, hp2]
    · rw [hp1] at hp1'
      exact absurd hp1' (by simp)
  · rcases happ' i with ⟨hp1', _⟩ | ⟨p1', p2, hp1', hp2, f1, f2, f3⟩
    · rw [hp1] at hp1'
      exact absurd hp1' (by simp)
    · rw [hp1] at hp1'
      simp only [Option.some.injEq] at hp1'
      subst hp1'
      simp only [hp, hp2]
      exact ⟨f1.trans e1, f2.trans e2, f3.trans e3⟩

variable [LinearOrder R] [Zero R] [Add P] [Sub P]

theorem execute_all_length (size : P → WithTop R) (t : Params)
    (procs : List (MultiApp P R × TransferState P R)) :
    (execute_all size t procs).length = procs.length := by
  unfold execute_all
  simp only [mapRank_length]

/-- A row of executions: when the first returns on every process and the views
keep the geometry, every execution returns on every process, with the caches
the first one left, the reads and the places of sets of the first one, and the
values that its own source holds at the degrees of freedom read. -/
theorem executions_again (size : P → WithTop R) (t : Params)
    (procs : List (MultiApp P R × TransferState P R)) (views : Nat → List (MultiApp P R))
    (hfresh : ∀ p ∈ procs, p.2.log = [])
    (hfirst : ∀ r ∈ execute_all size t procs, completes r = true)
    (hviews0 : views 0 = procs.map Prod.fst)
    (hlen : ∀ n, (views n).length = procs.length)
    (hgeo : ∀ (n q : Nat) (p : MultiApp P R × TransferState P R) (ma : MultiApp P R),
      procs[q]? = some p → (views n)[q]? = some ma → same_geometry p.1 ma) :
    ∀ (n : Nat), (processes size t procs views n).length = procs.length ∧
      ∀ (q : Nat) (p : MultiApp P R × TransferState P R), procs[q]? = some p →
        ∃ ma sn st0 stn, (views n)[q]? = some ma ∧
          (processes size t procs views n)[q]? = some (ma, sn) ∧ sn.log = [] ∧
          (executions size t procs views 0)[q]? = some (Except.ok st0) ∧
          (executions size t procs views n)[q]? = some (Except.ok stn) ∧
          stn.node_map = st0.node_map ∧ stn.distance_map = st0.distance_map ∧
          readEvents stn.log = readEvents st0.log ∧
          setPlaces stn.log = setPlaces st0.log ∧
          sets_follow_reads (source_value t ma) stn.log := by
  intro n
  induction n with
  | zero =>
    refine ⟨rfl, ?_⟩
    intro q p hp
    obtain ⟨ma1, st1, st2, _, hr1, _, _, _, _, _, hv1, _⟩ :=
      execute_all_again size t procs (procs.map Prod.fst) hfresh hfirst (by simp)
        (fun k pk mk hpk hmk => by
          rw [List.getElem?_map, hpk] at hmk
          simp only [Option.map_some', Option.some.injEq] at hmk
          subst hmk
          exact same_geometry_refl pk.1) q p hp
    refine ⟨p.1, p.2, st1, st1, ?_, ?_, hfresh p (List.getElem?_mem hp), hr1, hr1, rfl, rfl,
      rfl, rfl, hv1⟩
    · rw [hviews0, List.getElem?_map, hp]
      rfl
    · exact hp
  | succ n ih =>
    obtain ⟨hlenn, ihq⟩ := ih
    -- the hypotheses of `execute_all_again` at the start of execution `n`
    have hindex : ∀ (k : Nat) (pn : MultiApp P R × TransferState P R),
        (processes size t procs views n)[k]? = some pn → ∃ pk, procs[k]? = some pk := by
      intro k pn hpn
      have hk : k < procs.length := by
        rw [← hlenn]
        exact (List.getElem?_eq_some.mp hpn).1
      exact ⟨procs[k], List.getElem?_eq_getElem hk⟩
    have hfreshn : ∀ pn ∈ processes size t procs views n, pn.2.log = [] := by
      intro pn hmem
      obtain ⟨k, hk⟩ := List.getElem?_of_mem hmem
      obtain ⟨pk, hpk⟩ := hindex k pn hk
      obtain ⟨ma, sn, _, _, _, hproc, hlog, _⟩ := ihq k pk hpk
      rw [hk] at hproc
      simp only [Option.some.injEq] at hproc
      rw [hproc]
      exact hlog
    have hfirstn : ∀ r ∈ execute_all size t (processes size t procs views n),
        completes r = true := by
      intro r hmem
      obtain ⟨k, hk⟩ := List.getElem?_of_mem hmem
      have hklt : k < procs.length := by
        have := (List.getElem?_eq_some.mp hk).1
        rwa [execute_all_length, hlenn] at this
      obtain ⟨ma, sn, st0, stn, _, _, _, _, hrn, _⟩ :=
        ihq k procs[k] (List.getElem?_eq_getElem hklt)
      unfold executions at hrn
      rw [hk] at hrn
      simp only [Option.some.injEq] at hrn
      rw [hrn]
      rfl
    have hgeon : ∀ (k : Nat) (pn : MultiApp P R × TransferState P R) (ma1 : MultiApp P R),
        (processes size t procs views n)[k]? = some pn → (views (n + 1))[k]? = some ma1 →
        same_geometry pn.1 ma1 := by
      intro k pn ma1 hpn hma1
      obtain ⟨pk, hpk⟩ := hindex k pn hpn
      obtain ⟨ma, sn, _, _, hma, hproc, _⟩ := ihq k pk hpk
      rw [hpn] at hproc
      simp only [Option.some.injEq] at hproc
      rw [hproc]
      exact same_geometry_trans (same_geometry_symm (hgeo n k pk ma hpk hma))
        (hgeo (n + 1) k pk ma1 hpk hma1)
    have hlenv : (views (n + 1)).length = (processes size t procs views n).length := by
      rw [hlen, hlenn]
    have key := execute_all_again size t (processes size t procs views n) (views (n + 1))
      hfreshn hfirstn hlenv hgeon
    constructor
    · show (next_execution (views (n + 1))
        (execute_all size t (processes size t procs views n))).length = procs.length
      unfold next_execution
      rw [List.length_zipWith, execute_all_length, hlen, hlenn]
      simp
    · intro q p hp
      obtain ⟨ma, sn, st0, stn, hma, hproc, hlog, hr0, hrn, hnm, hdm, hreads, hplaces, _⟩ :=
        ihq q p hp
      obtain ⟨ma1, st1, st2, hma1, hr1, hr2, hQ⟩ := key q (ma, sn) hproc
      have hst : st1 = stn := by
        unfold executions at hrn
        rw [hr1] at hrn
        simpa using hrn
      subst hst
      obtain ⟨hnm2, hdm2, hreads2, hplaces2, _, hv2⟩ := hQ
      refine ⟨ma1, { st1 with log := [] }, st0, st2, hma1, ?_, rfl, hr0, hr2,
        hnm2.trans hnm, hdm2.trans hdm, hreads2.trans hreads, hplaces2.trans hplaces, hv2⟩
      show (next_execution (views (n + 1))
        (execute_all size t (processes size t procs views n)))[q]? = _
      rw [next_execution_getElem?, hma1, hr1]
      rfl

/-- C13. With `fixed_meshes`, the first resolution of a target id stores the
node and the distance that `getNearestNode` returns; no execution, in either
direction and however it ends, changes or removes an entry of the caches; and
in a row of executions of which the first returns on every process, whatever
the source values are at each execution, every execution returns on every
process, leaves the caches exactly as the first one left them, makes on each
process the reads of the first at the same degrees of freedom of the same apps
for the same targets, and sets at the same places the values that the source
holds at those degrees of freedom at that time.  The logs are taken from the
start of each execution; `views n` are the views of the processes at
execution `n`. -/
theorem cache_entries_persist (size : P → WithTop R) (t : Params)
    (procs : List (MultiApp P R × TransferState P R)) (views : Nat → List (MultiApp P R))
    (hfresh : ∀ p ∈ procs, p.2.log = [])
    (hfirst : ∀ r ∈ execute_all size t procs, completes r = true)
    (hviews0 : views 0 = procs.map Prod.fst)
    (hlen : ∀ n, (views n).length = procs.length)
    (hgeo : ∀ (n q : Nat) (p : MultiApp P R × TransferState P R) (ma : MultiApp P R),
      procs[q]? = some p → (views n)[q]? = some ma → same_geometry p.1 ma) :
    (∀ app id pos nodes (s : TransferState P R), s.node_map id = none →
      ((TO_resolve size true app id pos nodes s).2.2.node_map id =
          some (getNearestNode size pos ((0 : R) : WithTop R) nodes).1 ∧
        (TO_resolve size true app id pos nodes s).2.2.distance_map id =
          some (getNearestNode size pos ((0 : R) : WithTop R) nodes).2) ∧
      ((FROM_resolve size true app id pos nodes s).2.2.node_map id =
          some (getNearestNode size pos ((0 : R) : WithTop R) nodes).1 ∧
        (FROM_resolve size true app id pos nodes s).2.2.distance_map id =
          some (getNearestNode size pos ((0 : R) : WithTop R) nodes).2)) ∧
    (∀ (ma : MultiApp P R) (q : Nat) (minloc : List (WithTop R) → List (WithTop R) × List Nat)
        (st : TransferState P R),
      cache_kept st (finalState (execute size t ma q minloc st))) ∧
    (∀ (n q : Nat) (p : MultiApp P R × TransferState P R), procs[q]? = some p →
      ∃ ma st0 stn, (views n)[q]? = some ma ∧
        (executions size t procs views 0)[q]? = some (Except.ok st0) ∧
        (executions size t procs views n)[q]? = some (Except.ok stn) ∧
        stn.node_map = st0.node_map ∧ stn.distance_map = st0.distance_map ∧
        readEvents stn.log = readEvents st0.log ∧
        setPlaces stn.log = setPlaces st0.log ∧
        setEvents stn.log =
          refreshed (source_value t ma) (readEvents st0.log) (setPlaces st0.log)) := by
  refine ⟨?_, ?_, ?_⟩
  · intro app id pos nodes s hnone
    constructor
    · simp [TO_resolve, TransferState.emit, hnone, mapInsert]
    · simp [FROM_resolve, TransferState.emit, hnone, mapInsert]
  · intro ma q minloc st
    exact execute_frame size (frame_stable_cache_kept t st) ma q minloc st (cache_kept_refl st)
  · intro n q p hp
    obtain ⟨ma, sn, st0, stn, hma, _, _, hr0, hrn, hnm, hdm, hreads, hplaces, hvalues⟩ :=
      (executions_again size t procs views hfresh hfirst hviews0 hlen hgeo n).2 q p hp
    refine ⟨ma, st0, stn, hma, hr0, hrn, hnm, hdm, hreads, hplaces, ?_⟩
    rw [hvalues.2, hreads, hplaces]

/-- C17. In a row of executions with the same source values, meshes and
positions, of which the first returns on every process, every execution
returns on every process and makes the sets of the first: same apps, targets,
degrees of freedom and values, in the same order, with `fixed_meshes` or
without; execution 1 is the second of two executions in a row.  The logs are
taken from the start of each execution. -/
theorem execute_twice_sets_same_values (size : P → WithTop R) (t : Params)
    (procs : List (MultiApp P R × TransferState P R))
    (hfresh : ∀ p ∈ procs, p.2.log = [])
    (hfirst : ∀ r ∈ execute_all size t procs, completes r = true)
    (n q : Nat) (p : MultiApp P R × TransferState P R) (hp : procs[q]? = some p) :
    ∃ st0 stn,
      (executions size t procs (fun _ => procs.map Prod.fst) 0)[q]? = some (Except.ok st0) ∧
      (executions size t procs (fun _ => procs.map Prod.fst) n)[q]? = some (Except.ok stn) ∧
      setEvents stn.log = setEvents st0.log := by
  have hrow := executions_again size t procs (fun _ => procs.map Prod.fst) hfresh hfirst rfl
    (fun _ => by simp)
    (fun _ k pk mk hpk hmk => by
      rw [List.getElem?_map, hpk] at hmk
      simp only [Option.map_some', Option.some.injEq] at hmk
      subst hmk
      exact same_geometry_refl pk.1)
  obtain ⟨ma, _, st0, stn, hma, _, _, hr0, hrn, _, _, hreads, hplaces, hvn⟩ := (hrow n).2 q p hp
  obtain ⟨ma', _, st0', st00, hma', _, _, hr0', hr00, _, _, _, _, hv0⟩ := (hrow 0).2 q p hp
  have hsame : ma' = ma := by
    rw [hma] at hma'
    simpa using hma'.symm
  have hst : st00 = st0 := by
    rw [hr0] at hr00
    simpa using hr00.symm
  subst hsame
  subst hst
  exact ⟨st00, stn, hr0, hrn, by rw [hvn.2, hv0.2, hreads, hplaces]⟩

end Persistence

theorem same_geometry_two_apps_later :
    same_geometry two_apps_one_process two_apps_one_process_later := by
  refine ⟨rfl, rfl, rfl, rfl, rfl, rfl, ?_⟩
  intro i
  by_cases h0 : i = 0
  · subst h0
    exact ⟨rfl, rfl, rfl⟩
  · by_cases h1 : i = 1
    · subst h1
      exact ⟨rfl, rfl, rfl⟩
    · simp [two_apps_one_process, two_apps_one_process_later, h0, h1]

/-- Instance of `cache_entries_persist`: one process with two apps,
FROM_MULTIAPP with `fixed_meshes`; after the first execution the source values
change from 9 and 5 to 11 and 6.  The first execution sets 9; execution 2
reads at the same place and sets 11. -/
theorem cache_entries_persist_witness :
    (∃ ma st0 stn, (two_apps_views 2)[0]? = some ma ∧
      (executions line_size ⟨Direction.FROM_MULTIAPP, false, false, true⟩
        [(two_apps_one_process, fresh)] two_apps_views 0)[0]? = some (Except.ok st0) ∧
      (executions line_size ⟨Direction.FROM_MULTIAPP, false, false, true⟩
        [(two_apps_one_process, fresh)] two_apps_views 2)[0]? = some (Except.ok stn) ∧
      stn.node_map = st0.node_map ∧ stn.distance_map = st0.distance_map ∧
      readEvents stn.log = readEvents st0.log ∧
      setPlaces stn.log = setPlaces st0.log ∧
      setEvents stn.log =
        refreshed (source_value ⟨Direction.FROM_MULTIAPP, false, false, true⟩ ma)
          (readEvents st0.log) (setPlaces st0.log)) ∧
    (executions line_size ⟨Direction.FROM_MULTIAPP, false, false, true⟩
        [(two_apps_one_process, fresh)] two_apps_views 0).map
        (fun r => (readEvents (finalLog r), setEvents (finalLog r))) =
      [([(0, 0, 0)], [(0, 0, 7, 9)])] ∧
    (executions line_size ⟨Direction.FROM_MULTIAPP, false, false, true⟩
        [(two_apps_one_process, fresh)] two_apps_views 2).map
        (fun r => (readEvents (finalLog r), setEvents (finalLog r))) =
      [([(0, 0, 0)], [(0, 0, 7, 11)])] :=
  ⟨(cache_entries_persist line_size ⟨Direction.FROM_MULTIAPP, false, false, true⟩
      [(two_apps_one_process, fresh)] two_apps_views
      (by intro p hp; simp at hp; subst hp; rfl)
      (by decide) rfl
      (by intro n; by_cases hn : n = 0 <;> simp [two_apps_views, hn])
      (by
        intro n q p ma hp hm
        cases q with
        | zero =>
          simp only [List.getElem?_cons_zero, Option.some.injEq] at hp
          subst hp
          by_cases hn : n = 0
          · simp only [two_apps_views, hn, if_true, List.getElem?_cons_zero,
              Option.some.injEq] at hm
            subst hm
            exact same_geometry_refl _
          · simp only [two_apps_views, hn, if_false, List.getElem?_cons_zero,
              Option.some.injEq] at hm
            subst hm
            exact same_geometry_two_apps_later
        | succ k => simp at hp)).2.2 2 0 (two_apps_one_process, fresh) rfl,
   by decide, by decide⟩

/-- Instance of `execute_twice_sets_same_values`: two processes with one app
each, FROM_MULTIAPP with `fixed_meshes`; the second of two executions in a row
on rank 1. -/
theorem execute_twice_sets_same_values_witness :
    (∃ st0 stn,
      (executions line_size ⟨Direction.FROM_MULTIAPP, false, false, true⟩
        [(rank0_owns_app0, fresh), (rank1_owns_app1, fresh)]
        (fun _ => [(rank0_owns_app0, fresh), (rank1_owns_app1, fresh)].map Prod.fst)
        0)[1]? = some (Except.ok st0) ∧
      (executions line_size ⟨Direction.FROM_MULTIAPP, false, false, true⟩
        [(rank0_owns_app0, fresh), (rank1_owns_app1, fresh)]
        (fun _ => [(rank0_owns_app0, fresh), (rank1_owns_app1, fresh)].map Prod.fst)
        1)[1]? = some (Except.ok stn) ∧
      setEvents stn.log = setEvents st0.log) ∧
    (executions line_size ⟨Direction.FROM_MULTIAPP, false, false, true⟩
        [(rank0_owns_app0, fresh), (rank1_owns_app1, fresh)]
        (fun _ => [(rank0_owns_app0, fresh), (rank1_owns_app1, fresh)].map Prod.fst)
        1).map (fun r => setEvents (finalLog r)) = [[], [(1, 0, 7, 5)]] :=
  ⟨execute_twice_sets_same_values line_size ⟨Direction.FROM_MULTIAPP, false, false, true⟩
      [(rank0_owns_app0, fresh), (rank1_owns_app1, fresh)]
      (by intro p hp; simp at hp; rcases hp with rfl | rfl <;> rfl)
      (by decide) 1 1 (rank1_owns_app1, fresh) rfl,
   by decide⟩

end MultiAppNearestNodeTransfer

namespace MultiAppNearestNodeTransfer

variable {P R : Type}

/-! ## The ranks in the winner loop -/

section Ranks

theorem forEach_congr {α σ ε : Type} (body body1 : α → σ → Except ε σ) :
    ∀ (xs : List α), (∀ x ∈ xs, ∀ s, body x s = body1 x s) →
      ∀ s, forEach body xs s = forEach body1 xs s
  | [], _, _ => rfl
  | x :: xs, h, s => by
    have hx := h x (List.mem_cons_self x xs) s
    simp only [forEach, hx]
    cases body1 x s with
    | error e => rfl
    | ok s1 =>
      exact forEach_congr body body1 xs (fun y hy s' => h y (List.mem_cons_of_mem x hy) s') s1

/-- The winner loop looks at `min_procs[j]` only to compare it with the rank of the process. -/
theorem FROM_winner_rank (t : Params) (ma : MultiApp P R) (to_mesh : MeshBase P)
    (is_nodal : Bool) (q q1 : Nat) (c c1 : Candidates R) (j : Nat) (st : TransferState P R)
    (hnodes : c1.min_nodes = c.min_nodes) (happs : c1.min_apps = c.min_apps)
    (hprocs : (c1.min_procs[j]?).map (fun w => decide (w = q1)) =
      (c.min_procs[j]?).map (fun w => decide (w = q))) :
    FROM_winner t ma to_mesh is_nodal q1 c1 j st = FROM_winner t ma to_mesh is_nodal q c j st := by
  unfold FROM_winner
  rw [hnodes, happs]
  cases h : c.min_procs[j]? with
  | none =>
    cases h1 : c1.min_procs[j]? with
    | none => rfl
    | some w1 => simp [h, h1] at hprocs
  | some w =>
    cases h1 : c1.min_procs[j]? with
    | none => simp [h, h1] at hprocs
    | some w1 =>
      simp only [h, h1, Option.map_some', Option.some.injEq, decide_eq_decide] at hprocs
      by_cases hw : w = q
      · simp [hw, hprocs.mpr hw]
      · have hw1 : ¬ w1 = q1 := fun e => hw (hprocs.mp e)
        simp [hw, hw1]

variable [LinearOrder R] [Zero R] [Sub P]

/-- The FROM_MULTIAPP case depends on the rank of the process and on the ranks
the reduction returns only through the comparisons of the winner loop. -/
theorem execute_FROM_rank (size : P → WithTop R) (t : Params) (ma : MultiApp P R) (q q1 : Nat)
    (minloc minloc1 : List (WithTop R) → List (WithTop R) × List Nat)
    (st : TransferState P R)
    (h : ∀ loop, FROM_local_search size t ma st = Except.ok loop →
      (minloc1 loop.1.min_distances).2.map (fun w => decide (w = q1)) =
        (minloc loop.1.min_distances).2.map (fun w => decide (w = q))) :
    execute_FROM size t ma q1 minloc1 st = execute_FROM size t ma q minloc st := by
  unfold execute_FROM
  cases hls : FROM_local_search size t ma st with
  | error e => rfl
  | ok loop =>
    have hmap := h loop hls
    have hlen : (minloc1 loop.1.min_distances).2.length =
        (minloc loop.1.min_distances).2.length := by
      have := congrArg List.length hmap
      simpa using this
    simp only [hlen]
    have key := forEach_congr
      (FROM_winner t ma (selectMesh t.displaced_target_mesh ma.problem)
        (decide (ma.problem.variable_type = FEType_default)) q1
        { loop.1 with min_distances := (minloc1 loop.1.min_distances).1
                      min_procs := (minloc1 loop.1.min_distances).2 })
      (FROM_winner t ma (selectMesh t.displaced_target_mesh ma.problem)
        (decide (ma.problem.variable_type = FEType_default)) q
        { loop.1 with min_distances := (minloc loop.1.min_distances).1
                      min_procs := (minloc loop.1.min_distances).2 })
      (List.range (minloc loop.1.min_distances).2.length)
      (fun j _ s => FROM_winner_rank t ma _ _ q q1
        { loop.1 with min_distances := (minloc loop.1.min_distances).1
                      min_procs := (minloc loop.1.min_distances).2 }
        { loop.1 with min_distances := (minloc1 loop.1.min_distances).1
                      min_procs := (minloc1 loop.1.min_distances).2 } j s rfl rfl (by
        have := congrArg (fun l => l[j]?) hmap
        simpa [List.getElem?_map] using this))
      (loop.2.emit Event.minloc)
    rw [key]

end Ranks

end MultiAppNearestNodeTransfer

namespace MultiAppNearestNodeTransfer

/-! ## The scenario of two apps at distances 1 and 2 -/

/-- The distance a process of the scenario brings to the reduction: 1 when the
node of app 0 is local, more than 1 otherwise. -/
theorem scenario_contribution (k0 k1 : Presence) (fixed : Bool) :
    ∃ d : WithTop ℕ,
      FROM_contribution line_size ⟨Direction.FROM_MULTIAPP, false, false, fixed⟩
        (scenario_view k0 k1) fresh = [d] ∧
      (k0 = Presence.node_local → d = 1) ∧ (k0 ≠ Presence.node_local → 1 < d) := by
  refine ⟨(FROM_contribution line_size ⟨Direction.FROM_MULTIAPP, false, false, fixed⟩
    (scenario_view k0 k1) fresh).getD 0 ⊤, ?_, ?_, ?_⟩ <;>
  cases k0 <;> cases k1 <;> cases fixed <;> decide

/-- The run of a process of the scenario when the reduction returns the
distance 1: a process that holds the node of app 0 and is declared the winner
sets 5 at the degree of freedom of the target node; a process that is not the
winner sets nothing. -/
theorem scenario_run (k0 k1 : Presence) (fixed wins : Bool)
    (h : wins = true → k0 = Presence.node_local) :
    failure (execute_FROM line_size ⟨Direction.FROM_MULTIAPP, false, false, fixed⟩
        (scenario_view k0 k1) 0 (fun _ => ([1], [if wins then 0 else 1])) fresh) = none ∧
    setEvents (finalLog (execute_FROM line_size ⟨Direction.FROM_MULTIAPP, false, false, fixed⟩
        (scenario_view k0 k1) 0 (fun _ => ([1], [if wins then 0 else 1])) fresh)) =
      (if wins then [(0, 0, 7, 5)] else []) := by
  cases wins with
  | false => cases k0 <;> cases k1 <;> cases fixed <;> constructor <;> decide
  | true =>
    rw [h rfl]
    cases k1 <;> cases fixed <;> constructor <;> decide

theorem ok_of_failure_none {P R : Type} (r : Result P R (TransferState P R))
    (h : failure r = none) : r = Except.ok (finalState r) := by
  cases r with
  | error e => simp [failure] at h
  | ok st => rfl

/-- C19. The scenario on any number of processes, with any way the processes
hold the two apps in which some process holds the node of app 0 as a local
node, with `fixed_meshes` or without, at the first execution: every process
returns, the process `w` declared the winner holds the node of app 0 at
distance 1, it sets the value 5 at the degree of freedom of the target node,
and no other process sets anything. -/
theorem scenario_writes_nearest_value (kinds : List (Presence × Presence)) (fixed : Bool)
    (hlocal : ∃ k ∈ kinds, k.1 = Presence.node_local) :
    ∃ w kw, kinds[w]? = some kw ∧ kw.1 = Presence.node_local ∧
      ∀ (q : Nat) (kq : Presence × Presence), kinds[q]? = some kq →
        ∃ st, (execute_all line_size ⟨Direction.FROM_MULTIAPP, false, false, fixed⟩
            (scenario kinds))[q]? = some (Except.ok st) ∧
          setEvents st.log = (if q = w then [(0, 0, 7, 5)] else []) := by
  obtain ⟨k, hk, hklocal⟩ := hlocal
  have hcs : (scenario kinds).map (fun p =>
      FROM_contribution line_size ⟨Direction.FROM_MULTIAPP, false, false, fixed⟩ p.1 p.2) =
      kinds.map (fun k => FROM_contribution line_size
        ⟨Direction.FROM_MULTIAPP, false, false, fixed⟩ (scenario_view k.1 k.2) fresh) := by
    simp [scenario, List.map_map, Function.comp]
  generalize hcsdef : kinds.map (fun k => FROM_contribution line_size
    ⟨Direction.FROM_MULTIAPP, false, false, fixed⟩ (scenario_view k.1 k.2) fresh) = cs at hcs
  have hne : cs ≠ [] := by
    rw [← hcsdef]
    intro hnil
    rw [List.map_eq_nil_iff] at hnil
    rw [hnil] at hk
    exact absurd hk (by simp)
  obtain ⟨c, hcw, hcm, hall, _⟩ := minloc_at_spec cs 0 hne
  -- the reduced distance is at most 1
  have hle : (minloc_at cs 0).1 ≤ 1 := by
    obtain ⟨d, hd, hd1, _⟩ := scenario_contribution k.1 k.2 fixed
    have hmem : [d] ∈ cs := by
      rw [← hcsdef, ← hd]
      exact List.mem_map.mpr ⟨k, hk, rfl⟩
    have := hall [d] hmem
    rw [hd1 hklocal] at this
    simpa using this
  -- the winner holds the node of app 0
  have hw : ∃ kw, kinds[(minloc_at cs 0).2]? = some kw ∧ kw.1 = Presence.node_local := by
    rw [← hcsdef, List.getElem?_map] at hcw
    cases hkw : kinds[(minloc_at (kinds.map (fun k => FROM_contribution line_size
        ⟨Direction.FROM_MULTIAPP, false, false, fixed⟩ (scenario_view k.1 k.2) fresh)) 0).2]? with
    | none => simp [hkw] at hcw
    | some kw =>
      rw [hcsdef] at hkw
      refine ⟨kw, hkw, ?_⟩
      rw [hcsdef, hkw] at hcw
      simp only [Option.map_some', Option.some.injEq] at hcw
      obtain ⟨d, hd, _, hd2⟩ := scenario_contribution kw.1 kw.2 fixed
      by_contra hnot
      have hlt := hd2 hnot
      rw [← hcw, hd] at hcm
      simp only [List.getD_cons_zero] at hcm
      rw [hcm] at hlt
      exact absurd (lt_of_lt_of_le hlt hle) (lt_irrefl _)
  obtain ⟨kw, hkw, hkwlocal⟩ := hw
  refine ⟨(minloc_at cs 0).2, kw, hkw, hkwlocal, ?_⟩
  intro q kq hkq
  have hres := execute_all_getElem? line_size ⟨Direction.FROM_MULTIAPP, false, false, fixed⟩
    (scenario kinds) q
  rw [hcs] at hres
  have hproc : (scenario kinds)[q]? = some (scenario_view kq.1 kq.2, fresh) := by
    simp [scenario, List.getElem?_map, hkq]
  rw [hproc] at hres
  simp only [Option.map_some'] at hres
  have hexec : execute line_size ⟨Direction.FROM_MULTIAPP, false, false, fixed⟩
      (scenario_view kq.1 kq.2) q (Communicator_minloc cs) fresh =
      execute_FROM line_size ⟨Direction.FROM_MULTIAPP, false, false, fixed⟩
        (scenario_view kq.1 kq.2) q (Communicator_minloc cs) fresh := rfl
  have hrank := execute_FROM_rank line_size ⟨Direction.FROM_MULTIAPP, false, false, fixed⟩
    (scenario_view kq.1 kq.2) q 0 (Communicator_minloc cs)
    (fun _ => ([1], [if decide (q = (minloc_at cs 0).2) then 0 else 1])) fresh
    (by
      intro loop hloop
      have hlen := (FROM_local_search_basic line_size _ _ fresh loop hloop).1
      have hcount : target_count ⟨Direction.FROM_MULTIAPP, false, false, fixed⟩
          (scenario_view kq.1 kq.2).problem = 1 := by
        cases fixed <;> rfl
      rw [hcount] at hlen
      have hrange : List.range 1 = [0] := rfl
      simp only [Communicator_minloc, hlen, hrange, List.map_cons, List.map_nil]
      by_cases hq : q = (minloc_at cs 0).2
      · simp [← hq]
      · have hq' : ¬ (minloc_at cs 0).2 = q := fun e => hq e.symm
        simp [hq, hq'])
  obtain ⟨hfail, hsets⟩ := scenario_run kq.1 kq.2 fixed (decide (q = (minloc_at cs 0).2))
    (by
      intro hwins
      have hq : q = (minloc_at cs 0).2 := of_decide_eq_true hwins
      rw [← hq, hkq] at hkw
      simp only [Option.some.injEq] at hkw
      rw [hkw]
      exact hkwlocal)
  rw [hrank] at hfail hsets
  rw [hexec] at hres
  refine ⟨_, by rw [hres, ← ok_of_failure_none _ hfail], ?_⟩
  rw [show (finalState (execute_FROM line_size ⟨Direction.FROM_MULTIAPP, false, false, fixed⟩
      (scenario_view kq.1 kq.2) q (Communicator_minloc cs) fresh)).log =
    finalLog (execute_FROM line_size ⟨Direction.FROM_MULTIAPP, false, false, fixed⟩
      (scenario_view kq.1 kq.2) q (Communicator_minloc cs) fresh) from rfl, hsets]
  by_cases hq : q = (minloc_at cs 0).2
  · simp [hq]
  · simp [hq]

/-- Instance of `scenario_writes_nearest_value`: three processes; rank 0 holds
app 1 only, rank 1 holds nothing, rank 2 holds both apps with their nodes. -/
theorem scenario_writes_nearest_value_witness :
    ∃ w kw, [(Presence.absent, Presence.node_local), (Presence.absent, Presence.absent),
        (Presence.node_local, Presence.node_local)][w]? = some kw ∧
      kw.1 = Presence.node_local ∧
      ∀ (q : Nat) (kq : Presence × Presence),
        [(Presence.absent, Presence.node_local), (Presence.absent, Presence.absent),
          (Presence.node_local, Presence.node_local)][q]? = some kq →
        ∃ st, (execute_all line_size ⟨Direction.FROM_MULTIAPP, false, false, true⟩
            (scenario [(Presence.absent, Presence.node_local),
              (Presence.absent, Presence.absent),
              (Presence.node_local, Presence.node_local)]))[q]? = some (Except.ok st) ∧
          setEvents st.log = (if q = w then [(0, 0, 7, 5)] else []) :=
  scenario_writes_nearest_value
    [(Presence.absent, Presence.node_local), (Presence.absent, Presence.absent),
      (Presence.node_local, Presence.node_local)] true
    ⟨(Presence.node_local, Presence.node_local), by decide, rfl⟩

end MultiAppNearestNodeTransfer

/-! ## Steady: the refinement loop -/

namespace Steady

/-- The calls that one iteration of the refinement loop appends, each with the time step `ts`. -/
theorem refinement_step_log (steps r_step : Nat) (s : State) :
    (refinement_step steps r_step s).log =
      s.log ++ ([Call.computeUserObjects ExecFlagType.EXEC_TIMESTEP_BEGIN GROUP.PRE_AUX,
        Call.preSolve, Call.timestepSetup,
        Call.computeUserObjects ExecFlagType.EXEC_TIMESTEP_BEGIN GROUP.POST_AUX,
        Call.solve, Call.postSolve,
        Call.computeUserObjects ExecFlagType.EXEC_TIMESTEP_END GROUP.PRE_AUX,
        Call.onTimestepEnd, Call.computeAuxiliaryKernels ExecFlagType.EXEC_TIMESTEP_END,
        Call.computeUserObjects ExecFlagType.EXEC_TIMESTEP_END GROUP.POST_AUX,
        Call.computeIndicatorsAndMarkers, Call.outputStep ExecFlagType.EXEC_TIMESTEP_END] ++
        (if r_step ≠ steps then [Call.adaptMesh] else [])).map (fun c => (s.time_step, c)) := by
  unfold refinement_step solve_step State.call
  split <;> simp

theorem refinement_step_time_step (steps r_step : Nat) (s : State) :
    (refinement_step steps r_step s).time_step = int_wrap (s.time_step + 1) := by
  unfold refinement_step solve_step State.call
  split <;> rfl

theorem calls_append (c : Call) (l1 l2 : List (Int × Call)) :
    calls c (l1 ++ l2) = calls c l1 + calls c l2 := by
  simp [calls, List.filter_append]

theorem solves_and_adapts_append (l1 l2 : List (Int × Call)) :
    solves_and_adapts (l1 ++ l2) = solves_and_adapts l1 ++ solves_and_adapts l2 := by
  simp [solves_and_adapts, List.filter_append]

theorem solve_time_steps_append (l1 l2 : List (Int × Call)) :
    solve_time_steps (l1 ++ l2) = solve_time_steps l1 ++ solve_time_steps l2 := by
  simp [solve_time_steps, List.filter_append]

/-- What one iteration of the refinement loop appends to the log. -/
theorem refinement_step_facts (steps r_step : Nat) (s : State) :
    ∃ own, (refinement_step steps r_step s).log = s.log ++ own ∧
      calls Call.solve own = 1 ∧
      calls Call.adaptMesh own = (if r_step ≠ steps then 1 else 0) ∧
      calls Call.timestepSetup own = 1 ∧
      solves_and_adapts own = Call.solve :: (if r_step ≠ steps then [Call.adaptMesh] else []) ∧
      solve_time_steps own = [s.time_step] := by
  refine ⟨_, refinement_step_log steps r_step s, ?_⟩
  by_cases h : r_step = steps <;> simp [calls, solves_and_adapts, solve_time_steps, h]

/-- The refinement loop entered with `r_step + d = steps`, when `steps` is
below the largest `unsigned int`: it ends after `d + 1` iterations. -/
theorem refinement_loop_spec (steps : Nat) (hsteps : steps < 2 ^ 32 - 1) :
    ∀ (d r_step fuel : Nat) (s : State), r_step + d = steps → d + 2 ≤ fuel →
      ∃ s' new, refinement_loop steps fuel r_step s = some s' ∧ s'.log = s.log ++ new ∧
        calls Call.solve new = d + 1 ∧ calls Call.adaptMesh new = d ∧
        calls Call.timestepSetup new = d + 1 ∧
        solves_and_adapts new = alternating d ∧
        (solve_time_steps new).head? = some s.time_step
  | 0, r_step, fuel, s, hr, hfuel => by
    obtain ⟨f, rfl⟩ : ∃ f, fuel = f + 2 := ⟨fuel - 2, by omega⟩
    have hr0 : r_step = steps := by omega
    subst hr0
    have hsucc : uint_succ r_step = r_step + 1 := by
      unfold uint_succ
      exact Nat.mod_eq_of_lt (by omega)
    obtain ⟨own, hown, h1, h2, h3, h4, h5⟩ := refinement_step_facts r_step r_step s
    refine ⟨refinement_step r_step r_step s, own, ?_, hown, h1, ?_, h3, ?_, ?_⟩
    · simp [refinement_loop, hsucc]
    · simpa using h2
    · simpa [alternating] using h4
    · simp [h5]
  | d + 1, r_step, fuel, s, hr, hfuel => by
    obtain ⟨f, rfl⟩ : ∃ f, fuel = f + 1 := ⟨fuel - 1, by omega⟩
    have hne : r_step ≠ steps := by omega
    have hle : r_step ≤ steps := by omega
    have hsucc : uint_succ r_step = r_step + 1 := by
      unfold uint_succ
      exact Nat.mod_eq_of_lt (by omega)
    obtain ⟨own, hown, o1, o2, o3, o4, o5⟩ := refinement_step_facts steps r_step s
    obtain ⟨s', new, hrun, hlog, h1, h2, h3, h4, _⟩ :=
      refinement_loop_spec steps hsteps d (r_step + 1) f (refinement_step steps r_step s)
        (by omega) (by omega)
    refine ⟨s', own ++ new, ?_, ?_, ?_, ?_, ?_, ?_, ?_⟩
    · simp only [refinement_loop, hle, if_true, hsucc]
      exact hrun
    · rw [hlog, hown, List.append_assoc]
    · rw [calls_append, o1, h1]
      omega
    · rw [calls_append, o2, h2]
      simp [hne]
      omega
    · rw [calls_append, o3, h3]
      omega
    · rw [solves_and_adapts_append, o4, h4]
      simp [hne, alternating]
    · rw [solve_time_steps_append, o5]
      rfl

/-- With the largest `unsigned int` as number of steps the condition of the
loop holds for every value of `r_step`: the loop has no last iteration. -/
theorem refinement_loop_max_steps :
    ∀ (fuel r_step : Nat) (s : State), r_step < 2 ^ 32 →
      refinement_loop (2 ^ 32 - 1) fuel r_step s = none
  | 0, _, _, _ => rfl
  | fuel + 1, r_step, s, hr => by
    have hle : r_step ≤ 2 ^ 32 - 1 := by omega
    simp only [refinement_loop, hle, if_true]
    exact refinement_loop_max_steps fuel (uint_succ r_step) _
      (by unfold uint_succ; exact Nat.mod_lt _ (by norm_num))

end Steady

namespace Steady

/-- C27. `Steady::execute` with AMR enabled, not recovering.  For every number
of steps below the largest `unsigned int` the refinement loop ends after
`steps + 1` iterations: `solve` is called `steps + 1` times, `adaptMesh`
`steps` times, the two alternate from a first solve to a last solve, and the
first solve is made at time step 1.  When `getSteps()` returns the largest
`unsigned int`, 4294967295, the condition `r_step <= steps` holds for every
value of `r_step` and the increment wraps: `execute` never returns, whatever
the number of iterations allowed.  When the app is recovering `execute`
returns at once and calls nothing. -/
theorem execute_refinement_loop :
    (∀ (getSteps fuel : Nat) (s : State), getSteps < 2 ^ 32 - 1 → getSteps + 2 ≤ fuel →
      ∃ s' new, execute false true getSteps fuel s = some s' ∧ s'.log = s.log ++ new ∧
        calls Call.solve new = getSteps + 1 ∧ calls Call.adaptMesh new = getSteps ∧
        calls Call.timestepSetup new = getSteps + 1 ∧
        solves_and_adapts new = alternating getSteps ∧
        (solve_time_steps new).head? = some 1) ∧
    (∀ (fuel : Nat) (s : State), execute false true 4294967295 fuel s = none) ∧
    (∀ (amr : Bool) (getSteps fuel : Nat) (s : State),
      execute true amr getSteps fuel s = some s) := by
  refine ⟨?_, ?_, ?_⟩
  · intro getSteps fuel s hsteps hfuel
    have hmod : getSteps % 2 ^ 32 = getSteps := Nat.mod_eq_of_lt (by omega)
    obtain ⟨s', new, hrun, hlog, h1, h2, h3, h4, h5⟩ :=
      refinement_loop_spec getSteps hsteps getSteps 0 fuel
        { (s.call Call.preExecute) with time_step := 1, time := 1 } (by omega) hfuel
    refine ⟨s'.call Call.postExecute,
      [(s.time_step, Call.preExecute)] ++ new ++ [(s'.time_step, Call.postExecute)], ?_, ?_, ?_⟩
    · simp only [execute, Bool.false_eq_true, if_false, if_true, hmod]
      rw [hrun]
    · simp only [State.call, hlog]
      simp
    · simp only [calls_append, solves_and_adapts_append, solve_time_steps_append, h1, h2, h3, h4]
      refine ⟨by simp [calls], by simp [calls], by simp [calls], by simp [solves_and_adapts], ?_⟩
      simpa [solve_time_steps] using h5
  · intro fuel s
    have hmod : 4294967295 % 2 ^ 32 = 2 ^ 32 - 1 := by norm_num
    simp only [execute, Bool.false_eq_true, if_false, if_true, hmod]
    rw [refinement_loop_max_steps fuel 0 _ (by norm_num)]
  · intro amr getSteps fuel s
    simp [execute]

end Steady

/-- Instance of `Steady.execute_refinement_loop`: two adaptivity steps give
three solves with an adaptation of the mesh between them. -/
theorem execute_refinement_loop_witness :
    ∃ s' new, Steady.execute false true 2 4 ⟨0, 0, []⟩ = some s' ∧ s'.log = [] ++ new ∧
      Steady.calls Steady.Call.solve new = 2 + 1 ∧
      Steady.calls Steady.Call.adaptMesh new = 2 ∧
      Steady.calls Steady.Call.timestepSetup new = 2 + 1 ∧
      Steady.solves_and_adapts new = Steady.alternating 2 ∧
      (Steady.solve_time_steps new).head? = some 1 :=
  Steady.execute_refinement_loop.1 2 4 ⟨0, 0, []⟩ (by norm_num) (by norm_num)

/-! ## HeatConductionMaterial: the tests of the constructor -/

namespace HeatConductionMaterial

variable {R T F : Type}

/-- C26. The constructor raises an error exactly for the inconsistent inputs:
a temperature function named for the thermal conductivity while `temp` is not
coupled or a value of the thermal conductivity is given too, or the same for
the specific heat.  For every other input, also with neither value nor
function, it returns the members as initialised; and the error raised is the
first, in the order of the source, whose condition holds. -/
theorem construct_rejects_inconsistent [Zero R] (fw : Framework R T F)
    (parameters : InputParameters R) :
    (rejected (construct fw parameters) = true ↔ inconsistent parameters) ∧
    (¬ inconsistent parameters →
      construct fw parameters = Except.ok (initialise fw parameters)) ∧
    (parameters.thermal_conductivity = none →
      parameters.thermal_conductivity_temperature_function = "" →
      parameters.specific_heat = none →
      parameters.specific_heat_temperature_function = "" →
      construct fw parameters = Except.ok (initialise fw parameters)) ∧
    (∀ e, construct fw parameters = Except.error e →
      e = (if parameters.thermal_conductivity_temperature_function ≠ "" ∧ parameters.temp = none
        then Err.must_couple_thermal_conductivity
        else if parameters.thermal_conductivity_temperature_function ≠ "" ∧
            parameters.thermal_conductivity.isSome = true
        then Err.both_thermal_conductivity
        else if parameters.specific_heat_temperature_function ≠ "" ∧ parameters.temp = none
        then Err.must_couple_specific_heat
        else Err.both_specific_heat)) := by
  obtain ⟨temp, tc, tcf, sh, shf⟩ := parameters
  by_cases h1 : tcf = "" <;> by_cases h2 : shf = "" <;>
    cases temp <;> cases tc <;> cases sh <;>
    simp [construct, initialise, isCoupled_temp, rejected, inconsistent, h1, h2]

end HeatConductionMaterial

/-- Instance of `HeatConductionMaterial.construct_rejects_inconsistent`: a
function and a value for the thermal conductivity are rejected, though `temp`
is coupled; a function for the thermal conductivity and a value for the
specific heat, with `temp` coupled, are accepted. -/
theorem construct_rejects_inconsistent_witness :
    HeatConductionMaterial.rejected
        (HeatConductionMaterial.construct HeatConductionMaterial.names_framework
          ⟨some "T", some 2, "k_of_T", none, ""⟩) = true ∧
    HeatConductionMaterial.construct HeatConductionMaterial.names_framework
        ⟨some "T", none, "k_of_T", some 3, ""⟩ =
      Except.ok (HeatConductionMaterial.initialise HeatConductionMaterial.names_framework
        ⟨some "T", none, "k_of_T", some 3, ""⟩) :=
  ⟨(HeatConductionMaterial.construct_rejects_inconsistent
      HeatConductionMaterial.names_framework ⟨some "T", some 2, "k_of_T", none, ""⟩).1.mpr
      (Or.inl ⟨by decide, Or.inr (by simp)⟩),
    (HeatConductionMaterial.construct_rejects_inconsistent
      HeatConductionMaterial.names_framework ⟨some "T", none, "k_of_T", some 3, ""⟩).2.1
      (by simp [HeatConductionMaterial.inconsistent])⟩

/-! ## ThermalContactMaterialsAction: the names of the materials -/

namespace ThermalContactMaterialsAction

/-- The digit characters: their codes are 48 to 57. -/
theorem digitChar_code (d : Nat) (h : d < 10) :
    48 ≤ (Nat.digitChar d).toNat ∧ (Nat.digitChar d).toNat - 48 = d := by
  interval_cases d <;> decide

theorem toDigitsCore_append (fuel : Nat) :
    ∀ (n : Nat) (ds : List Char),
      Nat.toDigitsCore 10 fuel n ds = Nat.toDigitsCore 10 fuel n [] ++ ds := by
  induction fuel with
  | zero => intro n ds; simp [Nat.toDigitsCore]
  | succ f ih =>
    intro n ds
    simp only [Nat.toDigitsCore]
    split
    · simp
    · rw [ih (n / 10) (Nat.digitChar (n % 10) :: ds), ih (n / 10) [Nat.digitChar (n % 10)]]
      simp

theorem digits_value_snoc (l : List Char) (c : Char) :
    digits_value (l ++ [c]) = 10 * digits_value l + (c.toNat - 48) := by
  simp [digits_value, List.foldl_append]

/-- The decimal digits of a number give the number back. -/
theorem digits_value_toDigitsCore (fuel : Nat) :
    ∀ (n : Nat), n < fuel → digits_value (Nat.toDigitsCore 10 fuel n []) = n := by
  induction fuel with
  | zero => intro n h; omega
  | succ f ih =>
    intro n h
    simp only [Nat.toDigitsCore]
    have hd := (digitChar_code (n % 10) (Nat.mod_lt n (by norm_num))).2
    split
    · rename_i h0
      simp only [digits_value, List.foldl_cons, List.foldl_nil, hd]
      omega
    · rename_i h0
      rw [toDigitsCore_append f (n / 10) [Nat.digitChar (n % 10)], digits_value_snoc,
        ih (n / 10) (by omega), hd]
      omega

/-- Every character of the decimal digits of a number is a digit character. -/
theorem toDigitsCore_digits (fuel : Nat) :
    ∀ (n : Nat) (c : Char), c ∈ Nat.toDigitsCore 10 fuel n [] → c.toNat ≤ 57 := by
  induction fuel with
  | zero => intro n c h; simp [Nat.toDigitsCore] at h
  | succ f ih =>
    intro n c h
    simp only [Nat.toDigitsCore] at h
    have hd : (Nat.digitChar (n % 10)).toNat ≤ 57 := by
      have : n % 10 < 10 := Nat.mod_lt n (by norm_num)
      interval_cases (n % 10) <;> decide
    split at h
    · simp only [List.mem_singleton] at h
      rw [h]
      exact hd
    · rw [toDigitsCore_append f (n / 10) [Nat.digitChar (n % 10)]] at h
      rcases List.mem_append.mp h with h1 | h1
      · exact ih (n / 10) c h1
      · simp only [List.mem_singleton] at h1
        rw [h1]
        exact hd

/-- Two numbers with the same decimal digits are equal. -/
theorem stringify_injective (a b : Nat) (h : stringify a = stringify b) : a = b := by
  have hl : Nat.toDigits 10 a = Nat.toDigits 10 b := by
    have hdata := congrArg String.data h
    simpa [stringify, toString, Nat.repr, List.asString] using hdata
  have ha := digits_value_toDigitsCore (a + 1) a (by omega)
  have hb := digits_value_toDigitsCore (b + 1) b (by omega)
  unfold Nat.toDigits at hl
  rw [hl] at ha
  omega

theorem stringify_data (n : Nat) : (stringify n).data = Nat.toDigits 10 n := by
  simp [stringify, toString, Nat.repr, List.asString]

/-- The two kinds of names never meet, and each kind tells the counter. -/
theorem names_distinct (a b : Nat) :
    "gap_value_" ++ stringify a ≠ "gap_value_master_" ++ stringify b ∧
    ("gap_value_" ++ stringify a = "gap_value_" ++ stringify b → a = b) ∧
    ("gap_value_master_" ++ stringify a = "gap_value_master_" ++ stringify b → a = b) := by
  refine ⟨?_, ?_, ?_⟩
  · intro h
    have hdata := congrArg String.data h
    simp only [String.data_append, stringify_data] at hdata
    have h2 : ['g', 'a', 'p', '_', 'v', 'a', 'l', 'u', 'e', '_', 'm', 'a', 's', 't', 'e', 'r', '_'] =
        ['g', 'a', 'p', '_', 'v', 'a', 'l', 'u', 'e', '_'] ++ ['m', 'a', 's', 't', 'e', 'r', '_'] :=
      rfl
    rw [h2, List.append_assoc] at hdata
    have h3 := List.append_cancel_left hdata
    have hm : 'm' ∈ Nat.toDigits 10 a := by rw [h3]; simp
    have := toDigitsCore_digits (a + 1) a 'm' hm
    revert this
    decide
  · intro h
    have hdata := congrArg String.data h
    simp only [String.data_append] at hdata
    exact stringify_injective a b (String.ext (List.append_cancel_left hdata))
  · intro h
    have hdata := congrArg String.data h
    simp only [String.data_append] at hdata
    exact stringify_injective a b (String.ext (List.append_cancel_left hdata))

end ThermalContactMaterialsAction

namespace ThermalContactMaterialsAction

/-- One invocation: the counter and the names it adds. -/
theorem act_spec (fw : Framework) (a : Action) (s : State) :
    (a.type ≠ "GapHeatTransfer" → act fw a s = s) ∧
    (a.type = "GapHeatTransfer" →
      (act fw a s).n = (s.n + 1) % 2 ^ 32 ∧
      (act fw a s).names = s.names ++ names_from s.n [a.quadrature] ∧
      (act fw a s).materials.length = s.materials.length + (if a.quadrature then 2 else 1)) := by
  constructor
  · intro h
    simp [act, h]
  · intro h
    cases hq : a.quadrature <;>
      simp [act, h, hq, addMaterial, State.names, names_from]

/-- A sequence of invocations: the counter and the names it adds. -/
theorem run_spec (fw : Framework) :
    ∀ (actions : List Action) (s : State), s.n < 2 ^ 32 →
      (run fw actions s).n = (s.n + gap_invocations actions) % 2 ^ 32 ∧
      (run fw actions s).names = s.names ++ names_from s.n (gap_quadratures actions)
  | [], s, hs => by
    have hmod : s.n % 4294967296 = s.n := Nat.mod_eq_of_lt (by simpa using hs)
    simp [run, gap_invocations, gap_quadratures, names_from, hmod]
  | a :: actions, s, hs => by
    have hrun : run fw (a :: actions) s = run fw actions (act fw a s) := rfl
    rw [hrun]
    by_cases h : a.type = "GapHeatTransfer"
    · obtain ⟨hn, hnames, _⟩ := (act_spec fw a s).2 h
      obtain ⟨ih1, ih2⟩ := run_spec fw actions (act fw a s)
        (by rw [hn]; exact Nat.mod_lt _ (by norm_num))
      constructor
      · rw [ih1, hn]
        simp only [gap_invocations, List.filter_cons, h, decide_True, if_true, List.length_cons]
        omega
      · rw [ih2, hnames, hn]
        simp [gap_quadratures, h, names_from]
    · have hact := (act_spec fw a s).1 h
      rw [hact]
      obtain ⟨ih1, ih2⟩ := run_spec fw actions s hs
      constructor
      · rw [ih1]
        simp [gap_invocations, h]
      · rw [ih2]
        simp [gap_quadratures, h]

/-- Every name of `names_from` carries a counter value `(n + i) % 2 ^ 32`
with `i` below the number of invocations. -/
theorem mem_names_from (x : String) :
    ∀ (qs : List Bool) (n : Nat), n < 2 ^ 32 → x ∈ names_from n qs →
      ∃ i, i < qs.length ∧ (x = "gap_value_" ++ stringify ((n + i) % 2 ^ 32) ∨
        x = "gap_value_master_" ++ stringify ((n + i) % 2 ^ 32))
  | [], n, _, h => by simp [names_from] at h
  | q :: qs, n, hn, h => by
    have hmod : (n + 0) % 2 ^ 32 = n := Nat.mod_eq_of_lt (by simpa using hn)
    simp only [names_from, List.mem_cons, List.mem_append] at h
    rcases h with h | h | h
    · exact ⟨0, by simp, Or.inl (by rw [hmod]; exact h)⟩
    · cases q
      · simp at h
      · simp only [if_true, List.mem_singleton] at h
        exact ⟨0, by simp, Or.inr (by rw [hmod]; exact h)⟩
    · obtain ⟨i, hi, hx⟩ := mem_names_from x qs ((n + 1) % 2 ^ 32)
        (Nat.mod_lt _ (by norm_num)) h
      have hshift : ((n + 1) % 2 ^ 32 + i) % 2 ^ 32 = (n + (i + 1)) % 2 ^ 32 := by omega
      rw [hshift] at hx
      exact ⟨i + 1, by simp [hi], hx⟩

/-- The names of at most `2 ^ 32` invocations are pairwise distinct. -/
theorem names_from_nodup :
    ∀ (qs : List Bool) (n : Nat), n < 2 ^ 32 → qs.length ≤ 2 ^ 32 → (names_from n qs).Nodup
  | [], n, _, _ => by simp [names_from]
  | q :: qs, n, hn, hlen => by
    have hlen1 : qs.length < 2 ^ 32 := by
      simp only [List.length_cons] at hlen
      omega
    have ih := names_from_nodup qs ((n + 1) % 2 ^ 32) (Nat.mod_lt _ (by norm_num)) (by omega)
    have hfresh : ∀ x ∈ names_from ((n + 1) % 2 ^ 32) qs,
        x ≠ "gap_value_" ++ stringify n ∧ x ≠ "gap_value_master_" ++ stringify n := by
      intro x hx
      obtain ⟨i, hi, hx⟩ := mem_names_from x qs ((n + 1) % 2 ^ 32)
        (Nat.mod_lt _ (by norm_num)) hx
      have hne : ((n + 1) % 2 ^ 32 + i) % 2 ^ 32 ≠ n := by omega
      rcases hx with hx | hx
      · constructor
        · intro he
          exact hne ((names_distinct _ n).2.1 (hx.symm.trans he))
        · intro he
          exact (names_distinct _ n).1 (hx.symm.trans he)
      · constructor
        · intro he
          exact (names_distinct n _).1 (he.symm.trans hx)
        · intro he
          exact hne ((names_distinct _ n).2.2 (hx.symm.trans he))
    simp only [names_from]
    rw [List.nodup_cons]
    constructor
    · intro hmem
      rcases List.mem_append.mp hmem with h | h
      · cases q
        · simp at h
        · simp only [if_true, List.mem_singleton] at h
          exact (names_distinct n n).1 h
      · exact (hfresh _ h).1 rfl
    · rw [List.nodup_append]
      refine ⟨by cases q <;> simp, ih, ?_⟩
      intro x hx1 hx2
      cases q
      · simp at hx1
      · simp only [if_true, List.mem_singleton] at hx1
        exact (hfresh x hx2).2 hx1

/-- C25. Over any sequence of invocations of `act()` from the start of the
program, on any actions, with and without quadrature, of which at most
`2 ^ 32` have the type `"GapHeatTransfer"`: the names of all the materials
handed to `addMaterial` are pairwise distinct.  They are `gap_value_<n>` and,
under quadrature, `gap_value_master_<n>` with the value the counter has at the
invocation; an invocation of that type advances the counter by one, any other
leaves the counter and the materials as they are. -/
theorem act_material_names_unique (fw : Framework) (actions : List Action)
    (hcount : gap_invocations actions ≤ 2 ^ 32) :
    (run fw actions initial).names.Nodup ∧
    (run fw actions initial).names = names_from 0 (gap_quadratures actions) ∧
    (run fw actions initial).n = gap_invocations actions % 2 ^ 32 ∧
    (∀ (a : Action) (s : State), a.type = "GapHeatTransfer" →
      (act fw a s).n = (s.n + 1) % 2 ^ 32 ∧
      (act fw a s).names = s.names ++ ("gap_value_" ++ stringify s.n) ::
        (if a.quadrature then ["gap_value_master_" ++ stringify s.n] else [])) ∧
    (∀ (a : Action) (s : State), a.type ≠ "GapHeatTransfer" → act fw a s = s) := by
  obtain ⟨hn, hnames⟩ := run_spec fw actions initial (by simp [initial])
  have hlen : (gap_quadratures actions).length ≤ 2 ^ 32 := by
    simpa [gap_quadratures, gap_invocations] using hcount
  refine ⟨?_, ?_, ?_, ?_, ?_⟩
  · rw [hnames]
    simpa [initial, State.names] using
      names_from_nodup (gap_quadratures actions) 0 (by norm_num) hlen
  · rw [hnames]
    simp [initial, State.names]
  · rw [hn]
    simp [initial]
  · intro a s h
    obtain ⟨h1, h2, _⟩ := (act_spec fw a s).2 h
    refine ⟨h1, ?_⟩
    rw [h2]
    simp [names_from]
  · intro a s h
    exact (act_spec fw a s).1 h

end ThermalContactMaterialsAction

/-- Instance of `ThermalContactMaterialsAction.act_material_names_unique`: three
invocations, the second under quadrature, add four materials with four names. -/
theorem act_material_names_unique_witness :
    (ThermalContactMaterialsAction.run ThermalContactMaterialsAction.plain_framework
        [ThermalContactMaterialsAction.gap_action false,
          ThermalContactMaterialsAction.gap_action true,
          ThermalContactMaterialsAction.gap_action false]
        ThermalContactMaterialsAction.initial).names.Nodup ∧
    (ThermalContactMaterialsAction.run ThermalContactMaterialsAction.plain_framework
        [ThermalContactMaterialsAction.gap_action false,
          ThermalContactMaterialsAction.gap_action true,
          ThermalContactMaterialsAction.gap_action false]
        ThermalContactMaterialsAction.initial).names =
      ["gap_value_0", "gap_value_1", "gap_value_master_1", "gap_value_2"] :=
  ⟨(ThermalContactMaterialsAction.act_material_names_unique
      ThermalContactMaterialsAction.plain_framework
      [ThermalContactMaterialsAction.gap_action false,
        ThermalContactMaterialsAction.gap_action true,
        ThermalContactMaterialsAction.gap_action false]
      (by simp [ThermalContactMaterialsAction.gap_invocations,
        ThermalContactMaterialsAction.gap_action])).1,
    by decide⟩

namespace MultiAppNearestNodeTransfer

/-! ## The two tests of the field family, and the cache at the first execution -/

/-- C22. The FROM_MULTIAPP direction takes the field for nodal when the type of
the variable equals `FEType()`, first-order Lagrange; the TO_MULTIAPP direction
when the family is `LAGRANGE`.  The two tests agree on a type exactly when it
is not Lagrange of another order.  On a second-order Lagrange variable they
disagree: the FROM_MULTIAPP run sizes the candidate vectors by the number of
elements (1, the mesh has 2 nodes), searches from the centroid of element 0
and sets the value at the number 99 that `dof_number` returns for the element,
while the TO_MULTIAPP run onto the same variable sets the two nodes. -/
theorem FROM_second_order_lagrange_is_elemental :
    (∀ ft : FEType, (decide (ft = FEType_default) = decide (ft.family = FEFamily.LAGRANGE)) ↔
      (ft.family = FEFamily.LAGRANGE → ft.order = 1)) ∧
    decide (second_order_problem.variable_type = FEType_default) = false ∧
    decide (second_order_problem.variable_type.family = FEFamily.LAGRANGE) = true ∧
    second_order_problem.mesh.n_nodes = 2 ∧ second_order_problem.mesh.n_elem = 1 ∧
    (FROM_candidates line_size ⟨Direction.FROM_MULTIAPP, false, false, false⟩
        second_order_master fresh).min_distances = [some 2] ∧
    (execute_all line_size ⟨Direction.FROM_MULTIAPP, false, false, false⟩
        [(second_order_master, fresh)]).map (fun r => (failure r, setEvents (finalLog r)))
      = ([(none, [(0, 0, 99, 5)])] : List (Option Err × List (ℕ × ℕ × ℕ × ℕ))) ∧
    (fun r => (failure r, setEvents (finalLog r)))
        (execute line_size ⟨Direction.TO_MULTIAPP, false, false, false⟩
          second_order_app 0 (Communicator_minloc []) fresh)
      = (none, [(0, 0, 7, 5), (0, 1, 8, 5)]) := by
  refine ⟨?_, ?_, ?_, ?_, ?_, ?_, ?_, ?_⟩
  · intro ft
    obtain ⟨order, family⟩ := ft
    cases family <;> simp [FEType_default]
  all_goals decide

/-- C24. At the first execution of a transfer, `fixed_meshes` changes the values
written when a process owns two apps, here onto elemental variables and with
app offsets.  FROM_MULTIAPP: with the cache the target element is set to 9,
the value of the node of app 0 at distance 4; without it to 5, the value of
the node of app 1 at distance 1.  TO_MULTIAPP: with the cache the element of
app 1, at 10, is set to 1, the value of the source node at 0; without it to 2,
the value of the source node at 10. -/
theorem fixed_meshes_changes_first_execution :
    (execute_all line_size ⟨Direction.FROM_MULTIAPP, false, false, true⟩
        [(two_apps_elemental_target, fresh)]).map (fun r => (failure r, setEvents (finalLog r)))
      = ([(none, [(0, 0, 7, 9)])] : List (Option Err × List (ℕ × ℕ × ℕ × ℕ))) ∧
    (execute_all line_size ⟨Direction.FROM_MULTIAPP, false, false, false⟩
        [(two_apps_elemental_target, fresh)]).map (fun r => (failure r, setEvents (finalLog r)))
      = ([(none, [(1, 0, 7, 5)])] : List (Option Err × List (ℕ × ℕ × ℕ × ℕ))) ∧
    (fun r => (failure r, setEvents (finalLog r)))
        (execute line_size ⟨Direction.TO_MULTIAPP, false, false, true⟩
          two_elemental_apps 0 (Communicator_minloc []) fresh)
      = (none, [(0, 0, 0, 1), (1, 0, 0, 1)]) ∧
    (fun r => (failure r, setEvents (finalLog r)))
        (execute line_size ⟨Direction.TO_MULTIAPP, false, false, false⟩
          two_elemental_apps 0 (Communicator_minloc []) fresh)
      = (none, [(0, 0, 0, 1), (1, 0, 0, 2)]) := by
  refine ⟨?_, ?_, ?_, ?_⟩ <;> decide

end MultiAppNearestNodeTransfer

namespace MultiAppNearestNodeTransfer

variable {P R : Type}

/-! ## FROM_MULTIAPP: the communicator at the searches and at the reduction -/

section Scope

theorem current_comm_append (entry : MPI_Comm) (l1 l2 : List (Event R)) :
    current_comm entry (l1 ++ l2) = current_comm (current_comm entry l1) l2 := by
  simp [current_comm, List.foldl_append]

theorem comm_trace_append :
    ∀ (l1 l2 : List (Event R)) (entry : MPI_Comm),
      comm_trace entry (l1 ++ l2) = comm_trace entry l1 ++ comm_trace (current_comm entry l1) l2
  | [], _, _ => rfl
  | e :: l1, l2, entry => by
    have ih := comm_trace_append l1 l2 (comm_after entry e)
    simp only [List.cons_append, comm_trace, current_comm, List.foldl_cons] at ih ⊢
    exact congrArg (fun l => (entry, e) :: l) ih

theorem comm_trace_events :
    ∀ (l : List (Event R)) (entry : MPI_Comm), (comm_trace entry l).map Prod.snd = l
  | [], _ => rfl
  | e :: l, entry => by simp [comm_trace, comm_trace_events l (comm_after entry e)]

theorem within_refl (allowed : MPI_Comm → Event R → Bool) (s : TransferState P R) :
    within allowed s s :=
  ⟨[], by simp, rfl, by simp [comm_trace]⟩

theorem within_trans {allowed : MPI_Comm → Event R → Bool} {s s1 s2 : TransferState P R}
    (h1 : within allowed s s1) (h2 : within allowed s1 s2) : within allowed s s2 := by
  obtain ⟨es1, hl1, hc1, ha1⟩ := h1
  obtain ⟨es2, hl2, hc2, ha2⟩ := h2
  refine ⟨es1 ++ es2, by rw [hl2, hl1, List.append_assoc], ?_, ?_⟩
  · rw [hc2, hc1, current_comm_append]
  · intro p hp
    rw [comm_trace_append] at hp
    rcases List.mem_append.mp hp with hp | hp
    · exact ha1 p hp
    · rw [← hc1] at hp
      exact ha2 p hp

/-- An event that is no exchange of the communicator and is admitted under the current one. -/
theorem within_emit {allowed : MPI_Comm → Event R → Bool} {s0 s : TransferState P R}
    (h : within allowed s0 s) (e : Event R) (hswap : isSwap e = false)
    (he : allowed s.comm e = true) : within allowed s0 (s.emit e) := by
  refine within_trans h ⟨[e], rfl, ?_, ?_⟩
  · cases e <;> simp [isSwap] at hswap <;> rfl
  · intro p hp
    simp only [comm_trace, List.mem_singleton] at hp
    rw [hp]
    exact he

/-- An exchange of the communicator that is admitted under the current one. -/
theorem within_swap {allowed : MPI_Comm → Event R → Bool} {s0 s : TransferState P R}
    (h : within allowed s0 s) (c : MPI_Comm) (he : allowed s.comm (Event.swap c) = true) :
    within allowed s0 (swapLibMeshComm c s).2 := by
  refine within_trans h ⟨[Event.swap c], rfl, rfl, ?_⟩
  intro p hp
  simp only [comm_trace, List.mem_singleton] at hp
  rw [hp]
  exact he

/-- A change of the caches. -/
theorem within_caches {allowed : MPI_Comm → Event R → Bool} {s0 s : TransferState P R}
    (h : within allowed s0 s) (node_map : Nat → Option (Option (Node P)))
    (distance_map : Nat → Option (WithTop R)) :
    within allowed s0 { s with node_map := node_map, distance_map := distance_map } :=
  within_trans h ⟨[], by simp, rfl, by simp [comm_trace]⟩

/-- The winner loop for one target: no reduction, no search, no access to the caches. -/
theorem FROM_winner_within (t : Params) (ma : MultiApp P R) (to_mesh : MeshBase P)
    (is_nodal : Bool) (proc_id : Nat) (c : Candidates R) (j : Nat)
    (s0 st : TransferState P R) (hs : within winner_event s0 st) :
    within winner_event s0 (finalState (FROM_winner t ma to_mesh is_nodal proc_id c j st)) := by
  have h1 := within_emit hs (Event.dofNumber none j) rfl rfl
  have h2 := within_swap h1 ma.comm rfl
  unfold FROM_winner
  split
  · exact hs
  · split
    · try simp only []
      split
      · exact hs
      · split
        · exact h1
        · split
          · exact h1
          · try simp only []
            split
            · exact h2
            · split
              · exact h2
              · exact within_emit
                  (within_swap (within_emit h2 (Event.read _ j _) rfl rfl) _ rfl) _ rfl rfl
    · exact hs

variable [LinearOrder R] [Zero R] [Sub P]

/-- The resolution of a nearest node under the communicator of the MultiApp. -/
theorem FROM_resolve_within (size : P → WithTop R) (fixed_meshes : Bool) (app_comm : MPI_Comm)
    (app id : Nat) (pos : P) (nodes : List (Node P)) (s0 st : TransferState P R)
    (hcomm : st.comm = app_comm) (hs : within (local_search_event app_comm) s0 st) :
    within (local_search_event app_comm) s0
      (FROM_resolve size fixed_meshes app id pos nodes st).2.2 := by
  have hsearch : ∀ s : TransferState P R, s.comm = app_comm →
      local_search_event app_comm s.comm (Event.search app id : Event R) = true := by
    intro s hc
    simp [local_search_event, isMinloc, isSearch, hc]
  unfold FROM_resolve
  cases fixed_meshes with
  | false => exact within_emit hs _ rfl (hsearch st hcomm)
  | true =>
    simp only [if_true]
    have h1 := within_emit hs (Event.cacheFind id) rfl rfl
    cases hc : (st.emit (Event.cacheFind id)).node_map id with
    | none =>
      simp only []
      have h2 := within_emit h1 (Event.search app id) rfl (hsearch _ hcomm)
      exact within_emit (within_caches h2 _ _) (Event.cacheStore id) rfl rfl
    | some cached =>
      simp only []
      cases hd : (st.emit (Event.cacheFind id)).distance_map id with
      | none =>
        simp only []
        exact within_emit (within_caches h1 _ _) (Event.cacheLoad id) rfl rfl
      | some d =>
        simp only []
        exact within_emit h1 (Event.cacheLoad id) rfl rfl

theorem FROM_entity_within (size : P → WithTop R) (t : Params) (ma : MultiApp P R)
    (from_mesh : MeshBase P) (i id : Nat) (pos : P) (s0 : TransferState P R)
    (loop : Candidates R × TransferState P R)
    (hs : within (local_search_event ma.comm) s0 loop.2) :
    within (local_search_event ma.comm) s0
      (endState Prod.snd (FROM_entity size t ma from_mesh i id pos loop)) := by
  have h1 := within_swap hs ma.comm rfl
  have h2 := FROM_resolve_within size t.fixed_meshes ma.comm i id pos from_mesh.local_nodes s0
    _ rfl h1
  have h3 := within_swap h2 (swapLibMeshComm ma.comm loop.2).1 rfl
  unfold FROM_entity
  simp only []
  split
  · exact h3
  · split
    · split
      · exact h3
      · exact h3
    · exact h3

theorem FROM_app_within (size : P → WithTop R) (t : Params) (ma : MultiApp P R) (to_mesh : MeshBase P)
    (is_nodal : Bool) (i : Nat) (s0 : TransferState P R)
    (loop : Candidates R × TransferState P R)
    (hs : within (local_search_event ma.comm) s0 loop.2) :
    within (local_search_event ma.comm) s0
      (endState Prod.snd (FROM_app size t ma to_mesh is_nodal i loop)) := by
  unfold FROM_app
  split
  · exact hs
  · have h1 := within_swap hs ma.comm rfl
    have h2 := within_swap h1 (swapLibMeshComm ma.comm loop.2).1 rfl
    simp only []
    split
    · exact h1
    · split
      · exact forEach_endState _ Prod.snd _ _
          (fun x _ s hI => FROM_entity_within size t ma _ i _ _ s0 s hI) _ h2
      · exact forEach_endState _ Prod.snd _ _
          (fun x _ s hI => FROM_entity_within size t ma _ i _ _ s0 s hI) _ h2

/-- The local search, however it ends: no reduction, and every search under the
communicator of the MultiApp. -/
theorem FROM_local_search_within (size : P → WithTop R) (t : Params) (ma : MultiApp P R)
    (st : TransferState P R) :
    within (local_search_event ma.comm) st
      (endState Prod.snd (FROM_local_search size t ma st)) := by
  unfold FROM_local_search
  simp only []
  split
  · exact within_refl _ st
  · exact forEach_endState _ Prod.snd _ _
      (fun i _ s hI => FROM_app_within size t ma _ _ i st s hI) _ (within_refl _ st)

/-- After the reduction the run, however it ends, makes no other reduction, no
search and no access to the caches. -/
theorem execute_FROM_after_minloc (size : P → WithTop R) (t : Params) (ma : MultiApp P R)
    (proc_id : Nat) (minloc : List (WithTop R) → List (WithTop R) × List Nat)
    (st : TransferState P R) (c : Candidates R) (st1 : TransferState P R)
    (hls : FROM_local_search size t ma st = Except.ok (c, st1)) :
    within winner_event (st1.emit Event.minloc)
      (finalState (execute_FROM size t ma proc_id minloc st)) := by
  unfold execute_FROM
  rw [hls]
  simp only []
  have hloop : ∀ looped : Result P R (TransferState P R),
      within winner_event (st1.emit Event.minloc) (finalState looped) →
      within winner_event (st1.emit Event.minloc) (finalState (match looped with
        | Except.error e => Except.error e
        | Except.ok st3 =>
          Except.ok ((st3.emit (Event.close none)).emit (Event.update none)))) := by
    intro looped hl
    cases looped with
    | error e => exact hl
    | ok st3 => exact within_emit (within_emit hl (Event.close none) rfl rfl) _ rfl rfl
  apply hloop
  exact forEach_finalState_frame _ _ _
    (fun j _ s hI => FROM_winner_within t ma _ _ proc_id _ j _ s hI) _ (within_refl _ _)

variable [Add P]

/-- The reduction and the searches in the log of a FROM_MULTIAPP run, the log
taken from the start of the execution. -/
theorem execute_FROM_scope (size : P → WithTop R) (t : Params) (ma : MultiApp P R)
    (proc_id : Nat) (minloc : List (WithTop R) → List (WithTop R) × List Nat)
    (st : TransferState P R)
    (hdir : t.direction = Direction.FROM_MULTIAPP) (hlog : st.log = []) :
    ((finalLog (execute size t ma proc_id minloc st)).filter isMinloc).length =
      (if completes (FROM_local_search size t ma st) = true then 1 else 0) ∧
    (∀ c st1, FROM_local_search size t ma st = Except.ok (c, st1) →
      ∃ post, finalLog (execute size t ma proc_id minloc st) =
          st1.log ++ Event.minloc :: post ∧
        (∀ e ∈ st1.log, isMinloc e = false) ∧
        (∀ e ∈ post, isMinloc e = false ∧ isSearch e = false ∧ isCacheEvent e = false) ∧
        current_comm st.comm st1.log = st.comm) ∧
    (∀ p ∈ comm_trace st.comm (finalLog (execute size t ma proc_id minloc st)),
      (isMinloc p.2 = true → p.1 = st.comm) ∧ (isSearch p.2 = true → p.1 = ma.comm)) := by
  have hexec : execute size t ma proc_id minloc st = execute_FROM size t ma proc_id minloc st := by
    simp [execute, hdir]
  rw [hexec]
  have hlocal := FROM_local_search_within size t ma st
  -- what the events admitted in the local search are
  have hadm : ∀ (p : MPI_Comm × Event R), local_search_event ma.comm p.1 p.2 = true →
      isMinloc p.2 = false ∧ (isSearch p.2 = true → p.1 = ma.comm) := by
    intro p hp
    simp only [local_search_event, Bool.and_eq_true, Bool.not_eq_true', Bool.or_eq_true,
      decide_eq_true_eq] at hp
    refine ⟨hp.1, fun hsearch => ?_⟩
    rcases hp.2 with h | h
    · rw [h] at hsearch
      exact absurd hsearch (by simp)
    · exact h
  have hwin : ∀ (p : MPI_Comm × Event R), winner_event p.1 p.2 = true →
      isMinloc p.2 = false ∧ isSearch p.2 = false ∧ isCacheEvent p.2 = false := by
    intro p hp
    simpa [winner_event, and_assoc] using hp
  cases hls : FROM_local_search size t ma st with
  | error e =>
    rw [hls] at hlocal
    obtain ⟨es, hes, _, hall⟩ := hlocal
    simp only [endState, hlog, List.nil_append] at hes
    have hfinal : finalLog (execute_FROM size t ma proc_id minloc st) = es := by
      simp [execute_FROM, hls, finalLog, finalState, hes]
    rw [hfinal]
    have hnone : ∀ e ∈ es, isMinloc e = false := by
      intro e he
      have hmem : e ∈ (comm_trace st.comm es).map Prod.snd := by
        rw [comm_trace_events]; exact he
      obtain ⟨p, hp, hpe⟩ := List.mem_map.mp hmem
      rw [← hpe]
      exact (hadm p (hall p hp)).1
    refine ⟨?_, ?_, ?_⟩
    · simp only [completes, Bool.false_eq_true, if_false, List.length_eq_zero,
        List.filter_eq_nil_iff]
      intro e he
      simp [hnone e he]
    · intro c st1 h
      simp at h
    · intro p hp
      have := hadm p (hall p hp)
      exact ⟨fun h => by rw [this.1] at h; simp at h, this.2⟩
  | ok loop =>
    obtain ⟨c, st1⟩ := loop
    rw [hls] at hlocal
    obtain ⟨es, hes, hcomm, hall⟩ := hlocal
    simp only [endState, hlog, List.nil_append] at hes hcomm
    have hrestored : st1.comm = st.comm := FROM_local_search_comm size t ma st (c, st1) hls
    obtain ⟨post, hpost, _, hpostall⟩ :=
      execute_FROM_after_minloc size t ma proc_id minloc st c st1 hls
    have hfinal : finalLog (execute_FROM size t ma proc_id minloc st) =
        es ++ Event.minloc :: post := by
      simp only [finalLog, hpost, TransferState.emit, hes]
      simp
    rw [hfinal]
    have hnone : ∀ e ∈ es, isMinloc e = false := by
      intro e he
      have hmem : e ∈ (comm_trace st.comm es).map Prod.snd := by
        rw [comm_trace_events]; exact he
      obtain ⟨p, hp, hpe⟩ := List.mem_map.mp hmem
      rw [← hpe]
      exact (hadm p (hall p hp)).1
    have hquiet : ∀ e ∈ post, isMinloc e = false ∧ isSearch e = false ∧ isCacheEvent e = false := by
      intro e he
      have hmem : e ∈ (comm_trace (st1.emit Event.minloc).comm post).map Prod.snd := by
        rw [comm_trace_events]; exact he
      obtain ⟨p, hp, hpe⟩ := List.mem_map.mp hmem
      rw [← hpe]
      exact hwin p (hpostall p hp)
    have hcur : current_comm st.comm es = st.comm := by rw [← hcomm, hrestored]
    refine ⟨?_, ?_, ?_⟩
    · simp only [completes, if_true, List.filter_append, List.filter_cons, isMinloc,
        List.length_append, List.length_cons]
      have h1 : es.filter isMinloc = [] := by
        rw [List.filter_eq_nil_iff]
        intro e he
        simp [hnone e he]
      have h2 : post.filter isMinloc = [] := by
        rw [List.filter_eq_nil_iff]
        intro e he
        simp [(hquiet e he).1]
      simp [h1, h2]
    · intro c' st1' h
      simp only [Except.ok.injEq, Prod.mk.injEq] at h
      obtain ⟨_, hst⟩ := h
      subst hst
      exact ⟨post, by rw [hes], by rw [hes]; exact hnone, hquiet, by rw [hes]; exact hcur⟩
    · intro p hp
      rw [comm_trace_append] at hp
      rcases List.mem_append.mp hp with hp | hp
      · have := hadm p (hall p hp)
        exact ⟨fun h => by rw [this.1] at h; simp at h, this.2⟩
      · simp only [comm_trace, List.mem_cons] at hp
        rcases hp with hp | hp
        · rw [hp]
          exact ⟨fun _ => hcur, fun h => by simp [isSearch] at h⟩
        · have hmem : p.2 ∈ post := by
            have := List.mem_map_of_mem Prod.snd hp
            rwa [comm_trace_events] at this
          have hq := hquiet p.2 hmem
          exact ⟨fun h => by rw [hq.1] at h; simp at h,
            fun h => by rw [hq.2.1] at h; simp at h⟩

/-- C21. FROM_MULTIAPP, the log taken from the start of the execution.  The
reduction `minloc` is invoked once when the local search runs to its end and
not at all when it fails.  It comes right after the log of the local search,
which holds no reduction, and nothing after it is a reduction, a search or an
access to the caches, however the run ends.  The communicator current at the
reduction is the one that was current on entry to `execute`: the exchanges of
the local search have restored it, so the communicator of the MultiApp is not
installed then unless it was on entry.  Every search of a nearest node happens
while the communicator of the MultiApp is installed. -/
theorem minloc_once_under_entry_comm (size : P → WithTop R) (t : Params) (ma : MultiApp P R)
    (proc_id : Nat) (minloc : List (WithTop R) → List (WithTop R) × List Nat)
    (st : TransferState P R)
    (hdir : t.direction = Direction.FROM_MULTIAPP) (hlog : st.log = []) :
    ((finalLog (execute size t ma proc_id minloc st)).filter isMinloc).length =
      (if completes (FROM_local_search size t ma st) = true then 1 else 0) ∧
    (∀ c st1, FROM_local_search size t ma st = Except.ok (c, st1) →
      ∃ post, finalLog (execute size t ma proc_id minloc st) =
          st1.log ++ Event.minloc :: post ∧
        (∀ e ∈ st1.log, isMinloc e = false) ∧
        (∀ e ∈ post, isMinloc e = false ∧ isSearch e = false ∧ isCacheEvent e = false) ∧
        current_comm st.comm st1.log = st.comm) ∧
    (∀ p ∈ comm_trace st.comm (finalLog (execute size t ma proc_id minloc st)),
      (isMinloc p.2 = true → p.1 = st.comm ∧ (st.comm ≠ ma.comm → p.1 ≠ ma.comm)) ∧
      (isSearch p.2 = true → p.1 = ma.comm)) := by
  obtain ⟨h1, h2, h3⟩ := execute_FROM_scope size t ma proc_id minloc st hdir hlog
  refine ⟨h1, h2, fun p hp => ⟨fun hm => ?_, (h3 p hp).2⟩⟩
  have heq := (h3 p hp).1 hm
  exact ⟨heq, fun hne => by rw [heq]; exact hne⟩

end Scope

/-- Instance of `minloc_once_under_entry_comm`: one process with two apps and
the cache; the local search completes, so the log holds one reduction, and it
happens under the communicator of entry, the searches under that of the
MultiApp. -/
theorem minloc_once_under_entry_comm_witness :
    completes (FROM_local_search line_size ⟨Direction.FROM_MULTIAPP, false, false, true⟩
      two_apps_one_process fresh) = true ∧
    ((finalLog (execute line_size ⟨Direction.FROM_MULTIAPP, false, false, true⟩
        two_apps_one_process 0
        (Communicator_minloc [FROM_contribution line_size
          ⟨Direction.FROM_MULTIAPP, false, false, true⟩ two_apps_one_process fresh])
        fresh)).filter isMinloc).length =
      (if completes (FROM_local_search line_size ⟨Direction.FROM_MULTIAPP, false, false, true⟩
        two_apps_one_process fresh) = true then 1 else 0) ∧
    (∀ p ∈ comm_trace fresh.comm
        (finalLog (execute line_size ⟨Direction.FROM_MULTIAPP, false, false, true⟩
          two_apps_one_process 0
          (Communicator_minloc [FROM_contribution line_size
            ⟨Direction.FROM_MULTIAPP, false, false, true⟩ two_apps_one_process fresh])
          fresh)),
      (isMinloc p.2 = true →
        p.1 = fresh.comm ∧ (fresh.comm ≠ two_apps_one_process.comm →
          p.1 ≠ two_apps_one_process.comm)) ∧
      (isSearch p.2 = true → p.1 = two_apps_one_process.comm)) :=
  ⟨by decide,
    (minloc_once_under_entry_comm line_size ⟨Direction.FROM_MULTIAPP, false, false, true⟩
      two_apps_one_process 0
      (Communicator_minloc [FROM_contribution line_size
        ⟨Direction.FROM_MULTIAPP, false, false, true⟩ two_apps_one_process fresh])
      fresh rfl rfl).1,
    (minloc_once_under_entry_comm line_size ⟨Direction.FROM_MULTIAPP, false, false, true⟩
      two_apps_one_process 0
      (Communicator_minloc [FROM_contribution line_size
        ⟨Direction.FROM_MULTIAPP, false, false, true⟩ two_apps_one_process fresh])
      fresh rfl rfl).2.2⟩

end MultiAppNearestNodeTransfer

namespace MultiAppNearestNodeTransfer

variable {P R : Type}

/-! ## FROM_MULTIAPP: the candidates that a winner reads -/

section ReadyBase

theorem cache_from_congr (t : Params) (fp : FEProblem P R) (s s' : TransferState P R)
    (hnm : s'.node_map = s.node_map) (hdm : s'.distance_map = s.distance_map)
    (h : cache_from t fp s) : cache_from t fp s' := by
  intro id x hx
  rw [hnm] at hx
  rw [hdm]
  exact h id x hx

/-- A loop over `0 .. n-1` with an invariant that depends on the index reached. -/
theorem forEach_range {σ ε : Type} (body : Nat → σ → Except ε σ) (I : Nat → σ → Prop) :
    ∀ (n : Nat), (∀ k s s', k < n → I k s → body k s = Except.ok s' → I (k + 1) s') →
      ∀ (s s' : σ), I 0 s → forEach body (List.range n) s = Except.ok s' → I n s' := by
  intro n hstep s s' h0 hrun
  have key := forEach_preserves_indexed body
    (fun done st => ∀ k, done = List.range k → k ≤ n → I k st)
    (fun done x st st' hI hb k hk hkn => by
      cases k with
      | zero => simp at hk
      | succ k =>
        rw [List.range_succ] at hk
        obtain ⟨hd, hx⟩ := List.append_inj' hk rfl
        simp only [List.cons.injEq, and_true] at hx
        subst hx
        exact hstep x st st' (by omega) (hI x hd (by omega)) hb)
    (List.range n) [] s s' hrun
    (fun k hk _ => by
      have : k = 0 := by
        cases k with
        | zero => rfl
        | succ k => simp [List.range_succ] at hk
      subst this
      exact h0)
  exact key n (by simp) (le_refl n)

variable [LinearOrder R]

/-- The comparison keeps the candidates valid when the node it may take can be
looked up in the source mesh of the app. -/
theorem candidate_step_valid (t : Params) (ma : MultiApp P R) (fp : FEProblem P R)
    (c c' : Candidates R) (i id : Nat) (best : WithTop R) (x : Option (Node P))
    (d : WithTop R) (happ : ma.appProblem i = some fp)
    (hlen : c.min_nodes.length = c.min_distances.length ∧
      c.min_apps.length = c.min_distances.length)
    (hbest : c.min_distances[id]? = some best)
    (hstep : candidate_step c c' i id best x d)
    (hread : ∀ nd, x = some nd → d < ⊤ → readable_in t fp nd.id)
    (hvalid : candidates_valid t ma c) :
    candidates_valid t ma c' ∧
      (c'.min_nodes.length = c'.min_distances.length ∧
        c'.min_apps.length = c'.min_distances.length) := by
  have hid : id < c.min_distances.length := (List.getElem?_eq_some.mp hbest).1
  rcases hstep with ⟨hlt, nd, hx, hc'⟩ | ⟨_, hc'⟩
  · subst hc'
    refine ⟨?_, by simpa using hlen⟩
    intro k dk hk hktop
    by_cases hkid : k = id
    · subst hkid
      simp only [List.getElem?_set_self hid, Option.some.injEq] at hk
      subst hk
      have h1 : (c.min_apps.set k i)[k]? = some i :=
        List.getElem?_set_self (by rw [hlen.2]; exact hid)
      have h2 : (c.min_nodes.set k nd.id)[k]? = some nd.id :=
        List.getElem?_set_self (by rw [hlen.1]; exact hid)
      have h3 := hread nd hx hktop
      unfold readable_in at h3
      simp [candidate_ready, h1, h2, happ, h3]
    · have hne : id ≠ k := fun e => hkid e.symm
      simp only [List.getElem?_set_ne hne] at hk
      have := hvalid k dk hk hktop
      rw [← this]
      exact candidate_ready_congr t ma c _ k (List.getElem?_set_ne hne)
        (List.getElem?_set_ne hne)
  · subst hc'
    exact ⟨hvalid, hlen⟩

/-- The comparison leaves the candidate distance of the target at or below
the distance compared and at or below the best so far, and the others as they were. -/
theorem candidate_step_distances (c c' : Candidates R) (i id : Nat) (best : WithTop R)
    (x : Option (Node P)) (d : WithTop R)
    (hbest : c.min_distances[id]? = some best)
    (hstep : candidate_step c c' i id best x d) :
    (∀ k, k ≠ id → c'.min_distances[k]? = c.min_distances[k]?) ∧
      ∃ b, c'.min_distances[id]? = some b ∧ b ≤ d ∧ b ≤ best := by
  have hid : id < c.min_distances.length := (List.getElem?_eq_some.mp hbest).1
  rcases hstep with ⟨hlt, nd, _, hc'⟩ | ⟨hnlt, hc'⟩
  · subst hc'
    refine ⟨fun k hk => List.getElem?_set_ne (fun e => hk e.symm), d, ?_, le_refl d,
      le_of_lt hlt⟩
    exact List.getElem?_set_self hid
  · subst hc'
    exact ⟨fun _ _ => rfl, best, hbest, not_lt.mp hnlt, le_refl best⟩

theorem settled_at_congr (s s' : Candidates R × TransferState P R) (id : Nat)
    (hc : s'.1 = s.1) (hnm : s'.2.node_map = s.2.node_map)
    (hdm : s'.2.distance_map = s.2.distance_map) (h : settled_at s id) : settled_at s' id := by
  obtain ⟨x, d, hx, hd, hle⟩ := h
  exact ⟨x, d, by rw [hnm]; exact hx, by rw [hdm]; exact hd, by rw [hc]; exact hle⟩

variable [Sub P]

/-- A search over the local nodes of a mesh yields the sentinel, or a node that
can be looked up in the mesh. -/
theorem getNearestNode_readable (size : P → WithTop R) (t : Params) (fp : FEProblem P R) (pos : P)
    (d : WithTop R) (nd : Node P)
    (h : (getNearestNode size pos d (selectMesh t.displaced_source_mesh fp).local_nodes).1 =
      some nd) :
    readable_in t fp nd.id := by
  rcases getNearestNode_cases size pos d (selectMesh t.displaced_source_mesh fp).local_nodes
    with hnone | ⟨n, hmem, _, hres⟩
  · rw [hnone] at h
    simp at h
  · rw [hres] at h
    simp only [Option.some.injEq] at h
    subst h
    exact node_isSome_of_mem _ n hmem

theorem getNearestNode_top (size : P → WithTop R) (pos : P) (d : WithTop R) (nodes : List (Node P))
    (h : (getNearestNode size pos d nodes).1 = none) :
    (getNearestNode size pos d nodes).2 = ⊤ := by
  rcases getNearestNode_cases size pos d nodes with hnone | ⟨n, _, _, hres⟩
  · rw [hnone]
  · rw [hres] at h
    simp at h

end ReadyBase

section Ready

variable [LinearOrder R] [Zero R] [Sub P]

/-- An iteration of a target loop that returns, with `fixed_meshes`: a miss
stores the result of the search, a hit leaves the entry, and the comparison
follows on the node and distance resolved. -/
theorem FROM_entity_fixed (size : P → WithTop R) (t : Params) (ma : MultiApp P R)
    (from_mesh : MeshBase P) (i id : Nat) (pos : P)
    (loop loop' : Candidates R × TransferState P R) (hf : t.fixed_meshes = true)
    (h : FROM_entity size t ma from_mesh i id pos loop = Except.ok loop') :
    ∃ best, loop.1.min_distances[id]? = some best ∧
      ((loop.2.node_map id = none ∧
          loop'.2.node_map = mapInsert loop.2.node_map id
            (getNearestNode size pos ((0 : R) : WithTop R) from_mesh.local_nodes).1 ∧
          loop'.2.distance_map = mapInsert loop.2.distance_map id
            (getNearestNode size pos ((0 : R) : WithTop R) from_mesh.local_nodes).2 ∧
          candidate_step loop.1 loop'.1 i id best
            (getNearestNode size pos ((0 : R) : WithTop R) from_mesh.local_nodes).1
            (getNearestNode size pos ((0 : R) : WithTop R) from_mesh.local_nodes).2) ∨
        (∃ x, loop.2.node_map id = some x ∧ loop'.2.node_map = loop.2.node_map ∧
          ((∃ d, loop.2.distance_map id = some d ∧
              loop'.2.distance_map = loop.2.distance_map ∧
              candidate_step loop.1 loop'.1 i id best x d) ∨
            (loop.2.distance_map id = none ∧
              loop'.2.distance_map = mapInsert loop.2.distance_map id ((0 : R) : WithTop R) ∧
              candidate_step loop.1 loop'.1 i id best x ((0 : R) : WithTop R))))) := by
  obtain ⟨c, st⟩ := loop
  unfold FROM_entity at h
  simp only [] at h
  cases hbest : c.min_distances[id]? with
  | none => simp [hbest] at h
  | some best =>
    refine ⟨best, rfl, ?_⟩
    simp only [hbest] at h
    unfold FROM_resolve at h
    simp only [hf, if_true, TransferState.emit, swapLibMeshComm] at h
    generalize getNearestNode size pos ((0 : R) : WithTop R) from_mesh.local_nodes = found at h ⊢
    cases hc : st.node_map id with
    | none =>
      left
      simp only [hc] at h
      refine ⟨rfl, ?_⟩
      by_cases hlt : found.2 < best
      · simp only [hlt, if_true] at h
        cases hx : found.1 with
        | none => simp [hx] at h
        | some nd =>
          simp only [hx, Except.ok.injEq] at h
          subst h
          exact ⟨rfl, rfl, Or.inl ⟨hlt, nd, rfl, rfl⟩⟩
      · simp only [hlt, if_false, Except.ok.injEq] at h
        subst h
        exact ⟨rfl, rfl, Or.inr ⟨hlt, rfl⟩⟩
    | some x =>
      right
      simp only [hc] at h
      refine ⟨x, rfl, ?_⟩
      cases hd : st.distance_map id with
      | some d =>
        simp only [hd] at h
        by_cases hlt : d < best
        · simp only [hlt, if_true] at h
          cases hx : x with
          | none => simp [hx] at h
          | some nd =>
            simp only [hx, Except.ok.injEq] at h
            subst h
            exact ⟨rfl, Or.inl ⟨d, rfl, rfl, Or.inl ⟨hlt, nd, rfl, rfl⟩⟩⟩
        · simp only [hlt, if_false, Except.ok.injEq] at h
          subst h
          exact ⟨rfl, Or.inl ⟨d, rfl, rfl, Or.inr ⟨hlt, rfl⟩⟩⟩
      | none =>
        simp only [hd] at h
        by_cases hlt : ((0 : R) : WithTop R) < best
        · simp only [hlt, if_true] at h
          cases hx : x with
          | none => simp [hx] at h
          | some nd =>
            simp only [hx, Except.ok.injEq] at h
            subst h
            exact ⟨rfl, Or.inr ⟨rfl, rfl, Or.inl ⟨hlt, nd, rfl, rfl⟩⟩⟩
        · simp only [hlt, if_false, Except.ok.injEq] at h
          subst h
          exact ⟨rfl, Or.inr ⟨rfl, rfl, Or.inr ⟨hlt, rfl⟩⟩⟩

/-- An iteration of a target loop that returns, without `fixed_meshes`: the
caches stay and the comparison follows on the result of the search. -/
theorem FROM_entity_search (size : P → WithTop R) (t : Params) (ma : MultiApp P R)
    (from_mesh : MeshBase P) (i id : Nat) (pos : P)
    (loop loop' : Candidates R × TransferState P R) (hf : t.fixed_meshes = false)
    (h : FROM_entity size t ma from_mesh i id pos loop = Except.ok loop') :
    ∃ best, loop.1.min_distances[id]? = some best ∧
      loop'.2.node_map = loop.2.node_map ∧ loop'.2.distance_map = loop.2.distance_map ∧
      candidate_step loop.1 loop'.1 i id best
        (getNearestNode size pos ((0 : R) : WithTop R) from_mesh.local_nodes).1
        (getNearestNode size pos ((0 : R) : WithTop R) from_mesh.local_nodes).2 := by
  obtain ⟨c, st⟩ := loop
  unfold FROM_entity at h
  simp only [] at h
  cases hbest : c.min_distances[id]? with
  | none => simp [hbest] at h
  | some best =>
    refine ⟨best, rfl, ?_⟩
    simp only [hbest] at h
    unfold FROM_resolve at h
    simp only [hf, Bool.false_eq_true, if_false, TransferState.emit, swapLibMeshComm] at h
    generalize getNearestNode size pos ((0 : R) : WithTop R) from_mesh.local_nodes = found at h ⊢
    by_cases hlt : found.2 < best
    · simp only [hlt, if_true] at h
      cases hx : found.1 with
      | none => simp [hx] at h
      | some nd =>
        simp only [hx, Except.ok.injEq] at h
        subst h
        exact ⟨rfl, rfl, Or.inl ⟨hlt, nd, rfl, rfl⟩⟩
    · simp only [hlt, if_false, Except.ok.injEq] at h
      subst h
      exact ⟨rfl, rfl, Or.inr ⟨hlt, rfl⟩⟩

/-- An iteration of the target loop of an app whose source mesh the cache
comes from: the candidates stay valid, the cache keeps its origin, the target
gets settled and the settled targets stay so. -/
theorem FROM_entity_first (size : P → WithTop R) (t : Params) (ma : MultiApp P R)
    (fp : FEProblem P R) (i id : Nat) (pos : P)
    (loop loop' : Candidates R × TransferState P R)
    (happ : ma.appProblem i = some fp)
    (hlen : loop.1.min_nodes.length = loop.1.min_distances.length ∧
      loop.1.min_apps.length = loop.1.min_distances.length)
    (hvalid : candidates_valid t ma loop.1)
    (hcache : t.fixed_meshes = true → cache_from t fp loop.2)
    (h : FROM_entity size t ma (selectMesh t.displaced_source_mesh fp) i id pos loop =
      Except.ok loop') :
    candidates_valid t ma loop'.1 ∧
      (loop'.1.min_nodes.length = loop'.1.min_distances.length ∧
        loop'.1.min_apps.length = loop'.1.min_distances.length) ∧
      (t.fixed_meshes = true →
        cache_from t fp loop'.2 ∧ settled_at loop' id ∧
        ∀ id', settled_at loop id' → settled_at loop' id') := by
  cases hf : t.fixed_meshes with
  | false =>
    obtain ⟨best, hbest, _, _, hstep⟩ :=
      FROM_entity_search size t ma _ i id pos loop loop' hf h
    obtain ⟨hv, hl⟩ := candidate_step_valid t ma fp loop.1 loop'.1 i id best _ _ happ hlen hbest
      hstep (fun nd hx _ => getNearestNode_readable size t fp pos _ nd hx) hvalid
    exact ⟨hv, hl, by simp⟩
  | true =>
    have hcf := hcache hf
    obtain ⟨best, hbest, hcases⟩ := FROM_entity_fixed size t ma _ i id pos loop loop' hf h
    rcases hcases with ⟨hnone, hnm, hdm, hstep⟩ |
      ⟨x, hsome, hnm, ⟨d, hd, hdm, hstep⟩ | ⟨hd, _, _⟩⟩
    · -- a miss
      have hfound1 : (getNearestNode size pos ((0 : R) : WithTop R)
          (selectMesh t.displaced_source_mesh fp).local_nodes).1 = none →
          (getNearestNode size pos ((0 : R) : WithTop R)
            (selectMesh t.displaced_source_mesh fp).local_nodes).2 = ⊤ :=
        getNearestNode_top size pos _ _
      have hfound2 : ∀ nd, (getNearestNode size pos ((0 : R) : WithTop R)
          (selectMesh t.displaced_source_mesh fp).local_nodes).1 = some nd →
          readable_in t fp nd.id :=
        fun nd hx => getNearestNode_readable size t fp pos _ nd hx
      generalize getNearestNode size pos ((0 : R) : WithTop R)
        (selectMesh t.displaced_source_mesh fp).local_nodes = found
        at hnm hdm hstep hfound1 hfound2
      obtain ⟨hv, hl⟩ := candidate_step_valid t ma fp loop.1 loop'.1 i id best _ _ happ hlen
        hbest hstep (fun nd hx _ => hfound2 nd hx) hvalid
      obtain ⟨hother, b, hb, hbd, _⟩ := candidate_step_distances loop.1 loop'.1 i id best _ _
        hbest hstep
      have hnm_id : loop'.2.node_map id = some found.1 := by
        rw [hnm]
        unfold mapInsert
        rw [if_pos rfl]
      have hdm_id : loop'.2.distance_map id = some found.2 := by
        rw [hdm]
        unfold mapInsert
        rw [if_pos rfl]
      have hnm_ne : ∀ id', id' ≠ id → loop'.2.node_map id' = loop.2.node_map id' := by
        intro id' hid
        rw [hnm]
        unfold mapInsert
        rw [if_neg hid]
      have hdm_ne : ∀ id', id' ≠ id → loop'.2.distance_map id' = loop.2.distance_map id' := by
        intro id' hid
        rw [hdm]
        unfold mapInsert
        rw [if_neg hid]
      refine ⟨hv, hl, fun _ => ⟨?_, ?_, ?_⟩⟩
      · intro id' x' hx'
        by_cases hid : id' = id
        · subst hid
          rw [hnm_id] at hx'
          simp only [Option.some.injEq] at hx'
          refine ⟨found.2, hdm_id, ?_⟩
          cases hfound : found.1 with
          | none => exact Or.inl (hfound1 hfound)
          | some nd => exact Or.inr ⟨nd, by rw [← hx', hfound], hfound2 nd hfound⟩
        · rw [hnm_ne id' hid] at hx'
          rw [hdm_ne id' hid]
          exact hcf id' x' hx'
      · refine ⟨found.1, found.2, hnm_id, hdm_id, ?_⟩
        intro b' hb'
        rw [hb] at hb'
        simp only [Option.some.injEq] at hb'
        rw [← hb']
        exact hbd
      · intro id' ⟨x', d', hx', hd', hle⟩
        have hid : id' ≠ id := by
          intro e
          rw [e, hnone] at hx'
          simp at hx'
        refine ⟨x', d', by rw [hnm_ne id' hid]; exact hx',
          by rw [hdm_ne id' hid]; exact hd', ?_⟩
        intro b' hb'
        rw [hother id' hid] at hb'
        exact hle b' hb'
    · -- a hit
      have hread : ∀ nd, x = some nd → d < ⊤ → readable_in t fp nd.id := by
        intro nd hx hlt
        obtain ⟨d0, hd0, hor⟩ := hcf id x hsome
        rw [hd] at hd0
        simp only [Option.some.injEq] at hd0
        subst hd0
        rcases hor with htop | ⟨nd', hx', hr⟩
        · rw [htop] at hlt
          exact absurd hlt (lt_irrefl _)
        · rw [hx] at hx'
          simp only [Option.some.injEq] at hx'
          rw [hx']
          exact hr
      obtain ⟨hv, hl⟩ := candidate_step_valid t ma fp loop.1 loop'.1 i id best x d happ hlen
        hbest hstep hread hvalid
      obtain ⟨hother, b, hb, hbd, hbb⟩ := candidate_step_distances loop.1 loop'.1 i id best _ _
        hbest hstep
      refine ⟨hv, hl, fun _ => ⟨?_, ?_, ?_⟩⟩
      · intro id' x' hx'
        rw [hnm] at hx'
        rw [hdm]
        exact hcf id' x' hx'
      · refine ⟨x, d, by rw [hnm]; exact hsome, by rw [hdm]; exact hd, ?_⟩
        intro b' hb'
        rw [hb] at hb'
        simp only [Option.some.injEq] at hb'
        rw [← hb']
        exact hbd
      · intro id' ⟨x', d', hx', hd', hle⟩
        refine ⟨x', d', by rw [hnm]; exact hx', by rw [hdm]; exact hd', ?_⟩
        intro b' hb'
        by_cases hid : id' = id
        · subst hid
          rw [hb] at hb'
          simp only [Option.some.injEq] at hb'
          rw [← hb']
          exact le_trans hbb (hle best hbest)
        · rw [hother id' hid] at hb'
          exact hle b' hb'
    · -- a hit without a distance does not happen
      obtain ⟨d0, hd0, _⟩ := hcf id x hsome
      rw [hd] at hd0
      simp at hd0

/-- An iteration of a target loop for a settled target changes neither the
candidates nor the caches. -/
theorem FROM_entity_later (size : P → WithTop R) (t : Params) (ma : MultiApp P R)
    (from_mesh : MeshBase P) (i id : Nat) (pos : P)
    (loop loop' : Candidates R × TransferState P R) (hf : t.fixed_meshes = true)
    (hsettled : settled_at loop id)
    (h : FROM_entity size t ma from_mesh i id pos loop = Except.ok loop') :
    loop'.1 = loop.1 ∧ loop'.2.node_map = loop.2.node_map ∧
      loop'.2.distance_map = loop.2.distance_map := by
  obtain ⟨x, d, hx, hd, hle⟩ := hsettled
  obtain ⟨best, hbest, hcases⟩ := FROM_entity_fixed size t ma _ i id pos loop loop' hf h
  rcases hcases with ⟨hnone, _⟩ | ⟨x', _, hnm, ⟨d', hd', hdm, hstep⟩ | ⟨hd', _, _⟩⟩
  · rw [hnone] at hx
    simp at hx
  · rw [hd] at hd'
    simp only [Option.some.injEq] at hd'
    subst hd'
    rcases hstep with ⟨hlt, _⟩ | ⟨_, hc⟩
    · exact absurd hlt (not_lt.mpr (hle best hbest))
    · exact ⟨hc, hnm, hdm⟩
  · rw [hd] at hd'
    simp at hd'

/-- The loop of the first app that a process owns: the candidates stay valid,
the cache keeps its origin and every target gets settled. -/
theorem FROM_app_first (size : P → WithTop R) (t : Params) (ma : MultiApp P R) (to_mesh : MeshBase P)
    (is_nodal : Bool) (fp : FEProblem P R) (i : Nat)
    (loop loop' : Candidates R × TransferState P R)
    (happ : ma.appProblem i = some fp)
    (hlen : loop.1.min_nodes.length = loop.1.min_distances.length ∧
      loop.1.min_apps.length = loop.1.min_distances.length)
    (hvalid : candidates_valid t ma loop.1)
    (hcache : t.fixed_meshes = true → cache_from t fp loop.2)
    (h : FROM_app size t ma to_mesh is_nodal i loop = Except.ok loop') :
    candidates_valid t ma loop'.1 ∧
      (loop'.1.min_nodes.length = loop'.1.min_distances.length ∧
        loop'.1.min_apps.length = loop'.1.min_distances.length) ∧
      (t.fixed_meshes = true →
        cache_from t fp loop'.2 ∧
        ∀ id ∈ (if is_nodal then to_mesh.nodes.map (fun n => n.id)
                else to_mesh.elems.map (fun e => e.id)), settled_at loop' id) := by
  unfold FROM_app at h
  simp only [happ] at h
  split at h
  · simp at h
  · have hstart : candidates_valid t ma loop.1 ∧
        (loop.1.min_nodes.length = loop.1.min_distances.length ∧
          loop.1.min_apps.length = loop.1.min_distances.length) ∧
        (t.fixed_meshes = true →
          cache_from t fp (swapLibMeshComm (swapLibMeshComm ma.comm loop.2).1
            (swapLibMeshComm ma.comm loop.2).2).2) :=
      ⟨hvalid, hlen, fun hf => cache_from_congr t fp loop.2 _ rfl rfl (hcache hf)⟩
    cases is_nodal with
    | true =>
      simp only [if_true] at h ⊢
      have key := forEach_preserves_indexed
        (fun (to_node : Node P) =>
          FROM_entity size t ma (selectMesh t.displaced_source_mesh fp) i to_node.id
            (to_node.point - ma.position i))
        (fun done (s : Candidates R × TransferState P R) =>
          candidates_valid t ma s.1 ∧
          (s.1.min_nodes.length = s.1.min_distances.length ∧
            s.1.min_apps.length = s.1.min_distances.length) ∧
          (t.fixed_meshes = true →
            cache_from t fp s.2 ∧ ∀ x ∈ done, settled_at s x.id))
        (fun done x s s' hI hb => by
          obtain ⟨hv, hl, hc⟩ := FROM_entity_first size t ma fp i x.id _ s s' happ hI.2.1 hI.1
            (fun hf => (hI.2.2 hf).1) hb
          refine ⟨hv, hl, fun hf => ⟨(hc hf).1, ?_⟩⟩
          intro y hy
          rcases List.mem_append.mp hy with hy | hy
          · exact (hc hf).2.2 y.id ((hI.2.2 hf).2 y hy)
          · simp only [List.mem_singleton] at hy
            rw [hy]
            exact (hc hf).2.1)
        to_mesh.nodes [] _ loop' h
        ⟨hstart.1, hstart.2.1, fun hf => ⟨hstart.2.2 hf, by simp⟩⟩
      refine ⟨key.1, key.2.1, fun hf => ⟨(key.2.2 hf).1, ?_⟩⟩
      intro id hid
      obtain ⟨x, hx, hxid⟩ := List.mem_map.mp hid
      rw [← hxid]
      exact (key.2.2 hf).2 x (by simpa using hx)
    | false =>
      simp only [Bool.false_eq_true, if_false] at h ⊢
      have key := forEach_preserves_indexed
        (fun (to_elem : Elem P) =>
          FROM_entity size t ma (selectMesh t.displaced_source_mesh fp) i to_elem.id
            (to_elem.centroid - ma.position i))
        (fun done (s : Candidates R × TransferState P R) =>
          candidates_valid t ma s.1 ∧
          (s.1.min_nodes.length = s.1.min_distances.length ∧
            s.1.min_apps.length = s.1.min_distances.length) ∧
          (t.fixed_meshes = true →
            cache_from t fp s.2 ∧ ∀ x ∈ done, settled_at s x.id))
        (fun done x s s' hI hb => by
          obtain ⟨hv, hl, hc⟩ := FROM_entity_first size t ma fp i x.id _ s s' happ hI.2.1 hI.1
            (fun hf => (hI.2.2 hf).1) hb
          refine ⟨hv, hl, fun hf => ⟨(hc hf).1, ?_⟩⟩
          intro y hy
          rcases List.mem_append.mp hy with hy | hy
          · exact (hc hf).2.2 y.id ((hI.2.2 hf).2 y hy)
          · simp only [List.mem_singleton] at hy
            rw [hy]
            exact (hc hf).2.1)
        to_mesh.elems [] _ loop' h
        ⟨hstart.1, hstart.2.1, fun hf => ⟨hstart.2.2 hf, by simp⟩⟩
      refine ⟨key.1, key.2.1, fun hf => ⟨(key.2.2 hf).1, ?_⟩⟩
      intro id hid
      obtain ⟨x, hx, hxid⟩ := List.mem_map.mp hid
      rw [← hxid]
      exact (key.2.2 hf).2 x (by simpa using hx)

/-- The loop of an app over targets that are all settled changes neither the
candidates nor the caches. -/
theorem FROM_app_later (size : P → WithTop R) (t : Params) (ma : MultiApp P R) (to_mesh : MeshBase P)
    (is_nodal : Bool) (i : Nat) (loop loop' : Candidates R × TransferState P R)
    (hf : t.fixed_meshes = true)
    (hsettled : ∀ id ∈ (if is_nodal then to_mesh.nodes.map (fun n => n.id)
      else to_mesh.elems.map (fun e => e.id)), settled_at loop id)
    (h : FROM_app size t ma to_mesh is_nodal i loop = Except.ok loop') :
    loop'.1 = loop.1 ∧ loop'.2.node_map = loop.2.node_map ∧
      loop'.2.distance_map = loop.2.distance_map := by
  unfold FROM_app at h
  split at h
  · simp only [Except.ok.injEq] at h
    subst h
    exact ⟨rfl, rfl, rfl⟩
  · rename_i fp happ
    split at h
    · simp at h
    · have hstep : ∀ (from_mesh : MeshBase P) (id : Nat) (pos : P)
          (s s' : Candidates R × TransferState P R),
          id ∈ (if is_nodal then to_mesh.nodes.map (fun n => n.id)
            else to_mesh.elems.map (fun e => e.id)) →
          (s.1 = loop.1 ∧ s.2.node_map = loop.2.node_map ∧
            s.2.distance_map = loop.2.distance_map) →
          FROM_entity size t ma from_mesh i id pos s = Except.ok s' →
          (s'.1 = loop.1 ∧ s'.2.node_map = loop.2.node_map ∧
            s'.2.distance_map = loop.2.distance_map) := by
        intro from_mesh id pos s s' hid hI hb
        obtain ⟨h1, h2, h3⟩ := FROM_entity_later size t ma from_mesh i id pos s s' hf
          (settled_at_congr loop s id hI.1 hI.2.1 hI.2.2 (hsettled id hid)) hb
        exact ⟨h1.trans hI.1, h2.trans hI.2.1, h3.trans hI.2.2⟩
      cases is_nodal with
      | true =>
        simp only [if_true] at h hstep
        have key := forEach_preserves_indexed _
          (fun (done : List (Node P)) (s : Candidates R × TransferState P R) =>
            (∀ x ∈ done, x ∈ to_mesh.nodes) → (s.1 = loop.1 ∧ s.2.node_map = loop.2.node_map ∧
              s.2.distance_map = loop.2.distance_map))
          (fun done x s s' hI hb hmem =>
            hstep _ x.id _ s s'
              (List.mem_map_of_mem _ (hmem x (by simp)))
              (hI (fun y hy => hmem y (by simp [hy]))) hb)
          to_mesh.nodes [] _ loop' h (fun _ => ⟨rfl, rfl, rfl⟩)
        exact key (by simp)
      | false =>
        simp only [Bool.false_eq_true, if_false] at h hstep
        have key := forEach_preserves_indexed _
          (fun (done : List (Elem P)) (s : Candidates R × TransferState P R) =>
            (∀ x ∈ done, x ∈ to_mesh.elems) → (s.1 = loop.1 ∧ s.2.node_map = loop.2.node_map ∧
              s.2.distance_map = loop.2.distance_map))
          (fun done x s s' hI hb hmem =>
            hstep _ x.id _ s s'
              (List.mem_map_of_mem _ (hmem x (by simp)))
              (hI (fun y hy => hmem y (by simp [hy]))) hb)
          to_mesh.elems [] _ loop' h (fun _ => ⟨rfl, rfl, rfl⟩)
        exact key (by simp)

/-- The candidates that the local search leaves are valid, and the caches it
leaves come from the first app of the process, when the caches it starts with do. -/
theorem FROM_local_search_ready (size : P → WithTop R) (t : Params) (ma : MultiApp P R)
    (st : TransferState P R) (loop' : Candidates R × TransferState P R)
    (hsound : t.fixed_meshes = true → cache_sound t ma st)
    (h : FROM_local_search size t ma st = Except.ok loop') :
    candidates_valid t ma loop'.1 ∧ (t.fixed_meshes = true → cache_sound t ma loop'.2) := by
  unfold FROM_local_search at h
  simp only [] at h
  split at h
  · simp at h
  · -- the candidates at the start
    have hinit : ∀ n : Nat, candidates_valid t ma (Candidates.init n : Candidates R) ∧
        ((Candidates.init n : Candidates R).min_nodes.length =
            (Candidates.init n : Candidates R).min_distances.length ∧
          (Candidates.init n : Candidates R).min_apps.length =
            (Candidates.init n : Candidates R).min_distances.length) := by
      intro n
      refine ⟨?_, by simp [Candidates.init]⟩
      intro k d hd hlt
      simp only [Candidates.init] at hd
      rw [List.getElem?_replicate] at hd
      split at hd
      · simp only [Option.some.injEq] at hd
        rw [← hd] at hlt
        exact absurd hlt (lt_irrefl _)
      · simp at hd
    generalize (if decide (ma.problem.variable_type = FEType_default) = true
      then (selectMesh t.displaced_target_mesh ma.problem).n_nodes
      else (selectMesh t.displaced_target_mesh ma.problem).n_elem) = n at h
    generalize decide (ma.problem.variable_type = FEType_default) = is_nodal at h
    generalize selectMesh t.displaced_target_mesh ma.problem = to_mesh at h
    cases hf : t.fixed_meshes with
    | false =>
      have key := forEach_keeps (FROM_app size t ma to_mesh is_nodal)
        (fun (s : Candidates R × TransferState P R) => candidates_valid t ma s.1 ∧
          (s.1.min_nodes.length = s.1.min_distances.length ∧
            s.1.min_apps.length = s.1.min_distances.length))
        (List.range ma.numGlobalApps) _ loop' h
        (fun i s s' hI hb => by
          cases happ : ma.appProblem i with
          | none =>
            simp only [FROM_app, happ, Except.ok.injEq] at hb
            subst hb
            exact hI
          | some fp =>
            obtain ⟨hv, hl, _⟩ := FROM_app_first size t ma to_mesh is_nodal fp i s s' happ
              hI.2 hI.1 (fun hf' => by rw [hf] at hf'; simp at hf') hb
            exact ⟨hv, hl⟩)
        (hinit n)
      exact ⟨key.1, by simp⟩
    | true =>
      by_cases hex : ∃ i, i < ma.numGlobalApps ∧ (ma.appProblem i).isSome = true
      · -- the first app that the process owns
        have hfind := Nat.find_spec hex
        have hmin : ∀ k, k < Nat.find hex → ma.appProblem k = none := by
          intro k hk
          have := Nat.find_min hex hk
          simp only [not_and, Bool.not_eq_true, Option.not_isSome, Option.isNone_iff_eq_none] at this
          exact this (lt_trans hk hfind.1)
        generalize Nat.find hex = i0 at hfind hmin
        obtain ⟨hi0, hlocal⟩ := hfind
        obtain ⟨fp0, hfp0⟩ := Option.isSome_iff_exists.mp hlocal
        have hcf0 : cache_from t fp0 st := hsound hf i0 fp0 hi0 hfp0 hmin
        have key := forEach_range (FROM_app size t ma to_mesh is_nodal)
          (fun k (s : Candidates R × TransferState P R) =>
            (k ≤ i0 → s = (Candidates.init n, st)) ∧
            (i0 < k → candidates_valid t ma s.1 ∧ cache_from t fp0 s.2 ∧
              ∀ id ∈ (if is_nodal then to_mesh.nodes.map (fun n => n.id)
                else to_mesh.elems.map (fun e => e.id)), settled_at s id))
          ma.numGlobalApps
          (fun k s s' hk hI hb => by
            rcases Nat.lt_trichotomy k i0 with hlt | heq | hgt
            · have hnone := hmin k hlt
              simp only [FROM_app, hnone, Except.ok.injEq] at hb
              subst hb
              exact ⟨fun _ => hI.1 (le_of_lt hlt), fun h' => absurd h' (by omega)⟩
            · subst heq
              have hs := hI.1 (le_refl k)
              subst hs
              obtain ⟨hv, _, hc⟩ := FROM_app_first size t ma to_mesh is_nodal fp0 k _ s' hfp0
                (hinit n).2 (hinit n).1 (fun _ => hcf0) hb
              exact ⟨fun h' => absurd h' (by omega), fun _ => ⟨hv, (hc hf).1, (hc hf).2⟩⟩
            · obtain ⟨hv, hc, hsettled⟩ := hI.2 hgt
              obtain ⟨h1, h2, h3⟩ := FROM_app_later size t ma to_mesh is_nodal k s s' hf
                hsettled hb
              refine ⟨fun h' => absurd h' (by omega), fun _ => ⟨by rw [h1]; exact hv,
                cache_from_congr t fp0 s.2 s'.2 h2 h3 hc, ?_⟩⟩
              intro id hid
              exact settled_at_congr s s' id h1 h2 h3 (hsettled id hid))
          _ loop' ⟨fun _ => rfl, fun h' => absurd h' (by omega)⟩ h
        obtain ⟨hv, hc, _⟩ := key.2 hi0
        refine ⟨hv, fun _ i fp hi happ hless => ?_⟩
        have hii : i = i0 := by
          rcases Nat.lt_trichotomy i i0 with hlt | heq | hgt
          · rw [hmin i hlt] at happ
            simp at happ
          · exact heq
          · rw [hless i0 hgt] at hfp0
            simp at hfp0
        subst hii
        rw [hfp0] at happ
        simp only [Option.some.injEq] at happ
        subst happ
        exact hc
      · -- the process owns no app: the loop does nothing
        have hnone : ∀ i, i < ma.numGlobalApps → ma.appProblem i = none := by
          intro i hi
          by_contra hne
          exact hex ⟨i, hi, by
            cases hp : ma.appProblem i with
            | none => exact absurd hp hne
            | some _ => rfl⟩
        have key := forEach_range (FROM_app size t ma to_mesh is_nodal)
          (fun _ (s : Candidates R × TransferState P R) => s = (Candidates.init n, st))
          ma.numGlobalApps
          (fun k s s' hk hI hb => by
            simp only [FROM_app, hnone k hk, Except.ok.injEq] at hb
            subst hb
            exact hI)
          _ loop' rfl h
        subst key
        exact ⟨(hinit n).1, fun _ => hsound hf⟩

end Ready

end MultiAppNearestNodeTransfer

namespace MultiAppNearestNodeTransfer

variable {P R : Type}

/-! ## FROM_MULTIAPP: the declared winner holds a candidate it can read -/

section WinnerReady

/-- The winner loop for one target leaves the caches as they are, however it ends. -/
theorem FROM_winner_caches (t : Params) (ma : MultiApp P R) (to_mesh : MeshBase P)
    (is_nodal : Bool) (proc_id : Nat) (c : Candidates R) (j : Nat) (st : TransferState P R) :
    (finalState (FROM_winner t ma to_mesh is_nodal proc_id c j st)).node_map = st.node_map ∧
    (finalState (FROM_winner t ma to_mesh is_nodal proc_id c j st)).distance_map =
      st.distance_map := by
  unfold FROM_winner
  repeat' split
  all_goals
    cases to_mesh.node j <;> cases to_mesh.elem j <;> (try simp only [Option.map]) <;>
      (try split) <;>
      simp [finalState, TransferState.emit, swapLibMeshComm]

theorem cache_sound_congr (t : Params) (ma : MultiApp P R) (s s' : TransferState P R)
    (hnm : s'.node_map = s.node_map) (hdm : s'.distance_map = s.distance_map)
    (h : cache_sound t ma s) : cache_sound t ma s' :=
  fun i fp hi happ hless => cache_from_congr t fp s s' hnm hdm (h i fp hi happ hless)

/-- Caches without any entry are sound. -/
theorem cache_sound_empty (t : Params) (ma : MultiApp P R) (s : TransferState P R)
    (h : ∀ id, s.node_map id = none) : cache_sound t ma s := by
  intro i fp _ _ _ id x hx
  rw [h id] at hx
  simp at hx

/-- Sound caches are sound for every view of the same geometry. -/
theorem cache_sound_geometry (t : Params) (ma ma1 : MultiApp P R) (s : TransferState P R)
    (hgeo : same_geometry ma ma1) (h : cache_sound t ma s) : cache_sound t ma1 s := by
  intro i fp1 hi happ1 hless1
  have hn : ma1.numGlobalApps = ma.numGlobalApps := hgeo.2.2.2.1
  rcases same_geometry_app ma ma1 hgeo i with ⟨_, h1⟩ | ⟨p, p1, hp, hp1, hmesh, hdisp, _⟩
  · rw [h1] at happ1
    simp at happ1
  · rw [hp1] at happ1
    simp only [Option.some.injEq] at happ1
    subst happ1
    have hless : ∀ k, k < i → ma.appProblem k = none := by
      intro k hk
      rcases same_geometry_app ma ma1 hgeo k with ⟨h0, _⟩ | ⟨_, q1, _, hq1, _⟩
      · exact h0
      · rw [hless1 k hk] at hq1
        simp at hq1
    have hfrom := h i p (by rw [← hn]; exact hi) hp hless
    intro id x hx
    obtain ⟨d, hd, hor⟩ := hfrom id x hx
    refine ⟨d, hd, ?_⟩
    rcases hor with htop | ⟨nd, hnd, hread⟩
    · exact Or.inl htop
    · refine Or.inr ⟨nd, hnd, ?_⟩
      unfold readable_in at hread ⊢
      rw [selectMesh_congr t.displaced_source_mesh p p1 hmesh hdisp]
      exact hread

/-- What `candidate_ready` says. -/
theorem candidate_ready_spec (t : Params) (ma : MultiApp P R) (c : Candidates R) (j : Nat)
    (h : candidate_ready t ma c j = true) :
    ∃ a fp nid nd, c.min_apps[j]? = some a ∧ ma.hasLocalApp a = true ∧
      ma.appProblem a = some fp ∧ c.min_nodes[j]? = some nid ∧
      (selectMesh t.displaced_source_mesh fp).node nid = some nd := by
  unfold candidate_ready at h
  cases ha : c.min_apps[j]? with
  | none => simp [ha] at h
  | some a =>
    cases hn : c.min_nodes[j]? with
    | none => simp [ha, hn] at h
    | some nid =>
      cases hp : ma.appProblem a with
      | none => simp [ha, hn, hp] at h
      | some fp =>
        simp only [ha, hn, hp] at h
        obtain ⟨nd, hnd⟩ := Option.isSome_iff_exists.mp h
        exact ⟨a, fp, nid, nd, rfl, by simp [MultiApp.hasLocalApp, hp], hp, rfl, hnd⟩

variable [LinearOrder R] [Zero R] [Sub P]

/-- The case FROM_MULTIAPP leaves, however it ends, the caches that its local search left. -/
theorem execute_FROM_caches (size : P → WithTop R) (t : Params) (ma : MultiApp P R)
    (proc_id : Nat) (minloc : List (WithTop R) → List (WithTop R) × List Nat)
    (st : TransferState P R) (loop : Candidates R × TransferState P R)
    (hls : FROM_local_search size t ma st = Except.ok loop) :
    (finalState (execute_FROM size t ma proc_id minloc st)).node_map = loop.2.node_map ∧
    (finalState (execute_FROM size t ma proc_id minloc st)).distance_map =
      loop.2.distance_map := by
  unfold execute_FROM
  rw [hls]
  simp only []
  have hloop : ∀ looped : Result P R (TransferState P R),
      ((finalState looped).node_map = loop.2.node_map ∧
        (finalState looped).distance_map = loop.2.distance_map) →
      ((finalState (match looped with
        | Except.error e => Except.error e
        | Except.ok st3 =>
          Except.ok ((st3.emit (Event.close none)).emit (Event.update none)))).node_map =
          loop.2.node_map ∧
        (finalState (match looped with
        | Except.error e => Except.error e
        | Except.ok st3 =>
          Except.ok ((st3.emit (Event.close none)).emit (Event.update none)))).distance_map =
          loop.2.distance_map) := by
    intro looped hl
    cases looped with
    | error e => exact hl
    | ok st3 => exact hl
  apply hloop
  exact forEach_finalState_frame _
    (fun s => s.node_map = loop.2.node_map ∧ s.distance_map = loop.2.distance_map) _
    (fun j _ s hI => by
      obtain ⟨h1, h2⟩ := FROM_winner_caches t ma
        (selectMesh t.displaced_target_mesh ma.problem)
        (decide (ma.problem.variable_type = FEType_default)) proc_id _ j s
      exact ⟨h1.trans hI.1, h2.trans hI.2⟩)
    _ ⟨rfl, rfl⟩

/-- The process that the reduction declares the winner for a target holds the reduced distance. -/
theorem winner_holds_minimum (size : P → WithTop R) (t : Params)
    (procs : List (MultiApp P R × TransferState P R)) (q : Nat) (ma : MultiApp P R)
    (st : TransferState P R) (loop : Candidates R × TransferState P R)
    (hq : procs[q]? = some (ma, st))
    (hls : FROM_local_search size t ma st = Except.ok loop) (j : Nat) (d : WithTop R)
    (hd : (Communicator_minloc (procs.map (fun p => FROM_contribution size t p.1 p.2))
      loop.1.min_distances).1[j]? = some d)
    (hw : (Communicator_minloc (procs.map (fun p => FROM_contribution size t p.1 p.2))
      loop.1.min_distances).2[j]? = some q) :
    loop.1.min_distances[j]? = some d := by
  have hne : procs.map (fun p => FROM_contribution size t p.1 p.2) ≠ [] := by
    intro h
    have : procs = [] := by simpa using h
    rw [this] at hq
    simp at hq
  unfold Communicator_minloc at hd hw
  simp only [List.getElem?_map] at hd hw
  have hj : j < loop.1.min_distances.length := by
    cases hr : (List.range loop.1.min_distances.length)[j]? with
    | none => simp [hr] at hd
    | some k =>
      have := (List.getElem?_eq_some.mp hr).1
      simpa using this
  have hrange : (List.range loop.1.min_distances.length)[j]? = some j := by
    rw [List.getElem?_range hj]
  simp only [hrange, Option.map_some', Option.some.injEq] at hd hw
  obtain ⟨c', hc', hval, _⟩ :=
    minloc_at_spec (procs.map (fun p => FROM_contribution size t p.1 p.2)) j hne
  rw [hw, List.getElem?_map, hq] at hc'
  simp only [Option.map_some', Option.some.injEq, FROM_contribution, hls] at hc'
  rw [← hc', hd] at hval
  rw [List.getElem?_eq_getElem hj]
  rw [List.getD_eq_getElem _ _ hj] at hval
  rw [hval]

variable [Add P]

/-- At the start of every execution of a row that begins with empty caches,
the caches of every process are sound. -/
theorem processes_cache_sound (size : P → WithTop R) (t : Params)
    (procs : List (MultiApp P R × TransferState P R)) (views : Nat → List (MultiApp P R))
    (n : Nat)
    (hdir : t.direction = Direction.FROM_MULTIAPP)
    (hfresh : ∀ p ∈ procs, p.2.log = [] ∧ ∀ id, p.2.node_map id = none)
    (hbefore : 0 < n → ∀ r ∈ execute_all size t procs, completes r = true)
    (hviews0 : views 0 = procs.map Prod.fst)
    (hlen : ∀ m, (views m).length = procs.length)
    (hgeo : ∀ (m q : Nat) (p : MultiApp P R × TransferState P R) (ma : MultiApp P R),
      procs[q]? = some p → (views m)[q]? = some ma → same_geometry p.1 ma)
    (q : Nat) (ma : MultiApp P R) (sn : TransferState P R)
    (hq : (processes size t procs views n)[q]? = some (ma, sn)) :
    cache_sound t ma sn := by
  cases n with
  | zero =>
    exact cache_sound_empty t ma sn (hfresh (ma, sn) (List.getElem?_mem hq)).2
  | succ m =>
    have hfirst := hbefore (by omega)
    have hrow := executions_again size t procs views (fun p hp => (hfresh p hp).1) hfirst
      hviews0 hlen hgeo
    -- the process at the start of execution `m + 1`
    have hnext : (next_execution (views (m + 1))
        (execute_all size t (processes size t procs views m)))[q]? = some (ma, sn) := hq
    rw [next_execution_getElem?] at hnext
    cases hv : (views (m + 1))[q]? with
    | none => simp [hv] at hnext
    | some ma1 =>
      cases hr : (execute_all size t (processes size t procs views m))[q]? with
      | none => simp [hv, hr] at hnext
      | some r =>
        simp only [hv, hr, Option.some.injEq, Prod.mk.injEq] at hnext
        obtain ⟨hma, hsn⟩ := hnext
        subst hma
        have hqlt : q < procs.length := by
          rw [← hlen (m + 1)]
          exact (List.getElem?_eq_some.mp hv).1
        have hp : procs[q]? = some procs[q] := List.getElem?_eq_getElem hqlt
        obtain ⟨_, _, st0, stm, _, _, _, h0, hm, hnm, hdm, _⟩ := (hrow m).2 q procs[q] hp
        have hrm : r = Except.ok stm := by
          unfold executions at hm
          rw [hr] at hm
          simpa using hm
        -- the first execution
        have h0' : (execute_all size t procs)[q]? = some (Except.ok st0) := h0
        rw [execute_all_getElem?, hp] at h0'
        simp only [Option.map_some', Option.some.injEq] at h0'
        have hexec : execute size t procs[q].1 q
            (Communicator_minloc (procs.map (fun p => FROM_contribution size t p.1 p.2)))
            procs[q].2 =
          execute_FROM size t procs[q].1 q
            (Communicator_minloc (procs.map (fun p => FROM_contribution size t p.1 p.2)))
            procs[q].2 := by
          simp [execute, hdir]
        rw [hexec] at h0'
        obtain ⟨loop, hls, _⟩ := execute_FROM_search size t procs[q].1 q _ procs[q].2 st0 h0'
        have hcaches := execute_FROM_caches size t procs[q].1 q
          (Communicator_minloc (procs.map (fun p => FROM_contribution size t p.1 p.2)))
          procs[q].2 loop hls
        rw [h0'] at hcaches
        have hsound0 := (FROM_local_search_ready size t procs[q].1 procs[q].2 loop
          (fun _ => cache_sound_empty t _ _ (hfresh procs[q] (List.getElem?_mem hp)).2) hls).2
        intro i fp hi happ hless
        by_cases hf : t.fixed_meshes = true
        · have h1 : cache_sound t procs[q].1 st0 :=
            cache_sound_congr t _ loop.2 st0 hcaches.1 hcaches.2 (hsound0 hf)
          have h2 : cache_sound t ma1 st0 :=
            cache_sound_geometry t _ ma1 st0 (hgeo (m + 1) q procs[q] ma1 hp hv) h1
          have h3 : cache_sound t ma1 sn := by
            apply cache_sound_congr t ma1 st0 sn _ _ h2
            · rw [← hsn, hrm]
              exact hnm
            · rw [← hsn, hrm]
              exact hdm
          exact h3 i fp hi happ hless
        · -- without `fixed_meshes` the caches stay empty
          have hempty : ∀ id, sn.node_map id = none := by
            intro id
            have hoff := execute_frame size
              (frame_stable_off t (by simpa using hf) procs[q].2) procs[q].1 q
              (Communicator_minloc (procs.map (fun p => FROM_contribution size t p.1 p.2)))
              procs[q].2 ⟨rfl, rfl, rfl⟩
            rw [hexec, h0'] at hoff
            rw [← hsn, hrm]
            show stm.node_map id = none
            rw [hnm]
            have h1 : st0.node_map = procs[q].2.node_map := hoff.1
            rw [h1]
            exact (hfresh procs[q] (List.getElem?_mem hp)).2 id
          exact cache_sound_empty t ma1 sn hempty i fp hi happ hless

/-- C23. FROM_MULTIAPP, in any execution of a row of executions.  Without
`fixed_meshes` nothing is supposed.  With `fixed_meshes` the row starts with
empty caches and its views keep the geometry, and a later execution supposes
that the first returned on every process.  On a process whose local search has
run to its end: for every target index for which the reduction declares this
process the winner with a reduced distance below the sentinel, `min_apps[j]`
is the index of an app that the process owns and `min_nodes[j]` is the id of a
node of the source mesh of that app, so the assertion `hasLocalApp` holds and
the lookup of the source node gives a node. -/
theorem winner_reads_valid_candidate (size : P → WithTop R) (t : Params)
    (procs : List (MultiApp P R × TransferState P R)) (views : Nat → List (MultiApp P R))
    (n : Nat)
    (hdir : t.direction = Direction.FROM_MULTIAPP)
    (hrow : t.fixed_meshes = true →
      (∀ p ∈ procs, p.2.log = [] ∧ ∀ id, p.2.node_map id = none) ∧
      (0 < n → ∀ r ∈ execute_all size t procs, completes r = true) ∧
      views 0 = procs.map Prod.fst ∧
      (∀ m, (views m).length = procs.length) ∧
      (∀ (m q : Nat) (p : MultiApp P R × TransferState P R) (ma : MultiApp P R),
        procs[q]? = some p → (views m)[q]? = some ma → same_geometry p.1 ma))
    (q : Nat) (ma : MultiApp P R) (sn : TransferState P R)
    (c : Candidates R) (st1 : TransferState P R)
    (hq : (processes size t procs views n)[q]? = some (ma, sn))
    (hls : FROM_local_search size t ma sn = Except.ok (c, st1))
    (j : Nat) (d : WithTop R)
    (hd : (Communicator_minloc
      ((processes size t procs views n).map (fun p => FROM_contribution size t p.1 p.2))
      c.min_distances).1[j]? = some d)
    (hlt : d < ⊤)
    (hw : (Communicator_minloc
      ((processes size t procs views n).map (fun p => FROM_contribution size t p.1 p.2))
      c.min_distances).2[j]? = some q) :
    ∃ a fp nid nd, c.min_apps[j]? = some a ∧ ma.hasLocalApp a = true ∧
      ma.appProblem a = some fp ∧ c.min_nodes[j]? = some nid ∧
      (selectMesh t.displaced_source_mesh fp).node nid = some nd := by
  have hsound : t.fixed_meshes = true → cache_sound t ma sn := fun hf =>
    processes_cache_sound size t procs views n hdir (hrow hf).1 (hrow hf).2.1 (hrow hf).2.2.1
      (hrow hf).2.2.2.1 (hrow hf).2.2.2.2 q ma sn hq
  have hvalid := (FROM_local_search_ready size t ma sn (c, st1) hsound hls).1
  have hown := winner_holds_minimum size t (processes size t procs views n) q ma sn (c, st1)
    hq hls j d hd hw
  exact candidate_ready_spec t ma c j (hvalid j d hown hlt)

end WinnerReady

/-- Instance of `winner_reads_valid_candidate`: the second execution of one
process with two apps and `fixed_meshes`, after the source values changed.
The process wins target 0 at the cached distance 2 and reads node 0 of app 0. -/
theorem winner_reads_valid_candidate_witness :
    (processes line_size ⟨Direction.FROM_MULTIAPP, false, false, true⟩
      [(two_apps_one_process, fresh)] two_apps_views 1)[0]? =
        some (two_apps_one_process_later, second_start) ∧
    (second_candidates.min_distances, second_candidates.min_apps,
      second_candidates.min_nodes) = ([some 2], [0], [0]) ∧
    ∃ a fp nid nd, second_candidates.min_apps[0]? = some a ∧
      two_apps_one_process_later.hasLocalApp a = true ∧
      two_apps_one_process_later.appProblem a = some fp ∧
      second_candidates.min_nodes[0]? = some nid ∧
      (selectMesh false fp).node nid = some nd :=
  ⟨rfl, by decide,
    winner_reads_valid_candidate line_size ⟨Direction.FROM_MULTIAPP, false, false, true⟩
      [(two_apps_one_process, fresh)] two_apps_views 1 rfl
      (fun _ =>
        ⟨by intro p hp; simp at hp; subst hp; exact ⟨rfl, fun _ => rfl⟩,
          by intro _; decide, rfl,
          by intro n; by_cases hn : n = 0 <;> simp [two_apps_views, hn],
          by
            intro n q p ma hp hm
            cases q with
            | zero =>
              simp only [List.getElem?_cons_zero, Option.some.injEq] at hp
              subst hp
              by_cases hn : n = 0
              · simp only [two_apps_views, hn, if_true, List.getElem?_cons_zero,
                  Option.some.injEq] at hm
                subst hm
                exact same_geometry_refl _
              · simp only [two_apps_views, hn, if_false, List.getElem?_cons_zero,
                  Option.some.injEq] at hm
                subst hm
                exact same_geometry_two_apps_later
            | succ k => simp at hp⟩)
      0 two_apps_one_process_later second_start second_candidates second_searched rfl rfl
      0 (some 2) (by decide) (by decide) (by decide)⟩

end MultiAppNearestNodeTransfer

namespace MultiAppNearestNodeTransfer

variable {P R : Type}

/-! ## TO_MULTIAPP: the sets of a run that returns -/

section ToReturns

variable [LinearOrder R] [Zero R] [Sub P]

variable [Add P]

end ToReturns

end MultiAppNearestNodeTransfer

namespace MultiAppNearestNodeTransfer

variable {P R : Type}

/-! ## FROM_MULTIAPP: the sets of a run that returns -/

section FromReturns

variable [LinearOrder R] [Zero R] [Sub P]

end FromReturns

end MultiAppNearestNodeTransfer

namespace MultiAppNearestNodeTransfer

variable {P R : Type}

/-! ## Every target entity is written once by a run that returns -/

section WrittenOnceReturns

variable [LinearOrder R] [Zero R] [Add P] [Sub P]

end WrittenOnceReturns

end MultiAppNearestNodeTransfer

namespace MultiAppNearestNodeTransfer

variable {P R : Type}

/-! ## FROM_MULTIAPP: a candidate below the sentinel belongs to a target entity -/

section FoundTarget

/-- A property that every successful iteration over an element of the range keeps holds when the loop ends. -/
theorem forEach_preserves_mem {α σ ε : Type} (body : α → σ → Except ε σ) (I : σ → Prop) :
    ∀ (xs : List α), (∀ x ∈ xs, ∀ s s', I s → body x s = Except.ok s' → I s') →
      ∀ (s s' : σ), I s → forEach body xs s = Except.ok s' → I s'
  | [], _, s, s', hs, hrun => by
    simp only [forEach, Except.ok.injEq] at hrun
    subst hrun
    exact hs
  | x :: xs, h, s, s', hs, hrun => by
    cases hb : body x s with
    | error e => simp [forEach, hb] at hrun
    | ok s1 =>
      rw [forEach_cons_ok hb] at hrun
      exact forEach_preserves_mem body I xs (fun y hy => h y (List.mem_cons_of_mem x hy)) s1 s'
        (h x (List.mem_cons_self x xs) s s1 hs hb) hrun

theorem FROM_targets_ids (t : Params) (master : FEProblem P R) :
    (FROM_targets t master).map (fun e => e.1) = target_ids t master := by
  unfold FROM_targets target_ids
  by_cases hn : master.variable_type = FEType_default <;>
    simp [hn, List.map_map, Function.comp_def]

/-- The target entity of index `j` exists when `j` is the id of a target entity. -/
theorem target_exists_of_id (t : Params) (master : FEProblem P R) (j : Nat)
    (hmem : j ∈ target_ids t master) :
    (if decide (master.variable_type = FEType_default)
      then ((selectMesh t.displaced_target_mesh master).node j).isSome
      else ((selectMesh t.displaced_target_mesh master).elem j).isSome) = true := by
  unfold target_ids at hmem
  by_cases hn : master.variable_type = FEType_default
  · simp only [hn, decide_True, if_true] at hmem ⊢
    exact node_isSome_of_id_mem _ j hmem
  · simp only [hn, decide_False] at hmem ⊢
    exact elem_isSome_of_id_mem _ j hmem

variable [LinearOrder R] [Zero R] [Sub P]

/-- An iteration of a target loop that returns changes the candidate distance of no other target. -/
theorem FROM_entity_distances (size : P → WithTop R) (t : Params) (ma : MultiApp P R)
    (from_mesh : MeshBase P) (i id : Nat) (pos : P)
    (loop loop' : Candidates R × TransferState P R)
    (h : FROM_entity size t ma from_mesh i id pos loop = Except.ok loop') :
    ∀ k, k ≠ id → loop'.1.min_distances[k]? = loop.1.min_distances[k]? := by
  intro k hk
  unfold FROM_entity at h
  simp only at h
  split at h
  · exact absurd h (by simp)
  · split at h
    · split at h
      · exact absurd h (by simp)
      · simp only [Except.ok.injEq] at h
        subst h
        simp only []
        rw [List.getElem?_set_ne (fun e => hk e.symm)]
    · simp only [Except.ok.injEq] at h
      subst h
      rfl

/-- The loop of an app keeps the candidates below the sentinel at ids of target entities. -/
theorem FROM_app_found_target (size : P → WithTop R) (t : Params) (ma : MultiApp P R)
    (i : Nat) (loop loop' : Candidates R × TransferState P R)
    (hI : ∀ k d, loop.1.min_distances[k]? = some d → d < ⊤ → k ∈ target_ids t ma.problem)
    (h : FROM_app size t ma (selectMesh t.displaced_target_mesh ma.problem)
      (decide (ma.problem.variable_type = FEType_default)) i loop = Except.ok loop') :
    ∀ k d, loop'.1.min_distances[k]? = some d → d < ⊤ → k ∈ target_ids t ma.problem := by
  unfold FROM_app at h
  split at h
  · simp only [Except.ok.injEq] at h
    subst h
    exact hI
  · rename_i from_problem _
    simp only at h
    split at h
    · exact absurd h (by simp)
    · by_cases hn : ma.problem.variable_type = FEType_default
      · simp only [hn, decide_True, if_true] at h
        refine forEach_preserves_mem _
          (fun s : Candidates R × TransferState P R =>
            ∀ k d, s.1.min_distances[k]? = some d → d < ⊤ → k ∈ target_ids t ma.problem)
          _ (fun x hx s s' hs hb k d hd hlt => ?_) _ _ ?_ h
        · by_cases hk : k = x.id
          · rw [hk]
            unfold target_ids
            simp only [hn, decide_True, if_true]
            exact List.mem_map.mpr ⟨x, hx, rfl⟩
          · rw [FROM_entity_distances size t ma _ i x.id _ s s' hb k hk] at hd
            exact hs k d hd hlt
        · exact hI
      · simp only [hn, decide_False, Bool.false_eq_true, if_false] at h
        refine forEach_preserves_mem _
          (fun s : Candidates R × TransferState P R =>
            ∀ k d, s.1.min_distances[k]? = some d → d < ⊤ → k ∈ target_ids t ma.problem)
          _ (fun x hx s s' hs hb k d hd hlt => ?_) _ _ ?_ h
        · by_cases hk : k = x.id
          · rw [hk]
            unfold target_ids
            simp only [hn, decide_False, Bool.false_eq_true, if_false]
            exact List.mem_map.mpr ⟨x, hx, rfl⟩
          · rw [FROM_entity_distances size t ma _ i x.id _ s s' hb k hk] at hd
            exact hs k d hd hlt
        · exact hI

/-- After the local search, an index whose candidate distance is below the
sentinel is the id of a target entity. -/
theorem FROM_local_search_found_target (size : P → WithTop R) (t : Params) (ma : MultiApp P R)
    (st : TransferState P R) (loop' : Candidates R × TransferState P R)
    (h : FROM_local_search size t ma st = Except.ok loop') :
    ∀ k d, loop'.1.min_distances[k]? = some d → d < ⊤ → k ∈ target_ids t ma.problem := by
  unfold FROM_local_search at h
  simp only at h
  split at h
  · exact absurd h (by simp)
  · refine forEach_preserves _
      (fun s : Candidates R × TransferState P R =>
        ∀ k d, s.1.min_distances[k]? = some d → d < ⊤ → k ∈ target_ids t ma.problem)
      (fun i s s' hs hb => FROM_app_found_target size t ma i s s' hs hb) _ _ _ ?_ h
    intro k d hd hlt
    have hmem := List.getElem?_mem hd
    simp only [Candidates.init] at hmem
    have htop := List.eq_of_mem_replicate hmem
    rw [htop] at hlt
    exact absurd hlt (lt_irrefl _)

/-- After a local search that started from sound caches, the process holds
what the winner loop relies on for every index at which its candidate
distance is below the sentinel. -/
theorem winner_ready_of_found (size : P → WithTop R) (t : Params) (ma : MultiApp P R)
    (st : TransferState P R) (loop' : Candidates R × TransferState P R)
    (hsound : t.fixed_meshes = true → cache_sound t ma st)
    (h : FROM_local_search size t ma st = Except.ok loop')
    (k : Nat) (d : WithTop R) (hd : loop'.1.min_distances[k]? = some d) (hlt : d < ⊤) :
    winner_ready t ma loop'.1 k = true := by
  unfold winner_ready
  rw [Bool.and_eq_true]
  exact ⟨target_exists_of_id t ma.problem k
      (FROM_local_search_found_target size t ma st loop' h k d hd hlt),
    (FROM_local_search_ready size t ma st loop' hsound h).1 k d hd hlt⟩

end FoundTarget

end MultiAppNearestNodeTransfer

namespace MultiAppNearestNodeTransfer

variable {P R : Type}

/-! ## The cross-app reduction in a row of executions -/

section ReductionInRow

variable [LinearOrder R] [Zero R] [Add P] [Sub P]

/-- In an execution of a row, a process whose rank the reduction declares the
winner of the index `k`, for which some process holds a candidate below the
sentinel, holds what the winner loop relies on for `k`: the target entity of
that id exists and the candidate of the process can be read. -/
theorem winner_ready_in_row (size : P → WithTop R) (t : Params)
    (procs : List (MultiApp P R × TransferState P R)) (views : Nat → List (MultiApp P R))
    (n : Nat) (master : FEProblem P R)
    (hdir : t.direction = Direction.FROM_MULTIAPP)
    (hrow : t.fixed_meshes = true →
      (∀ p ∈ procs, p.2.log = [] ∧ ∀ id, p.2.node_map id = none) ∧
      (0 < n → ∀ r ∈ execute_all size t procs, completes r = true) ∧
      views 0 = procs.map Prod.fst ∧
      (∀ m, (views m).length = procs.length) ∧
      (∀ (m q : Nat) (p : MultiApp P R × TransferState P R) (ma : MultiApp P R),
        procs[q]? = some p → (views m)[q]? = some ma → same_geometry p.1 ma))
    (hne : processes size t procs views n ≠ [])
    (hmaster : ∀ p ∈ processes size t procs views n, p.1.problem = master)
    (hfresh : ∀ p ∈ processes size t procs views n, p.2.log = [])
    (hsearch : ∀ p ∈ processes size t procs views n,
      completes (FROM_local_search size t p.1 p.2) = true)
    (k : Nat) (hk : k < target_count t master)
    (q : Nat) (p : MultiApp P R × TransferState P R)
    (hq : (processes size t procs views n)[q]? = some p)
    (hw : winner_rank size t (processes size t procs views n) k = q)
    (hfound : ∃ p' ∈ processes size t procs views n, ∃ d,
      (FROM_candidates size t p'.1 p'.2).min_distances[k]? = some d ∧ d < ⊤) :
    winner_ready t p.1 (FROM_candidates size t p.1 p.2) k = true := by
  obtain ⟨p', hp', d, hd, hlt⟩ := hfound
  obtain ⟨rk, pk, dk, hrk, hpk, _, _, hminek, hmink, _, _⟩ :=
    reduction_on_processes size t (processes size t procs views n) master k hdir hne hmaster
      hfresh hsearch hk
  have hrr : rk = q := by rw [← hrk, hw]
  rw [hrr, hq] at hpk
  simp only [Option.some.injEq] at hpk
  rw [← hpk] at hminek
  have hdk : dk < ⊤ := lt_of_le_of_lt (hmink p' hp' d hd) hlt
  have hpm : p ∈ processes size t procs views n := List.getElem?_mem hq
  have hc := hsearch p hpm
  cases hls : FROM_local_search size t p.1 p.2 with
  | error e => simp [hls, completes] at hc
  | ok loop =>
    have hcand : FROM_candidates size t p.1 p.2 = loop.1 := by simp [FROM_candidates, hls]
    rw [hcand] at hminek ⊢
    have hsound : t.fixed_meshes = true → cache_sound t p.1 p.2 := fun hf =>
      processes_cache_sound size t procs views n hdir (hrow hf).1 (hrow hf).2.1 (hrow hf).2.2.1
        (hrow hf).2.2.2.1 (hrow hf).2.2.2.2 q p.1 p.2 hq
    exact winner_ready_of_found size t p.1 p.2 loop hsound hls k dk hminek hdk

/-- In an execution of a row in the FROM_MULTIAPP direction, when the local
search completes on every process and some process holds a candidate below the
sentinel for every target index, every process returns. -/
theorem FROM_returns_when_found (size : P → WithTop R) (t : Params)
    (procs : List (MultiApp P R × TransferState P R)) (views : Nat → List (MultiApp P R))
    (n : Nat) (master : FEProblem P R)
    (hdir : t.direction = Direction.FROM_MULTIAPP)
    (hrow : t.fixed_meshes = true →
      (∀ p ∈ procs, p.2.log = [] ∧ ∀ id, p.2.node_map id = none) ∧
      (0 < n → ∀ r ∈ execute_all size t procs, completes r = true) ∧
      views 0 = procs.map Prod.fst ∧
      (∀ m, (views m).length = procs.length) ∧
      (∀ (m q : Nat) (p : MultiApp P R × TransferState P R) (ma : MultiApp P R),
        procs[q]? = some p → (views m)[q]? = some ma → same_geometry p.1 ma))
    (hne : processes size t procs views n ≠ [])
    (hmaster : ∀ p ∈ processes size t procs views n, p.1.problem = master)
    (hfresh : ∀ p ∈ processes size t procs views n, p.2.log = [])
    (hsearch : ∀ p ∈ processes size t procs views n,
      completes (FROM_local_search size t p.1 p.2) = true)
    (hfound : ∀ k, k < target_count t master →
      ∃ p' ∈ processes size t procs views n, ∃ d,
        (FROM_candidates size t p'.1 p'.2).min_distances[k]? = some d ∧ d < ⊤) :
    ∀ res ∈ execute_all size t (processes size t procs views n), completes res = true := by
  intro res hres
  obtain ⟨q, hq⟩ := List.getElem?_of_mem hres
  rw [execute_all_getElem?] at hq
  cases hp : (processes size t procs views n)[q]? with
  | none => simp [hp] at hq
  | some p =>
    simp only [hp, Option.map_some', Option.some.injEq] at hq
    have hpm : p ∈ processes size t procs views n := List.getElem?_mem hp
    obtain ⟨st', hrun, _⟩ :=
      execute_FROM_counts size t p.1 q
        ((processes size t procs views n).map (fun p => FROM_contribution size t p.1 p.2)) p.2
        (hsearch p hpm)
        (fun k hk hw => winner_ready_in_row size t procs views n master hdir hrow hne hmaster
          hfresh hsearch k (by rw [hmaster p hpm] at hk; exact hk) q p hp
          (by unfold winner_rank; exact hw)
          (hfound k (by rw [hmaster p hpm] at hk; exact hk)))
    simp only [execute, hdir] at hq
    rw [hrun] at hq
    rw [← hq]
    rfl

end ReductionInRow

set_option exponentiation.threshold 1024
set_option maxRecDepth 100000

/-- In the run of the witness of C10 rank 1 wins the target, at the cached
distance 1, and some process holds a candidate below the sentinel for the
only index: the last part of `reduction_single_winner` applies. -/
theorem two_ranks_second_winner :
    winner_rank line_size ⟨Direction.FROM_MULTIAPP, false, false, true⟩
      (processes line_size ⟨Direction.FROM_MULTIAPP, false, false, true⟩ two_ranks
        two_ranks_views 1) 0 = 1 ∧
    (FROM_candidates line_size ⟨Direction.FROM_MULTIAPP, false, false, true⟩ rank1_owns_app1
      (two_ranks_second 1 rank1_owns_app1)).min_distances = [((1 : ℕ) : WithTop ℕ)] ∧
    (execute_all line_size ⟨Direction.FROM_MULTIAPP, false, false, true⟩
      (processes line_size ⟨Direction.FROM_MULTIAPP, false, false, true⟩ two_ranks
        two_ranks_views 1)).map (fun r => (failure r, setEvents (finalLog r))) =
      [(none, []), (none, [(1, 0, 7, 5)])] := by
  refine ⟨?_, ?_, ?_⟩ <;> decide

end MultiAppNearestNodeTransfer
